import Mathlib

/-!
# notification-tray: cache tree, policy resolution and admission filter

A shallow embedding of the C++ sources

* `src/utils/settings.cpp`  (`Settings::…`: ancestor-inherited folder settings),
* `src/notifier.cpp`        (`Notifier::notify`: admission filter),
* `src/notification_cacher.cpp` (`NotificationCacher::cache`, `::trash`, `::markAsTrashed`,
  `::cacheExistingNotifications`),

together with the small part of `std::filesystem` and Qt they rely on.

Conventions of the embedding

* `std::map<K, V>` is an association list; `find`/`count`/`operator[]` look at the first
  entry carrying the key, insertion keeps the list ordered by key.
* `std::filesystem::path` is a `Path`: a root-directory flag and the list of its elements.
* a loop whose exit depends on the data (`for (p = folder; p != root.parent_path(); …)`)
  takes a fuel argument; the result `none` means "has not returned within the fuel".
* `QDateTime::currentDateTimeUtc()` is an explicit argument `now` (milliseconds).
* signals and calls to collaborators are appended to an event log.
-/

namespace NotificationTray

/-! ## `std::map` as an association list -/

/-- The value of the first entry with key `k` (`std::map::find`). -/
def mapFind {K V : Type} [DecidableEq K] (k : K) : List (K × V) → Option V
  | [] => none
  | (k', v) :: rest => if k' = k then some v else mapFind k rest

/-- Insert-or-assign (`m[k] = v`), keeping the key order of `std::map`.  (Strings are
ordered by code point here; `QString` compares UTF-16 code units, which gives the same
order except between characters outside the basic plane and the range U+E000..U+FFFF.) -/
def mapInsert {K V : Type} [DecidableEq K] [LT K] [DecidableRel (fun a b : K => a < b)]
    (k : K) (v : V) : List (K × V) → List (K × V)
  | [] => [(k, v)]
  | (k', v') :: rest =>
    if k' = k then (k, v) :: rest
    else if k < k' then (k, v) :: (k', v') :: rest
    else (k', v') :: mapInsert k v rest

/-! ## `std::filesystem::path` -/

/-- A path in element form: `absolute` says whether it starts with the root directory `/`,
`comps` are the file-name elements in order.  `/` is `⟨true, []⟩`, the empty path is
`⟨false, []⟩`, and `/r/app/run-1.json` is `⟨true, ["r", "app", "run-1.json"]⟩`.  Two paths
are equal when their elements are (as `operator==` does).  Root names and symbolic links
are not modelled. -/
structure Path where
  absolute : Bool
  comps : List String
deriving DecidableEq, Repr

namespace Path

/-- Embeds `path::parent_path()`: the path without its last element; a path with no file-name
element (`/` or the empty path) is its own parent. -/
def parent_path (p : Path) : Path := { p with comps := p.comps.dropLast }

/-- Embeds `path::filename()`: the last element, empty when there is none. -/
def filename (p : Path) : String := p.comps.getLast?.getD ""

/-- Embeds `p / part` for a single relative element `part`: the element is appended; it takes
the place of an empty last element (a path written with a trailing separator). -/
def join (p : Path) (part : String) : Path :=
  { p with
    comps := (if p.comps.getLast? = some "" then p.comps.dropLast else p.comps) ++ [part] }

/-- The folder is the root itself or lies below it: same kind of path, and the elements of
the root are the first elements of the folder.  The test is on the elements as written: for
a root written with a trailing separator (`/r/`, last element empty) it holds of the root
itself only, not of the folders `/r/app` that the program builds below it. -/
def atOrBelow (root folder : Path) : Prop :=
  folder.absolute = root.absolute ∧ root.comps <+: folder.comps

instance (root folder : Path) : Decidable (atOrBelow root folder) := by
  unfold atOrBelow; exact inferInstance

end Path

/-! ## Qt value types -/

/-- A `QDateTime`: either invalid (default constructed, or the result of parsing text that
is not a timestamp) or a valid instant, in milliseconds since the epoch (UTC). -/
inductive QDateTime where
  | invalid
  | valid (msecs : Int)
deriving DecidableEq, Repr

/-- Embeds `QDateTime::isValid()`. -/
def QDateTime.isValid : QDateTime → Bool
  | .invalid => false
  | .valid _ => true

/-- Embeds `a > b` on two datetimes, as used on a valid left operand: comparison of the instants.
An invalid datetime compares like the instant 0. -/
def QDateTime.toMSecs : QDateTime → Int
  | .invalid => 0
  | .valid t => t

/-- The decimal digits of a non-empty digit string, most significant first. -/
def digitsValue : List Char → Option Nat
  | [] => none
  | cs => if cs.all Char.isDigit then
      some (cs.foldl (fun acc c => 10 * acc + (c.toNat - 48)) 0)
    else none

/-- Embeds `QString::toInt()`: surrounding white space is skipped, an optional sign and decimal
digits are read; anything else, or a value outside the range of a 32-bit `int`, gives 0. -/
def QString_toInt (s : String) : Int :=
  let cs := s.trim.toList
  let signed : Bool × List Char :=
    match cs with
    | '-' :: r => (true, r)
    | '+' :: r => (false, r)
    | r => (false, r)
  match digitsValue signed.2 with
  | none => 0
  | some n =>
    let v : Int := if signed.1 then -(n : Int) else (n : Int)
    if -2147483648 ≤ v ∧ v ≤ 2147483647 then v else 0

/-- A `QVariant` as it occurs in notification hints: a string, an `int`, a `bool`, or a
value of another type (image data, arrays, …) that converts to none of them. -/
inductive QVariant where
  | string (s : String)
  | int (i : Int)
  | bool (b : Bool)
  | other
deriving DecidableEq, Repr

/-- Embeds `QVariant::toInt()`. -/
def QVariant.toInt : QVariant → Int
  | .string s => QString_toInt s
  | .int i => i
  | .bool b => if b then 1 else 0
  | .other => 0

/-- Embeds `QVariant::toBool()`: a string is false when empty, `"0"` or `"false"` (any case). -/
def QVariant.toBool : QVariant → Bool
  | .string s => !(s.isEmpty || s.toLower = "0" || s.toLower = "false")
  | .int i => i != 0
  | .bool b => b
  | .other => false

/-- Embeds `QVariantMap`. -/
abbrev NotificationHints := List (String × QVariant)

/-- Embeds `QMap::value(key, defaultValue)`. -/
def NotificationHints.value (hints : NotificationHints) (key : String) (dflt : QVariant) :
    QVariant :=
  (mapFind key hints).getD dflt

/-! ## `notification_types.h` -/

/-- Embeds `enum class NotificationCloseReason`. -/
inductive NotificationCloseReason where
  | EXPIRED
  | DISMISSED_BY_USER
  | CLOSED_BY_CALL_TO_CLOSENOTIFICATION
  | UNDEFINED
deriving DecidableEq, Repr

/-- Embeds `struct Notification`. -/
structure Notification where
  app_name : String
  replaces_id : Int
  app_icon : String
  summary : String
  body : String
  expire_timeout : Int
  id : Int
  actions : List (String × String)
  hints : NotificationHints
  «at» : QDateTime
  notification_tray_run_id : String
deriving DecidableEq, Repr

/-- Embeds `struct CachedNotification : public Notification`. -/
structure CachedNotification extends Notification where
  path : Path
  closed_at : Option QDateTime := none
  trashed : Bool := false
deriving DecidableEq, Repr

/-! ## `utils/settings.cpp` -/

/-- Embeds `using Cache = std::map<fs::path, std::optional<QDateTime>>`. -/
abbrev Cache := List (Path × Option QDateTime)

namespace Settings

/-- Embeds `Settings::getNotificationBackoffMinutes`: the loop
`for (p = folder_path; p != root_path.parent_path(); p = p.parent_path())`, returning the
first cached value and `0` when the loop ends.  (The result of the `std::filesystem::relative`
call at the top of the function is not used; the call is left out here, so the embedding
covers the runs in which that call returns.) -/
def getNotificationBackoffMinutes :
    Nat → Path → Path → List (Path × Int) → Option Int
  | 0, _, _, _ => none
  | fuel + 1, root_path, p, cache =>
    if p = root_path.parent_path then some 0
    else
      match mapFind p cache with
      | some v => some v
      | none => getNotificationBackoffMinutes fuel root_path p.parent_path cache

/-- Embeds `Settings::getDateTimeSetting`: the same walk over a `Cache`; the result is the stored
`std::optional<QDateTime>`, or `std::nullopt` when the loop ends. -/
def getDateTimeSetting : Nat → Path → Path → Cache → Option (Option QDateTime)
  | 0, _, _, _ => none
  | fuel + 1, p, root_path, cache =>
    if p = root_path.parent_path then some none
    else
      match mapFind p cache with
      | some v => some v
      | none => getDateTimeSetting fuel p.parent_path root_path cache

/-- Embeds `Settings::isDateTimeSettingActive`. -/
def isDateTimeSettingActive (fuel : Nat) (folder_path root_path : Path) (cache : Cache)
    (now : Int) : Option Bool :=
  (getDateTimeSetting fuel folder_path root_path cache).map fun datetime =>
    match datetime with
    | none => false
    | some d => if !d.isValid then false else decide (d.toMSecs > now)

/-- Embeds `Settings::isDoNotDisturbActive`. -/
def isDoNotDisturbActive (fuel : Nat) (root_path folder_path : Path) (cache : Cache)
    (now : Int) : Option Bool :=
  isDateTimeSettingActive fuel folder_path root_path cache now

/-- Embeds `Settings::getDoNotDisturb`. -/
def getDoNotDisturb (fuel : Nat) (root_path folder_path : Path) (cache : Cache) :
    Option (Option QDateTime) :=
  getDateTimeSetting fuel folder_path root_path cache

/-- Embeds `Settings::isHideFromTrayActive`. -/
def isHideFromTrayActive (fuel : Nat) (root_path folder_path : Path) (cache : Cache)
    (now : Int) : Option Bool :=
  isDateTimeSettingActive fuel folder_path root_path cache now

end Settings

/-! ## `notifier.cpp`: the admission filter of `Notifier::notify` -/

/-- The members of `Notifier` that the admission filter reads. -/
structure Notifier where
  m_root_path : Path
  m_do_not_disturb : Cache
  m_notification_backoff_minutes : List (Path × Int)
  m_run_id : String
  m_started_at : QDateTime
  m_last_notified : List (Path × Int)
deriving DecidableEq, Repr

namespace Notifier

/-- Embeds `n.hints.value("urgency", 1).toInt()`. -/
def urgency (n : CachedNotification) : Int :=
  (n.hints.value "urgency" (.int 1)).toInt

/-- One pass through the body of the loop `for (const auto& n : notifications)` of
`Notifier::notify` (notifier.cpp:42-63): `some true` when `n` is pushed to `to_display`,
`some false` when the iteration ends with `continue`. -/
def admits (self : Notifier) (fuel : Nat) (now : Int) (is_batch : Bool)
    (n : CachedNotification) : Option Bool :=
  if n.trashed then some false
  else if urgency n = 2 then some true
  else
    match Settings.isDoNotDisturbActive fuel self.m_root_path n.path.parent_path
        self.m_do_not_disturb now with
    | none => none
    | some dnd_active =>
      if dnd_active && !is_batch then some false
      else
        match Settings.getNotificationBackoffMinutes fuel self.m_root_path n.path.parent_path
            self.m_notification_backoff_minutes with
        | none => none
        | some backoff =>
          if !is_batch && decide (backoff > 0) then some false else some true

/-- The vector `to_display` built by `Notifier::notify` (notifier.cpp:41-63), in request
order. -/
def toDisplay (self : Notifier) (fuel : Nat) (now : Int) (is_batch : Bool) :
    List CachedNotification → Option (List CachedNotification)
  | [] => some []
  | n :: rest =>
    match admits self fuel now is_batch n with
    | none => none
    | some accepted =>
      match toDisplay self fuel now is_batch rest with
      | none => none
      | some shown => some (if accepted then n :: shown else shown)

/-- Embeds `Notifier::notify` after the filter (notifier.cpp:67-103): the call returns without
creating a widget when `to_display` is empty; otherwise it creates one widget, for
`to_display.back()` with summary and body replaced.  The result is that last accepted
notification, `none` when nothing is displayed. -/
def displayBase (to_display : List CachedNotification) : Option CachedNotification :=
  to_display.getLast?

end Notifier

/-! ## More of `std::map` and `std::filesystem::path` -/

/-- Assignment through a reference to an existing entry (`m[k].field = …` when `k` is
present): the value of the first entry with key `k` is replaced, nothing else changes. -/
def mapSet {K V : Type} [DecidableEq K] (k : K) (v : V) : List (K × V) → List (K × V)
  | [] => []
  | (k', v') :: rest => if k' = k then (k', v) :: rest else (k', v') :: mapSet k v rest

/-- The two lists without their longest common beginning (`std::mismatch`). -/
def stripCommon : List String → List String → List String × List String
  | x :: xs, y :: ys => if x = y then stripCommon xs ys else (x :: xs, y :: ys)
  | xs, ys => (xs, ys)

namespace Path

/-- Embeds `path::extension()`: the part of the file name from its last dot on; empty for `.` and
`..`, for a name without a dot, and for a name whose only dot is its first character. -/
def extension (p : Path) : String :=
  let f := p.filename
  if f = "." ∨ f = ".." then ""
  else
    let cs := f.toList
    let tail := (cs.reverse.takeWhile (fun c => c ≠ '.')).reverse
    if tail.length = cs.length then ""
    else if tail.length + 1 = cs.length then ""
    else String.mk ('.' :: tail)

/-- The elements of `std::filesystem::relative(p, base)`, that is of
`weakly_canonical(p).lexically_relative(weakly_canonical(base))`, for two paths in element
form without `.`, `..` and symbolic links.  After the common beginning of the two element
lists has been skipped, `n` is the number of remaining elements of `base` that are not empty
(the empty last element of a base written with a trailing separator is not counted); the
result is the single element `.` when `n = 0` and nothing, or only an empty element, remains
of `p`, and otherwise `n` times `..` followed by the remaining elements of `p`.  When one
path is rooted and the other is not, the result depends on the current directory, which is
not modelled: no element then, as `lexically_relative` gives. -/
def relative (p base : Path) : List String :=
  if p.absolute ≠ base.absolute then []
  else
    let rest := stripCommon p.comps base.comps
    let n := (rest.2.filter fun c => c ≠ "").length
    if rest.1 = [] ∧ rest.2 = [] then ["."]
    else if n = 0 ∧ (rest.1 = [] ∨ rest.1.head? = some "") then ["."]
    else List.replicate n ".." ++ rest.1

end Path

/-! ## The cache tree (`notification_types.h`) -/

/-- Embeds `struct NotificationFolder`: child folders by name, notifications by file name, and the
folder's own path. -/
inductive NotificationFolder where
  | mk (folders : List (String × NotificationFolder))
      (notifications : List (String × CachedNotification)) (path : Path)

namespace NotificationFolder

/-- The member `folders`. -/
def folders : NotificationFolder → List (String × NotificationFolder)
  | .mk fs _ _ => fs

/-- The member `notifications`. -/
def notifications : NotificationFolder → List (String × CachedNotification)
  | .mk _ ns _ => ns

/-- The member `path`. -/
def path : NotificationFolder → Path
  | .mk _ _ p => p

/-- The walk
`for (part : relative) { if (!current->folders.count(name)) current->folders[name].path =
current->path / part; current = &current->folders[name]; }`
of `cache` and `cacheExistingNotifications`, followed by the update `f` of the folder
`current` ends at: missing folders are created on the way. -/
def updateCreating (f : NotificationFolder → NotificationFolder) :
    List String → NotificationFolder → NotificationFolder
  | [], current => f current
  | part :: rest, .mk fs ns p =>
    let child : NotificationFolder :=
      match mapFind part fs with
      | some c => c
      | none => .mk [] [] (p.join part)
    .mk (mapInsert part (updateCreating f rest child) fs) ns p

/-- The walk
`for (part : relative) { if (current->folders.count(name)) current = &current->folders[name]; }`
of `trash`, followed by the action `f` on the folder `current` ends at.  An element that
names no child folder is skipped and the walk goes on from the same folder.  `f` returns
the updated folder and a result, which is handed back. -/
def updateExisting {R : Type} (f : NotificationFolder → NotificationFolder × R) :
    List String → NotificationFolder → NotificationFolder × R
  | [], current => f current
  | part :: rest, .mk fs ns p =>
    match mapFind part fs with
    | some c =>
      let r := updateExisting f rest c
      (.mk (mapSet part r.1 fs) ns p, r.2)
    | none => updateExisting f rest (.mk fs ns p)

/-- Embeds `current->notifications[filename] = notification`. -/
def putNotification (filename : String) (n : CachedNotification) :
    NotificationFolder → NotificationFolder
  | .mk fs ns p => .mk fs (mapInsert filename n ns) p

/-- The folder reached from `folder` by following the child names `parts`, when every one
of them names a child. -/
def folderAt : List String → NotificationFolder → Option NotificationFolder
  | [], folder => some folder
  | part :: rest, .mk fs _ _ =>
    match mapFind part fs with
    | some c => folderAt rest c
    | none => none

/-- The notification held under `key` by the folder reached along `parts`. -/
def entryAt (parts : List String) (key : String) (folder : NotificationFolder) :
    Option CachedNotification :=
  match folderAt parts folder with
  | some f => mapFind key f.notifications
  | none => none

end NotificationFolder

/-! ## Signals and collaborator calls -/

/-- What `NotificationCacher` sends out: its two signals and the calls of `send2trash`. -/
inductive Event where
  | notificationsCached
  | notificationTrashed (id : Int)
  | send2trash (path : Path)
deriving DecidableEq, Repr

/-! ## JSON documents and the disk -/

/-- A JSON value as far as notification files need it (numbers are whole numbers). -/
inductive JsonValue where
  | null
  | bool (b : Bool)
  | number (n : Int)
  | string (s : String)
  | object (members : List (String × JsonValue))

/-- What a regular file holds: a JSON document, or bytes that do not parse as one. -/
inductive FileContent where
  | json (doc : JsonValue)
  | garbage (raw : String)

/-- An entry of the disk: a directory, or a regular file with its content and its
modification time. -/
inductive FsNode where
  | directory
  | file (content : FileContent) (modified : Int)

/-- The disk: the paths that exist, each with its node. -/
structure FileSystem where
  entries : List (Path × FsNode)

namespace FileSystem

/-- Embeds `fs::exists(p)`. -/
def «exists» (disk : FileSystem) (p : Path) : Bool :=
  (mapFind p disk.entries).isSome

/-- Embeds `fs::is_regular_file(p)`. -/
def is_regular_file (disk : FileSystem) (p : Path) : Bool :=
  match mapFind p disk.entries with
  | some (.file _ _) => true
  | _ => false

/-- Embeds `fs::is_directory(p)`. -/
def is_directory (disk : FileSystem) (p : Path) : Bool :=
  match mapFind p disk.entries with
  | some .directory => true
  | _ => false

/-- Embeds `q` lies strictly below `p`. -/
def below (p q : Path) : Bool :=
  q.absolute == p.absolute && p.comps.isPrefixOf q.comps && decide (p.comps.length < q.comps.length)

/-- The paths visited by `fs::recursive_directory_iterator(p)`: every entry strictly below
`p`. -/
def recursive_directory_iterator (disk : FileSystem) (p : Path) : List (Path × FsNode) :=
  disk.entries.filter fun e => below p e.1

/-- The non-empty beginnings of a path, shortest first: the directories
`fs::create_directories` goes through. -/
def ancestorsAndSelf (p : Path) : List Path :=
  (p.comps.inits.drop 1).map fun cs => { p with comps := cs }

/-- Embeds `fs::create_directories(p)`: every missing directory on the way to `p` is created;
`none` stands for the `filesystem_error` thrown when one of them exists as a regular
file. -/
def create_directories (disk : FileSystem) (p : Path) : Option FileSystem :=
  (ancestorsAndSelf p).foldlM
    (fun (d : FileSystem) (q : Path) =>
      match mapFind q d.entries with
      | some .directory => some d
      | some (.file _ _) => none
      | none => some ⟨d.entries ++ [(q, FsNode.directory)]⟩)
    disk

/-- Embeds `QFile::open(QIODevice::WriteOnly)` succeeds: the path is not a directory and its
parent directory exists (a path without file-name element cannot be opened). -/
def canOpenForWriting (disk : FileSystem) (p : Path) : Bool :=
  !disk.is_directory p && decide (p.comps ≠ []) &&
    (disk.is_directory p.parent_path || decide (p.parent_path.comps = []))

/-- The file at `p` is created or replaced. -/
def writeFile (disk : FileSystem) (p : Path) (content : FileContent) (now : Int) : FileSystem :=
  if (mapFind p disk.entries).isSome then ⟨mapSet p (.file content now) disk.entries⟩
  else ⟨disk.entries ++ [(p, .file content now)]⟩

/-- The disk after `p`, with everything below it, has been moved to the platform trash. -/
def remove (disk : FileSystem) (p : Path) : FileSystem :=
  ⟨disk.entries.filter fun e => !(decide (e.1 = p) || below p e.1)⟩

end FileSystem

/-! ## `notification_cacher.cpp` -/

/-- Embeds `QJsonValue::toString()` of the member `key`: empty when absent or not a string. -/
def jsonString (members : List (String × JsonValue)) (key : String) : String :=
  match mapFind key members with
  | some (.string s) => s
  | _ => ""

/-- Embeds `QJsonValue::toInt()` of the member `key`: 0 when absent, not a number, or outside the
range of `int`. -/
def jsonInt (members : List (String × JsonValue)) (key : String) : Int :=
  match mapFind key members with
  | some (.number n) => if -2147483648 ≤ n ∧ n ≤ 2147483647 then n else 0
  | _ => 0

/-- The loop over `actions_obj` in `cacheExistingNotifications` (notification_cacher.cpp:121-126). -/
def parseActions (members : List (String × JsonValue)) : List (String × String) :=
  match mapFind "actions" members with
  | some (.object actions) =>
    actions.foldl
      (fun acc kv =>
        mapInsert kv.1 (match kv.2 with | .string s => s | _ => "") acc)
      []
  | _ => []

/-- The loop over `hints_obj` in `cacheExistingNotifications` (notification_cacher.cpp:129-147):
strings, whole numbers and booleans are kept, other values are dropped.  A whole number
outside the range of `int` is kept by the source as a `double`, which is `other` here. -/
def parseHints (members : List (String × JsonValue)) : NotificationHints :=
  match mapFind "hints" members with
  | some (.object hints) =>
    hints.foldl
      (fun acc kv =>
        match kv.2 with
        | .string s => mapInsert kv.1 (QVariant.string s) acc
        | .number n =>
          if -2147483648 ≤ n ∧ n ≤ 2147483647 then mapInsert kv.1 (QVariant.int n) acc
          else mapInsert kv.1 QVariant.other acc
        | .bool b => mapInsert kv.1 (QVariant.bool b) acc
        | _ => acc)
      []
  | _ => []

/-- The notification built from a file by `cacheExistingNotifications`
(notification_cacher.cpp:103-150), when the file holds a JSON object. -/
def parseNotification (content : FileContent) (path : Path) (modified : Int) :
    Option CachedNotification :=
  match content with
  | .json (.object obj) =>
    some
      { app_name := jsonString obj "app_name"
        summary := jsonString obj "summary"
        body := jsonString obj "body"
        app_icon := jsonString obj "app_icon"
        id := jsonInt obj "id"
        replaces_id := jsonInt obj "replaces_id"
        expire_timeout := jsonInt obj "expire_timeout"
        notification_tray_run_id := jsonString obj "notification_tray_run_id"
        path := path
        actions := parseActions obj
        hints := parseHints obj
        «at» := .valid modified
        closed_at := none
        trashed := false }
  | _ => none

/-- The member `hints` of the record written by `cache` (notification_cacher.cpp:185-204). -/
def hintsObject (hints : NotificationHints) : List (String × JsonValue) :=
  hints.foldl
    (fun acc kv =>
      match kv.2 with
      | .string s => mapInsert kv.1 (JsonValue.string s) acc
      | .int i => mapInsert kv.1 (JsonValue.number i) acc
      | .bool b => mapInsert kv.1 (JsonValue.bool b) acc
      | .other => acc)
    []

/-- The member `actions` of the record written by `cache` (notification_cacher.cpp:178-182). -/
def actionsObject (actions : List (String × String)) : List (String × JsonValue) :=
  actions.foldl (fun acc kv => mapInsert kv.1 (JsonValue.string kv.2) acc) []

/-- The JSON object `obj` written by `cache` (notification_cacher.cpp:167-204). -/
def notificationRecord (n : CachedNotification) : JsonValue :=
  .object
    ([ ("app_name", JsonValue.string n.app_name),
       ("summary", .string n.summary),
       ("body", .string n.body),
       ("app_icon", .string n.app_icon),
       ("id", .number n.id),
       ("replaces_id", .number n.replaces_id),
       ("expire_timeout", .number n.expire_timeout),
       ("notification_tray_run_id", .string n.notification_tray_run_id),
       ("actions", .object (actionsObject n.actions)),
       ("hints", .object (hintsObject n.hints)) ].foldl
      (fun acc kv => mapInsert kv.1 kv.2 acc) [])

/-- Embeds `notification.hints.value("transient", false).toBool()`. -/
def isTransient (n : CachedNotification) : Bool :=
  (n.hints.value "transient" (.bool false)).toBool

/-- The state `NotificationCacher` works on: its members, the disk, the platform trash
(`accepts p` tells whether `QFile::moveToTrash(p)` succeeds) and the log of what it has
sent out, oldest first. -/
structure NotificationCacher where
  m_root_path : Path
  m_run_id : String
  notification_cache : NotificationFolder
  disk : FileSystem
  accepts : Path → Bool
  emitted : List Event

namespace NotificationCacher

/-- Embeds `send2trash(path)`: the call is logged; the path leaves the disk when the platform
trash accepts it.  The result of the call is ignored by every caller. -/
def send2trash (self : NotificationCacher) (path : Path) : NotificationCacher :=
  { self with
    disk := if self.accepts path then self.disk.remove path else self.disk
    emitted := self.emitted ++ [Event.send2trash path] }

/-- Embeds `emit signal`. -/
def emit (self : NotificationCacher) (events : List Event) : NotificationCacher :=
  { self with emitted := self.emitted ++ events }

/-- Embeds `NotificationCacher::cache` (notification_cacher.cpp:163-228).  `none` stands for the
exception of `fs::create_directories`, which `cache` does not catch. -/
def cache (self : NotificationCacher) (now : Int) (notification : CachedNotification) :
    Option NotificationCacher :=
  let written : Option FileSystem :=
    if !isTransient notification then
      match self.disk.create_directories notification.path.parent_path with
      | none => none
      | some d =>
        if d.canOpenForWriting notification.path then
          some (d.writeFile notification.path (.json (notificationRecord notification)) now)
        else some d
    else some self.disk
  match written with
  | none => none
  | some d =>
    let relative := notification.path.parent_path.relative self.notification_cache.path
    some
      { self with
        disk := d
        notification_cache :=
          NotificationFolder.updateCreating
            (NotificationFolder.putNotification notification.path.filename notification)
            relative self.notification_cache
        emitted := self.emitted ++ [Event.notificationsCached] }

/-- One turn of the loop of `cacheExistingNotifications` (notification_cacher.cpp:88-158). -/
def cacheEntry (root_path : Path) (tree : NotificationFolder) (entry : Path × FsNode) :
    NotificationFolder :=
  match entry.2 with
  | .directory => tree
  | .file content modified =>
    if entry.1.extension = ".json" ∧ entry.1.filename ≠ ".settings.json" then
      NotificationFolder.updateCreating
        (fun current =>
          match parseNotification content entry.1 modified with
          | some notif => NotificationFolder.putNotification entry.1.filename notif current
          | none => current)
        (entry.1.parent_path.relative root_path) tree
    else tree

/-- Embeds `NotificationCacher::cacheExistingNotifications` (notification_cacher.cpp:84-161).
`none` stands for the exception thrown by `fs::recursive_directory_iterator` when
`root_path` is not a directory. -/
def cacheExistingNotifications (self : NotificationCacher) (root_path : Path) :
    Option NotificationCacher :=
  if !self.disk.is_directory root_path then none
  else
    some
      { self with
        notification_cache :=
          (self.disk.recursive_directory_iterator root_path).foldl (cacheEntry root_path)
            self.notification_cache
        emitted := self.emitted ++ [Event.notificationsCached] }

/-- The events of the loop over `folder.notifications` in `markAsTrashed`. -/
def trashedEvents (run_id : String) (ns : List (String × CachedNotification)) : List Event :=
  ns.filterMap fun kv =>
    if kv.2.notification_tray_run_id = run_id then some (Event.notificationTrashed kv.2.id)
    else none

mutual
/-- Embeds `NotificationCacher::markAsTrashed` (notification_cacher.cpp:307-317): the folder with
every notification of its subtree marked, and the `notificationTrashed` signals in the
order they are emitted. -/
def markAsTrashed (run_id : String) : NotificationFolder → NotificationFolder × List Event
  | .mk fs ns p =>
    let sub := markAsTrashedAll run_id fs
    (.mk sub.1 (ns.map fun kv => (kv.1, { kv.2 with trashed := true })) p,
      trashedEvents run_id ns ++ sub.2)
/-- The loop over `folder.folders` in `markAsTrashed`. -/
def markAsTrashedAll (run_id : String) :
    List (String × NotificationFolder) → List (String × NotificationFolder) × List Event
  | [] => ([], [])
  | (name, subfolder) :: rest =>
    let first := markAsTrashed run_id subfolder
    let others := markAsTrashedAll run_id rest
    ((name, first.1) :: others.1, first.2 ++ others.2)
end

/-- The body shared by the file branch and the missing-path branch of `trash`
(notification_cacher.cpp:257-262 and 267-273), on the folder `current`. -/
def markNotification (run_id filename : String) (current : NotificationFolder) :
    NotificationFolder × List Event :=
  match mapFind filename current.notifications with
  | some n =>
    (.mk current.folders (mapSet filename { n with trashed := true } current.notifications)
        current.path,
      if n.notification_tray_run_id = run_id then [Event.notificationTrashed n.id] else [])
  | none => (current, [])

/-- The bulk branch of `trash` (notification_cacher.cpp:286-289), on the folder `current`. -/
def markFolder (run_id folder_name : String) (current : NotificationFolder) :
    NotificationFolder × List Event :=
  match mapFind folder_name current.folders with
  | some folder =>
    let marked := markAsTrashed run_id folder
    (.mk (mapSet folder_name marked.1 current.folders) current.notifications current.path,
      marked.2)
  | none => (current, [])

/-- The paths handed to the detached threads of `trash`: the child folders' paths, then the
notifications' paths (notification_cacher.cpp:234-239 and 294-299). -/
def childTasks (folder : NotificationFolder) : List Path :=
  folder.folders.map (fun kv => kv.2.path) ++ folder.notifications.map (fun kv => kv.2.path)

/-- The individual branch of `trash` (notification_cacher.cpp:291-300), on the folder
`current`: nothing is changed, the child tasks are returned. -/
def spawnChildren (folder_name : String) (current : NotificationFolder) :
    NotificationFolder × List Path :=
  match mapFind folder_name current.folders with
  | some folder => (current, childTasks folder)
  | none => (current, [])

/-- Embeds `has_settings` of `trash` (notification_cacher.cpp:275-282). -/
def has_settings (disk : FileSystem) (path : Path) : Bool :=
  (disk.recursive_directory_iterator path).any fun entry =>
    entry.1.filename = ".settings.json" || entry.1.filename = ".notification.wav"

/-- Embeds `NotificationCacher::trash` (notification_cacher.cpp:230-305).  The result is the new
state together with the paths of the `trash` calls handed to detached threads; those calls
are run later, one at a time, by `runTasks`. -/
def trash (self : NotificationCacher) (path : Path) : NotificationCacher × List Path :=
  if path = self.m_root_path then
    (self.emit [Event.notificationsCached], childTasks self.notification_cache)
  else
    let relative := path.parent_path.relative self.m_root_path
    if self.disk.is_regular_file path then
      if path.extension = ".json" ∧ path.filename ≠ ".settings.json" then
        let s := self.send2trash path
        let r := NotificationFolder.updateExisting (markNotification self.m_run_id path.filename)
          relative s.notification_cache
        (({ s with notification_cache := r.1 }.emit r.2).emit [Event.notificationsCached], [])
      else (self.emit [Event.notificationsCached], [])
    else if !self.disk.exists path then
      let r := NotificationFolder.updateExisting (markNotification self.m_run_id path.filename)
        relative self.notification_cache
      (({ self with notification_cache := r.1 }.emit r.2).emit [Event.notificationsCached], [])
    else if !has_settings self.disk path then
      let s := self.send2trash path
      let r := NotificationFolder.updateExisting (markFolder self.m_run_id path.filename)
        relative s.notification_cache
      (({ s with notification_cache := r.1 }.emit r.2).emit [Event.notificationsCached], [])
    else
      let r := NotificationFolder.updateExisting (spawnChildren path.filename)
        relative self.notification_cache
      ({ self with notification_cache := r.1 }.emit [Event.notificationsCached], r.2)

/-- The detached `trash` calls run one after the other, each adding the calls it starts
itself to the end of the queue; `fuel` bounds the number of calls run. `none`: calls are
still pending when the fuel is used up. -/
def runTasks : Nat → NotificationCacher → List Path → Option NotificationCacher
  | _, self, [] => some self
  | 0, _, _ :: _ => none
  | fuel + 1, self, path :: pending =>
    let r := trash self path
    runTasks fuel r.1 (pending ++ r.2)

end NotificationCacher

/-! ## `QString::arg` -/

/-- A piece of a format text of `QString::arg`: a character, or a place marker with its
number and its own characters. -/
inductive ArgPiece where
  | lit (c : Char)
  | marker (n : Nat) (text : List Char)
deriving DecidableEq, Repr

/-- Where the scan of a format text stands: outside a marker, after `%` (and `L`), or after
the first digit of a marker. -/
inductive ArgScan where
  | normal
  | percent (text : List Char)
  | digit (n : Nat) (text : List Char)

/-- The value of a decimal digit character. -/
def digitOf (c : Char) : Nat := c.toNat - 48

/-- The place markers of a format text: `%`, an optional `L`, and one or two digits. -/
def argPieces : ArgScan → List Char → List ArgPiece
  | .normal, [] => []
  | .percent text, [] => text.map ArgPiece.lit
  | .digit n text, [] => [.marker n text]
  | .normal, c :: cs =>
    if c = '%' then argPieces (.percent [c]) cs else .lit c :: argPieces .normal cs
  | .percent text, c :: cs =>
    if c = 'L' ∧ text.length = 1 then argPieces (.percent (text ++ [c])) cs
    else if c.isDigit then argPieces (.digit (digitOf c) (text ++ [c])) cs
    else if c = '%' then text.map ArgPiece.lit ++ argPieces (.percent [c]) cs
    else text.map ArgPiece.lit ++ .lit c :: argPieces .normal cs
  | .digit n text, c :: cs =>
    if c.isDigit then .marker (10 * n + digitOf c) (text ++ [c]) :: argPieces .normal cs
    else if c = '%' then .marker n text :: argPieces (.percent [c]) cs
    else .marker n text :: .lit c :: argPieces .normal cs

/-- The numbers of the place markers. -/
def markerNumbers : List ArgPiece → List Nat
  | [] => []
  | .lit _ :: ps => markerNumbers ps
  | .marker n _ :: ps => n :: markerNumbers ps

/-- Every marker with number `n` replaced by the characters `a`. -/
def fillMarkers (n : Nat) (a : List Char) : List ArgPiece → List Char
  | [] => []
  | .lit c :: ps => c :: fillMarkers n a ps
  | .marker m text :: ps => (if m = n then a else text) ++ fillMarkers n a ps

/-- Embeds `QString::arg(const QString&)`: every occurrence of the place marker with the
lowest number is replaced by `a`; a text without place marker is returned as it is.  (Digits
are the ASCII digits here.) -/
def QString_arg (format a : String) : String :=
  let pieces := argPieces .normal format.toList
  match (markerNumbers pieces).min? with
  | none => format
  | some n => String.mk (fillMarkers n a.toList pieces)

/-! ## `notifier.cpp`: the display unit of `Notifier::notify` -/

/-- The number of UTF-16 code units of a character: what one character adds to
`QString::length()`. -/
def utf16Units (c : Char) : Nat := if c.toNat < 65536 then 1 else 2

/-- Embeds `QString::length()`: the number of UTF-16 code units. -/
def QString_length (s : String) : Nat := (s.toList.map utf16Units).sum

/-- The characters within the first `n` UTF-16 code units.  When the cut falls inside a
surrogate pair, the `QString` keeps the lone first half, which stands here as U+FFFD. -/
def leftChars : Nat → List Char → List Char
  | _, [] => []
  | n, c :: cs =>
    if utf16Units c ≤ n then c :: leftChars (n - utf16Units c) cs
    else if n = 0 then []
    else [Char.ofNat 65533]

/-- Embeds `QString::left(n)`. -/
def QString_left (n : Nat) (s : String) : String := String.mk (leftChars n s.toList)

namespace Notifier

/-- The `content.join("\n")` of one accepted notification (notifier.cpp:83-88): its summary
and its body, each only when not empty, joined by a newline. -/
def contentBlock (n : CachedNotification) : String :=
  "\n".intercalate
    ((if n.summary.isEmpty then [] else [n.summary]) ++ (if n.body.isEmpty then [] else [n.body]))

/-- The `parts.join("\n---\n")` of notifier.cpp:81-90. -/
def combinedBody (to_display : List CachedNotification) : String :=
  "\n---\n".intercalate (to_display.map contentBlock)

/-- The statement `if (body.length() >= 1000) body = body.left(997) + "..."`
(notifier.cpp:93-95). -/
def truncateBody (body : String) : String :=
  if QString_length body ≥ 1000 then QString_left 997 body ++ "..." else body

/-- The summary of the display unit (notifier.cpp:72-75).  `arg(to_display.size())` puts the
decimal text of the number in the place of the lowest place marker, and `arg(last.app_name)`
then fills the lowest marker that is left. -/
def displaySummary (to_display : List CachedNotification) (last : CachedNotification) : String :=
  if to_display.length = 1 then last.summary
  else
    QString_arg (QString_arg "%1 new notifications from %2" (toString to_display.length))
      last.app_name

/-- The body of the display unit (notifier.cpp:77-95). -/
def displayBody (to_display : List CachedNotification) (last : CachedNotification) : String :=
  truncateBody (if to_display.length = 1 then last.body else combinedBody to_display)

/-- The `display_notif` of `Notifier::notify` (notifier.cpp:67-101): nothing when
`to_display` is empty, otherwise the last accepted notification with summary and body
replaced. -/
def displayUnit (to_display : List CachedNotification) : Option CachedNotification :=
  match to_display.getLast? with
  | none => none
  | some last =>
    some { last with
      summary := displaySummary to_display last
      body := displayBody to_display last }

/-- The display unit of one `notify` call: `none` when the filter has not returned,
`some none` when nothing is displayed. -/
def notifyDisplay (self : Notifier) (fuel : Nat) (now : Int) (is_batch : Bool)
    (notifications : List CachedNotification) : Option (Option CachedNotification) :=
  (toDisplay self fuel now is_batch notifications).map displayUnit

end Notifier

/-! ## `notifier.cpp`: the registry of notification widgets -/

/-- Embeds `path::string()`: the elements separated by `/`, after the root directory when the
path is absolute. -/
def Path.string (p : Path) : String :=
  (if p.absolute then "/" else "") ++ "/".intercalate p.comps

/-- Embeds `static_cast<int>(reason)` for `enum class NotificationCloseReason`. -/
def NotificationCloseReason.toInt : NotificationCloseReason → Int
  | .EXPIRED => 1
  | .DISMISSED_BY_USER => 2
  | .CLOSED_BY_CALL_TO_CLOSENOTIFICATION => 3
  | .UNDEFINED => 4

/-- The part of `class NotificationWidget` that `Notifier` reads and writes: the notification
shown (`data`), the size, `isVisible()`, `was_displayed`, the position given by `move`, the
number of `notificationDisplayed` slots that `Notifier` has connected to the signal
`displayed`, and whether `deleteLater()` has been called. -/
structure NotificationWidget where
  data : CachedNotification
  width : Int
  height : Int
  visible : Bool
  was_displayed : Bool
  pos : Option (Int × Int)
  displayed_slots : Nat
  delete_later : Bool
deriving DecidableEq, Repr

/-- The key type `std::pair<QString, int>` of `m_notification_widgets`: run id and
notification id. -/
structure WidgetKey where
  run_id : String
  id : Int
deriving DecidableEq, Repr

/-- The UTF-16 code units of a character. -/
def utf16Encode (c : Char) : List Nat :=
  if c.toNat < 65536 then [c.toNat]
  else [55296 + (c.toNat - 65536) / 1024, 56320 + (c.toNat - 65536) % 1024]

/-- The UTF-16 code units of a text: what `QString` stores and compares. -/
def QString_units (s : String) : List Nat := s.toList.flatMap utf16Encode

/-- The order of `std::pair<QString, int>`: by run id (`QString` compares code units), then
by id. -/
instance : LT WidgetKey :=
  ⟨fun a b => QString_units a.run_id < QString_units b.run_id ∨
    (a.run_id = b.run_id ∧ a.id < b.id)⟩

instance : DecidableRel (fun a b : WidgetKey => a < b) :=
  fun a b => inferInstanceAs
    (Decidable (QString_units a.run_id < QString_units b.run_id ∨
      (a.run_id = b.run_id ∧ a.id < b.id)))

/-- The key `{widget->data.notification_tray_run_id, widget->data.id}` of a widget. -/
def NotificationWidget.key (w : NotificationWidget) : WidgetKey :=
  ⟨w.data.notification_tray_run_id, w.data.id⟩

/-- The signals of `class Notifier` that the registry code emits. -/
inductive NotifierSignal where
  | notificationClosed (id : Int) (reason : Int) (path : String) (is_current_run : Bool)
  | notificationDisplayed (id : Int) (app_name summary body : String)
deriving DecidableEq, Repr

/-- The signal is a closure event. -/
def NotifierSignal.isClosed : NotifierSignal → Bool
  | .notificationClosed _ _ _ _ => true
  | .notificationDisplayed _ _ _ _ => false

/-- Removes the entry with key `k` (`std::map::erase`; the keys of a `std::map` are unique,
here every entry with the key goes). -/
def mapErase {K V : Type} [DecidableEq K] (k : K) (m : List (K × V)) : List (K × V) :=
  m.filter fun e => !decide (e.1 = k)

/-- The state that the registry code of `class Notifier` works on.  `m_notification_widgets`
maps a key to a widget handle (the pointer), `heap` gives the widget behind each handle,
`screen` is the available geometry (width, height) of the primary screen when there is one,
and `emitted` is the list of signals emitted so far. -/
structure NotifierState where
  m_run_id : String
  m_notification_widgets : List (WidgetKey × Nat)
  m_offset : Int
  heap : List (Nat × NotificationWidget)
  screen : Option (Int × Int)
  emitted : List NotifierSignal
deriving DecidableEq, Repr

namespace NotifierState

/-- Embeds `Notifier::showOrQueueNotification(widget)` (notifier.cpp:146-182); `none` when the
handle has no widget.  A hint is null when it is absent.  Emitting `displayed` sets
`was_displayed` and runs every connected `notificationDisplayed` slot. -/
def showOrQueueNotification (s : NotifierState) (widget : Nat) : Option NotifierState :=
  match mapFind widget s.heap with
  | none => none
  | some w =>
    let s1 := { s with
      m_notification_widgets := mapInsert w.key widget s.m_notification_widgets }
    match s1.screen with
    | none => some s1
    | some (gw, gh) =>
      match mapFind "x" w.data.hints, mapFind "y" w.data.hints with
      | some x, some y =>
        some { s1 with heap := mapSet widget { w with pos := some (x.toInt, y.toInt) } s1.heap }
      | _, _ =>
        if gh - w.height - s1.m_offset > 0 then
          let slots :=
            if w.data.notification_tray_run_id = s.m_run_id then w.displayed_slots + 1
            else w.displayed_slots
          some { s1 with
            m_offset := s1.m_offset + (w.height + 10)
            heap := mapSet widget
              { w with
                pos := some (gw - w.width, gh - w.height - s1.m_offset)
                visible := true
                displayed_slots := slots
                was_displayed := true } s1.heap
            emitted := s1.emitted ++ List.replicate slots
              (.notificationDisplayed w.data.id w.data.app_name w.data.summary w.data.body) }
        else some s1

/-- The loop `for (auto& [k, w] : m_notification_widgets) if (w->isVisible()) m_offset +=
w->height() + 10` (notifier.cpp:221-226), from offset 0. -/
def recomputeOffset (s : NotifierState) : Option Int :=
  s.m_notification_widgets.foldlM
    (fun acc e =>
      (mapFind e.2 s.heap).map fun w => if w.visible then acc + (w.height + 10) else acc)
    0

/-- One step of the loop `if (!w->was_displayed) showOrQueueNotification(w)`
(notifier.cpp:229-233). -/
def showIfQueued (s : NotifierState) (e : WidgetKey × Nat) : Option NotifierState :=
  match mapFind e.2 s.heap with
  | none => none
  | some w => if !w.was_displayed then showOrQueueNotification s e.2 else some s

/-- Embeds `Notifier::closeNotification(NotificationWidget*, reason, is_batch)`
(notifier.cpp:194-235); `none` when a handle has no widget.  The widget has no `closeEvent`
of its own, so `close()` hides it and emits nothing.  The last loop goes over the entries
left after the erasure; `showOrQueueNotification` assigns to keys, which leaves the
iteration of a `std::map` valid. -/
def closeNotificationWidget (s : NotifierState) (widget : Nat)
    (reason : NotificationCloseReason) (_is_batch : Bool) : Option NotifierState :=
  match mapFind widget s.heap with
  | none => none
  | some w =>
    match mapFind w.key s.m_notification_widgets with
    | none => some s
    | some _ =>
      let closure : List NotifierSignal :=
        if reason ≠ .CLOSED_BY_CALL_TO_CLOSENOTIFICATION then
          [.notificationClosed w.data.id reason.toInt w.data.path.string
            (decide (w.data.notification_tray_run_id = s.m_run_id))]
        else []
      let s1 : NotifierState := { s with
        heap := mapSet widget { w with visible := false, delete_later := true } s.heap
        emitted := s.emitted ++ closure
        m_notification_widgets := mapErase w.key s.m_notification_widgets }
      match recomputeOffset s1 with
      | none => none
      | some offset =>
        s1.m_notification_widgets.foldlM showIfQueued { s1 with m_offset := offset }

/-- Embeds `Notifier::closeNotification(int notification_id, reason, is_batch)`
(notifier.cpp:184-192). -/
def closeNotification (s : NotifierState) (notification_id : Int)
    (reason : NotificationCloseReason) (is_batch : Bool) : Option NotifierState :=
  match mapFind ⟨s.m_run_id, notification_id⟩ s.m_notification_widgets with
  | none => some s
  | some widget => closeNotificationWidget s widget reason is_batch

/-- The closure events emitted so far. -/
def closures (s : NotifierState) : List NotifierSignal := s.emitted.filter NotifierSignal.isClosed

/-- Every registry entry holds the handle of a widget, and stands under the key of that
widget: entries are only ever made by `showOrQueueNotification`, under the key of the widget
registered, and `data` is never assigned. -/
def WellFormed (s : NotifierState) : Prop :=
  ∀ e ∈ s.m_notification_widgets,
    (mapFind e.2 s.heap).map NotificationWidget.key = some e.1

instance (s : NotifierState) : Decidable (WellFormed s) := by
  unfold WellFormed; exact inferInstance

end NotifierState

/-! ## `utils/paths.cpp`: `slugify` -/

namespace Paths

/-- The characters matched by `\s` in a `QRegularExpression` without Unicode properties:
space, tab, line feed, vertical tab, form feed and carriage return. -/
def isSpace (c : Char) : Bool :=
  c.toNat = 32 || (9 ≤ c.toNat && c.toNat ≤ 13)

/-- The characters kept by the replacement of `[^a-z0-9_\s-]` with nothing. -/
def isKept (c : Char) : Bool :=
  c.isLower || c.isDigit || c = '_' || isSpace c || c = '-'

/-- The characters of the class `[-\s]`. -/
def isSeparator (c : Char) : Bool := c = '-' || isSpace c

/-- The replacement of every match of `[-\s]+` (a maximal run of hyphens and whitespace) with
one hyphen; `inRun` tells that the character before belongs to the current run. -/
def collapseRuns (inRun : Bool) : List Char → List Char
  | [] => []
  | c :: cs =>
    if isSeparator c then
      if inRun then collapseRuns true cs else '-' :: collapseRuns true cs
    else c :: collapseRuns false cs

/-- The characters removed at both ends: hyphen and underscore. -/
def isEdge (c : Char) : Bool := c = '-' || c = '_'

/-- Embeds `Paths::slugify` (paths.cpp:26-69).  `nfkd` gives the compatibility decomposition
of one character, the table behind `QString::normalized(NormalizationForm_KD)`;
normalisation also reorders combining marks, which the next step removes, so the characters
below 128 that are left are those of the decompositions in order. -/
def slugify (nfkd : Char → List Char) (text : String) : String :=
  let normalized := text.toList.flatMap nfkd
  let ascii_only := normalized.filter fun c => decide (c.toNat < 128)
  let lower := ascii_only.map Char.toLower
  let kept := lower.filter isKept
  let collapsed := collapseRuns false kept
  let stripped := ((collapsed.dropWhile isEdge).reverse.dropWhile isEdge).reverse
  if stripped.isEmpty then "unnamed" else String.mk stripped

/-- The decomposition table restricted to what the examples need: `é` (U+00E9) and `ö`
(U+00F6) decompose into the letter and a combining accent, every other character is left
alone (as every character below 128 is). -/
def exNfkd (c : Char) : List Char :=
  if c.toNat = 233 then ['e', Char.ofNat 769]
  else if c.toNat = 246 then ['o', Char.ofNat 776]
  else [c]

end Paths

/-! ## `utils/paths.cpp`: `getOutputPath` -/

/-- The number of bytes of a character in UTF-8: what one character adds to
`std::string::length()`. -/
def utf8Units (c : Char) : Nat :=
  if c.toNat < 128 then 1 else if c.toNat < 2048 then 2 else if c.toNat < 65536 then 3 else 4

/-- Embeds `std::string::length()` of a UTF-8 text. -/
def stdString_length (s : String) : Nat := (s.toList.map utf8Units).sum

/-- The characters within the first `n` bytes.  (A character cut in the middle leaves bytes in
the `std::string` that are no text; they are dropped here.) -/
def substrChars : Nat → List Char → List Char
  | _, [] => []
  | n, c :: cs => if utf8Units c ≤ n then c :: substrChars (n - utf8Units c) cs else []

/-- Embeds `std::string::substr(0, n)`. -/
def stdString_substr (n : Nat) (s : String) : String := String.mk (substrChars n s.toList)

/-- The texts between the separators `/`; `cur` holds the characters of the current text. -/
def splitElements (cur : List Char) : List Char → List (List Char)
  | [] => [cur]
  | c :: cs => if c = '/' then cur :: splitElements [] cs else splitElements (cur ++ [c]) cs

/-- Embeds the constructor `fs::path(string)`: the path is absolute when the text starts
with `/`, its elements are the non-empty texts between separators, and a text that ends with
a separator after an element gives an empty last element. -/
def Path.parse (s : String) : Path :=
  let parts := (splitElements [] s.toList).map String.mk
  let names := parts.filter fun t => t ≠ ""
  { absolute := s.toList.head? = some '/'
    comps := names ++ (if parts.getLast? = some "" ∧ names ≠ [] then [""] else []) }

/-- Embeds `p / q` (`path::operator/`): an absolute `q` replaces `p`; an empty `q` adds a
separator after the last element; otherwise the elements of `q` follow those of `p`. -/
def Path.append (p q : Path) : Path :=
  if q.absolute then q
  else if q.comps = [] then
    (if p.comps = [] ∨ p.comps.getLast? = some "" then p else { p with comps := p.comps ++ [""] })
  else
    { p with
      comps := (if p.comps.getLast? = some "" then p.comps.dropLast else p.comps) ++ q.comps }

/-- Embeds `p / s` for a `std::string` operand. -/
def Path.slash (p : Path) (s : String) : Path := p.append (Path.parse s)

/-- Embeds `QString::number(int)`. -/
def QString_number (i : Int) : String := toString i

/-- What a call gives that can end with a `std::filesystem::filesystem_error`: the value it
returns, or the exception. -/
inductive FsResult (α : Type) where
  | returned (value : α)
  | filesystem_error
deriving DecidableEq, Repr

namespace FileSystem

/-- The walk of `stat` along the elements of a path, from a directory that exists (the root
directory, or the current directory): `true` when it comes to an element of more than
`NAME_MAX = 255` bytes, which the lookup in the directory reached refuses with
`ENAMETOOLONG`.  The walk goes on through an element only when it names a directory of the
disk; at any other element it ends without that error (`ENOENT` or `ENOTDIR` for a missing
element or a file, or success at the last element). -/
def lookupTooLong (disk : FileSystem) (absolute : Bool) : List String → List String → Bool
  | _, [] => false
  | done, c :: rest =>
    if stdString_length c > 255 then true
    else if disk.is_directory ⟨absolute, done ++ [c]⟩ then
      lookupTooLong disk absolute (done ++ [c]) rest
    else false

/-- The call `stat(p)` fails with `ENAMETOOLONG`: the text of the path has more than
`PATH_MAX - 1 = 4095` bytes, or the walk along its elements comes to an element of more than
255 bytes.  `fs::exists(p)` and `fs::status(p)` throw `filesystem_error` then; for a path
that is merely missing they do not throw. -/
def nameTooLong (disk : FileSystem) (p : Path) : Bool :=
  decide (stdString_length p.string > 4095) || lookupTooLong disk p.absolute [] p.comps

end FileSystem

namespace Paths

/-- The collaborators of `getOutputPath`: the disk, the Python evaluation of a callback
(`evaluateSubdirCallback`), `fs::weakly_canonical`, and the decomposition table of
`slugify`. -/
structure Env where
  disk : FileSystem
  evaluateSubdirCallback : String → Notification → Option (List String)
  weakly_canonical : Path → Path
  nfkd : Char → List Char

/-- The loop that fills `dirs_to_check` (paths.cpp:184-187): `current` and its parents while
they differ from the root and their text starts with the text of the root; `none` when the
loop has not ended within `fuel` turns. -/
def dirsToCheck : Nat → Path → Path → Option (List Path)
  | 0, _, _ => none
  | fuel + 1, root_path, current =>
    if current ≠ root_path ∧ root_path.string.toList <+: current.string.toList then
      (dirsToCheck fuel root_path current.parent_path).map fun dirs => current :: dirs
    else some []

/-- The `subdir_callback` of the settings file of `dir`, when the file exists, can be
opened, holds a JSON object and the object has that member (paths.cpp:196-203, after
`fs::exists` has returned). -/
def settingsCallback (disk : FileSystem) (dir : Path) : Option String :=
  match mapFind (dir.slash ".settings.json") disk.entries with
  | some (.file (.json (.object obj)) _) =>
    if (mapFind "subdir_callback" obj).isSome then some (jsonString obj "subdir_callback")
    else none
  | _ => none

/-- The custom output directory that the settings of `dir` give, if any
(paths.cpp:196-237, after `fs::exists` has returned). -/
def customOutdir (env : Env) (dir : Path) (notification : Notification) : Option Path :=
  match settingsCallback env.disk dir with
  | none => none
  | some callback =>
    match env.evaluateSubdirCallback callback notification with
    | none => none
    | some subdir_parts =>
      let outdir := subdir_parts.foldl (fun d part => d.slash (slugify env.nfkd part)) dir
      if (env.weakly_canonical dir).string.toList <+:
          (env.weakly_canonical outdir).string.toList then some outdir
      else none

/-- The loop over `dirs_to_check` (paths.cpp:193-240): for each directory in turn
`fs::exists(dir / ".settings.json")` is called first and throws when the name is too long;
the first directory whose settings give a custom output directory ends the loop.
`returned none`: the loop has ended without a custom directory. -/
def checkDirs (env : Env) (notification : Notification) : List Path → FsResult (Option Path)
  | [] => .returned none
  | dir :: rest =>
    if env.disk.nameTooLong (dir.slash ".settings.json") then .filesystem_error
    else
      match customOutdir env dir notification with
      | some outdir => .returned (some outdir)
      | none => checkDirs env notification rest

/-- Embeds `Paths::getCustomOutputDir` (paths.cpp:177-244); `none` when the loop that fills
`dirs_to_check` has not ended within `fuel` turns. -/
def getCustomOutputDir (env : Env) (fuel : Nat) (root_path default_outdir : Path)
    (notification : Notification) : Option (FsResult Path) :=
  (dirsToCheck fuel root_path default_outdir).map fun dirs =>
    match checkDirs env notification dirs.reverse with
    | .filesystem_error => .filesystem_error
    | .returned (some outdir) => .returned outdir
    | .returned none => .returned default_outdir

/-- Embeds `Paths::getOutputPath` (paths.cpp:246-278), with `MAX_FILENAME_LENGTH = 255`,
`MAX_FILEPATH_LENGTH = 4096` and the suffix `.json` of length 5.  The exception of
`getCustomOutputDir` is not caught. -/
def getOutputPath (env : Env) (fuel : Nat) (root_path : Path) (notification : Notification) :
    Option (FsResult Path) :=
  let app_name_slug := slugify env.nfkd notification.app_name
  let summary_slug := slugify env.nfkd notification.summary
  let default_outdir := (root_path.slash app_name_slug).slash summary_slug
  (getCustomOutputDir env fuel root_path default_outdir notification).map fun r =>
    match r with
    | .filesystem_error => .filesystem_error
    | .returned outdir =>
      let run_id := notification.notification_tray_run_id
      let id_str := QString_number notification.id
      let name := QString_arg (QString_arg "%1-%2" run_id) id_str
      let name := if QString_length name > 255 - 5 then QString_left (255 - 5) name else name
      let filename := name ++ ".json"
      let output_path := outdir.slash filename
      let path_str := output_path.string
      .returned
        (if stdString_length path_str > 4096 - 5 then
          Path.parse (stdString_substr (4096 - 5) path_str ++ ".json")
        else output_path)

end Paths

/-! ## `utils/settings.cpp`: `writeDateTimeSetting` -/

/-- The order of `fs::path` (`path::compare`): a path without root directory comes before one
with it; otherwise the elements decide, compared in order as texts. -/
instance : LT Path :=
  ⟨fun a b => (a.absolute = false ∧ b.absolute = true) ∨
    (a.absolute = b.absolute ∧ a.comps < b.comps)⟩

instance : DecidableRel (fun a b : Path => a < b) :=
  fun a b => inferInstanceAs
    (Decidable ((a.absolute = false ∧ b.absolute = true) ∨
      (a.absolute = b.absolute ∧ a.comps < b.comps)))

namespace Settings

/-- The object read at the start of `writeDateTimeSetting` (settings.cpp:68-73): the members
of the settings file when it is a regular file holding a JSON object, no member otherwise
(`QJsonDocument::object()` of anything else is empty). -/
def existingSettings (disk : FileSystem) (settings_file : Path) : List (String × JsonValue) :=
  match mapFind settings_file disk.entries with
  | some (.file (.json (.object obj)) _) => obj
  | _ => []

/-- Embeds `Settings::writeDateTimeSetting` (settings.cpp:60-80): the cache after the call and
the disk after the call.  `iso` is `QDateTime::toString(Qt::ISODate)`, `now` the time of
the write.  The file is written when `QFile::open(WriteOnly)` succeeds; the function creates
no directory. -/
def writeDateTimeSetting (iso : QDateTime → String) (disk : FileSystem) (now : Int)
    (folder_path : Path) (setting_name : String) («until» : QDateTime) (cache : Cache) :
    Cache × FileSystem :=
  let cache := mapInsert folder_path (some «until») cache
  let settings_file := folder_path.join ".settings.json"
  let existing_settings := existingSettings disk settings_file
  let existing_settings := mapInsert setting_name (JsonValue.string (iso «until»)) existing_settings
  if disk.canOpenForWriting settings_file then
    (cache, disk.writeFile settings_file (.json (.object existing_settings)) now)
  else (cache, disk)

end Settings

/-! ## `notification_service.cpp`: `Notify` -/

/-- The conversion of an unsigned 32-bit value to `int`. -/
def toInt32 (n : Nat) : Int :=
  if n % 4294967296 < 2147483648 then (n % 4294967296 : Nat) else (n % 4294967296 : Nat) - 4294967296

/-- The pairs `(actions[i], actions[i + 1])` for `i = 0, 2, 4, …` with `i + 1 < size`: the loop
of `Notify` (notification_service.cpp:52-56). -/
def actionPairs : List String → List (String × String)
  | key :: label :: rest => (key, label) :: actionPairs rest
  | _ => []

/-- What `NotificationService` sends out: the signals `notificationReady(int)` and
`notificationClosed(int, int)` of its `NotificationServiceSignaler`, its own D-Bus signal
`NotificationClosed(uint, uint)`, and an error reply sent on the bus. -/
inductive ServiceSignal where
  | notificationReady (id : Int)
  | notificationClosed (id reason : Int)
  | NotificationClosed (id reason : Nat)
  | dbusError (message : String)
deriving DecidableEq, Repr

/-- The state `NotificationService` works on: its members, the collaborators of
`getOutputPath`, and the signals emitted so far.  `hasActiveWidget` is the callback member
of that name, empty until `SystemTrayFileBrowser` sets it. -/
structure NotificationService where
  m_root_path : Path
  m_run_id : String
  notifications : List (Int × CachedNotification)
  env : Paths.Env
  emitted : List ServiceSignal
  hasActiveWidget : Option (Int → Bool) := none

namespace NotificationService

/-- Embeds `NotificationService::Notify` (notification_service.cpp:32-78): the id returned
(an unsigned 32-bit value) and the state after the call; `none` when `getOutputPath` has not
returned within `fuel` turns or has thrown (`Notify` does not catch the exception and
stores nothing then).  `now` is `QDateTime::currentDateTimeUtc()`. -/
def Notify (self : NotificationService) (fuel : Nat) (now : Int) (app_name : String)
    (replaces_id : Nat) (app_icon summary body : String) (actions : List String)
    (hints : NotificationHints) (expire_timeout : Int) : Option (Nat × NotificationService) :=
  let id : Nat :=
    if replaces_id % 4294967296 ≠ 0 then replaces_id % 4294967296
    else (self.notifications.length + 1) % 4294967296
  let notification : Notification :=
    { app_name := app_name
      replaces_id := toInt32 replaces_id
      app_icon := app_icon
      summary := summary
      body := body
      expire_timeout := expire_timeout
      id := toInt32 id
      hints := hints
      «at» := .valid now
      notification_tray_run_id := self.m_run_id
      actions := (actionPairs actions).foldl (fun m kv => mapInsert kv.1 kv.2 m) [] }
  match Paths.getOutputPath self.env fuel self.m_root_path notification with
  | none => none
  | some .filesystem_error => none
  | some (.returned path) =>
    let cached : CachedNotification :=
      { notification with path := path, closed_at := none, trashed := false }
    some (id,
      { self with
        notifications := mapInsert (toInt32 id) cached self.notifications
        emitted := self.emitted ++ [.notificationReady (toInt32 id)] })

end NotificationService

/-! ## `notification_service.cpp`: `CloseNotification` and `CloseActiveNotifications` -/

/-- The conversion of an `int` to an unsigned 32-bit value. -/
def toUInt32 (i : Int) : Nat := (i % 4294967296).toNat

namespace NotificationService

/-- Embeds `NotificationService::CloseNotification(uint id)` (notification_service.cpp:80-100).
`now` is `QDateTime::currentDateTimeUtc()`; the reason sent is
`CLOSED_BY_CALL_TO_CLOSENOTIFICATION = 3`. -/
def CloseNotification (self : NotificationService) (now : Int) (id : Nat) :
    NotificationService :=
  match mapFind (toInt32 id) self.notifications with
  | some notification =>
    { self with
      notifications :=
        mapSet (toInt32 id) { notification with closed_at := some (.valid now) }
          self.notifications
      emitted := self.emitted ++
        (if !notification.trashed then
          [.NotificationClosed (id % 4294967296) 3, .notificationClosed (toInt32 id) 3]
        else []) }
  | none =>
    { self with
      emitted := self.emitted ++
        [.dbusError (QString_arg "Notification with id %1 not found"
          (toString (id % 4294967296)))] }

/-- One turn of the loop of `CloseActiveNotifications` (notification_service.cpp:104-109), for
the entry with key `id`: the notification is closed when it has no `closed_at`, the callback
is set, and the callback says that it has an active widget. -/
def closeIfActive (now : Int) (self : NotificationService) (id : Int) : NotificationService :=
  match mapFind id self.notifications with
  | some notification =>
    if notification.closed_at.isNone &&
        (match self.hasActiveWidget with
         | some active => active id
         | none => false) then
      self.CloseNotification now (toUInt32 id)
    else self
  | none => self

/-- Embeds `NotificationService::CloseActiveNotifications` (notification_service.cpp:102-110):
the loop over the stored notifications in key order. -/
def CloseActiveNotifications (self : NotificationService) (now : Int) : NotificationService :=
  (self.notifications.map Prod.fst).foldl (closeIfActive now) self

end NotificationService

/-! ## `notifier.cpp`: the bookkeeping of `notify`, the error notification, `batchNotify` -/

/-- Embeds `QDateTime::secsTo` towards the instant `now`: the whole seconds from the
datetime to `now`, rounded towards zero; 0 for an invalid datetime. -/
def QDateTime.secsTo (d : QDateTime) (now : Int) : Int :=
  match d with
  | .invalid => 0
  | .valid t => (now - t).tdiv 1000

/-- Embeds `a >= b` on two datetimes (`operator>=` of `QDateTime`): all invalid datetimes
are equal and come before every valid one; two valid ones compare by instant. -/
def QDateTime.ge : QDateTime → QDateTime → Bool
  | _, .invalid => true
  | .invalid, .valid _ => false
  | .valid a, .valid b => decide (a ≥ b)

namespace Notifier

/-- The value read by `m_last_notified[folder]`: `operator[]` of `std::map<fs::path, int>`
gives 0 for a key that is not stored. -/
def lastNotifiedAt (m : List (Path × Int)) (folder : Path) : Int :=
  (mapFind folder m).getD 0

/-- One turn of the loop `m_last_notified[n.path.parent_path()] =
std::max(m_last_notified[n.path.parent_path()], n.id)` (notifier.cpp:120-123). -/
def recordNotified (m : List (Path × Int)) (n : CachedNotification) : List (Path × Int) :=
  mapInsert n.path.parent_path (max (lastNotifiedAt m n.path.parent_path) n.id) m

/-- The loop over `to_display` of notifier.cpp:120-123. -/
def updateLastNotified (m : List (Path × Int)) (to_display : List CachedNotification) :
    List (Path × Int) :=
  to_display.foldl recordNotified m

/-- Embeds `Notifier::notify(notifications, is_batch)` (notifier.cpp:38-123) as far as the
members of `Notifier` go: the state after the call and the display unit handed to the
widget, `none` for the unit when nothing is displayed; the result is `none` when the
filter has not returned.  The call returns before the bookkeeping when `to_display` is
empty. -/
def notify (self : Notifier) (fuel : Nat) (now : Int) (is_batch : Bool)
    (notifications : List CachedNotification) : Option (Notifier × Option CachedNotification) :=
  match toDisplay self fuel now is_batch notifications with
  | none => none
  | some to_display =>
    if to_display.isEmpty then some (self, none)
    else
      some ({ self with
          m_last_notified := updateLastNotified self.m_last_notified to_display },
        displayUnit to_display)

/-- The notification built in the `catch` block of `Notifier::notify`
(notifier.cpp:128-139) for the failure text `what`. -/
def errorNotification (self : Notifier) (now : Int) (what : String) : CachedNotification :=
  { summary := "Error"
    body := QString_arg "Unable to read notifications: %1" what
    app_icon := "error"
    app_name := "notification-tray"
    expire_timeout := -1
    id := -1
    replaces_id := 0
    «at» := .valid now
    hints := mapInsert "sound-name" (QVariant.string "dialog-error") []
    notification_tray_run_id := self.m_run_id
    actions := []
    path := self.m_root_path.slash "error.json"
    closed_at := none
    trashed := false }

/-- The `catch` block of `Notifier::notify` (notifier.cpp:124-143): the error notification is
handed to `notify` as a single request that is no batch. -/
def notifyError (self : Notifier) (fuel : Nat) (now : Int) (what : String) :
    Option (Notifier × Option CachedNotification) :=
  notify self fuel now false [errorNotification self now what]

/-- The statement `if (m_last_notified.find(folder.path) == m_last_notified.end())
m_last_notified[folder.path] = -1` (notifier.cpp:245-247). -/
def initLastNotified (m : List (Path × Int)) (folder_path : Path) : List (Path × Int) :=
  if (mapFind folder_path m).isNone then mapInsert folder_path (-1) m else m

/-- The condition of the post-DnD catch-up (notifier.cpp:268-279): `do_not_disturb` has a
value `dnd_end` with `dnd_end >= m_started_at && notif.at >= dnd_end &&
notif.id > m_last_notified[folder.path]`. -/
def catchUp (self : Notifier) (do_not_disturb : Option QDateTime) (folder_path : Path)
    (notif : CachedNotification) : Bool :=
  match do_not_disturb with
  | some dnd_end =>
    dnd_end.ge self.m_started_at && notif.«at».ge dnd_end &&
      decide (notif.id > lastNotifiedAt self.m_last_notified folder_path)
  | none => false

/-- One turn of the loop over `folder.notifications` in `batchNotify` (notifier.cpp:249-282):
`some true` when `notif` is pushed to `new_notifications`. -/
def sweepAdmits (self : Notifier) (fuel : Nat) (now : Int) (folder_path : Path)
    (notif : CachedNotification) : Option Bool :=
  if notif.trashed then some false
  else
    match Settings.getNotificationBackoffMinutes fuel self.m_root_path folder_path
        self.m_notification_backoff_minutes with
    | none => none
    | some backoff =>
      let minutes_since := (notif.«at».secsTo now).tdiv 60
      match Settings.isDoNotDisturbActive fuel self.m_root_path folder_path
          self.m_do_not_disturb now with
      | none => none
      | some dnd_active =>
        if !dnd_active then
          match Settings.getDoNotDisturb fuel self.m_root_path folder_path
              self.m_do_not_disturb with
          | none => none
          | some do_not_disturb =>
            let within_backoff := decide (backoff > 0) && decide (minutes_since ≤ backoff)
            some (within_backoff || catchUp self do_not_disturb folder_path notif)
        else some false

/-- The vector `new_notifications` of one folder (notifier.cpp:241-282), in the order of the
folder's map. -/
def newNotifications (self : Notifier) (fuel : Nat) (now : Int) (folder_path : Path) :
    List CachedNotification → Option (List CachedNotification)
  | [] => some []
  | notif :: rest =>
    match sweepAdmits self fuel now folder_path notif with
    | none => none
    | some pushed =>
      match newNotifications self fuel now folder_path rest with
      | none => none
      | some others => some (if pushed then notif :: others else others)

/-- The part of `process` before its recursion (notifier.cpp:241-286): the state after the
folder's own batch has been handed to `notify`, and that batch (`none` when it is empty and
`notify` is not called). -/
def processOwn (self : Notifier) (fuel : Nat) (now : Int) (folder_path : Path)
    (ns : List (String × CachedNotification)) :
    Option (Notifier × Option (List CachedNotification)) :=
  let self1 := { self with m_last_notified := initLastNotified self.m_last_notified folder_path }
  match newNotifications self1 fuel now folder_path (ns.map Prod.snd) with
  | none => none
  | some new_notifications =>
    if new_notifications.isEmpty then some (self1, none)
    else
      match notify self1 fuel now true new_notifications with
      | none => none
      | some r => some (r.1, some new_notifications)

mutual
/-- The lambda `process` of `Notifier::batchNotify` (notifier.cpp:240-292): the state after
the folder and its subfolders have been processed, and the batches handed to
`notify(…, true)`, in order. -/
def process (fuel : Nat) (now : Int) :
    Notifier → NotificationFolder → Option (Notifier × List (List CachedNotification))
  | self, .mk fs ns p =>
    match processOwn self fuel now p ns with
    | none => none
    | some own =>
      match processAll fuel now own.1 fs with
      | none => none
      | some below => some (below.1, own.2.toList ++ below.2)
/-- The loop over `folder.folders` in `process`. -/
def processAll (fuel : Nat) (now : Int) :
    Notifier → List (String × NotificationFolder) →
      Option (Notifier × List (List CachedNotification))
  | self, [] => some (self, [])
  | self, (_, subfolder) :: rest =>
    match process fuel now self subfolder with
    | none => none
    | some first =>
      match processAll fuel now first.1 rest with
      | none => none
      | some others => some (others.1, first.2 ++ others.2)
end

/-- Embeds `Notifier::batchNotify` (notifier.cpp:237-295) on the tree `m_notification_cache`. -/
def batchNotify (self : Notifier) (fuel : Nat) (now : Int)
    (m_notification_cache : NotificationFolder) :
    Option (Notifier × List (List CachedNotification)) :=
  process fuel now self m_notification_cache

end Notifier

/-! ## The owners of the settings maps: `Settings::cacheDateTimeSetting`, `Tray`,
`SystemTrayFileBrowser` -/

namespace Settings

/-- Embeds `Settings::cacheDateTimeSetting` (settings.cpp:36-58): the cache after the call.
`fromIso` is `QDateTime::fromString(_, Qt::ISODate)`.  Nothing is changed when the settings
file cannot be opened, holds no JSON object, or has no member `setting_name`. -/
def cacheDateTimeSetting (fromIso : String → QDateTime) (disk : FileSystem)
    (folder_path : Path) (setting_name : String) (cache : Cache) : Cache :=
  let settings_file := folder_path.join ".settings.json"
  match mapFind settings_file disk.entries with
  | some (.file (.json (.object obj)) _) =>
    if (mapFind setting_name obj).isSome then
      let dateStr := jsonString obj setting_name
      if !dateStr.isEmpty then mapInsert folder_path (some (fromIso dateStr)) cache
      else mapInsert folder_path none cache
    else cache
  | _ => cache

end Settings

/-- Embeds the constructor `Notifier::Notifier` (notifier.cpp:18-30): the two maps are
copied into members of the new object, `m_started_at` is the current time. -/
def Notifier.create (root_path : Path) (do_not_disturb : Cache)
    (notification_backoff_minutes : List (Path × Int)) (run_id : String) (now : Int) :
    Notifier :=
  { m_root_path := root_path
    m_do_not_disturb := do_not_disturb
    m_notification_backoff_minutes := notification_backoff_minutes
    m_run_id := run_id
    m_started_at := .valid now
    m_last_notified := [] }

/-- The members of `Tray` that hold settings (tray.h:41-44); the constructor copies the
three maps it is given (tray.cpp:21-24). -/
structure Tray where
  m_root_path : Path
  m_do_not_disturb : Cache
  m_hide_from_tray : Cache
  m_notification_backoff_minutes : List (Path × Int)

namespace Tray

/-- Embeds `Tray::updateNotificationBackoffMinutes` (tray.cpp:292-311): the tray's own map
and the settings file of the folder are written. -/
def updateNotificationBackoffMinutes (self : Tray) (disk : FileSystem) (now : Int)
    (folder_path : Path) (minutes : Int) : Tray × FileSystem :=
  let self := { self with
    m_notification_backoff_minutes :=
      mapInsert folder_path minutes self.m_notification_backoff_minutes }
  let settings_file := folder_path.join ".settings.json"
  let existing_settings := Settings.existingSettings disk settings_file
  let existing_settings :=
    mapInsert "notification_backoff_minutes" (JsonValue.number minutes) existing_settings
  if disk.canOpenForWriting settings_file then
    (self, disk.writeFile settings_file (.json (.object existing_settings)) now)
  else (self, disk)

/-- Embeds `Tray::updateDateTimeSetting` (tray.cpp:313-319) on the map `cache`, which is one
of the tray's own members: `writeDateTimeSetting`, then `cacheDateTimeSetting`. -/
def updateDateTimeSetting (iso : QDateTime → String) (fromIso : String → QDateTime)
    (disk : FileSystem) (now : Int) (setting_name : String) (folder_path : Path)
    («until» : QDateTime) (cache : Cache) : Cache × FileSystem :=
  let written := Settings.writeDateTimeSetting iso disk now folder_path setting_name «until» cache
  (Settings.cacheDateTimeSetting fromIso written.2 folder_path setting_name written.1, written.2)

/-- The action of the menu "Do Not Disturb" (tray.cpp:241-244). -/
def setDoNotDisturb (self : Tray) (iso : QDateTime → String) (fromIso : String → QDateTime)
    (disk : FileSystem) (now : Int) (folder_path : Path) (time : QDateTime) :
    Tray × FileSystem :=
  let r := updateDateTimeSetting iso fromIso disk now "do_not_disturb_until" folder_path time
    self.m_do_not_disturb
  ({ self with m_do_not_disturb := r.1 }, r.2)

/-- The action of the menu "Hide From Tray" (tray.cpp:253-256). -/
def setHideFromTray (self : Tray) (iso : QDateTime → String) (fromIso : String → QDateTime)
    (disk : FileSystem) (now : Int) (folder_path : Path) (time : QDateTime) :
    Tray × FileSystem :=
  let r := updateDateTimeSetting iso fromIso disk now "hide_from_tray_until" folder_path time
    self.m_hide_from_tray
  ({ self with m_hide_from_tray := r.1 }, r.2)

end Tray

/-- The members of `SystemTrayFileBrowser` that hold or own settings
(system_tray_file_browser.h:38-48), with the disk. -/
structure SystemTrayFileBrowser where
  m_root_path : Path
  m_run_id : String
  m_do_not_disturb : Cache
  m_hide_from_tray : Cache
  m_notification_backoff_minutes : List (Path × Int)
  m_notifier : Notifier
  m_tray : Tray
  disk : FileSystem

namespace SystemTrayFileBrowser

/-- One turn of the loop of `refreshSettings` (system_tray_file_browser.cpp:263-281) on the
three maps of the browser. -/
def refreshEntry (fromIso : String → QDateTime) (disk : FileSystem)
    (maps : Cache × Cache × List (Path × Int)) (entry : Path × FsNode) :
    Cache × Cache × List (Path × Int) :=
  if entry.1.filename = ".settings.json" then
    let do_not_disturb := Settings.cacheDateTimeSetting fromIso disk entry.1.parent_path
      "do_not_disturb_until" maps.1
    let hide_from_tray := Settings.cacheDateTimeSetting fromIso disk entry.1.parent_path
      "hide_from_tray_until" maps.2.1
    let backoff :=
      match mapFind entry.1 disk.entries with
      | some (.file (.json (.object obj)) _) =>
        if (mapFind "notification_backoff_minutes" obj).isSome then
          mapInsert entry.1.parent_path (jsonInt obj "notification_backoff_minutes") maps.2.2
        else maps.2.2
      | _ => maps.2.2
    (do_not_disturb, hide_from_tray, backoff)
  else maps

/-- The three maps that `refreshSettings` reads from the disk
(system_tray_file_browser.cpp:258-283). -/
def readSettings (fromIso : String → QDateTime) (disk : FileSystem) (root_path : Path) :
    Cache × Cache × List (Path × Int) :=
  (disk.recursive_directory_iterator root_path).foldl (refreshEntry fromIso disk) ([], [], [])

/-- Embeds `SystemTrayFileBrowser::refreshSettings`: the three maps of the browser are
cleared and filled from the disk. -/
def refreshSettings (self : SystemTrayFileBrowser) (fromIso : String → QDateTime) :
    SystemTrayFileBrowser :=
  let maps := readSettings fromIso self.disk self.m_root_path
  { self with
    m_do_not_disturb := maps.1
    m_hide_from_tray := maps.2.1
    m_notification_backoff_minutes := maps.2.2 }

/-- Embeds the constructor (system_tray_file_browser.cpp:21-88) as far as the settings maps
go: `refreshSettings`, then the notifier and the tray are built from the maps of the
browser. -/
def create (fromIso : String → QDateTime) (disk : FileSystem) (root_path : Path)
    (run_id : String) (now : Int) : SystemTrayFileBrowser :=
  let maps := readSettings fromIso disk root_path
  { m_root_path := root_path
    m_run_id := run_id
    m_do_not_disturb := maps.1
    m_hide_from_tray := maps.2.1
    m_notification_backoff_minutes := maps.2.2
    m_notifier := Notifier.create root_path maps.1 maps.2.2 run_id now
    m_tray := ⟨root_path, maps.1, maps.2.1, maps.2.2⟩
    disk := disk }

/-- The menu action "Do Not Disturb" of the tray, run in the application. -/
def trayDoNotDisturb (self : SystemTrayFileBrowser) (iso : QDateTime → String)
    (fromIso : String → QDateTime) (now : Int) (folder_path : Path) (time : QDateTime) :
    SystemTrayFileBrowser :=
  let r := self.m_tray.setDoNotDisturb iso fromIso self.disk now folder_path time
  { self with m_tray := r.1, disk := r.2 }

/-- The menu action "Hide From Tray" of the tray, run in the application. -/
def trayHideFromTray (self : SystemTrayFileBrowser) (iso : QDateTime → String)
    (fromIso : String → QDateTime) (now : Int) (folder_path : Path) (time : QDateTime) :
    SystemTrayFileBrowser :=
  let r := self.m_tray.setHideFromTray iso fromIso self.disk now folder_path time
  { self with m_tray := r.1, disk := r.2 }

/-- The call `Tray::updateNotificationBackoffMinutes`, run in the application. -/
def trayBackoff (self : SystemTrayFileBrowser) (now : Int) (folder_path : Path)
    (minutes : Int) : SystemTrayFileBrowser :=
  let r := self.m_tray.updateNotificationBackoffMinutes self.disk now folder_path minutes
  { self with m_tray := r.1, disk := r.2 }

end SystemTrayFileBrowser

/-! ## Specification-side definitions -/

/-- The walk shared by the two resolvers, over an arbitrary lookup: from `p` upwards until
`stop` is reached. -/
def ancestorWalk {V : Type} (find : Path → Option V) (dflt : V) (stop : Path) :
    Nat → Path → Option V
  | 0, _ => none
  | fuel + 1, p =>
    if p = stop then some dflt
    else
      match find p with
      | some v => some v
      | none => ancestorWalk find dflt stop fuel p.parent_path

/-- The admission condition of the claim, for resolved do-not-disturb state `dnd` and
resolved backoff `backoff` of the notification's folder. -/
def admissible (is_batch : Bool) (dnd : Bool) (backoff : Int) (n : CachedNotification) : Bool :=
  !n.trashed && (decide (Notifier.urgency n = 2) || is_batch || (!dnd && decide (backoff ≤ 0)))

/-- The storage root `/r` used in the concrete instances below. -/
def exRoot : Path := ⟨true, ["r"]⟩

/-- A notification of app `Mail` stored at `/r/app/<file>`. -/
def exNotification (file : String) (id : Int) (hints : NotificationHints) (trashed : Bool) :
    CachedNotification :=
  { app_name := "Mail", replaces_id := 0, app_icon := "", summary := "s", body := "b",
    expire_timeout := -1, id := id, actions := [], hints := hints, «at» := .valid 0,
    notification_tray_run_id := "run", path := ⟨true, ["r", "app", file]⟩, trashed := trashed }

/-- A notifier whose root folder is under do-not-disturb until instant 100. -/
def exNotifier : Notifier :=
  { m_root_path := exRoot, m_do_not_disturb := [(exRoot, some (.valid 100))],
    m_notification_backoff_minutes := [], m_run_id := "run", m_started_at := .valid 0,
    m_last_notified := [] }

/-- A critical, a normal and a trashed critical request. -/
def exRequests : List CachedNotification :=
  [exNotification "run-1.json" 1 [("urgency", .int 2)] false,
   exNotification "run-2.json" 2 [("urgency", .int 1)] false,
   exNotification "run-3.json" 3 [("urgency", .int 2)] true]


/-! ## Auxiliary notions on the cache tree -/

/-- A folder with its notification map changed by `g` and nothing else. -/
def NotificationFolder.mapNotifications
    (g : List (String × CachedNotification) → List (String × CachedNotification)) :
    NotificationFolder → NotificationFolder
  | .mk fs ns p => .mk fs (g ns) p

/-- The notification map of the folder reached along `parts`; empty when there is no such
folder. -/
def NotificationFolder.notificationsAt (parts : List String) (folder : NotificationFolder) :
    List (String × CachedNotification) :=
  match NotificationFolder.folderAt parts folder with
  | some f => f.notifications
  | none => []

/-- The folder `current` points at after the walk of `trash`: elements that name no child
folder are skipped. -/
def NotificationFolder.reach : List String → NotificationFolder → NotificationFolder
  | [], current => current
  | part :: rest, .mk fs ns p =>
    match mapFind part fs with
    | some c => reach rest c
    | none => reach rest (.mk fs ns p)

/-- Between two trees nothing but trashed flags differs, and flags are only set: every
lookup gives the same entry, or the same entry with `trashed = true`. -/
def TrashedOnly (t t' : NotificationFolder) : Prop :=
  ∀ (parts : List String) (key : String),
    NotificationFolder.entryAt parts key t' = NotificationFolder.entryAt parts key t ∨
    ∃ e, NotificationFolder.entryAt parts key t = some e ∧
      NotificationFolder.entryAt parts key t' = some { e with trashed := true }

/-! ## Concrete states used in the instances -/

/-- A cacher for the root `/r` and the run `run`, with an empty tree, on a disk that holds
only the root directory, with a platform trash that accepts everything. -/
def exCacher : NotificationCacher :=
  { m_root_path := exRoot, m_run_id := "run", notification_cache := .mk [] [] exRoot,
    disk := ⟨[(exRoot, .directory)]⟩, accepts := fun _ => true, emitted := [] }

/-- A notification of the run `run` stored at the path with elements `comps`. -/
def exStored (comps : List String) (id : Int) (hints : NotificationHints) : CachedNotification :=
  { app_name := "Mail", replaces_id := 0, app_icon := "", summary := "s", body := "b",
    expire_timeout := -1, id := id, actions := [], hints := hints, «at» := .valid 0,
    notification_tray_run_id := "run", path := ⟨true, comps⟩ }

/-- A transient notification stored at the path with elements `comps`. -/
def exTransient (comps : List String) (id : Int) : CachedNotification :=
  exStored comps id [("transient", .bool true)]

/-- The notification map after the marking step of `trash`. -/
def markedMap (key : String) (ns : List (String × CachedNotification)) :
    List (String × CachedNotification) :=
  match mapFind key ns with
  | some n => mapSet key { n with trashed := true } ns
  | none => ns

/-- The tree holding the folder `app` (path `/r/app`) with the transient notification
`/r/app/run-1.json`: what `cache` builds from the empty tree. -/
def exTree : NotificationFolder :=
  .mk [("app", .mk [] [("run-1.json", exTransient ["r", "app", "run-1.json"] 1)]
    ⟨true, ["r", "app"]⟩)] [] exRoot

/-- The state after the transient notification `/r/app/run-1.json` has been cached: the
tree is `exTree`, the disk holds only the root directory, nothing has been logged. -/
def exCachedTransient : NotificationCacher :=
  { exCacher with notification_cache := exTree }

/-- The state after the persistent notification `/r/app/run-1.json` has been cached: the
tree holds it in the folder `app`, and the disk holds the directory `/r/app` and the
notification file. -/
def exCachedStored : NotificationCacher :=
  { exCacher with
    notification_cache :=
      .mk [("app", .mk [] [("run-1.json", exStored ["r", "app", "run-1.json"] 1 [])]
        ⟨true, ["r", "app"]⟩)] [] exRoot
    disk :=
      ⟨[(exRoot, .directory), (⟨true, ["r", "app"]⟩, .directory),
        (⟨true, ["r", "app", "run-1.json"]⟩,
          .file (.json (notificationRecord (exStored ["r", "app", "run-1.json"] 1 []))) 0)]⟩ }

/-! ## Sequences of operations on the cacher -/

/-- The operations of `NotificationCacher` that change the tree.  The child calls started
by a `trash` appear as further `trash` operations of the sequence. -/
inductive Op where
  | cache (now : Int) (notification : CachedNotification)
  | cacheExistingNotifications (root_path : Path)
  | trash (path : Path)

/-- One operation; `none` when it ends with an exception. -/
def NotificationCacher.apply (self : NotificationCacher) : Op → Option NotificationCacher
  | .cache now n => self.cache now n
  | .cacheExistingNotifications root_path => self.cacheExistingNotifications root_path
  | .trash path => some (self.trash path).1

/-- A sequence of operations, one after the other. -/
def NotificationCacher.run : NotificationCacher → List Op → Option NotificationCacher
  | self, [] => some self
  | self, op :: ops =>
    match self.apply op with
    | some s => NotificationCacher.run s ops
    | none => none

/-- The scan of `cacheExistingNotifications(root_path)` stores a notification read from
this disk entry in the folder at `parts` under `key`. -/
def entryWrites (root_path : Path) (entry : Path × FsNode) (parts : List String) (key : String) :
    Prop :=
  ∃ content modified, entry.2 = FsNode.file content modified ∧
    entry.1.extension = ".json" ∧ entry.1.filename ≠ ".settings.json" ∧
    (parseNotification content entry.1 modified).isSome = true ∧
    entry.1.parent_path.relative root_path = parts ∧ entry.1.filename = key

/-- The operation, run in state `self`, stores a notification in the folder at `parts`
under `key`. -/
def NotificationCacher.writesTo (self : NotificationCacher) (parts : List String) (key : String) :
    Op → Prop
  | .cache _ n =>
    n.path.parent_path.relative self.notification_cache.path = parts ∧ n.path.filename = key
  | .cacheExistingNotifications root_path =>
    ∃ entry ∈ self.disk.recursive_directory_iterator root_path,
      entryWrites root_path entry parts key
  | .trash _ => False

/-- No operation of the sequence, run from `self`, stores a notification in the folder at
`parts` under `key`. -/
def NotificationCacher.neverRewrites (parts : List String) (key : String) :
    NotificationCacher → List Op → Prop
  | _, [] => True
  | self, op :: ops =>
    ¬ self.writesTo parts key op ∧
      match self.apply op with
      | some s => NotificationCacher.neverRewrites parts key s ops
      | none => True

/-! ## Concrete requests for the display unit -/

/-- Three acceptable notifications of the application `Mail`, stored under `/r/app`. -/
def exMail : List CachedNotification :=
  [exNotification "run-1.json" 1 [] false, exNotification "run-2.json" 2 [] false,
   exNotification "run-3.json" 3 [] false]

/-- A notifier for the root `/r` without any do-not-disturb or backoff setting. -/
def exQuietNotifier : Notifier :=
  { m_root_path := exRoot, m_do_not_disturb := [], m_notification_backoff_minutes := [],
    m_run_id := "run", m_started_at := .valid 0, m_last_notified := [] }

/-- A notification under `/r/app` with the given summary and body. -/
def exText (file : String) (id : Int) (summary body : String) : CachedNotification :=
  { exNotification file id [] false with summary := summary, body := body }

/-- The block of one candidate in the words of the specification: summary, newline, body. -/
def specBlock (n : CachedNotification) : String := n.summary ++ "\n" ++ n.body

/-- The combined body in the words of the specification: the blocks joined by the record
separator. -/
def specCombinedBody (acc : List CachedNotification) : String :=
  "\n---\n".intercalate (acc.map specBlock)

/-- A text of `n` letters `c`. -/
def exLetters (n : Nat) (c : Char) : String := String.mk (List.replicate n c)

/-- Two notifications with a summary and an empty body. -/
def exNoBody : List CachedNotification :=
  [exText "run-1.json" 1 "a" "", exText "run-2.json" 2 "b" ""]

/-- Two notifications whose combined body has exactly 1000 characters: blocks of
`1 + 1 + 496` and `1 + 1 + 495` characters and the separator of 5. -/
def exThousand : List CachedNotification :=
  [exText "run-1.json" 1 "s" (exLetters 496 (Char.ofNat 97)),
   exText "run-2.json" 2 "t" (exLetters 495 (Char.ofNat 98))]

/-- Two notifications whose combined body has 2007 characters. -/
def exLong : List CachedNotification :=
  [exText "run-1.json" 1 "s" (exLetters 1000 (Char.ofNat 97)),
   exText "run-2.json" 2 "t" (exLetters 998 (Char.ofNat 98))]

/-- One notification with a body of 2000 characters (the request of the test
`Notify_LongBodyTruncated`). -/
def exLongSingle : CachedNotification :=
  exText "run-1.json" 1 "Summary" (exLetters 2000 (Char.ofNat 97))

/-! ## A concrete widget registry -/

/-- A fresh widget of height 100 for the notification with the given id of the run `run`. -/
def exWidget (id : Int) : NotificationWidget :=
  { data := exNotification "run-1.json" id [] false, width := 300, height := 100,
    visible := false, was_displayed := false, pos := none, displayed_slots := 0,
    delete_later := false }

/-- Two fresh widgets with handles 7 and 8, an empty registry and a screen of height 200. -/
def exFresh : NotifierState :=
  { m_run_id := "run", m_notification_widgets := [], m_offset := 0,
    heap := [(7, exWidget 1), (8, exWidget 2)], screen := some (800, 200), emitted := [] }

/-- The state after `showOrQueueNotification` on both widgets: the first is shown, the second
finds no room and is queued. -/
def exShown : NotifierState :=
  ((exFresh.showOrQueueNotification 7).bind fun s => s.showOrQueueNotification 8).getD exFresh

/-- The value fits the type `int` (32 bits). -/
def isInt32 (i : Int) : Prop := -2147483648 ≤ i ∧ i ≤ 2147483647

instance (i : Int) : Decidable (isInt32 i) := by
  unfold isInt32; exact inferInstance

/-- The keys of the map are in strictly increasing order, as `std::map` and `QMap` keep
them. -/
def keyOrdered {V : Type} (m : List (String × V)) : Prop :=
  (m.map Prod.fst).Pairwise (fun a b => a < b)

/-- A stored notification with two actions and with one hint of each kind that is
persisted. -/
def exRich : CachedNotification :=
  { exStored ["r", "app", "run-1.json"] 1 [] with
    actions := [("default", "Open"), ("snooze", "Later")]
    hints := [("category", .string "email"), ("resident", .bool true), ("urgency", .int 2)] }

/-! ## A concrete disk for the scan -/

/-- A notification file holding only a summary. -/
def exFile (summary : String) : FsNode :=
  .file (.json (.object [("summary", .string summary)])) 7

/-- The root `/r` with the file `error.json` directly in it, and the directory `app` with a
notification file, a settings file and a file that is not JSON. -/
def exScanDisk : FileSystem :=
  ⟨[(exRoot, .directory),
    (⟨true, ["r", "error.json"]⟩, exFile "Error"),
    (⟨true, ["r", "app"]⟩, .directory),
    (⟨true, ["r", "app", "run-2.json"]⟩, exFile "Hello"),
    (⟨true, ["r", "app", ".settings.json"]⟩, .file (.json (.object [])) 7),
    (⟨true, ["r", "app", "bad.json"]⟩, .file (.garbage "not json") 7)]⟩

/-- The cacher `exCacher` on the disk `exScanDisk`. -/
def exScanCacher : NotificationCacher := { exCacher with disk := exScanDisk }

/-! ## Notions for slugs -/

/-- The character is one of `a`-`z`, `0`-`9`, `_` and `-`. -/
def isSlugChar (c : Char) : Bool := c.isLower || c.isDigit || c = '_' || c = '-'

/-! ## Concrete requests for the storage path -/

/-- An environment without settings files: the disk holds only the root `/r`, no callback
evaluates, and `weakly_canonical` leaves every path as it is. -/
def exEnv : Paths.Env :=
  { disk := ⟨[(exRoot, .directory)]⟩, evaluateSubdirCallback := fun _ _ => none,
    weakly_canonical := fun p => p, nfkd := Paths.exNfkd }

/-- The notification of the application `Firefox` with summary `New Tab`, run id `r1` and
id 1. -/
def exFirefox : Notification :=
  { app_name := "Firefox", replaces_id := 0, app_icon := "", summary := "New Tab", body := "",
    expire_timeout := -1, id := 1, actions := [], hints := [], «at» := .valid 0,
    notification_tray_run_id := "r1" }

/-- The disk with the root `/r` and a settings file in it that holds the member
`hide_from_tray`. -/
def exSettingsDisk : FileSystem :=
  ⟨[(exRoot, .directory),
    (⟨true, ["r", ".settings.json"]⟩,
      .file (.json (.object [("hide_from_tray", .string "2030-01-01T00:00:00Z")])) 3)]⟩

/-- A rendering of timestamps that is enough to tell them apart: the number of
milliseconds. -/
def exIso : QDateTime → String
  | .invalid => ""
  | .valid ms => toString ms

/-! ## A concrete notification service -/

/-- The service for the root `/r` and the run `r1`, with no notification stored. -/
def exService : NotificationService :=
  { m_root_path := exRoot, m_run_id := "r1", notifications := [], env := exEnv, emitted := [] }

/-- A `Notify` call of the application `App` without icon, body, actions or hints. -/
def exNotify (self : NotificationService) (replaces_id : Nat) (summary : String) :
    Option (Nat × NotificationService) :=
  self.Notify 3 0 "App" replaces_id "" summary "" [] [] (-1)

/-! ## Counting the lookups of the ancestor walk -/

/-- The number of cache lookups the ancestor walk makes before it returns: the loop of
`ancestorWalk` with a counter; `none` when the loop has not ended within `fuel` turns. -/
def ancestorLookups {V : Type} (find : Path → Option V) (stop : Path) : Nat → Path → Option Nat
  | 0, _ => none
  | fuel + 1, p =>
    if p = stop then some 0
    else
      match find p with
      | some _ => some 1
      | none => (ancestorLookups find stop fuel p.parent_path).map fun k => k + 1

/-- The depth of a folder below the root: the number of file-name elements after those of
the root. -/
def depthBelow (root folder : Path) : Nat := folder.comps.length - root.comps.length

/-- The service after three new notifications with summaries `Summary 1`, `Summary 2` and
`Summary 3` (the calls of the test `CloseActiveNotifications_ClosesAll`). -/
def exThree : Option NotificationService :=
  (exNotify exService 0 "Summary 1").bind fun r1 =>
    (exNotify r1.2 0 "Summary 2").bind fun r2 =>
      (exNotify r2.2 0 "Summary 3").map fun r3 => r3.2

/-- The ids and closing times of the stored notifications. -/
def closedTimes (self : NotificationService) : List (Int × Option QDateTime) :=
  self.notifications.map fun e => (e.1, e.2.closed_at)

/-! ## Notions for the scheduler's bookkeeping -/

/-- The greatest of `v` and the ids of the notifications of the list that are stored
directly in `folder`. -/
def maxIdIn (folder : Path) (v : Int) (acc : List CachedNotification) : Int :=
  (acc.filter fun n => decide (n.path.parent_path = folder)).foldl (fun w n => max w n.id) v

/-- A request to the scheduler: a `notify` call or a batch sweep over a tree, at a time. -/
inductive NotifierOp where
  | notify (now : Int) (is_batch : Bool) (notifications : List CachedNotification)
  | batchNotify (now : Int) (tree : NotificationFolder)

/-- The scheduler after one request; `none` when a settings walk has not returned. -/
def Notifier.applyOp (fuel : Nat) (self : Notifier) : NotifierOp → Option Notifier
  | .notify now is_batch notifications =>
    (Notifier.notify self fuel now is_batch notifications).map Prod.fst
  | .batchNotify now tree => (Notifier.batchNotify self fuel now tree).map Prod.fst

/-- The scheduler after a sequence of requests. -/
def Notifier.runOps (fuel : Nat) : Notifier → List NotifierOp → Option Notifier
  | self, [] => some self
  | self, op :: ops =>
    match Notifier.applyOp fuel self op with
    | none => none
    | some s => Notifier.runOps fuel s ops

mutual
/-- The folder and all folders below it, the folder first. -/
def allFolders : NotificationFolder → List NotificationFolder
  | .mk fs ns p => NotificationFolder.mk fs ns p :: allFoldersIn fs
/-- The folders of a map of subfolders with all folders below them. -/
def allFoldersIn : List (String × NotificationFolder) → List NotificationFolder
  | [] => []
  | (_, f) :: rest => allFolders f ++ allFoldersIn rest
end

/-- In the tree each notification's parent directory equals the path of the folder that
stores it. -/
def ParentsMatch (tree : NotificationFolder) : Prop :=
  ∀ node ∈ allFolders tree, ∀ e ∈ node.notifications, e.2.path.parent_path = node.path

/-- The members of the scheduler other than `m_last_notified` agree. -/
def Notifier.sameSettings (s s' : Notifier) : Prop :=
  s'.m_root_path = s.m_root_path ∧ s'.m_do_not_disturb = s.m_do_not_disturb ∧
    s'.m_notification_backoff_minutes = s.m_notification_backoff_minutes ∧
    s'.m_run_id = s.m_run_id ∧ s'.m_started_at = s.m_started_at

/-- Every entry of `m` is still there in `m2`, with a value that is not smaller. -/
def LastGe (m m2 : List (Path × Int)) : Prop :=
  ∀ f v, mapFind f m = some v → ∃ v2, mapFind f m2 = some v2 ∧ v ≤ v2

/-- What holds of the result `r` of a sweep over the folders `nodes` that started in the
state `self`: the settings are untouched, no entry of `m_last_notified` is lost or lowered,
and every batch consists of notifications that are stored in one of the folders, are not
trashed, were pushed by the loop of that folder in a state `mid` of the sweep, and have an
entry for their parent directory that is at least their id. -/
def SweepInv (fuel : Nat) (now : Int) (self : Notifier) (nodes : List NotificationFolder)
    (r : Notifier × List (List CachedNotification)) : Prop :=
  Notifier.sameSettings self r.1 ∧ LastGe self.m_last_notified r.1.m_last_notified ∧
    ∀ batch ∈ r.2, ∃ node ∈ nodes, ∃ mid : Notifier,
      Notifier.sameSettings self mid ∧ LastGe self.m_last_notified mid.m_last_notified ∧
      ∀ n ∈ batch,
        n ∈ node.notifications.map Prod.snd ∧ n.trashed = false ∧
        Notifier.sweepAdmits mid fuel now node.path n = some true ∧
        ∃ v, mapFind n.path.parent_path r.1.m_last_notified = some v ∧ n.id ≤ v

/-- A notification of `/r/app` with id 1 that arrived at instant 60000. -/
def exArrived : CachedNotification :=
  { exNotification "run-1.json" 1 [] false with «at» := .valid 60000 }

/-- The tree with root `/r` and the folder `/r/app` that stores `exArrived`. -/
def exSweepTree : NotificationFolder :=
  .mk [("app", .mk [] [("run-1.json", exArrived)] ⟨true, ["r", "app"]⟩)] [] exRoot

/-- A scheduler started at instant 0 whose folder `/r/app` was under do-not-disturb until
instant 50000. -/
def exAfterDnd : Notifier :=
  { m_root_path := exRoot, m_do_not_disturb := [(⟨true, ["r", "app"]⟩, some (.valid 50000))],
    m_notification_backoff_minutes := [], m_run_id := "run", m_started_at := .valid 0,
    m_last_notified := [] }

/-! ## The condition of the batch sweep in the words of the specification -/

/-- Do-not-disturb is active at instant `now`: an end time is configured, it is a valid
datetime and it lies after `now`. -/
def dndActiveAt (dnd : Option QDateTime) (now : Int) : Bool :=
  match dnd with
  | some (.valid t) => decide (t > now)
  | _ => false

/-- The whole minutes from the creation of a notification to `now`, rounded towards zero;
0 when the creation time is no valid datetime. -/
def wholeMinutesSince (created : QDateTime) (now : Int) : Int :=
  match created with
  | .invalid => 0
  | .valid t => (now - t).tdiv 60000

/-- The condition under which the sweep submits `n`, for the resolved backoff and
do-not-disturb end time of the folder and the folder's value `last` of `lastNotified`:
`n` is not trashed, do-not-disturb is not active, and (a) the backoff is positive and the
whole minutes since creation do not exceed it, or (b) an end time is configured that is
not before the start of the scheduler, `n` was created at or after it, and the id of `n`
exceeds `last`. -/
def sweepEligible (started : QDateTime) (now : Int) (backoff : Int) (dnd : Option QDateTime)
    (last : Int) (n : CachedNotification) : Bool :=
  !n.trashed && !dndActiveAt dnd now &&
    ((decide (backoff > 0) && decide (wholeMinutesSince n.«at» now ≤ backoff)) ||
      (match dnd with
       | some dnd_end => dnd_end.ge started && n.«at».ge dnd_end && decide (n.id > last)
       | none => false))

/-- A scheduler whose folder `/r/app` has a backoff of 30 minutes. -/
def exBackoffNotifier : Notifier :=
  { m_root_path := exRoot, m_do_not_disturb := [],
    m_notification_backoff_minutes := [(⟨true, ["r", "app"]⟩, 30)], m_run_id := "run",
    m_started_at := .valid 0, m_last_notified := [] }

/-- The same scheduler with do-not-disturb at `/r/app` until instant 200000000. -/
def exBackoffUnderDnd : Notifier :=
  { exBackoffNotifier with
    m_do_not_disturb := [(⟨true, ["r", "app"]⟩, some (.valid 200000000))] }

/-- A scheduler whose root folder `/r` has a backoff of 30 minutes. -/
def exRootBackoff : Notifier :=
  { m_root_path := exRoot, m_do_not_disturb := [],
    m_notification_backoff_minutes := [(exRoot, 30)], m_run_id := "run",
    m_started_at := .valid 0, m_last_notified := [] }

/-- The file names that `trash` protects. -/
def isProtectedName (name : String) : Bool :=
  name = ".settings.json" || name = ".notification.wav"

/-- The path `q` is a `.settings.json` file or a `.notification.wav` file of the disk. -/
def FileSystem.isProtectedFile (disk : FileSystem) (q : Path) : Bool :=
  disk.is_regular_file q && isProtectedName q.filename

/-- The path `q` recursively contains a protected file of the disk. -/
def FileSystem.holdsProtected (disk : FileSystem) (q : Path) : Bool :=
  disk.entries.any fun e => FileSystem.below q e.1 && disk.isProtectedFile e.1

/-- Nothing on the disk lies below a regular file. -/
def FileSystem.WellFormed (disk : FileSystem) : Prop :=
  ∀ e ∈ disk.entries, ∀ e2 ∈ disk.entries,
    disk.is_regular_file e.1 = true → FileSystem.below e.1 e2.1 = false

/-- The first `k` of the `trash` calls handed to detached threads are run, one after the
other as in `runTasks`: the state reached and the calls that are still pending. -/
def NotificationCacher.runSome : Nat → NotificationCacher → List Path →
    NotificationCacher × List Path
  | 0, self, pending => (self, pending)
  | _ + 1, self, [] => (self, [])
  | k + 1, self, path :: pending =>
    let r := NotificationCacher.trash self path
    NotificationCacher.runSome k r.1 (pending ++ r.2)

/-- The condition under which `trash` hands `path` to the platform trash. -/
def NotificationCacher.moves (self : NotificationCacher) (path : Path) : Prop :=
  path ≠ self.m_root_path ∧
    ((self.disk.is_regular_file path = true ∧ path.extension = ".json" ∧
        path.filename ≠ ".settings.json") ∨
      (self.disk.is_regular_file path = false ∧ self.disk.exists path = true ∧
        NotificationCacher.has_settings self.disk path = false))

/-- The disk of `exScanDisk` with a subdirectory `/r/app/sub` that holds one more
notification file, and a tree with the folders `app` and `app/sub` and their
notifications. -/
def exProtectedCacher : NotificationCacher :=
  { exCacher with
    disk := ⟨exScanDisk.entries ++ [(⟨true, ["r", "app", "sub"]⟩, .directory),
      (⟨true, ["r", "app", "sub", "run-3.json"]⟩, exFile "Deep")]⟩
    notification_cache :=
      .mk [("app", .mk
          [("sub", .mk [] [("run-3.json", exStored ["r", "app", "sub", "run-3.json"] 3 [])]
            ⟨true, ["r", "app", "sub"]⟩)]
          [("run-2.json", exStored ["r", "app", "run-2.json"] 2 [])]
          ⟨true, ["r", "app"]⟩)] [] exRoot }

/-- The paths handed to the platform trash according to a log, oldest first. -/
def sends (events : List Event) : List Path :=
  events.filterMap fun ev =>
    match ev with
    | .send2trash q => some q
    | _ => none

/-- The disk of the state `s` is well formed and every protected file of the disk `d0` is
on it unchanged. -/
def ProtectedKept (d0 : FileSystem) (s : NotificationCacher) : Prop :=
  s.disk.WellFormed ∧
    ∀ f, d0.isProtectedFile f = true → mapFind f s.disk.entries = mapFind f d0.entries

/-! ## Requests to the application that touch settings -/

/-- A change of settings: a menu action of the tray, or the periodic reload. -/
inductive SettingsOp where
  | doNotDisturb (now : Int) (folder_path : Path) (time : QDateTime)
  | hideFromTray (now : Int) (folder_path : Path) (time : QDateTime)
  | backoff (now : Int) (folder_path : Path) (minutes : Int)
  | refreshSettings

/-- The application after a change of settings. -/
def SystemTrayFileBrowser.applySettings (iso : QDateTime → String)
    (fromIso : String → QDateTime) (self : SystemTrayFileBrowser) :
    SettingsOp → SystemTrayFileBrowser
  | .doNotDisturb now folder_path time => self.trayDoNotDisturb iso fromIso now folder_path time
  | .hideFromTray now folder_path time => self.trayHideFromTray iso fromIso now folder_path time
  | .backoff now folder_path minutes => self.trayBackoff now folder_path minutes
  | .refreshSettings => self.refreshSettings fromIso

/-- A request to the application: a change of settings or a request to the scheduler. -/
inductive AppOp where
  | settings (op : SettingsOp)
  | notifier (op : NotifierOp)

/-- The application after one request; `none` when a settings walk of the scheduler has not
returned. -/
def SystemTrayFileBrowser.applyOp (iso : QDateTime → String) (fromIso : String → QDateTime)
    (fuel : Nat) (self : SystemTrayFileBrowser) : AppOp → Option SystemTrayFileBrowser
  | .settings op => some (self.applySettings iso fromIso op)
  | .notifier op =>
    (Notifier.applyOp fuel self.m_notifier op).map fun s => { self with m_notifier := s }

/-- The application after a sequence of requests. -/
def SystemTrayFileBrowser.runOps (iso : QDateTime → String) (fromIso : String → QDateTime)
    (fuel : Nat) : SystemTrayFileBrowser → List AppOp → Option SystemTrayFileBrowser
  | self, [] => some self
  | self, op :: ops =>
    match SystemTrayFileBrowser.applyOp iso fromIso fuel self op with
    | none => none
    | some s => SystemTrayFileBrowser.runOps iso fromIso fuel s ops

/-- The reading of the timestamps written by `exIso`. -/
def exFromIso (s : String) : QDateTime :=
  match s.toInt? with
  | some ms => .valid ms
  | none => .invalid

/-- The application started at instant 0 on a disk with the root `/r` and the directory
`/r/app`, without any settings file. -/
def exApp : SystemTrayFileBrowser :=
  SystemTrayFileBrowser.create exFromIso
    ⟨[(exRoot, .directory), (⟨true, ["r", "app"]⟩, .directory)]⟩ exRoot "run" 0

/-- The request to the scheduler in a request to the application, if it is one. -/
def AppOp.toNotifierOp : AppOp → Option NotifierOp
  | .settings _ => none
  | .notifier op => some op

/-- The tray sets do-not-disturb for `/r/app` until instant 1000000, the timer reloads the
settings, and a notification for `/r/app` is requested at instant 20. -/
def exAppOps : List AppOp :=
  [.settings (.doNotDisturb 10 ⟨true, ["r", "app"]⟩ (.valid 1000000)),
   .settings .refreshSettings,
   .notifier (.notify 20 false [exNotification "run-1.json" 1 [] false])]

/-- The application `exApp` after the requests `exAppOps`. -/
def exAppAfter : SystemTrayFileBrowser :=
  (SystemTrayFileBrowser.runOps exIso exFromIso 3 exApp exAppOps).getD exApp

/-! ## Roots written with a trailing separator -/

/-- The directory a path names: the path itself, without the empty last element that a
trailing separator gives. -/
def Path.directory (p : Path) : Path :=
  if p.comps.getLast? = some "" then p.parent_path else p

/-! ## Texts of paths, character by character -/

/-- The characters of elements written with the separator `/` between them. -/
def joinElements : List (List Char) → List Char
  | [] => []
  | [x] => x
  | x :: y :: rest => x ++ '/' :: joinElements (y :: rest)

/-- The number of bytes of a text in UTF-8. -/
def bytesOf (l : List Char) : Nat := (l.map utf8Units).sum

/-- A root directory `m + 1` levels deep: `m` directories whose names have 255 letters and
a last one whose name has `k` letters. -/
def exDeepRoot (m k : Nat) : Path :=
  ⟨true, List.replicate m (exLetters 255 (Char.ofNat 97)) ++ [exLetters k (Char.ofNat 97)]⟩

/-- An environment without settings files on a disk that holds a directory `root` only. -/
def exEnvAt (root : Path) : Paths.Env :=
  { exEnv with disk := ⟨[(root, .directory)]⟩ }

/-- The notification `exFirefox` of a run whose id has 248 letters. -/
def exLongRun : Notification :=
  { exFirefox with notification_tray_run_id := exLetters 248 (Char.ofNat 98) }

/-! ## The slug in the words of the specification -/

/-- The whitespace characters: space, tab, line feed, vertical tab, form feed and carriage
return. -/
def specWhitespace : List Char :=
  [Char.ofNat 32, Char.ofNat 9, Char.ofNat 10, Char.ofNat 11, Char.ofNat 12, Char.ofNat 13]

/-- A whitespace character or a hyphen. -/
def specSeparator (c : Char) : Bool := decide (c = '-' ∨ c ∈ specWhitespace)

/-- The upper-case letters, each with its lower-case letter. -/
def specLowerCase : List (Char × Char) :=
  "ABCDEFGHIJKLMNOPQRSTUVWXYZ".toList.zip "abcdefghijklmnopqrstuvwxyz".toList

/-- What is left of a character that is no separator: an upper-case letter becomes its
lower-case letter; a lower-case letter, a digit and the underscore stay; every other
character is removed. -/
def specLetter (c : Char) : Option Char :=
  match specLowerCase.lookup c with
  | some l => some l
  | none => if c ∈ "abcdefghijklmnopqrstuvwxyz0123456789_".toList then some c else none

/-- The characters of the decomposed text that are left, in order: the separators, and of
the other characters what `specLetter` leaves. -/
def specKept (nfkd : Char → List Char) (text : String) : List Char :=
  (text.toList.flatMap nfkd).filterMap fun c =>
    if specSeparator c then some c else specLetter c

/-- The words of a text: the non-empty texts between its separators. -/
def specWords (l : List Char) : List (List Char) :=
  (l.splitOnP specSeparator).filter fun w => decide (w ≠ [])

/-- The text without the hyphens and underscores at its two ends. -/
def specTrim (l : List Char) : List Char :=
  ((l.dropWhile fun c => decide (c = '-' ∨ c = '_')).reverse.dropWhile
    fun c => decide (c = '-' ∨ c = '_')).reverse

/-- The slug in the words of the specification: the letters in lower case, the digits and
the underscores of the text, word by word with one hyphen between two words (every run of
whitespace and hyphens separates two words, every other character is removed), without
hyphens and underscores at the two ends; `unnamed` when nothing remains. -/
def specSlugify (nfkd : Char → List Char) (text : String) : String :=
  let joined := specTrim (List.intercalate ['-'] (specWords (specKept nfkd text)))
  if joined = [] then "unnamed" else String.mk joined

/-- The text that the replacement of the runs of separators leaves, from the pieces between
the single separators: a hyphen stands after a piece unless the piece is empty and a
separator came before it. -/
def piecesText (inRun : Bool) : List (List Char) → List Char
  | [] => []
  | [p] => p
  | p :: q :: rest =>
    p ++ (if p = [] ∧ inRun = true then [] else ['-']) ++ piecesText true (q :: rest)

/-! ## Lemmas on the ancestor walk -/

theorem getNotificationBackoffMinutes_eq_walk (fuel : Nat) (root p : Path)
    (cache : List (Path × Int)) :
    Settings.getNotificationBackoffMinutes fuel root p cache =
      ancestorWalk (fun q => mapFind q cache) 0 root.parent_path fuel p := by
  induction fuel generalizing p with
  | zero => rfl
  | succ fuel ih =>
    simp only [Settings.getNotificationBackoffMinutes, ancestorWalk]
    split
    · rfl
    · cases hf : mapFind p cache with
      | none => simpa using ih p.parent_path
      | some v => rfl

theorem getDateTimeSetting_eq_walk (fuel : Nat) (root p : Path) (cache : Cache) :
    Settings.getDateTimeSetting fuel p root cache =
      ancestorWalk (fun q => mapFind q cache) none root.parent_path fuel p := by
  induction fuel generalizing p with
  | zero => rfl
  | succ fuel ih =>
    simp only [Settings.getDateTimeSetting, ancestorWalk]
    split
    · rfl
    · cases hf : mapFind p cache with
      | none => simpa using ih p.parent_path
      | some v => rfl

theorem Path.parent_path_comps_length (p : Path) :
    p.parent_path.comps.length = p.comps.length - 1 := by
  simp [Path.parent_path]

theorem Path.atOrBelow_parent {stop p : Path} (h : Path.atOrBelow stop p)
    (hlt : stop.comps.length < p.comps.length) : Path.atOrBelow stop p.parent_path := by
  obtain ⟨ha, t, ht⟩ := h
  refine ⟨ha, ?_⟩
  have hne : t ≠ [] := by
    rintro rfl
    simp at ht
    rw [ht] at hlt
    exact absurd hlt (lt_irrefl _)
  refine ⟨t.dropLast, ?_⟩
  simp only [Path.parent_path]
  rw [← ht, List.dropLast_append_of_ne_nil _ hne]

theorem Path.eq_of_atOrBelow_of_length {stop p : Path} (h : Path.atOrBelow stop p)
    (hlen : p.comps.length ≤ stop.comps.length) : p = stop := by
  obtain ⟨ha, hp⟩ := h
  have hc : stop.comps = p.comps := hp.eq_of_length_le hlen
  cases p; cases stop; simp_all

/-- The walk from a path at or below `stop` returns, and returns the first entry met on
the way up, `stop` itself excluded. -/
theorem ancestorWalk_spec {V : Type} (find : Path → Option V) (dflt : V) (stop : Path) :
    ∀ (m : Nat) (p : Path) (fuel : Nat), Path.atOrBelow stop p →
      p.comps.length = stop.comps.length + m → m + 1 ≤ fuel →
      ∃ v, ancestorWalk find dflt stop fuel p = some v ∧
        ((∃ k, k < m ∧ find (Path.parent_path^[k] p) = some v ∧
            ∀ j, j < k → find (Path.parent_path^[j] p) = none) ∨
         (v = dflt ∧ ∀ j, j < m → find (Path.parent_path^[j] p) = none)) := by
  intro m
  induction m with
  | zero =>
    intro p fuel hb hlen hfuel
    have hp : p = stop := Path.eq_of_atOrBelow_of_length hb (by omega)
    obtain ⟨f, rfl⟩ : ∃ f, fuel = f + 1 := ⟨fuel - 1, by omega⟩
    refine ⟨dflt, by simp [ancestorWalk, hp], Or.inr ⟨rfl, ?_⟩⟩
    intro j hj
    exact absurd hj (Nat.not_lt_zero _)
  | succ m ih =>
    intro p fuel hb hlen hfuel
    obtain ⟨f, rfl⟩ : ∃ f, fuel = f + 1 := ⟨fuel - 1, by omega⟩
    have hne : p ≠ stop := by
      rintro rfl
      omega
    cases hf : find p with
    | some v =>
      refine ⟨v, by simp [ancestorWalk, hne, hf], Or.inl ⟨0, Nat.succ_pos _, by simpa using hf, ?_⟩⟩
      intro j hj
      exact absurd hj (Nat.not_lt_zero _)
    | none =>
      have hb' : Path.atOrBelow stop p.parent_path := Path.atOrBelow_parent hb (by omega)
      have hlen' : p.parent_path.comps.length = stop.comps.length + m := by
        rw [Path.parent_path_comps_length]; omega
      obtain ⟨v, hv, hspec⟩ := ih p.parent_path f hb' hlen' (by omega)
      refine ⟨v, by simp [ancestorWalk, hne, hf, hv], ?_⟩
      rcases hspec with ⟨k, hk, hfound, hnone⟩ | ⟨hd, hnone⟩
      · refine Or.inl ⟨k + 1, by omega, by simpa [Function.iterate_succ_apply] using hfound, ?_⟩
        intro j hj
        cases j with
        | zero => simpa using hf
        | succ j =>
          have := hnone j (by omega)
          simpa [Function.iterate_succ_apply] using this
      · refine Or.inr ⟨hd, ?_⟩
        intro j hj
        cases j with
        | zero => simpa using hf
        | succ j =>
          have := hnone j (by omega)
          simpa [Function.iterate_succ_apply] using this

/-- From a folder at or below the root the walk always returns within
`folder.comps.length + 1` steps of fuel. -/
theorem ancestorWalk_returns {V : Type} (find : Path → Option V) (dflt : V) (root folder : Path)
    (h : Path.atOrBelow root folder) (fuel : Nat) (hfuel : folder.comps.length + 1 ≤ fuel) :
    ∃ v, ancestorWalk find dflt root.parent_path fuel folder = some v := by
  have hb : Path.atOrBelow root.parent_path folder := by
    obtain ⟨ha, hp⟩ := h
    exact ⟨ha, (List.dropLast_prefix root.comps).trans hp⟩
  have hle : root.parent_path.comps.length ≤ folder.comps.length := hb.2.length_le
  obtain ⟨v, hv, _⟩ := ancestorWalk_spec find dflt root.parent_path
    (folder.comps.length - root.parent_path.comps.length) folder fuel hb (by omega) (by omega)
  exact ⟨v, hv⟩

/-- Outside the root the walk does not return: once it has reached a path without
file-name element that is not the stop mark, `parent_path` gives the same path again.
Here the root is `/a/b` and the folder `/x`. -/
theorem getDateTimeSetting_outside_root (cache : Cache) (fuel : Nat)
    (h1 : mapFind (⟨true, ["x"]⟩ : Path) cache = none)
    (h2 : mapFind (⟨true, []⟩ : Path) cache = none) :
    Settings.getDateTimeSetting fuel ⟨true, ["x"]⟩ ⟨true, ["a", "b"]⟩ cache = none := by
  have hroot : ∀ f, Settings.getDateTimeSetting f ⟨true, []⟩ ⟨true, ["a", "b"]⟩ cache =
      none := by
    intro f
    induction f with
    | zero => rfl
    | succ f ih =>
      simp only [Settings.getDateTimeSetting, Path.parent_path, List.dropLast, h2]
      simpa [Path.parent_path] using ih
  cases fuel with
  | zero => rfl
  | succ f =>
    simp only [Settings.getDateTimeSetting, Path.parent_path, List.dropLast, h1]
    simpa [Path.parent_path] using hroot f


/-! ## Lemmas on association lists -/

theorem mapFind_mapInsert {K V : Type} [DecidableEq K] [LT K]
    [DecidableRel (fun a b : K => a < b)] (k k' : K) (v : V) (m : List (K × V)) :
    mapFind k' (mapInsert k v m) = if k' = k then some v else mapFind k' m := by
  induction m with
  | nil =>
    by_cases h : k' = k
    · simp [mapInsert, mapFind, h]
    · have h' : ¬ k = k' := fun e => h e.symm
      simp [mapInsert, mapFind, h, h']
  | cons e rest ih =>
    obtain ⟨k0, v0⟩ := e
    by_cases h0 : k0 = k
    · subst h0
      by_cases h : k' = k0
      · simp [mapInsert, mapFind, h]
      · have h' : ¬ k0 = k' := fun e => h e.symm
        simp [mapInsert, mapFind, h, h']
    · by_cases hlt : k < k0
      · by_cases h : k' = k
        · simp [mapInsert, mapFind, h0, hlt, h]
        · have h' : ¬ k = k' := fun e => h e.symm
          simp [mapInsert, mapFind, h0, hlt, h, h']
      · by_cases h : k' = k
        · subst h
          simp [mapInsert, mapFind, h0, hlt, ih]
        · by_cases h1 : k0 = k'
          · subst h1
            simp [mapInsert, mapFind, h0, hlt, h]
          · simp [mapInsert, mapFind, h0, hlt, h, h1, ih]

theorem mapFind_mapSet {K V : Type} [DecidableEq K] (k k' : K) (v : V) (m : List (K × V)) :
    mapFind k' (mapSet k v m) =
      if k' = k then (mapFind k m).map (fun _ => v) else mapFind k' m := by
  induction m with
  | nil => simp [mapSet, mapFind]
  | cons e rest ih =>
    obtain ⟨k0, v0⟩ := e
    by_cases h0 : k0 = k
    · subst h0
      by_cases h : k' = k0
      · simp [mapSet, mapFind, h]
      · have h' : ¬ k0 = k' := fun e => h e.symm
        simp [mapSet, mapFind, h, h']
    · by_cases h : k' = k
      · subst h
        simp [mapSet, mapFind, h0, ih]
      · by_cases h1 : k0 = k'
        · subst h1
          simp [mapSet, mapFind, h0, h]
        · simp [mapSet, mapFind, h0, h, h1, ih]

theorem mapSet_eq_self {K V : Type} [DecidableEq K] (k : K) (v : V) (m : List (K × V))
    (h : mapFind k m = some v) : mapSet k v m = m := by
  induction m with
  | nil => rfl
  | cons e rest ih =>
    obtain ⟨k0, v0⟩ := e
    by_cases h0 : k0 = k
    · simp [mapFind, h0] at h
      simp [mapSet, h0, h]
    · simp [mapFind, h0] at h
      simp [mapSet, h0, ih h]

theorem stripCommon_append (base extra : List String) :
    stripCommon (base ++ extra) base = (extra, []) := by
  induction base with
  | nil => cases extra <;> simp [stripCommon]
  | cons b rest ih => simp [stripCommon, ih]

/-- The elements of the relative path from the root to a directory below it are the
directory's own extra elements, and the single element `.` for the root itself (also when
it is written with a trailing separator). -/
theorem Path.relative_of_append (root : Path) (dirs : List String) :
    Path.relative ⟨root.absolute, root.comps ++ dirs⟩ root =
      if dirs = [] ∨ dirs.head? = some "" then ["."] else dirs := by
  unfold Path.relative
  simp only [ne_eq, not_true_eq_false, ↓reduceIte, stripCommon_append]
  by_cases h : dirs = []
  · simp [h]
  · by_cases h2 : dirs.head? = some ""
    · simp [h, h2]
    · simp [h, h2]

/-- A folder directly or further below a root written with a trailing separator: the empty
last element of the root is not counted as a step upwards. -/
theorem Path.relative_trailing_separator :
    Path.relative ⟨true, ["r", "app"]⟩ ⟨true, ["r", ""]⟩ = ["app"] ∧
    Path.relative ⟨true, ["r"]⟩ ⟨true, ["r", ""]⟩ = ["."] ∧
    Path.relative ⟨true, ["r", "app", "summary"]⟩ ⟨true, ["r", ""]⟩ = ["app", "summary"] := by
  decide

/-! ## Lemmas on the cache tree -/

namespace NotificationFolder

@[simp] theorem entryAt_nil (key : String) (fs : List (String × NotificationFolder))
    (ns : List (String × CachedNotification)) (p : Path) :
    entryAt [] key (.mk fs ns p) = mapFind key ns := rfl

theorem entryAt_cons (part : String) (rest : List String) (key : String)
    (fs : List (String × NotificationFolder)) (ns : List (String × CachedNotification))
    (p : Path) :
    entryAt (part :: rest) key (.mk fs ns p) =
      match mapFind part fs with
      | some c => entryAt rest key c
      | none => none := by
  simp only [entryAt, folderAt]
  cases mapFind part fs <;> rfl

theorem entryAt_empty (parts : List String) (key : String) (p : Path) :
    entryAt parts key (.mk [] [] p) = none := by
  cases parts <;> simp [entryAt, folderAt, mapFind, notifications]

theorem notificationsAt_nil (fs : List (String × NotificationFolder))
    (ns : List (String × CachedNotification)) (p : Path) :
    notificationsAt [] (.mk fs ns p) = ns := rfl

theorem notificationsAt_cons (part : String) (rest : List String)
    (fs : List (String × NotificationFolder)) (ns : List (String × CachedNotification))
    (p : Path) :
    notificationsAt (part :: rest) (.mk fs ns p) =
      match mapFind part fs with
      | some c => notificationsAt rest c
      | none => [] := by
  simp only [notificationsAt, folderAt]
  cases mapFind part fs <;> rfl

theorem notificationsAt_empty (parts : List String) (p : Path) :
    notificationsAt parts (.mk [] [] p) = [] := by
  cases parts <;> simp [notificationsAt, folderAt, mapFind, notifications]

theorem entryAt_eq_notificationsAt (parts : List String) (key : String)
    (t : NotificationFolder) :
    entryAt parts key t = mapFind key (notificationsAt parts t) := by
  simp only [entryAt, notificationsAt]
  cases folderAt parts t <;> rfl

/-- Lookups after the creating walk of `cache`: the folder at `parts` has its notification
map changed by `g`, every other lookup is as before. -/
theorem entryAt_updateCreating
    (g : List (String × CachedNotification) → List (String × CachedNotification))
    (key' : String) :
    ∀ (parts : List String) (t : NotificationFolder) (parts' : List String),
      entryAt parts' key' (updateCreating (mapNotifications g) parts t) =
        if parts' = parts then mapFind key' (g (notificationsAt parts t))
        else entryAt parts' key' t := by
  intro parts
  induction parts with
  | nil =>
    intro t parts'
    cases t with
    | mk fs ns p =>
      cases parts' with
      | nil => simp [updateCreating, mapNotifications, notificationsAt_nil]
      | cons a r => simp [updateCreating, mapNotifications, entryAt_cons]
  | cons part rest ih =>
    intro t parts'
    cases t with
    | mk fs ns p =>
      cases parts' with
      | nil => simp [updateCreating]
      | cons a r =>
        simp only [updateCreating, entryAt_cons, mapFind_mapInsert, notificationsAt_cons]
        by_cases ha : a = part
        · subst ha
          simp only [↓reduceIte, ih, List.cons.injEq, true_and]
          cases hf : mapFind a fs with
          | none => simp [notificationsAt_empty, entryAt_empty]
          | some c => simp
        · simp [ha]

theorem putNotification_eq (key : String) (n : CachedNotification) :
    putNotification key n = mapNotifications (mapInsert key n) := by
  funext t
  cases t
  rfl

/-- After `cache` has walked to the folder at `parts` and stored `n` under `key`, that
lookup gives `n` and every other lookup is unchanged. -/
theorem entryAt_updateCreating_put (key : String) (n : CachedNotification)
    (parts : List String) (t : NotificationFolder) (parts' : List String) (key' : String) :
    entryAt parts' key' (updateCreating (putNotification key n) parts t) =
      if parts' = parts ∧ key' = key then some n else entryAt parts' key' t := by
  rw [putNotification_eq, entryAt_updateCreating]
  by_cases hp : parts' = parts
  · subst hp
    simp only [↓reduceIte, mapFind_mapInsert, true_and, entryAt_eq_notificationsAt]
  · simp [hp]

theorem entryAt_updateCreating_id (parts : List String) (t : NotificationFolder)
    (parts' : List String) (key' : String) :
    entryAt parts' key' (updateCreating (fun current => current) parts t) =
      entryAt parts' key' t := by
  have h : (fun current : NotificationFolder => current) = mapNotifications id := by
    funext t
    cases t
    rfl
  rw [h, entryAt_updateCreating]
  by_cases hp : parts' = parts
  · subst hp
    simp [entryAt_eq_notificationsAt]
  · simp [hp]

theorem path_updateCreating (f : NotificationFolder → NotificationFolder)
    (hf : ∀ t, (f t).path = t.path) (parts : List String) (t : NotificationFolder) :
    (updateCreating f parts t).path = t.path := by
  cases parts with
  | nil => exact hf t
  | cons part rest => cases t; rfl

theorem reach_of_folderAt :
    ∀ (parts : List String) (t cur : NotificationFolder),
      folderAt parts t = some cur → reach parts t = cur := by
  intro parts
  induction parts with
  | nil =>
    intro t cur h
    simpa [folderAt, reach] using h
  | cons part rest ih =>
    intro t cur h
    cases t with
    | mk fs ns p =>
      simp only [folderAt] at h
      simp only [reach]
      cases hf : mapFind part fs with
      | none => simp [hf] at h
      | some c =>
        simp only [hf] at h
        exact ih c cur h

theorem updateExisting_snd {R : Type} (f : NotificationFolder → NotificationFolder × R) :
    ∀ (parts : List String) (t : NotificationFolder),
      (updateExisting f parts t).2 = (f (reach parts t)).2 := by
  intro parts
  induction parts with
  | nil => intro t; rfl
  | cons part rest ih =>
    intro t
    cases t with
    | mk fs ns p =>
      simp only [updateExisting, reach]
      cases hf : mapFind part fs with
      | none => exact ih _
      | some c => exact ih c

/-- When the action leaves the folder it is applied to as it is, the walk of `trash`
leaves the whole tree as it is. -/
theorem updateExisting_fst_of_fixed {R : Type}
    (f : NotificationFolder → NotificationFolder × R) :
    ∀ (parts : List String) (t : NotificationFolder),
      (f (reach parts t)).1 = reach parts t → (updateExisting f parts t).1 = t := by
  intro parts
  induction parts with
  | nil => intro t h; exact h
  | cons part rest ih =>
    intro t h
    cases t with
    | mk fs ns p =>
      simp only [updateExisting, reach] at h ⊢
      cases hf : mapFind part fs with
      | none =>
        simp only [hf] at h
        exact ih _ h
      | some c =>
        simp only [hf] at h
        simp only [ih c h, mapSet_eq_self part c fs hf]

/-- Lookups after the walk of `trash` along a chain of existing folders, for an action that
changes the notification map of the folder by `g` and nothing else. -/
theorem entryAt_updateExisting {R : Type} (f : NotificationFolder → NotificationFolder × R)
    (g : List (String × CachedNotification) → List (String × CachedNotification))
    (hf : ∀ t, (f t).1 = mapNotifications g t) (key' : String) :
    ∀ (parts : List String) (t cur : NotificationFolder) (parts' : List String),
      folderAt parts t = some cur →
      entryAt parts' key' (updateExisting f parts t).1 =
        if parts' = parts then mapFind key' (g cur.notifications)
        else entryAt parts' key' t := by
  intro parts
  induction parts with
  | nil =>
    intro t cur parts' h
    simp only [folderAt, Option.some.injEq] at h
    subst h
    cases t with
    | mk fs ns p =>
      cases parts' with
      | nil => simp [updateExisting, hf, mapNotifications, notifications]
      | cons a r => simp [updateExisting, hf, mapNotifications, entryAt_cons]
  | cons part rest ih =>
    intro t cur parts' h
    cases t with
    | mk fs ns p =>
      simp only [folderAt] at h
      cases hc : mapFind part fs with
      | none => simp [hc] at h
      | some c =>
        simp only [hc] at h
        cases parts' with
        | nil => simp [updateExisting, hc]
        | cons a r =>
          simp only [updateExisting, hc, entryAt_cons, mapFind_mapSet]
          by_cases ha : a = part
          · subst ha
            simp only [↓reduceIte, hc, Option.map_some', List.cons.injEq, true_and]
            exact ih c cur r h
          · simp [ha]

end NotificationFolder

/-! ## Lemmas on `cache` -/

theorem mapFind_append_new {K V : Type} [DecidableEq K] (k : K) (v : V) (m : List (K × V))
    (h : mapFind k m = none) : mapFind k (m ++ [(k, v)]) = some v := by
  induction m with
  | nil => simp [mapFind]
  | cons e rest ih =>
    obtain ⟨k0, v0⟩ := e
    by_cases h0 : k0 = k
    · simp [mapFind, h0] at h
    · simp only [mapFind, h0, ↓reduceIte] at h
      simp [mapFind, h0, ih h]

theorem FileSystem.mapFind_writeFile (disk : FileSystem) (p : Path) (content : FileContent)
    (now : Int) :
    mapFind p (disk.writeFile p content now).entries = some (FsNode.file content now) := by
  unfold FileSystem.writeFile
  cases h : mapFind p disk.entries with
  | none => simp [mapFind_append_new p _ _ h]
  | some node => simp [mapFind_mapSet, h]

/-- What `cache` does to the tree and to the log whenever it returns. -/
theorem NotificationCacher.cache_tree (self s' : NotificationCacher) (now : Int)
    (n : CachedNotification) (h : self.cache now n = some s') :
    s'.notification_cache =
        NotificationFolder.updateCreating
          (NotificationFolder.putNotification n.path.filename n)
          (n.path.parent_path.relative self.notification_cache.path) self.notification_cache ∧
      s'.emitted = self.emitted ++ [Event.notificationsCached] ∧
      s'.m_root_path = self.m_root_path ∧ s'.m_run_id = self.m_run_id := by
  unfold NotificationCacher.cache at h
  by_cases ht : isTransient n = true
  · simp only [ht, Bool.not_true, Bool.false_eq_true, ↓reduceIte, Option.some.injEq] at h
    subst h
    exact ⟨rfl, rfl, rfl, rfl⟩
  · simp only [Bool.not_eq_true] at ht
    simp only [ht, Bool.not_false, ↓reduceIte] at h
    cases hc : self.disk.create_directories n.path.parent_path with
    | none => simp [hc] at h
    | some d =>
      simp only [hc] at h
      by_cases ho : d.canOpenForWriting n.path = true
      · simp only [ho, ↓reduceIte, Option.some.injEq] at h
        subst h
        exact ⟨rfl, rfl, rfl, rfl⟩
      · simp only [ho, Bool.false_eq_true, ↓reduceIte, Option.some.injEq] at h
        subst h
        exact ⟨rfl, rfl, rfl, rfl⟩

/-- Whenever `cache` returns, the folder reached along the elements of
`relative(parent(n.path), tree root)` holds `n` under `filename(n.path)`. -/
theorem NotificationCacher.cache_entry (self s' : NotificationCacher) (now : Int)
    (n : CachedNotification) (h : self.cache now n = some s') :
    NotificationFolder.entryAt (n.path.parent_path.relative self.notification_cache.path)
      n.path.filename s'.notification_cache = some n := by
  rw [(NotificationCacher.cache_tree self s' now n h).1,
    NotificationFolder.entryAt_updateCreating_put]
  simp

/-- For a storage path `root / dirs… / file` with at least one directory between the root
and the file, `cache` stores `n` in the folder reached from the root folder along `dirs`,
under the key `file`. -/
theorem NotificationCacher.cache_entry_below_root (self s' : NotificationCacher) (now : Int)
    (n : CachedNotification) (dirs : List String) (file : String)
    (htree : self.notification_cache.path = self.m_root_path)
    (hpath : n.path = ⟨self.m_root_path.absolute, self.m_root_path.comps ++ dirs ++ [file]⟩)
    (hdirs : dirs ≠ []) (hhead : dirs.head? ≠ some "") (h : self.cache now n = some s') :
    NotificationFolder.entryAt dirs file s'.notification_cache = some n := by
  have hrel : n.path.parent_path.relative self.notification_cache.path = dirs := by
    rw [htree, hpath]
    have : (⟨self.m_root_path.absolute, self.m_root_path.comps ++ dirs ++ [file]⟩ :
        Path).parent_path = ⟨self.m_root_path.absolute, self.m_root_path.comps ++ dirs⟩ := by
      simp [Path.parent_path]
    rw [this, Path.relative_of_append]
    simp [hdirs, hhead]
  have hfile : n.path.filename = file := by
    rw [hpath]
    simp [Path.filename]
  have := NotificationCacher.cache_entry self s' now n h
  rwa [hrel, hfile] at this

/-- The write of `cache` is best-effort (the guard `if (file.open(QIODevice::WriteOnly))`,
notification_cacher.cpp:207): for a notification without a transient hint whose storage
path `/r/app` is a directory on disk, `cache` returns and inserts it into the tree, and the
path is still a directory afterwards. -/
theorem cache_storage_path_is_directory :
    isTransient (exStored ["r", "app"] 1 []) = false ∧
    (({ exCacher with disk := ⟨[(exRoot, .directory), (⟨true, ["r", "app"]⟩, .directory)]⟩ } :
        NotificationCacher).cache 0 (exStored ["r", "app"] 1 [])).map
        (fun s =>
          (s.disk.is_regular_file ⟨true, ["r", "app"]⟩,
           s.disk.is_directory ⟨true, ["r", "app"]⟩,
           NotificationFolder.entryAt ["."] "app" s.notification_cache)) =
      some (false, true, some (exStored ["r", "app"] 1 [])) := by
  decide

/-! ## Lemmas on `trash` -/

theorem FileSystem.is_regular_file_of_not_exists (disk : FileSystem) (p : Path)
    (h : disk.exists p = false) : disk.is_regular_file p = false := by
  unfold FileSystem.exists at h
  unfold FileSystem.is_regular_file
  cases hf : mapFind p disk.entries with
  | none => rfl
  | some node => simp [hf] at h

theorem NotificationCacher.markNotification_fst (run_id key : String)
    (t : NotificationFolder) :
    (NotificationCacher.markNotification run_id key t).1 =
      NotificationFolder.mapNotifications (markedMap key) t := by
  cases t with
  | mk fs ns p =>
    simp only [NotificationCacher.markNotification, NotificationFolder.notifications,
      NotificationFolder.mapNotifications, markedMap, NotificationFolder.folders,
      NotificationFolder.path]
    cases mapFind key ns <;> rfl

theorem NotificationFolder.folderAt_of_entryAt (parts : List String) (key : String)
    (t : NotificationFolder) (e : CachedNotification)
    (h : NotificationFolder.entryAt parts key t = some e) :
    ∃ cur, NotificationFolder.folderAt parts t = some cur ∧
      mapFind key cur.notifications = some e := by
  unfold NotificationFolder.entryAt at h
  cases hf : NotificationFolder.folderAt parts t with
  | none => simp [hf] at h
  | some cur =>
    simp only [hf] at h
    exact ⟨cur, rfl, h⟩

/-- The marking walk of `trash` along a chain of existing folders that ends at a folder
holding `e` under `key`: the signal is emitted when `e` belongs to the run, the entry gets
`trashed = true`, and every other lookup is unchanged. -/
theorem NotificationCacher.markNotification_walk (run_id key : String) (parts : List String)
    (t : NotificationFolder) (e : CachedNotification)
    (h : NotificationFolder.entryAt parts key t = some e) :
    (NotificationFolder.updateExisting (NotificationCacher.markNotification run_id key)
        parts t).2 =
      (if e.notification_tray_run_id = run_id then [Event.notificationTrashed e.id] else []) ∧
    ∀ (parts' : List String) (key' : String),
      NotificationFolder.entryAt parts' key'
          (NotificationFolder.updateExisting (NotificationCacher.markNotification run_id key)
            parts t).1 =
        if parts' = parts ∧ key' = key then some { e with trashed := true }
        else NotificationFolder.entryAt parts' key' t := by
  obtain ⟨cur, hcur, hfind⟩ := NotificationFolder.folderAt_of_entryAt parts key t e h
  constructor
  · rw [NotificationFolder.updateExisting_snd, NotificationFolder.reach_of_folderAt parts t cur hcur]
    simp [NotificationCacher.markNotification, hfind]
  · intro parts' key'
    rw [NotificationFolder.entryAt_updateExisting _ (markedMap key)
      (NotificationCacher.markNotification_fst run_id key) key' parts t cur parts' hcur]
    by_cases hp : parts' = parts
    · subst hp
      simp only [↓reduceIte, true_and, markedMap, hfind, mapFind_mapSet, Option.map_some']
      by_cases hk : key' = key
      · simp [hk]
      · simp only [hk, ↓reduceIte, NotificationFolder.entryAt, hcur]
    · simp [hp]

/-- The marking walk of `trash` on an entry that is already trashed changes nothing. -/
theorem NotificationCacher.markNotification_walk_trashed (run_id key : String)
    (parts : List String) (t : NotificationFolder) (e : CachedNotification)
    (h : NotificationFolder.entryAt parts key t = some e) (htr : e.trashed = true) :
    (NotificationFolder.updateExisting (NotificationCacher.markNotification run_id key)
        parts t).1 = t := by
  obtain ⟨cur, hcur, hfind⟩ := NotificationFolder.folderAt_of_entryAt parts key t e h
  apply NotificationFolder.updateExisting_fst_of_fixed
  rw [NotificationFolder.reach_of_folderAt parts t cur hcur]
  have he : ({ e with trashed := true } : CachedNotification) = e := by
    cases e
    simp_all
  cases cur with
  | mk fs ns p =>
    simp only [NotificationFolder.notifications] at hfind
    simp only [NotificationCacher.markNotification, NotificationFolder.notifications, hfind, he,
      mapSet_eq_self key e ns hfind, NotificationFolder.folders, NotificationFolder.path]

/-- The two branches of `trash` that mark a single notification, in one formula: for a
path other than the root that is a notification file on disk or does not exist. -/
theorem NotificationCacher.trash_notification_path (self : NotificationCacher) (p : Path)
    (hp : p ≠ self.m_root_path)
    (hdisk : (self.disk.is_regular_file p = true ∧ p.extension = ".json" ∧
        p.filename ≠ ".settings.json") ∨ self.disk.exists p = false) :
    (self.trash p).2 = [] ∧
    (self.trash p).1.notification_cache =
      (NotificationFolder.updateExisting
        (NotificationCacher.markNotification self.m_run_id p.filename)
        (p.parent_path.relative self.m_root_path) self.notification_cache).1 ∧
    (self.trash p).1.emitted =
      self.emitted ++ (if self.disk.is_regular_file p then [Event.send2trash p] else []) ++
        (NotificationFolder.updateExisting
          (NotificationCacher.markNotification self.m_run_id p.filename)
          (p.parent_path.relative self.m_root_path) self.notification_cache).2 ++
        [Event.notificationsCached] := by
  rcases hdisk with ⟨hreg, hext, hname⟩ | hmissing
  · simp [NotificationCacher.trash, hp, hreg, hext, hname, NotificationCacher.emit,
      NotificationCacher.send2trash]
  · have hreg := FileSystem.is_regular_file_of_not_exists self.disk p hmissing
    simp [NotificationCacher.trash, hp, hreg, hmissing, NotificationCacher.emit]

/-! ## Lemmas: `trash` only sets trashed flags -/

theorem TrashedOnly.refl (t : NotificationFolder) : TrashedOnly t t :=
  fun _ _ => Or.inl rfl

theorem mapFind_map_trashed (key : String) (ns : List (String × CachedNotification)) :
    mapFind key (ns.map fun kv => (kv.1, { kv.2 with trashed := true })) =
      (mapFind key ns).map fun e => { e with trashed := true } := by
  induction ns with
  | nil => rfl
  | cons kv rest ih =>
    obtain ⟨k0, v0⟩ := kv
    by_cases h : k0 = key
    · simp [mapFind, h]
    · simp [mapFind, h, ih]

theorem NotificationCacher.mapFind_markAsTrashedAll (run_id part : String)
    (fs : List (String × NotificationFolder)) :
    mapFind part (NotificationCacher.markAsTrashedAll run_id fs).1 =
      (mapFind part fs).map fun c => (NotificationCacher.markAsTrashed run_id c).1 := by
  induction fs with
  | nil => simp [NotificationCacher.markAsTrashedAll, mapFind]
  | cons kv rest ih =>
    obtain ⟨k0, c0⟩ := kv
    by_cases h : k0 = part
    · simp [NotificationCacher.markAsTrashedAll, mapFind, h]
    · simp [NotificationCacher.markAsTrashedAll, mapFind, h, ih]

/-- After `markAsTrashed` every lookup gives the entry it gave before, with
`trashed = true`. -/
theorem NotificationCacher.entryAt_markAsTrashed (run_id key : String) :
    ∀ (parts : List String) (t : NotificationFolder),
      NotificationFolder.entryAt parts key (NotificationCacher.markAsTrashed run_id t).1 =
        (NotificationFolder.entryAt parts key t).map fun e => { e with trashed := true } := by
  intro parts
  induction parts with
  | nil =>
    intro t
    cases t with
    | mk fs ns p =>
      simp [NotificationCacher.markAsTrashed, mapFind_map_trashed]
  | cons part rest ih =>
    intro t
    cases t with
    | mk fs ns p =>
      simp only [NotificationCacher.markAsTrashed, NotificationFolder.entryAt_cons,
        NotificationCacher.mapFind_markAsTrashedAll]
      cases mapFind part fs with
      | none => rfl
      | some c => simpa using ih c

theorem TrashedOnly.markAsTrashed (run_id : String) (t : NotificationFolder) :
    TrashedOnly t (NotificationCacher.markAsTrashed run_id t).1 := by
  intro parts key
  rw [NotificationCacher.entryAt_markAsTrashed]
  cases h : NotificationFolder.entryAt parts key t with
  | none => exact Or.inl rfl
  | some e => exact Or.inr ⟨e, rfl, rfl⟩

theorem TrashedOnly.markNotification (run_id key : String) (t : NotificationFolder) :
    TrashedOnly t (NotificationCacher.markNotification run_id key t).1 := by
  intro parts key'
  cases t with
  | mk fs ns p =>
    cases hf : mapFind key ns with
    | none =>
      simp [NotificationCacher.markNotification, NotificationFolder.notifications, hf]
    | some n =>
      simp only [NotificationCacher.markNotification, NotificationFolder.notifications, hf,
        NotificationFolder.folders, NotificationFolder.path]
      cases parts with
      | nil =>
        simp only [NotificationFolder.entryAt_nil, mapFind_mapSet, hf, Option.map_some']
        by_cases hk : key' = key
        · subst hk
          exact Or.inr ⟨n, hf, by simp⟩
        · exact Or.inl (by simp [hk])
      | cons a r => exact Or.inl (by simp [NotificationFolder.entryAt_cons])

theorem TrashedOnly.markFolder (run_id name : String) (t : NotificationFolder) :
    TrashedOnly t (NotificationCacher.markFolder run_id name t).1 := by
  intro parts key
  cases t with
  | mk fs ns p =>
    cases hf : mapFind name fs with
    | none => simp [NotificationCacher.markFolder, NotificationFolder.folders, hf]
    | some c =>
      simp only [NotificationCacher.markFolder, NotificationFolder.folders, hf,
        NotificationFolder.notifications, NotificationFolder.path]
      cases parts with
      | nil => exact Or.inl (by simp)
      | cons a r =>
        simp only [NotificationFolder.entryAt_cons, mapFind_mapSet, hf, Option.map_some']
        by_cases ha : a = name
        · subst ha
          simp only [↓reduceIte, hf]
          exact TrashedOnly.markAsTrashed run_id c r key
        · exact Or.inl (by simp [ha])

theorem TrashedOnly.spawnChildren (name : String) (t : NotificationFolder) :
    TrashedOnly t (NotificationCacher.spawnChildren name t).1 := by
  unfold NotificationCacher.spawnChildren
  cases mapFind name t.folders <;> exact TrashedOnly.refl t

/-- The walk of `trash` keeps the property of its action. -/
theorem TrashedOnly.updateExisting {R : Type}
    (f : NotificationFolder → NotificationFolder × R)
    (hf : ∀ cur, TrashedOnly cur (f cur).1) :
    ∀ (parts : List String) (t : NotificationFolder),
      TrashedOnly t (NotificationFolder.updateExisting f parts t).1 := by
  intro parts
  induction parts with
  | nil => intro t; exact hf t
  | cons part rest ih =>
    intro t
    cases t with
    | mk fs ns p =>
      cases hc : mapFind part fs with
      | none =>
        simp only [NotificationFolder.updateExisting, hc]
        exact ih _
      | some c =>
        simp only [NotificationFolder.updateExisting, hc]
        intro parts' key
        cases parts' with
        | nil => exact Or.inl (by simp)
        | cons a r =>
          simp only [NotificationFolder.entryAt_cons, mapFind_mapSet, hc, Option.map_some']
          by_cases ha : a = part
          · subst ha
            simp only [↓reduceIte, hc]
            exact ih c r key
          · exact Or.inl (by simp [ha])

/-- Whatever the path and the disk, `trash` changes the tree by setting trashed flags
only. -/
theorem NotificationCacher.trash_trashedOnly (self : NotificationCacher) (p : Path) :
    TrashedOnly self.notification_cache (self.trash p).1.notification_cache := by
  unfold NotificationCacher.trash
  by_cases hp : p = self.m_root_path
  · simp only [hp, ↓reduceIte, NotificationCacher.emit]
    exact TrashedOnly.refl _
  · simp only [hp, ↓reduceIte]
    by_cases hreg : self.disk.is_regular_file p = true
    · simp only [hreg, ↓reduceIte]
      by_cases hj : p.extension = ".json" ∧ p.filename ≠ ".settings.json"
      · simp only [hj, ne_eq, not_false_eq_true, and_self, ↓reduceIte,
          NotificationCacher.emit, NotificationCacher.send2trash]
        exact TrashedOnly.updateExisting _ (TrashedOnly.markNotification _ _) _ _
      · simp only [hj, ↓reduceIte, NotificationCacher.emit]
        exact TrashedOnly.refl _
    · simp only [hreg, Bool.false_eq_true, ↓reduceIte]
      by_cases hex : self.disk.exists p = true
      · simp only [hex, Bool.not_true, Bool.false_eq_true, ↓reduceIte]
        by_cases hs : NotificationCacher.has_settings self.disk p = true
        · simp only [hs, Bool.not_true, Bool.false_eq_true, ↓reduceIte,
            NotificationCacher.emit]
          exact TrashedOnly.updateExisting _ (TrashedOnly.spawnChildren _) _ _
        · simp only [hs, Bool.not_false, ↓reduceIte, NotificationCacher.emit,
            NotificationCacher.send2trash]
          exact TrashedOnly.updateExisting _ (TrashedOnly.markFolder _ _) _ _
      · simp only [hex, Bool.not_false, ↓reduceIte, NotificationCacher.emit]
        exact TrashedOnly.updateExisting _ (TrashedOnly.markNotification _ _) _ _

/-- A trashed entry is still there, and trashed, in a tree that differs by set flags. -/
theorem TrashedOnly.keeps {t t' : NotificationFolder} (h : TrashedOnly t t')
    (parts : List String) (key : String) (e : CachedNotification)
    (he : NotificationFolder.entryAt parts key t = some e) (htr : e.trashed = true) :
    ∃ e', NotificationFolder.entryAt parts key t' = some e' ∧ e'.trashed = true := by
  rcases h parts key with heq | ⟨e0, h0, h1⟩
  · exact ⟨e, by rw [heq, he], htr⟩
  · exact ⟨_, h1, rfl⟩

/-- One turn of the scan leaves a lookup alone unless it stores a notification there. -/
theorem NotificationCacher.entryAt_cacheEntry (root_path : Path) (t : NotificationFolder)
    (entry : Path × FsNode) (parts : List String) (key : String)
    (h : ¬ entryWrites root_path entry parts key) :
    NotificationFolder.entryAt parts key (NotificationCacher.cacheEntry root_path t entry) =
      NotificationFolder.entryAt parts key t := by
  obtain ⟨q, node⟩ := entry
  cases node with
  | directory => rfl
  | file content modified =>
    simp only [NotificationCacher.cacheEntry]
    by_cases hj : q.extension = ".json" ∧ q.filename ≠ ".settings.json"
    · rw [if_pos hj]
      cases hparse : parseNotification content q modified with
      | none => exact NotificationFolder.entryAt_updateCreating_id _ _ _ _
      | some notif =>
        have hput : (fun current : NotificationFolder =>
            NotificationFolder.putNotification q.filename notif current) =
            NotificationFolder.putNotification q.filename notif := rfl
        simp only [hput]
        rw [NotificationFolder.entryAt_updateCreating_put]
        have hne : ¬ (parts = q.parent_path.relative root_path ∧ key = q.filename) := by
          rintro ⟨h1, h2⟩
          exact h ⟨content, modified, rfl, hj.1, hj.2, by simp [hparse], h1.symm, h2.symm⟩
        simp [hne]
    · rw [if_neg hj]

theorem NotificationCacher.entryAt_scan (root_path : Path) (parts : List String)
    (key : String) :
    ∀ (entries : List (Path × FsNode)) (t : NotificationFolder),
      (∀ entry ∈ entries, ¬ entryWrites root_path entry parts key) →
      NotificationFolder.entryAt parts key
          (entries.foldl (NotificationCacher.cacheEntry root_path) t) =
        NotificationFolder.entryAt parts key t := by
  intro entries
  induction entries with
  | nil => intro t _; rfl
  | cons entry rest ih =>
    intro t h
    rw [List.foldl_cons, ih _ (fun x hx => h x (List.mem_cons_of_mem _ hx)),
      NotificationCacher.entryAt_cacheEntry root_path t entry parts key
        (h entry (List.mem_cons_self _ _))]

/-- One operation that does not store a notification under the folder and key keeps a
trashed entry trashed. -/
theorem NotificationCacher.apply_keeps_trashed (self s' : NotificationCacher) (op : Op)
    (parts : List String) (key : String) (e : CachedNotification)
    (he : NotificationFolder.entryAt parts key self.notification_cache = some e)
    (htr : e.trashed = true) (hno : ¬ self.writesTo parts key op)
    (hs : self.apply op = some s') :
    ∃ e', NotificationFolder.entryAt parts key s'.notification_cache = some e' ∧
      e'.trashed = true := by
  cases op with
  | cache now n =>
    simp only [NotificationCacher.apply] at hs
    simp only [NotificationCacher.writesTo] at hno
    rw [(NotificationCacher.cache_tree self s' now n hs).1,
      NotificationFolder.entryAt_updateCreating_put]
    have hne : ¬ (parts = n.path.parent_path.relative self.notification_cache.path ∧
        key = n.path.filename) := fun ⟨h1, h2⟩ => hno ⟨h1.symm, h2.symm⟩
    exact ⟨e, by simp [hne, he], htr⟩
  | cacheExistingNotifications root_path =>
    simp only [NotificationCacher.apply, NotificationCacher.cacheExistingNotifications] at hs
    simp only [NotificationCacher.writesTo] at hno
    by_cases hd : self.disk.is_directory root_path = true
    · simp only [hd, Bool.not_true, Bool.false_eq_true, ↓reduceIte, Option.some.injEq] at hs
      subst hs
      refine ⟨e, ?_, htr⟩
      simp only
      rw [NotificationCacher.entryAt_scan root_path parts key _ _
        (fun entry hmem hw => hno ⟨entry, hmem, hw⟩)]
      exact he
    · simp [hd] at hs
  | trash path =>
    simp only [NotificationCacher.apply, Option.some.injEq] at hs
    subst hs
    exact (NotificationCacher.trash_trashedOnly self path).keeps parts key e he htr

/-- A sequence of `trash` operations always runs to its end. -/
theorem NotificationCacher.run_trash_returns :
    ∀ (paths : List Path) (self : NotificationCacher),
      ∃ s', self.run (paths.map Op.trash) = some s' := by
  intro paths
  induction paths with
  | nil => intro self; exact ⟨self, rfl⟩
  | cons p rest ih =>
    intro self
    obtain ⟨s', hs'⟩ := ih (self.trash p).1
    exact ⟨s', by simpa [NotificationCacher.run, NotificationCacher.apply] using hs'⟩


/-! ## Lemmas on `QString::arg` and the display unit -/

theorem argPieces_lits (l rest : List Char) (h : '%' ∉ l) :
    argPieces .normal (l ++ rest) = l.map ArgPiece.lit ++ argPieces .normal rest := by
  induction l with
  | nil => rfl
  | cons c cs ih =>
    have hc : ¬ c = '%' := fun e => h (e ▸ List.mem_cons_self _ _)
    have hcs : '%' ∉ cs := fun e => h (List.mem_cons_of_mem _ e)
    simp [argPieces, hc, ih hcs]

theorem markerNumbers_lits (l : List Char) (ps : List ArgPiece) :
    markerNumbers (l.map ArgPiece.lit ++ ps) = markerNumbers ps := by
  induction l with
  | nil => rfl
  | cons c cs ih => simpa [markerNumbers] using ih

theorem fillMarkers_lits (n : Nat) (a l : List Char) (ps : List ArgPiece) :
    fillMarkers n a (l.map ArgPiece.lit ++ ps) = l ++ fillMarkers n a ps := by
  induction l with
  | nil => rfl
  | cons c cs ih => simpa [fillMarkers] using ih

theorem ite_ne_of_ne {α : Type} {c : Prop} [Decidable c] {a b x : α} (ha : a ≠ x)
    (hb : b ≠ x) : (if c then a else b) ≠ x := by
  split <;> assumption

theorem Nat.digitChar_ne_percent (k : Nat) : Nat.digitChar k ≠ '%' := by
  unfold Nat.digitChar
  repeat (first | exact (by decide) | refine ite_ne_of_ne (by decide) ?_)

theorem Nat.not_mem_toDigitsCore (fuel : Nat) :
    ∀ (n : Nat) (ds : List Char), '%' ∉ ds → '%' ∉ Nat.toDigitsCore 10 fuel n ds := by
  induction fuel with
  | zero => intro n ds h; simpa [Nat.toDigitsCore] using h
  | succ fuel ih =>
    intro n ds h
    have hcons : '%' ∉ Nat.digitChar (n % 10) :: ds := by
      intro hm
      rcases List.mem_cons.mp hm with h1 | h1
      · exact Nat.digitChar_ne_percent _ h1.symm
      · exact h h1
    unfold Nat.toDigitsCore
    simp only
    split
    · exact hcons
    · exact ih _ _ hcons

theorem Nat.not_mem_toString (k : Nat) : '%' ∉ (toString k).toList := by
  show '%' ∉ Nat.toDigitsCore 10 (k + 1) k []
  exact Nat.not_mem_toDigitsCore _ _ _ (by simp)

/-- The summary of a unit of several notifications: the number, the fixed text, and the
application name of the last one. -/
theorem Notifier.displaySummary_coalesced (acc : List CachedNotification)
    (last : CachedNotification) (h : ¬ acc.length = 1) :
    Notifier.displaySummary acc last =
      toString acc.length ++ " new notifications from " ++ last.app_name := by
  have hfirst : QString_arg "%1 new notifications from %2" (toString acc.length) =
      String.mk ((toString acc.length).toList ++ " new notifications from %2".toList) := rfl
  have hp : argPieces .normal
      (String.mk ((toString acc.length).toList ++ " new notifications from %2".toList)).toList =
      (toString acc.length).toList.map ArgPiece.lit ++
        (" new notifications from ".toList.map ArgPiece.lit ++ [.marker 2 ['%', '2']]) := by
    show argPieces .normal
      ((toString acc.length).toList ++ " new notifications from %2".toList) = _
    rw [argPieces_lits _ _ (Nat.not_mem_toString _)]
    rfl
  have hm : (markerNumbers [ArgPiece.marker 2 ['%', '2']]).min? = some 2 := by decide
  unfold Notifier.displaySummary
  rw [if_neg h, hfirst]
  unfold QString_arg
  simp only [hp, markerNumbers_lits, fillMarkers_lits, hm]
  apply String.ext
  simp [fillMarkers, String.toList]


theorem Notifier.displayUnit_of_getLast (acc : List CachedNotification)
    (last : CachedNotification) (h : acc.getLast? = some last) :
    Notifier.displayUnit acc =
      some { last with
        summary := Notifier.displaySummary acc last
        body := Notifier.displayBody acc last } := by
  simp [Notifier.displayUnit, h]

theorem List.exists_getLast_of_length_pos {α : Type} (l : List α) (h : 0 < l.length) :
    ∃ a, l.getLast? = some a := by
  cases hl : l.getLast? with
  | none =>
    rw [List.getLast?_eq_none_iff] at hl
    subst hl
    simp at h
  | some a => exact ⟨a, rfl⟩

theorem Notifier.contentBlock_eq (n : CachedNotification) :
    Notifier.contentBlock n =
      if n.summary.isEmpty then n.body
      else if n.body.isEmpty then n.summary
      else n.summary ++ "\n" ++ n.body := by
  unfold Notifier.contentBlock
  by_cases h1 : n.summary.isEmpty <;> by_cases h2 : n.body.isEmpty <;>
    simp [h1, h2, String.intercalate, String.intercalate.go]
  exact ((String.isEmpty_iff _).mp h2).symm

theorem Notifier.combinedBody_pair (x y : CachedNotification) :
    Notifier.combinedBody [x, y] =
      Notifier.contentBlock x ++ "\n---\n" ++ Notifier.contentBlock y := rfl

theorem QString_length_append (a b : String) :
    QString_length (a ++ b) = QString_length a + QString_length b := by
  simp [QString_length, String.toList]

theorem QString_length_exLetters (n : Nat) (c : Char) (h : c.toNat < 65536) :
    QString_length (exLetters n c) = n := by
  simp [QString_length, exLetters, String.toList, utf16Units, h]

theorem exLetters_isEmpty (n : Nat) (c : Char) : (exLetters (n + 1) c).isEmpty = false := by
  rw [Bool.eq_false_iff, Ne, String.isEmpty_iff]
  intro h
  have := congrArg String.data h
  simp [exLetters, List.replicate_succ] at this

theorem getLast_append_dots (a : String) :
    (a ++ "...").toList.getLast? = some (Char.ofNat 46) := by
  have : (a ++ "...").toList = (a.toList ++ [Char.ofNat 46, Char.ofNat 46]) ++ [Char.ofNat 46] := by
    simp [String.toList]
  rw [this, List.getLast?_append]
  rfl

theorem getLast_append_exLetters (a : String) (n : Nat) (c : Char) :
    (a ++ exLetters (n + 1) c).toList.getLast? = some c := by
  have : (a ++ exLetters (n + 1) c).toList = (a.toList ++ List.replicate n c) ++ [c] := by
    simp [String.toList, exLetters, List.replicate_succ']
  rw [this, List.getLast?_append]
  rfl

theorem ne_of_getLast_ne (a b : String) (h : a.toList.getLast? ≠ b.toList.getLast?) : a ≠ b :=
  fun hab => h (by rw [hab])

theorem exThousand_accepted :
    Notifier.toDisplay exQuietNotifier 3 0 false exThousand = some exThousand := by
  rfl

theorem exLong_accepted :
    Notifier.toDisplay exQuietNotifier 3 0 false exLong = some exLong := by
  rfl

theorem exLongSingle_accepted :
    Notifier.toDisplay exQuietNotifier 3 0 false [exLongSingle] = some [exLongSingle] := by
  rfl

theorem exThousand_body :
    Notifier.combinedBody exThousand =
      ("s" ++ "\n" ++ exLetters 496 (Char.ofNat 97)) ++ "\n---\n" ++
        ("t" ++ "\n" ++ exLetters 495 (Char.ofNat 98)) := by
  have h1 : ("s" : String).isEmpty = false := by decide
  have h2 : ("t" : String).isEmpty = false := by decide
  simp [exThousand, Notifier.combinedBody_pair, Notifier.contentBlock_eq, exText,
    exLetters_isEmpty, h1, h2]

theorem exThousand_length : QString_length (Notifier.combinedBody exThousand) = 1000 := by
  have h1 : QString_length "s" = 1 := by decide
  have h2 : QString_length "\n" = 1 := by decide
  have h3 : QString_length "\n---\n" = 5 := by decide
  have h4 : QString_length "t" = 1 := by decide
  rw [exThousand_body]
  simp only [QString_length_append, h1, h2, h3, h4,
    QString_length_exLetters _ _ (by decide : (Char.ofNat 97).toNat < 65536),
    QString_length_exLetters _ _ (by decide : (Char.ofNat 98).toNat < 65536)]

theorem exLong_body :
    Notifier.combinedBody exLong =
      ("s" ++ "\n" ++ exLetters 1000 (Char.ofNat 97)) ++ "\n---\n" ++
        ("t" ++ "\n" ++ exLetters 998 (Char.ofNat 98)) := by
  have h1 : ("s" : String).isEmpty = false := by decide
  have h2 : ("t" : String).isEmpty = false := by decide
  simp [exLong, Notifier.combinedBody_pair, Notifier.contentBlock_eq, exText,
    exLetters_isEmpty, h1, h2]

theorem exLong_length : QString_length (Notifier.combinedBody exLong) = 2007 := by
  have h1 : QString_length "s" = 1 := by decide
  have h2 : QString_length "\n" = 1 := by decide
  have h3 : QString_length "\n---\n" = 5 := by decide
  have h4 : QString_length "t" = 1 := by decide
  rw [exLong_body]
  simp only [QString_length_append, h1, h2, h3, h4,
    QString_length_exLetters _ _ (by decide : (Char.ofNat 97).toNat < 65536),
    QString_length_exLetters _ _ (by decide : (Char.ofNat 98).toNat < 65536)]

theorem Notifier.notifyDisplay_body (self : Notifier) (fuel : Nat) (now : Int) (is_batch : Bool)
    (ns acc : List CachedNotification) (last : CachedNotification)
    (hacc : Notifier.toDisplay self fuel now is_batch ns = some acc)
    (hlast : acc.getLast? = some last) :
    Notifier.notifyDisplay self fuel now is_batch ns =
      some (some { last with
        summary := Notifier.displaySummary acc last
        body := Notifier.displayBody acc last }) := by
  simp only [Notifier.notifyDisplay, hacc, Option.map_some',
    Notifier.displayUnit_of_getLast acc last hlast]

theorem Notifier.truncateBody_short (body : String) (h : QString_length body < 1000) :
    Notifier.truncateBody body = body := by
  have : ¬ QString_length body ≥ 1000 := by omega
  simp [Notifier.truncateBody, this]

theorem Notifier.truncateBody_long (body : String) (h : 1000 ≤ QString_length body) :
    Notifier.truncateBody body = QString_left 997 body ++ "..." := by
  simp [Notifier.truncateBody, h]

theorem getLast_exLetters (n : Nat) (c : Char) :
    (exLetters (n + 1) c).toList.getLast? = some c := by
  have : (exLetters (n + 1) c).toList = List.replicate n c ++ [c] := by
    simp [String.toList, exLetters, List.replicate_succ']
  rw [this, List.getLast?_append]
  rfl

/-! ## Lemmas on the widget registry -/

theorem mapFind_eq_none_iff {K V : Type} [DecidableEq K] (k : K) (m : List (K × V)) :
    mapFind k m = none ↔ ∀ e ∈ m, e.1 ≠ k := by
  induction m with
  | nil => simp [mapFind]
  | cons e rest ih =>
    obtain ⟨k0, v0⟩ := e
    by_cases h0 : k0 = k
    · simp [mapFind, h0]
    · simp [mapFind, h0, ih]

theorem mem_mapInsert {K V : Type} [DecidableEq K] [LT K]
    [DecidableRel (fun a b : K => a < b)] (k : K) (v : V) (m : List (K × V)) (e : K × V)
    (h : e ∈ mapInsert k v m) : e = (k, v) ∨ e ∈ m := by
  induction m with
  | nil => simpa [mapInsert] using h
  | cons e0 rest ih =>
    obtain ⟨k0, v0⟩ := e0
    by_cases h0 : k0 = k
    · simp only [mapInsert, h0, if_true, List.mem_cons] at h
      rcases h with h | h
      · exact Or.inl h
      · exact Or.inr (List.mem_cons_of_mem _ h)
    · by_cases hlt : k < k0
      · simp only [mapInsert, h0, hlt, if_true, if_false, List.mem_cons] at h
        rcases h with h | h | h
        · exact Or.inl h
        · exact Or.inr (h ▸ List.mem_cons_self _ _)
        · exact Or.inr (List.mem_cons_of_mem _ h)
      · simp only [mapInsert, h0, hlt, if_false, List.mem_cons] at h
        rcases h with h | h
        · exact Or.inr (h ▸ List.mem_cons_self _ _)
        · rcases ih h with h | h
          · exact Or.inl h
          · exact Or.inr (List.mem_cons_of_mem _ h)

theorem mem_mapErase {K V : Type} [DecidableEq K] (k : K) (m : List (K × V)) (e : K × V) :
    e ∈ mapErase k m ↔ e ∈ m ∧ e.1 ≠ k := by
  simp [mapErase]

theorem mapFind_mapErase_self {K V : Type} [DecidableEq K] (k : K) (m : List (K × V)) :
    mapFind k (mapErase k m) = none := by
  rw [mapFind_eq_none_iff]
  intro e he
  exact ((mem_mapErase k m e).mp he).2

theorem heapData_mapSet (heap : List (Nat × NotificationWidget)) (h : Nat)
    (w w' : NotificationWidget) (hw : mapFind h heap = some w) (hd : w'.data = w.data)
    (h' : Nat) :
    (mapFind h' (mapSet h w' heap)).map (fun x => x.data) =
      (mapFind h' heap).map (fun x => x.data) := by
  rw [mapFind_mapSet]
  by_cases e : h' = h
  · subst e
    simp [hw, hd]
  · simp [e]

theorem filter_isClosed_append_displayed (l : List NotifierSignal) (n : Nat) (id : Int)
    (a s b : String) :
    (l ++ List.replicate n (NotifierSignal.notificationDisplayed id a s b)).filter
        NotifierSignal.isClosed = l.filter NotifierSignal.isClosed := by
  rw [List.filter_append]
  have : (List.replicate n (NotifierSignal.notificationDisplayed id a s b)).filter
      NotifierSignal.isClosed = [] := by
    rw [List.filter_eq_nil_iff]
    intro x hx
    rw [List.eq_of_mem_replicate hx]
    simp [NotifierSignal.isClosed]
  rw [this, List.append_nil]

/-- What `showOrQueueNotification` keeps: the registry gains at most the entry of the widget,
no widget changes its `data`, no closure event is emitted, the run id stays. -/
theorem NotifierState.showOrQueueNotification_keeps (s : NotifierState) (h : Nat)
    (w : NotificationWidget) (hw : mapFind h s.heap = some w) :
    ∃ s', s.showOrQueueNotification h = some s' ∧
      (∀ e ∈ s'.m_notification_widgets, e = (w.key, h) ∨ e ∈ s.m_notification_widgets) ∧
      (∀ h', (mapFind h' s'.heap).map (fun x => x.data) =
        (mapFind h' s.heap).map (fun x => x.data)) ∧
      s'.closures = s.closures ∧ s'.m_run_id = s.m_run_id ∧
      mapFind w.key s'.m_notification_widgets = some h := by
  unfold NotifierState.showOrQueueNotification
  simp only [hw]
  cases hs : s.screen with
  | none =>
    exact ⟨_, rfl, fun e he => mem_mapInsert _ _ _ e he, fun _ => rfl, rfl, rfl,
      by simp [mapFind_mapInsert]⟩
  | some g =>
    obtain ⟨gw, gh⟩ := g
    simp only
    split
    · exact ⟨_, rfl, fun e he => mem_mapInsert _ _ _ e he,
        fun h' => heapData_mapSet s.heap h w _ hw (by rfl) h', rfl, rfl,
        by simp [mapFind_mapInsert]⟩
    · split
      · refine ⟨_, rfl, fun e he => mem_mapInsert _ _ _ e he,
          fun h' => heapData_mapSet s.heap h w _ hw (by rfl) h', ?_, rfl,
          by simp [mapFind_mapInsert]⟩
        simp only [NotifierState.closures]
        exact filter_isClosed_append_displayed _ _ _ _ _ _
      · exact ⟨_, rfl, fun e he => mem_mapInsert _ _ _ e he, fun _ => rfl, rfl, rfl,
          by simp [mapFind_mapInsert]⟩

theorem key_of_data_eq (x y : Option NotificationWidget)
    (h : x.map (fun w => w.data) = y.map (fun w => w.data)) :
    x.map NotificationWidget.key = y.map NotificationWidget.key := by
  cases x <;> cases y <;> simp [NotificationWidget.key] at h ⊢
  simp [h]

theorem NotifierState.recomputeOffset_returns (s : NotifierState)
    (h : ∀ e ∈ s.m_notification_widgets, (mapFind e.2 s.heap).isSome) :
    ∃ offset, s.recomputeOffset = some offset := by
  unfold NotifierState.recomputeOffset
  generalize (0 : Int) = acc
  generalize s.m_notification_widgets = es at h
  induction es generalizing acc with
  | nil => exact ⟨acc, rfl⟩
  | cons e rest ih =>
    have he := h e (List.mem_cons_self _ _)
    obtain ⟨w, hw⟩ := Option.isSome_iff_exists.mp he
    simp only [List.foldlM_cons, hw, Option.map_some', Option.bind_eq_bind, Option.some_bind]
    exact ih _ (fun e' he' => h e' (List.mem_cons_of_mem _ he'))

/-- The loop that shows queued widgets returns, keeps the registry within the entries it
started from, changes no `data`, and emits no closure event. -/
theorem NotifierState.showQueued_keeps (b : NotifierState)
    (hb : ∀ e ∈ b.m_notification_widgets,
      (mapFind e.2 b.heap).map NotificationWidget.key = some e.1) :
    ∀ (es : List (WidgetKey × Nat)), (∀ e ∈ es, e ∈ b.m_notification_widgets) →
    ∀ st : NotifierState,
      (∀ e ∈ st.m_notification_widgets, e ∈ b.m_notification_widgets) →
      (∀ h', (mapFind h' st.heap).map (fun x => x.data) =
        (mapFind h' b.heap).map (fun x => x.data)) →
      st.closures = b.closures → st.m_run_id = b.m_run_id →
      ∃ st', es.foldlM NotifierState.showIfQueued st = some st' ∧
        (∀ e ∈ st'.m_notification_widgets, e ∈ b.m_notification_widgets) ∧
        (∀ h', (mapFind h' st'.heap).map (fun x => x.data) =
          (mapFind h' b.heap).map (fun x => x.data)) ∧
        st'.closures = b.closures ∧ st'.m_run_id = b.m_run_id := by
  intro es
  induction es with
  | nil => intro _ st h1 h2 h3 h4; exact ⟨st, rfl, h1, h2, h3, h4⟩
  | cons e rest ih =>
    intro hes st h1 h2 h3 h4
    have heb := hes e (List.mem_cons_self _ _)
    have hkey : (mapFind e.2 st.heap).map NotificationWidget.key = some e.1 := by
      rw [key_of_data_eq _ _ (h2 e.2)]
      exact hb e heb
    obtain ⟨w, hw, hwk⟩ := Option.map_eq_some'.mp hkey
    have hrest := fun e' he' => hes e' (List.mem_cons_of_mem _ he')
    simp only [List.foldlM_cons, Option.bind_eq_bind]
    by_cases hd : w.was_displayed
    · have : st.showIfQueued e = some st := by
        simp [NotifierState.showIfQueued, hw, hd]
      rw [this, Option.some_bind]
      exact ih hrest st h1 h2 h3 h4
    · obtain ⟨st1, hs1, k1, k2, k3, k4, _⟩ := st.showOrQueueNotification_keeps e.2 w hw
      have : st.showIfQueued e = some st1 := by
        simp [NotifierState.showIfQueued, hw, hd, hs1]
      rw [this, Option.some_bind]
      refine ih hrest st1 ?_ (fun h' => (k2 h').trans (h2 h')) (k3.trans h3) (k4.trans h4)
      intro e' he'
      rcases k1 e' he' with h | h
      · rw [h, hwk]
        exact heb
      · exact h1 e' h

/-- Closing a widget whose key is registered: the call returns, the key is no longer
registered, the closure events grow by exactly the one of this widget (by none when the
reason is closed-by-call), and the registry stays well formed. -/
theorem NotifierState.closeNotificationWidget_registered (s : NotifierState)
    (hwf : s.WellFormed) (h : Nat) (w : NotificationWidget) (h0 : Nat)
    (hw : mapFind h s.heap = some w)
    (hreg : mapFind w.key s.m_notification_widgets = some h0)
    (reason : NotificationCloseReason) (is_batch : Bool) :
    ∃ s', s.closeNotificationWidget h reason is_batch = some s' ∧
      mapFind w.key s'.m_notification_widgets = none ∧
      s'.closures = s.closures ++
        (if reason = .CLOSED_BY_CALL_TO_CLOSENOTIFICATION then []
         else [.notificationClosed w.data.id reason.toInt w.data.path.string
            (decide (w.data.notification_tray_run_id = s.m_run_id))]) ∧
      s'.WellFormed ∧ s'.m_run_id = s.m_run_id ∧
      (∀ h', (mapFind h' s'.heap).map (fun x => x.data) =
        (mapFind h' s.heap).map (fun x => x.data)) := by
  unfold NotifierState.closeNotificationWidget
  simp only [hw, hreg]
  generalize hcl : (if reason ≠ NotificationCloseReason.CLOSED_BY_CALL_TO_CLOSENOTIFICATION then
      [NotifierSignal.notificationClosed w.data.id reason.toInt w.data.path.string
        (decide (w.data.notification_tray_run_id = s.m_run_id))]
    else []) = closure
  generalize hs1 : ({ s with
      heap := mapSet h { w with visible := false, delete_later := true } s.heap
      emitted := s.emitted ++ closure
      m_notification_widgets := mapErase w.key s.m_notification_widgets } : NotifierState) = s1
  have hheap : ∀ h', (mapFind h' s1.heap).map (fun x => x.data) =
      (mapFind h' s.heap).map (fun x => x.data) := by
    intro h'
    rw [← hs1]
    exact heapData_mapSet s.heap h w _ hw (by rfl) h'
  have hent : ∀ e ∈ s1.m_notification_widgets,
      e ∈ s.m_notification_widgets ∧ e.1 ≠ w.key := by
    intro e he
    rw [← hs1] at he
    exact (mem_mapErase _ _ _).mp he
  have hlive : ∀ e ∈ s1.m_notification_widgets,
      (mapFind e.2 s1.heap).map NotificationWidget.key = some e.1 := by
    intro e he
    rw [key_of_data_eq _ _ (hheap e.2)]
    exact hwf e (hent e he).1
  obtain ⟨offset, hoff⟩ := s1.recomputeOffset_returns (fun e he => by
    have := hlive e he
    cases hx : mapFind e.2 s1.heap with
    | none => rw [hx] at this; simp at this
    | some _ => rfl)
  simp only [hoff]
  obtain ⟨s', hs', k1, k2, k3, k4⟩ :=
    NotifierState.showQueued_keeps { s1 with m_offset := offset } hlive
      s1.m_notification_widgets (fun _ he => he) { s1 with m_offset := offset }
      (fun _ he => he) (fun _ => rfl) rfl rfl
  have hrun : s1.m_run_id = s.m_run_id := by rw [← hs1]
  have hclo : s1.closures = s.closures ++ closure.filter NotifierSignal.isClosed := by
    rw [← hs1]
    simp only [NotifierState.closures, List.filter_append]
  subst hs1
  refine ⟨s', hs', ?_, ?_, ?_, ?_, fun h' => (k2 h').trans (hheap h')⟩
  · rw [mapFind_eq_none_iff]
    intro e he
    exact (hent e (k1 e he)).2
  · rw [k3]
    refine hclo.trans ?_
    rw [← hcl]
    simp only [NotifierState.closures, List.filter_append]
    by_cases hr : reason = NotificationCloseReason.CLOSED_BY_CALL_TO_CLOSENOTIFICATION
    · simp [hr]
    · simp [hr, NotifierSignal.isClosed]
  · intro e he
    rw [key_of_data_eq _ _ (k2 e.2)]
    exact hlive e (k1 e he)
  · exact k4.trans hrun

theorem NotifierState.closeNotificationWidget_unregistered (s : NotifierState) (h : Nat)
    (w : NotificationWidget) (hw : mapFind h s.heap = some w)
    (hreg : mapFind w.key s.m_notification_widgets = none)
    (reason : NotificationCloseReason) (is_batch : Bool) :
    s.closeNotificationWidget h reason is_batch = some s := by
  simp [NotifierState.closeNotificationWidget, hw, hreg]

theorem NotifierState.closeNotification_unregistered (s : NotifierState) (id : Int)
    (hreg : mapFind ⟨s.m_run_id, id⟩ s.m_notification_widgets = none)
    (reason : NotificationCloseReason) (is_batch : Bool) :
    s.closeNotification id reason is_batch = some s := by
  simp [NotifierState.closeNotification, hreg]

theorem mem_of_mapFind {K V : Type} [DecidableEq K] (k : K) (v : V) (m : List (K × V))
    (h : mapFind k m = some v) : (k, v) ∈ m := by
  induction m with
  | nil => simp [mapFind] at h
  | cons e rest ih =>
    obtain ⟨k0, v0⟩ := e
    by_cases h0 : k0 = k
    · simp [mapFind, h0] at h
      simp [h0, h]
    · simp [mapFind, h0] at h
      exact List.mem_cons_of_mem _ (ih h)

/-- Registering a widget keeps the registry well formed. -/
theorem NotifierState.showOrQueueNotification_wellFormed (s : NotifierState)
    (hwf : s.WellFormed) (h : Nat) (w : NotificationWidget) (hw : mapFind h s.heap = some w) :
    ∃ s', s.showOrQueueNotification h = some s' ∧ s'.WellFormed := by
  obtain ⟨s', hs', k1, k2, _, _, _⟩ := s.showOrQueueNotification_keeps h w hw
  refine ⟨s', hs', ?_⟩
  intro e he
  rw [key_of_data_eq _ _ (k2 e.2)]
  rcases k1 e he with h1 | h1
  · rw [h1]
    simp [hw]
  · exact hwf e h1

/-! ## Lemmas on rebuilding a key-ordered map -/

theorem mapInsert_append_of_lt {K V : Type} [DecidableEq K] [LT K]
    [DecidableRel (fun a b : K => a < b)] (hirr : ∀ a : K, ¬ a < a)
    (hasym : ∀ a b : K, a < b → ¬ b < a) (k : K) (v : V) :
    ∀ m : List (K × V), (∀ e ∈ m, e.1 < k) → mapInsert k v m = m ++ [(k, v)] := by
  intro m
  induction m with
  | nil => intro _; rfl
  | cons e rest ih =>
    intro h
    obtain ⟨k0, v0⟩ := e
    have h0 : k0 < k := h (k0, v0) (List.mem_cons_self _ _)
    have hne : ¬ k0 = k := fun e => hirr k (e ▸ h0)
    have hnlt : ¬ k < k0 := hasym k0 k h0
    simp [mapInsert, hne, hnlt, ih (fun e he => h e (List.mem_cons_of_mem _ he))]

/-- A fold that inserts the image of every entry of a key-ordered list into an accumulator
with smaller keys appends the images in order. -/
theorem foldl_mapInsert_sorted {K V W : Type} [DecidableEq K] [LT K]
    [DecidableRel (fun a b : K => a < b)] (hirr : ∀ a : K, ¬ a < a)
    (hasym : ∀ a b : K, a < b → ¬ b < a) (g : V → W)
    (step : List (K × W) → K × V → List (K × W)) :
    ∀ (m : List (K × V)) (acc : List (K × W)),
      (∀ acc' kv, kv ∈ m → step acc' kv = mapInsert kv.1 (g kv.2) acc') →
      (acc.map Prod.fst ++ m.map Prod.fst).Pairwise (fun a b => a < b) →
      m.foldl step acc = acc ++ m.map (fun kv => (kv.1, g kv.2)) := by
  intro m
  induction m with
  | nil => intro acc _ _; simp
  | cons e rest ih =>
    intro acc hstep hs
    have hlt : ∀ x ∈ acc, x.1 < e.1 := by
      intro x hx
      rw [List.pairwise_append] at hs
      exact hs.2.2 x.1 (List.mem_map_of_mem _ hx) e.1 (by simp)
    rw [List.foldl_cons, hstep acc e (List.mem_cons_self _ _),
      mapInsert_append_of_lt hirr hasym e.1 (g e.2) acc hlt,
      ih _ (fun acc' kv hkv => hstep acc' kv (List.mem_cons_of_mem _ hkv))]
    · simp
    · simpa using hs

theorem String.lt_irrefl_key (a : String) : ¬ a < a := lt_irrefl a

theorem String.lt_asymm_key (a b : String) (h : a < b) : ¬ b < a := lt_asymm h

theorem actionsObject_sorted (actions : List (String × String))
    (hs : (actions.map Prod.fst).Pairwise (fun a b => a < b)) :
    actionsObject actions = actions.map (fun kv => (kv.1, JsonValue.string kv.2)) := by
  unfold actionsObject
  rw [foldl_mapInsert_sorted String.lt_irrefl_key String.lt_asymm_key JsonValue.string _
    actions [] (fun _ _ _ => rfl) (by simpa using hs)]
  simp

/-- The hint is a string, an `int` of 32 bits, or a `bool`. -/
theorem hintsObject_sorted (hints : NotificationHints)
    (hs : (hints.map Prod.fst).Pairwise (fun a b => a < b))
    (hv : ∀ kv ∈ hints, kv.2 ≠ QVariant.other) :
    hintsObject hints =
      hints.map (fun kv => (kv.1,
        match kv.2 with
        | .string s => JsonValue.string s
        | .int i => JsonValue.number i
        | .bool b => JsonValue.bool b
        | .other => JsonValue.null)) := by
  unfold hintsObject
  rw [foldl_mapInsert_sorted String.lt_irrefl_key String.lt_asymm_key
    (fun v : QVariant => match v with
      | .string s => JsonValue.string s
      | .int i => JsonValue.number i
      | .bool b => JsonValue.bool b
      | .other => JsonValue.null) _ hints [] ?_ (by simpa using hs)]
  · simp
  · intro acc kv hkv
    have := hv kv hkv
    cases h : kv.2 <;> simp_all

theorem parseActions_record (obj : List (String × JsonValue)) (actions : List (String × String))
    (hobj : mapFind "actions" obj = some (.object (actionsObject actions)))
    (hs : (actions.map Prod.fst).Pairwise (fun a b => a < b)) :
    parseActions obj = actions := by
  unfold parseActions
  rw [hobj, actionsObject_sorted actions hs]
  simp only
  refine (foldl_mapInsert_sorted String.lt_irrefl_key String.lt_asymm_key
    (fun j : JsonValue => match j with | .string s => s | _ => "") _ _ []
    (fun _ _ _ => rfl) ?_).trans ?_
  · simpa [List.map_map, Function.comp_def] using hs
  · simp [List.map_map, Function.comp_def]

theorem parseHints_record (obj : List (String × JsonValue)) (hints : NotificationHints)
    (hobj : mapFind "hints" obj = some (.object (hintsObject hints)))
    (hs : (hints.map Prod.fst).Pairwise (fun a b => a < b))
    (hv : ∀ kv ∈ hints, (∃ s, kv.2 = .string s) ∨
      (∃ i, kv.2 = .int i ∧ -2147483648 ≤ i ∧ i ≤ 2147483647) ∨ (∃ b, kv.2 = .bool b)) :
    parseHints obj = hints := by
  have hno : ∀ kv ∈ hints, kv.2 ≠ QVariant.other := by
    intro kv hkv
    rcases hv kv hkv with ⟨s, h⟩ | ⟨i, h, _⟩ | ⟨b, h⟩ <;> simp [h]
  unfold parseHints
  rw [hobj, hintsObject_sorted hints hs hno]
  simp only
  refine (foldl_mapInsert_sorted String.lt_irrefl_key String.lt_asymm_key
    (fun j : JsonValue => match j with
      | .string s => QVariant.string s
      | .number n => QVariant.int n
      | .bool b => QVariant.bool b
      | _ => QVariant.other) _ _ [] ?_ ?_).trans ?_
  rotate_left
  · simpa [List.map_map, Function.comp_def] using hs
  · simp only [List.nil_append, List.map_map, Function.comp_def]
    conv_rhs => rw [← List.map_id hints]
    apply List.map_congr_left
    intro kv hkv
    rcases hv kv hkv with ⟨s, h⟩ | ⟨i, h, _⟩ | ⟨b, h⟩ <;>
      · obtain ⟨k, v⟩ := kv
        simp only at h
        subst h
        rfl
  · intro acc kv hkv
    obtain ⟨kv0, hkv0, rfl⟩ := List.mem_map.mp hkv
    rcases hv kv0 hkv0 with ⟨s, h⟩ | ⟨i, h, h1, h2⟩ | ⟨b, h⟩
    · simp [h]
    · simp [h, h1, h2]
    · simp [h]

/-- The members of the record, looked up by name. -/
theorem notificationRecord_members (n : CachedNotification) :
    ∃ obj, notificationRecord n = .object obj ∧
      mapFind "app_name" obj = some (.string n.app_name) ∧
      mapFind "summary" obj = some (.string n.summary) ∧
      mapFind "body" obj = some (.string n.body) ∧
      mapFind "app_icon" obj = some (.string n.app_icon) ∧
      mapFind "id" obj = some (.number n.id) ∧
      mapFind "replaces_id" obj = some (.number n.replaces_id) ∧
      mapFind "expire_timeout" obj = some (.number n.expire_timeout) ∧
      mapFind "notification_tray_run_id" obj = some (.string n.notification_tray_run_id) ∧
      mapFind "actions" obj = some (.object (actionsObject n.actions)) ∧
      mapFind "hints" obj = some (.object (hintsObject n.hints)) := by
  refine ⟨_, rfl, ?_, ?_, ?_, ?_, ?_, ?_, ?_, ?_, ?_, ?_⟩ <;>
    simp [List.foldl, mapFind_mapInsert]

/-! ## Lemmas on `slugify` -/

theorem Paths.mem_collapseRuns (c : Char) :
    ∀ (l : List Char) (b : Bool), c ∈ Paths.collapseRuns b l →
      c = '-' ∨ (c ∈ l ∧ Paths.isSeparator c = false) := by
  intro l
  induction l with
  | nil => intro b h; simp [Paths.collapseRuns] at h
  | cons x xs ih =>
    intro b h
    unfold Paths.collapseRuns at h
    by_cases hx : Paths.isSeparator x = true
    · rw [if_pos hx] at h
      cases b with
      | true =>
        simp only [if_true] at h
        rcases ih true h with h1 | ⟨h1, h2⟩
        · exact Or.inl h1
        · exact Or.inr ⟨List.mem_cons_of_mem _ h1, h2⟩
      | false =>
        simp only [Bool.false_eq_true, if_false, List.mem_cons] at h
        rcases h with h | h
        · exact Or.inl h
        · rcases ih true h with h1 | ⟨h1, h2⟩
          · exact Or.inl h1
          · exact Or.inr ⟨List.mem_cons_of_mem _ h1, h2⟩
    · rw [if_neg hx] at h
      simp only [List.mem_cons] at h
      rcases h with h | h
      · exact Or.inr ⟨h ▸ List.mem_cons_self _ _, by rw [h]; simpa using hx⟩
      · rcases ih false h with h1 | ⟨h1, h2⟩
        · exact Or.inl h1
        · exact Or.inr ⟨List.mem_cons_of_mem _ h1, h2⟩

/-- The output of `collapseRuns` has no two hyphens in a row, and does not start with a
hyphen when the character before belongs to a run. -/
theorem Paths.chain_collapseRuns :
    ∀ (l : List Char) (b : Bool),
      List.Chain' (fun x y : Char => ¬ (x = '-' ∧ y = '-')) (Paths.collapseRuns b l) ∧
      (b = true → (Paths.collapseRuns b l).head? ≠ some '-') := by
  intro l
  induction l with
  | nil => intro b; simp [Paths.collapseRuns]
  | cons x xs ih =>
    intro b
    unfold Paths.collapseRuns
    by_cases hx : Paths.isSeparator x = true
    · rw [if_pos hx]
      cases b with
      | true =>
        simp only [if_true]
        exact ⟨(ih true).1, fun _ => (ih true).2 rfl⟩
      | false =>
        simp only [Bool.false_eq_true, if_false, false_implies, and_true]
        rw [List.chain'_cons']
        refine ⟨?_, (ih true).1⟩
        intro y hy hxy
        exact (ih true).2 rfl (by rw [Option.mem_def] at hy; rw [hy, hxy.2])
    · rw [if_neg hx]
      have hne : x ≠ '-' := by
        intro h
        apply hx
        rw [h]
        decide
      refine ⟨?_, fun _ => by simpa using hne⟩
      rw [List.chain'_cons']
      exact ⟨fun y _ hxy => hne hxy.1, (ih false).1⟩

theorem chain_of_isInfix {R : Char → Char → Prop} {l₁ l : List Char}
    (hc : List.Chain' R l) (h : l₁ <:+: l) : List.Chain' R l₁ := by
  obtain ⟨s, t, rfl⟩ := h
  exact hc.left_of_append.right_of_append

/-- The list without the edge characters at both ends is a contiguous part of the list, and
neither starts nor ends with an edge character. -/
theorem Paths.strip_facts (l : List Char) :
    ((l.dropWhile Paths.isEdge).reverse.dropWhile Paths.isEdge).reverse <:+: l ∧
    (∀ c, (((l.dropWhile Paths.isEdge).reverse.dropWhile Paths.isEdge).reverse).head? = some c →
      Paths.isEdge c = false) ∧
    (∀ c, (((l.dropWhile Paths.isEdge).reverse.dropWhile Paths.isEdge).reverse).getLast? =
      some c → Paths.isEdge c = false) := by
  generalize hX : l.dropWhile Paths.isEdge = X
  have hXl : X <:+ l := hX ▸ List.dropWhile_suffix _
  have hXh : ∀ c, X.head? = some c → Paths.isEdge c = false := by
    intro c hc
    have := List.head?_dropWhile_not Paths.isEdge l
    rw [hX, hc] at this
    simpa using this
  generalize hY : X.reverse.dropWhile Paths.isEdge = Y
  have hYs : Y <:+ X.reverse := hY ▸ List.dropWhile_suffix _
  have hYh : ∀ c, Y.head? = some c → Paths.isEdge c = false := by
    intro c hc
    have := List.head?_dropWhile_not Paths.isEdge X.reverse
    rw [hY, hc] at this
    simpa using this
  have hpre : Y.reverse <+: X := by
    have := List.reverse_prefix.mpr hYs
    rwa [List.reverse_reverse] at this
  refine ⟨hpre.isInfix.trans hXl.isInfix, ?_, ?_⟩
  · intro c hc
    apply hXh
    obtain ⟨t, ht⟩ := hpre
    cases hS : Y.reverse with
    | nil => rw [hS] at hc; simp at hc
    | cons a as =>
      rw [hS] at hc ht
      simp only [List.head?_cons, Option.some.injEq] at hc
      rw [← ht, ← hc]
      rfl
  · intro c hc
    rw [List.getLast?_reverse] at hc
    exact hYh c hc

/-- The shape of every slug. -/
theorem Paths.slugify_facts (nfkd : Char → List Char) (text : String) :
    Paths.slugify nfkd text ≠ "" ∧
      (∀ c ∈ (Paths.slugify nfkd text).toList, isSlugChar c = true) ∧
      (∀ c, (Paths.slugify nfkd text).toList.head? = some c → c ≠ '-' ∧ c ≠ '_') ∧
      (∀ c, (Paths.slugify nfkd text).toList.getLast? = some c → c ≠ '-' ∧ c ≠ '_') ∧
      ¬ (['-', '-'] <:+: (Paths.slugify nfkd text).toList) ∧
      '/' ∉ (Paths.slugify nfkd text).toList ∧ '.' ∉ (Paths.slugify nfkd text).toList := by
  have hslug : ∀ c : Char, isSlugChar c = true → c ≠ '/' ∧ c ≠ '.' := by
    intro c hc
    constructor <;> (intro h; rw [h] at hc; revert hc; decide)
  have hedge : ∀ c : Char, Paths.isEdge c = false → c ≠ '-' ∧ c ≠ '_' := by
    intro c hc
    constructor <;> (intro h; rw [h] at hc; revert hc; decide)
  unfold Paths.slugify
  simp only
  generalize hk : List.filter Paths.isKept
    (List.map Char.toLower
      (List.filter (fun c => decide (c.toNat < 128)) (text.toList.flatMap nfkd))) = kept
  have hkept : ∀ c ∈ kept, Paths.isKept c = true := by
    intro c hc
    rw [← hk] at hc
    exact (List.mem_filter.mp hc).2
  obtain ⟨hinf, hhead, hlast⟩ := Paths.strip_facts (Paths.collapseRuns false kept)
  generalize hS : ((List.dropWhile Paths.isEdge (Paths.collapseRuns false kept)).reverse.dropWhile
    Paths.isEdge).reverse = stripped at hinf hhead hlast
  have hmem : ∀ c ∈ stripped, isSlugChar c = true := by
    intro c hc
    rcases Paths.mem_collapseRuns c kept false (hinf.subset hc) with h | ⟨h1, h2⟩
    · rw [h]; decide
    · have hk1 := hkept c h1
      simp only [Paths.isKept, Paths.isSeparator, isSlugChar, Bool.or_eq_true,
        Bool.or_eq_false_iff, decide_eq_true_eq, decide_eq_false_iff_not] at hk1 h2 ⊢
      rcases hk1 with ((((h | h) | h) | h) | h)
      · exact Or.inl (Or.inl (Or.inl h))
      · exact Or.inl (Or.inl (Or.inr h))
      · exact Or.inl (Or.inr h)
      · exact absurd h (by simpa using h2.2)
      · exact absurd h h2.1
  have hchain : List.Chain' (fun x y : Char => ¬ (x = '-' ∧ y = '-')) stripped :=
    chain_of_isInfix (Paths.chain_collapseRuns kept false).1 hinf
  by_cases hemp : stripped.isEmpty = true
  · rw [if_pos hemp]
    decide
  · rw [if_neg hemp]
    have hto : (String.mk stripped).toList = stripped := rfl
    rw [hto]
    refine ⟨?_, hmem, fun c hc => hedge c (hhead c hc), fun c hc => hedge c (hlast c hc),
      ?_, fun h => (hslug _ (hmem _ h)).1 rfl, fun h => (hslug _ (hmem _ h)).2 rfl⟩
    · intro h
      apply hemp
      have := congrArg String.data h
      simp only at this
      rw [this]
      rfl
    · intro h
      have := chain_of_isInfix hchain h
      rw [List.chain'_pair] at this
      exact this ⟨rfl, rfl⟩

/-! ## `slugify` and the slug in the words of the specification -/

theorem toNat_lt_of_mem {c : Char} :
    ∀ l : List Char, (∀ d ∈ l, d.toNat < 128) → c ∈ l → c.toNat < 128 :=
  fun _ h hc => h c hc

theorem lookup_none_of_keys {c : Char} :
    ∀ l : List (Char × Char), (∀ p ∈ l, p.1 ≠ c) → l.lookup c = none := by
  intro l
  induction l with
  | nil => intro _; rfl
  | cons p rest ih =>
    intro h
    obtain ⟨k, v⟩ := p
    have hk : k ≠ c := h (k, v) (List.mem_cons_self _ _)
    have hck : (c == k) = false := by
      rw [beq_eq_false_iff_ne]
      exact fun e => hk e.symm
    rw [List.lookup_cons, hck]
    exact ih fun p hp => h p (List.mem_cons_of_mem _ hp)

/-- The two descriptions of the separators agree. -/
theorem Paths.isSeparator_eq (c : Char) : Paths.isSeparator c = specSeparator c := by
  by_cases h : c.toNat < 128
  · have hall : ∀ n : Fin 128,
        Paths.isSeparator (Char.ofNat n) = specSeparator (Char.ofNat n) := by decide
    have := hall ⟨c.toNat, h⟩
    simpa [Char.ofNat_toNat] using this
  · have h1 : c ≠ '-' := by
      intro e
      rw [e] at h
      exact h (by decide)
    have h2 : c ∉ specWhitespace := fun hm =>
      h (toNat_lt_of_mem specWhitespace (by decide) hm)
    have h3 : Paths.isSpace c = false := by
      simp only [Paths.isSpace, Bool.or_eq_false_iff, Bool.and_eq_false_imp, decide_eq_false_iff_not,
        decide_eq_true_eq]
      omega
    simp [Paths.isSeparator, specSeparator, h1, h2, h3]

/-- What the filter for ASCII, the lower-casing and the first replacement leave of one
character is what the specification leaves of it. -/
theorem Paths.char_fate (c : Char) :
    (if c.toNat < 128 then (if Paths.isKept c.toLower then some c.toLower else none)
      else none) =
      (if specSeparator c then some c else specLetter c) := by
  by_cases h : c.toNat < 128
  · have hall : ∀ n : Fin 128,
        (if (Char.ofNat n).toNat < 128 then
          (if Paths.isKept (Char.ofNat n).toLower then some (Char.ofNat n).toLower else none)
          else none) =
        (if specSeparator (Char.ofNat n) then some (Char.ofNat n)
          else specLetter (Char.ofNat n)) := by decide
    have := hall ⟨c.toNat, h⟩
    simpa [Char.ofNat_toNat] using this
  · have hs : specSeparator c = false := by
      rw [← Paths.isSeparator_eq]
      have h1 : c ≠ '-' := by
        intro e
        rw [e] at h
        exact h (by decide)
      have h3 : Paths.isSpace c = false := by
        simp only [Paths.isSpace, Bool.or_eq_false_iff, Bool.and_eq_false_imp,
          decide_eq_false_iff_not, decide_eq_true_eq]
        omega
      simp [Paths.isSeparator, h1, h3]
    have hl : specLowerCase.lookup c = none := by
      apply lookup_none_of_keys
      intro p hp e
      have hk : ∀ q ∈ specLowerCase, q.1.toNat < 128 := by decide
      have := hk p hp
      rw [e] at this
      exact h this
    have hm : c ∉ "abcdefghijklmnopqrstuvwxyz0123456789_".toList := fun hm =>
      h (toNat_lt_of_mem _ (by decide) hm)
    rw [if_neg h, hs]
    simp only [Bool.false_eq_true, if_false, specLetter, hl]
    rw [if_neg hm]

theorem Paths.kept_eq_filterMap (l : List Char) :
    ((l.filter fun c => decide (c.toNat < 128)).map Char.toLower).filter Paths.isKept =
      l.filterMap fun c =>
        if c.toNat < 128 then (if Paths.isKept c.toLower then some c.toLower else none)
        else none := by
  induction l with
  | nil => rfl
  | cons c cs ih =>
    by_cases h : c.toNat < 128
    · by_cases hk : Paths.isKept c.toLower = true
      · simp [List.filter_cons, List.filterMap_cons, h, hk, ih]
      · simp [List.filter_cons, List.filterMap_cons, h, hk, ih]
    · simp [List.filter_cons, List.filterMap_cons, h, ih]

/-- The characters left before the runs of separators are replaced are those the
specification leaves. -/
theorem Paths.kept_eq_specKept (nfkd : Char → List Char) (text : String) :
    (((text.toList.flatMap nfkd).filter fun c => decide (c.toNat < 128)).map
      Char.toLower).filter Paths.isKept = specKept nfkd text := by
  rw [Paths.kept_eq_filterMap, specKept]
  congr 1
  funext c
  exact Paths.char_fate c

theorem piecesText_single (b : Bool) (p : List Char) : piecesText b [p] = p := rfl

theorem piecesText_cons (b : Bool) (p q : List Char) (rest : List (List Char)) :
    piecesText b (p :: q :: rest) =
      p ++ (if p = [] ∧ b = true then [] else ['-']) ++ piecesText true (q :: rest) := rfl

/-- The replacement of the runs of separators, from the pieces between the separators. -/
theorem Paths.collapseRuns_eq_piecesText :
    ∀ (l : List Char) (b : Bool),
      Paths.collapseRuns b l = piecesText b (l.splitOnP Paths.isSeparator) := by
  intro l
  induction l with
  | nil => intro b; simp [Paths.collapseRuns, List.splitOnP_nil, piecesText]
  | cons c cs ih =>
    intro b
    obtain ⟨q, rest, hq⟩ : ∃ q rest, cs.splitOnP Paths.isSeparator = q :: rest := by
      cases h : cs.splitOnP Paths.isSeparator with
      | nil => exact absurd h (List.splitOnP_ne_nil _ _)
      | cons q rest => exact ⟨q, rest, rfl⟩
    rw [List.splitOnP_cons]
    by_cases hc : Paths.isSeparator c = true
    · rw [if_pos hc, hq, piecesText_cons, ← hq, ← ih true, Paths.collapseRuns, if_pos hc]
      cases b <;> simp
    · rw [if_neg hc, hq, Paths.collapseRuns, if_neg hc, ih false, hq]
      cases rest with
      | nil => simp [List.modifyHead, piecesText]
      | cons r rest2 =>
        simp [List.modifyHead, piecesText_cons]

theorem intercalate_hyphen_cons (p q : List Char) (rest : List (List Char)) :
    List.intercalate ['-'] (p :: q :: rest) =
      p ++ '-' :: List.intercalate ['-'] (q :: rest) := by
  simp [List.intercalate, List.intersperse]

/-- The text of the pieces is the words with one hyphen between two of them, with at most
one hyphen before and at most one hyphen after. -/
theorem piecesText_words :
    ∀ ps : List (List Char),
      ((ps.filter fun w => decide (w ≠ [])) = [] → piecesText true ps = []) ∧
      (∃ post, (post = [] ∨ post = ['-']) ∧
        piecesText true ps =
          List.intercalate ['-'] (ps.filter fun w => decide (w ≠ [])) ++ post) ∧
      (∃ pre post, (pre = [] ∨ pre = ['-']) ∧ (post = [] ∨ post = ['-']) ∧
        piecesText false ps =
          pre ++ List.intercalate ['-'] (ps.filter fun w => decide (w ≠ [])) ++ post) := by
  intro ps
  induction ps with
  | nil => exact ⟨fun _ => rfl, ⟨[], Or.inl rfl, rfl⟩, ⟨[], [], Or.inl rfl, Or.inl rfl, rfl⟩⟩
  | cons p rest ih =>
    cases rest with
    | nil =>
      by_cases hp : p = []
      · subst hp
        exact ⟨fun _ => rfl, ⟨[], Or.inl rfl, rfl⟩, ⟨[], [], Or.inl rfl, Or.inl rfl, rfl⟩⟩
      · refine ⟨fun h => ?_, ⟨[], Or.inl rfl, ?_⟩, ⟨[], [], Or.inl rfl, Or.inl rfl, ?_⟩⟩
        · simp [List.filter_cons, hp] at h
        · simp [List.filter_cons, hp, piecesText, List.intercalate]
        · simp [List.filter_cons, hp, piecesText, List.intercalate]
    | cons q rest2 =>
      obtain ⟨hnil, ⟨post, hpost, htrue⟩, _⟩ := ih
      by_cases hp : p = []
      · subst hp
        have hf : (([] : List Char) :: q :: rest2).filter (fun w => decide (w ≠ [])) =
            (q :: rest2).filter fun w => decide (w ≠ []) := by
          simp [List.filter_cons]
        rw [hf]
        refine ⟨fun h => ?_, ⟨post, hpost, ?_⟩, ⟨['-'], post, Or.inr rfl, hpost, ?_⟩⟩
        · rw [piecesText_cons, hnil h]
          simp
        · rw [piecesText_cons, htrue]
          simp
        · rw [piecesText_cons, htrue]
          simp
      · have hf : (p :: q :: rest2).filter (fun w => decide (w ≠ [])) =
            p :: (q :: rest2).filter fun w => decide (w ≠ []) := by
          simp [List.filter_cons, hp]
        rw [hf]
        have hkey : ∀ b, ∃ post2, (post2 = [] ∨ post2 = ['-']) ∧
            piecesText b (p :: q :: rest2) =
              List.intercalate ['-'] (p :: (q :: rest2).filter fun w => decide (w ≠ [])) ++
                post2 := by
          intro b
          rw [piecesText_cons]
          cases hw : (q :: rest2).filter (fun w => decide (w ≠ [])) with
          | nil =>
            refine ⟨['-'], Or.inr rfl, ?_⟩
            rw [hnil hw]
            simp [hp, List.intercalate]
          | cons w ws =>
            refine ⟨post, hpost, ?_⟩
            rw [htrue, hw, intercalate_hyphen_cons]
            simp [hp]
        refine ⟨fun h => by simp at h, hkey true, ?_⟩
        obtain ⟨post2, hpost2, h2⟩ := hkey false
        exact ⟨[], post2, Or.inl rfl, hpost2, by rw [h2]; simp⟩

theorem dropWhile_isEdge_append_hyphen (x : List Char) :
    (x ++ ['-']).dropWhile Paths.isEdge =
      if x.dropWhile Paths.isEdge = [] then [] else x.dropWhile Paths.isEdge ++ ['-'] := by
  induction x with
  | nil => simp [List.dropWhile, Paths.isEdge]
  | cons a x ih =>
    by_cases ha : Paths.isEdge a = true
    · simp only [List.cons_append, List.dropWhile_cons, ha, if_true]
      exact ih
    · simp [List.dropWhile_cons, ha]

/-- The hyphens that the replacement leaves at the two ends are removed with the other
hyphens and underscores there. -/
theorem strip_hyphens (pre x post : List Char) (hpre : pre = [] ∨ pre = ['-'])
    (hpost : post = [] ∨ post = ['-']) :
    (((pre ++ x ++ post).dropWhile Paths.isEdge).reverse.dropWhile Paths.isEdge).reverse =
      ((x.dropWhile Paths.isEdge).reverse.dropWhile Paths.isEdge).reverse := by
  have h1 : (pre ++ x ++ post).dropWhile Paths.isEdge = (x ++ post).dropWhile Paths.isEdge := by
    rcases hpre with rfl | rfl
    · simp
    · simp [List.dropWhile_cons, Paths.isEdge]
  rw [h1]
  rcases hpost with rfl | rfl
  · simp
  · rw [dropWhile_isEdge_append_hyphen]
    by_cases he : x.dropWhile Paths.isEdge = []
    · simp [he]
    · rw [if_neg he]
      simp [List.dropWhile_cons, Paths.isEdge]

theorem specTrim_eq (l : List Char) :
    specTrim l = ((l.dropWhile Paths.isEdge).reverse.dropWhile Paths.isEdge).reverse := by
  have h : (fun c : Char => decide (c = '-' ∨ c = '_')) = Paths.isEdge := by
    funext c
    simp [Paths.isEdge, Bool.decide_or]
  rw [specTrim, h]

/-- `slugify` computes the slug of the specification. -/
theorem Paths.slugify_eq_specSlugify (nfkd : Char → List Char) (text : String) :
    Paths.slugify nfkd text = specSlugify nfkd text := by
  have hsep : Paths.isSeparator = specSeparator := funext Paths.isSeparator_eq
  obtain ⟨_, _, pre, post, hpre, hpost, hfalse⟩ :=
    piecesText_words ((specKept nfkd text).splitOnP specSeparator)
  have hstrip :
      (((Paths.collapseRuns false (specKept nfkd text)).dropWhile Paths.isEdge).reverse.dropWhile
        Paths.isEdge).reverse =
        specTrim (List.intercalate ['-'] (specWords (specKept nfkd text))) := by
    rw [Paths.collapseRuns_eq_piecesText, hsep, hfalse, strip_hyphens _ _ _ hpre hpost,
      specTrim_eq, specWords]
  unfold Paths.slugify specSlugify
  simp only [Paths.kept_eq_specKept, hstrip, List.isEmpty_iff]

theorem specWords_separators :
    ∀ l : List Char, (∀ c ∈ l, specSeparator c = true) → specWords l = [] := by
  intro l
  induction l with
  | nil => intro _; simp [specWords, List.splitOnP_nil]
  | cons c cs ih =>
    intro h
    have hc := h c (List.mem_cons_self _ _)
    have hcs := ih fun d hd => h d (List.mem_cons_of_mem _ hd)
    rw [specWords] at hcs ⊢
    rw [List.splitOnP_cons, if_pos hc, List.filter_cons]
    simpa using hcs

/-- A text without a letter, a digit or an underscore has the slug `unnamed`. -/
theorem Paths.slugify_unnamed (nfkd : Char → List Char) (text : String)
    (h : ∀ c ∈ text.toList.flatMap nfkd, specLetter c = none) :
    Paths.slugify nfkd text = "unnamed" := by
  have hk : ∀ c ∈ specKept nfkd text, specSeparator c = true := by
    intro c hc
    rw [specKept, List.mem_filterMap] at hc
    obtain ⟨d, hd, hdc⟩ := hc
    by_cases hs : specSeparator d = true
    · rw [if_pos hs] at hdc
      cases hdc
      exact hs
    · rw [if_neg hs, h d hd] at hdc
      cases hdc
  rw [Paths.slugify_eq_specSlugify, specSlugify, specWords_separators _ hk]
  rfl

/-! ## Lemmas on `getOutputPath` -/

theorem QString_arg_first (run_id : String) :
    QString_arg "%1-%2" run_id = String.mk (run_id.toList ++ ['-', '%', '2']) := by
  rfl

/-- The file name without suffix: for a run id without `%`, the two calls of `arg` give run
id, hyphen, id. -/
theorem QString_arg_name (run_id id_str : String) (h : '%' ∉ run_id.toList) :
    QString_arg (QString_arg "%1-%2" run_id) id_str = run_id ++ "-" ++ id_str := by
  rw [QString_arg_first]
  unfold QString_arg
  have hp : argPieces .normal (String.mk (run_id.toList ++ ['-', '%', '2'])).toList =
      run_id.toList.map ArgPiece.lit ++ [.lit '-', .marker 2 ['%', '2']] := by
    show argPieces .normal (run_id.toList ++ ['-', '%', '2']) = _
    rw [argPieces_lits _ _ h]
    rfl
  simp only [hp, markerNumbers_lits, fillMarkers_lits]
  have hm : (markerNumbers [ArgPiece.lit '-', ArgPiece.marker 2 ['%', '2']]).min? = some 2 := by
    decide
  simp only [hm]
  apply String.ext
  simp [fillMarkers, String.toList]

theorem splitElements_no_slash (l cur : List Char) (h : '/' ∉ l) :
    splitElements cur l = [cur ++ l] := by
  induction l generalizing cur with
  | nil => simp [splitElements]
  | cons c cs ih =>
    have hc : ¬ c = '/' := fun e => h (e ▸ List.mem_cons_self _ _)
    have hcs : '/' ∉ cs := fun e => h (List.mem_cons_of_mem _ e)
    simp [splitElements, hc, ih _ hcs]

/-- A non-empty text without separator is a path of one element. -/
theorem Path.parse_single (s : String) (h : '/' ∉ s.toList) (hne : s ≠ "") :
    Path.parse s = ⟨false, [s]⟩ := by
  have hhead : ¬ s.toList.head? = some '/' := by
    intro e
    exact h (List.mem_of_mem_head? e)
  have hmk : String.mk s.toList = s := rfl
  have hne' : ¬ s = "" := hne
  have hne2 : ¬ "" = s := fun e => hne e.symm
  unfold Path.parse
  simp only [splitElements_no_slash _ _ h, List.nil_append, List.map_cons, List.map_nil, hmk]
  simp [hne', hne2, List.filter]
  exact hhead

theorem Path.slash_single (p : Path) (s : String) (h : '/' ∉ s.toList) (hne : s ≠ "")
    (hp : p.comps.getLast? ≠ some "") :
    p.slash s = { p with comps := p.comps ++ [s] } := by
  simp [Path.slash, Path.parse_single s h hne, Path.append, hp]

/-- The directories checked for settings are the root followed by a non-empty beginning of
the extra elements. -/
theorem Paths.dirsToCheck_returns (root_path : Path) :
    ∀ (fuel : Nat) (extra : List String), extra.length < fuel →
      ∃ dirs, Paths.dirsToCheck fuel root_path
          { root_path with comps := root_path.comps ++ extra } = some dirs ∧
        ∀ d ∈ dirs, ∃ init, init ≠ [] ∧ init <+: extra ∧
          d = { root_path with comps := root_path.comps ++ init } := by
  intro fuel
  induction fuel with
  | zero => intro extra h; omega
  | succ fuel ih =>
    intro extra h
    unfold Paths.dirsToCheck
    split
    · rename_i hc
      rcases List.eq_nil_or_concat extra with he | ⟨init, x, he⟩
      · exfalso
        apply hc.1
        rw [he]
        simp
      · have hlen : init.length < fuel := by
          rw [he] at h
          simp at h
          omega
        obtain ⟨dirs, hd, hmem⟩ := ih init hlen
        have hpar : Path.parent_path { root_path with comps := root_path.comps ++ extra } =
            { root_path with comps := root_path.comps ++ init } := by
          rw [he]
          simp [Path.parent_path, ← List.append_assoc]
        rw [hpar, hd]
        refine ⟨_, rfl, ?_⟩
        intro d hdm
        rcases List.mem_cons.mp hdm with hdm | hdm
        · refine ⟨extra, ?_, List.prefix_refl _, hdm⟩
          rw [he]
          simp
        · obtain ⟨i2, h1, h2, h3⟩ := hmem d hdm
          refine ⟨i2, h1, h2.trans ?_, h3⟩
          rw [he, List.concat_eq_append]
          exact List.prefix_append _ _
    · exact ⟨[], rfl, by simp⟩

/-- The loop over the directories ends without a custom directory when no call of
`fs::exists` throws and no settings file defines a callback. -/
theorem Paths.checkDirs_none (env : Paths.Env) (notification : Notification)
    (hno : ∀ dir, Paths.settingsCallback env.disk dir = none) :
    ∀ dirs : List Path,
      (∀ d ∈ dirs, env.disk.nameTooLong (d.slash ".settings.json") = false) →
      Paths.checkDirs env notification dirs = .returned none := by
  intro dirs
  induction dirs with
  | nil => intro _; rfl
  | cons d rest ih =>
    intro h
    have hd := h d (List.mem_cons_self _ _)
    have hc : Paths.customOutdir env d notification = none := by
      simp [Paths.customOutdir, hno d]
    simp only [Paths.checkDirs, hd, Bool.false_eq_true, if_false, hc]
    exact ih (fun x hx => h x (List.mem_cons_of_mem _ hx))

theorem Paths.getCustomOutputDir_default (env : Paths.Env) (fuel : Nat)
    (root_path : Path) (extra : List String) (notification : Notification)
    (hfuel : extra.length < fuel)
    (hno : ∀ dir, Paths.settingsCallback env.disk dir = none)
    (hstat : ∀ init, init ≠ [] → init <+: extra →
      env.disk.nameTooLong
        (({ root_path with comps := root_path.comps ++ init } : Path).slash ".settings.json") =
          false) :
    Paths.getCustomOutputDir env fuel root_path
        { root_path with comps := root_path.comps ++ extra } notification =
      some (.returned { root_path with comps := root_path.comps ++ extra }) := by
  obtain ⟨dirs, hd, hmem⟩ := Paths.dirsToCheck_returns root_path fuel extra hfuel
  have hnone := Paths.checkDirs_none env notification hno dirs.reverse (by
    intro d hdm
    obtain ⟨init, h1, h2, h3⟩ := hmem d (List.mem_reverse.mp hdm)
    rw [h3]
    exact hstat init h1 h2)
  simp [Paths.getCustomOutputDir, hd, hnone]

/-- The default output directory is the root followed by the two slugs. -/
theorem Paths.default_outdir_eq (nfkd : Char → List Char) (root_path : Path) (a s : String)
    (hroot : root_path.comps.getLast? ≠ some "") :
    (root_path.slash (Paths.slugify nfkd a)).slash (Paths.slugify nfkd s) =
      { root_path with
        comps := root_path.comps ++ [Paths.slugify nfkd a, Paths.slugify nfkd s] } := by
  obtain ⟨ha1, _, _, _, _, ha2, _⟩ := Paths.slugify_facts nfkd a
  obtain ⟨hs1, _, _, _, _, hs2, _⟩ := Paths.slugify_facts nfkd s
  rw [Path.slash_single root_path _ ha2 ha1 hroot]
  rw [Path.slash_single _ _ hs2 hs1 (by
    have hne : ¬ Paths.slugify nfkd a = "" := ha1
    simp [hne])]
  simp

theorem stdString_length_append (a b : String) :
    stdString_length (a ++ b) = stdString_length a + stdString_length b := by
  simp [stdString_length, String.toList]

theorem stdString_length_exLetters (n : Nat) (c : Char) (h : c.toNat < 128) :
    stdString_length (exLetters n c) = n := by
  simp [stdString_length, exLetters, String.toList, utf8Units, h]

theorem exEnvAt_no_callback (root dir : Path) :
    Paths.settingsCallback (exEnvAt root).disk dir = none := by
  unfold Paths.settingsCallback
  by_cases h : root = dir.slash ".settings.json"
  · simp [exEnvAt, mapFind, h]
  · simp [exEnvAt, mapFind, h]

theorem exLetters_ne_empty (n : Nat) (c : Char) : exLetters (n + 1) c ≠ "" := by
  intro h
  have := congrArg String.data h
  simp [exLetters, List.replicate_succ] at this

theorem not_mem_exLetters (n : Nat) (c d : Char) (h : d ≠ c) : d ∉ (exLetters n c).toList := by
  intro hm
  exact h (List.eq_of_mem_replicate hm)

theorem exLetters_append_ne_empty (n : Nat) (c : Char) (t : String) :
    exLetters (n + 1) c ++ t ≠ "" := by
  intro h
  have := congrArg String.data h
  rw [String.data_append] at this
  simp [exLetters, List.replicate_succ] at this

/-! ## The text of a path -/

theorem stdString_length_eq_bytesOf (s : String) : stdString_length s = bytesOf s.data := rfl

theorem bytesOf_append (a b : List Char) : bytesOf (a ++ b) = bytesOf a + bytesOf b := by
  simp [bytesOf]

theorem bytesOf_cons (c : Char) (l : List Char) : bytesOf (c :: l) = utf8Units c + bytesOf l := by
  simp [bytesOf]

theorem bytesOf_exLetters (n : Nat) (c : Char) (h : c.toNat < 128) :
    bytesOf (exLetters n c).data = n :=
  stdString_length_exLetters n c h

theorem intercalate_go_data (sep : String) :
    ∀ (l : List String) (acc : String),
      (String.intercalate.go acc sep l).data =
        acc.data ++ (l.map fun x => sep.data ++ x.data).flatten := by
  intro l
  induction l with
  | nil => intro acc; simp [String.intercalate.go]
  | cons x rest ih =>
    intro acc
    simp [String.intercalate.go, ih, String.data_append, List.append_assoc]

theorem joinElements_cons (x : List Char) (rest : List (List Char)) :
    joinElements (x :: rest) = x ++ (rest.map fun y => '/' :: y).flatten := by
  induction rest generalizing x with
  | nil => simp [joinElements]
  | cons y rest ih => simp [joinElements, ih y]

/-- The text of a path: a separator for the root directory, then the elements with
separators between them. -/
theorem Path.string_data (absolute : Bool) (cs : List String) :
    (⟨absolute, cs⟩ : Path).string.data =
      (if absolute then ['/'] else []) ++ joinElements (cs.map String.data) := by
  have hj : ("/".intercalate cs).data = joinElements (cs.map String.data) := by
    cases cs with
    | nil => rfl
    | cons a rest =>
      have hsep : ("/" : String).data = ['/'] := rfl
      simp only [String.intercalate, intercalate_go_data, List.map_cons, joinElements_cons,
        List.map_map, hsep]
      rfl
  unfold Path.string
  rw [String.data_append, hj]
  cases absolute <;> rfl

theorem joinElements_append_last (xs : List (List Char)) (f : List Char) (h : xs ≠ []) :
    joinElements (xs ++ [f]) = joinElements xs ++ '/' :: f := by
  cases xs with
  | nil => exact absurd rfl h
  | cons x rest =>
    simp [joinElements_cons, List.append_assoc]

theorem bytesOf_joinElements (xs : List (List Char)) :
    bytesOf (joinElements xs) = (xs.map bytesOf).sum + (xs.length - 1) := by
  cases xs with
  | nil => rfl
  | cons x rest =>
    rw [joinElements_cons, bytesOf_append]
    have : ∀ l : List (List Char), bytesOf (l.map fun y => '/' :: y).flatten =
        (l.map bytesOf).sum + l.length := by
      intro l
      induction l with
      | nil => rfl
      | cons y r ih =>
        have hu : utf8Units '/' = 1 := by decide
        simp only [List.map_cons, List.flatten_cons, bytesOf_append, bytesOf_cons, ih, hu,
          List.sum_cons, List.length_cons]
        omega
    rw [this]
    simp only [List.map_cons, List.sum_cons, List.length_cons, Nat.add_sub_cancel]
    omega

/-- The number of bytes of the text of a path. -/
theorem Path.string_bytes (absolute : Bool) (cs : List String) :
    stdString_length (⟨absolute, cs⟩ : Path).string =
      (if absolute then 1 else 0) + (cs.map stdString_length).sum + (cs.length - 1) := by
  rw [stdString_length_eq_bytesOf, Path.string_data, bytesOf_append, bytesOf_joinElements]
  have hm : (cs.map String.data).map bytesOf = cs.map stdString_length := by
    simp [List.map_map, Function.comp_def, stdString_length_eq_bytesOf]
  rw [hm, List.length_map]
  cases absolute
  · simp [bytesOf]
  · have hu : bytesOf ['/'] = 1 := by decide
    simp only [if_true, hu]
    omega

theorem splitElements_append_slash (w : List Char) (h : '/' ∉ w) :
    ∀ (cur rest : List Char),
      splitElements cur (w ++ '/' :: rest) = (cur ++ w) :: splitElements [] rest := by
  induction w with
  | nil => intro cur rest; simp [splitElements]
  | cons c cs ih =>
    intro cur rest
    have hc : ¬ c = '/' := fun e => h (e ▸ List.mem_cons_self _ _)
    have hcs : '/' ∉ cs := fun e => h (List.mem_cons_of_mem _ e)
    simp [splitElements, hc, ih hcs]

theorem splitElements_joinElements :
    ∀ (xs : List (List Char)) (x : List Char), (∀ y ∈ x :: xs, '/' ∉ y) →
      ∀ cur, splitElements cur (joinElements (x :: xs)) = (cur ++ x) :: xs := by
  intro xs
  induction xs with
  | nil =>
    intro x h cur
    simp only [joinElements]
    exact splitElements_no_slash x cur (h x (List.mem_cons_self _ _))
  | cons y rest ih =>
    intro x h cur
    simp only [joinElements]
    rw [splitElements_append_slash x (h x (List.mem_cons_self _ _)),
      ih y (fun z hz => h z (List.mem_cons_of_mem _ hz)) []]
    simp

/-- Reading the text of an absolute path whose elements are non-empty and hold no separator
gives the path back. -/
theorem Path.parse_string (cs : List String) (hne : cs ≠ [])
    (h : ∀ c ∈ cs, c ≠ "" ∧ '/' ∉ c.data) :
    Path.parse (⟨true, cs⟩ : Path).string = ⟨true, cs⟩ := by
  obtain ⟨c0, rest, rfl⟩ : ∃ c0 rest, cs = c0 :: rest := by
    cases cs with
    | nil => exact absurd rfl hne
    | cons a b => exact ⟨a, b, rfl⟩
  have hdata := Path.string_data true (c0 :: rest)
  simp only [if_true, List.map_cons, List.singleton_append] at hdata
  have hsplit : splitElements [] ((⟨true, c0 :: rest⟩ : Path).string.data) =
      [] :: c0.data :: rest.map String.data := by
    rw [hdata]
    simp only [splitElements, if_true]
    rw [splitElements_joinElements (rest.map String.data) c0.data (by
      intro y hy
      rcases List.mem_cons.mp hy with hy | hy
      · rw [hy]; exact (h c0 (List.mem_cons_self _ _)).2
      · obtain ⟨c, hc, rfl⟩ := List.mem_map.mp hy
        exact (h c (List.mem_cons_of_mem _ hc)).2) []]
    simp
  have hmk : ∀ l : List String, (l.map String.data).map String.mk = l := by
    intro l
    induction l with
    | nil => rfl
    | cons a b ih => simp [ih]
  have hfil : (c0 :: rest).filter (fun t => decide (t ≠ "")) = c0 :: rest :=
    List.filter_eq_self.mpr (fun c hc => by simpa using (h c hc).1)
  have hlast : (c0 :: rest).getLast? ≠ some "" := by
    intro hl
    have := List.mem_of_getLast?_eq_some hl
    exact (h "" this).1 rfl
  have hhead : (⟨true, c0 :: rest⟩ : Path).string.data.head? = some '/' := by
    rw [hdata]
    rfl
  unfold Path.parse
  have ht : (⟨true, c0 :: rest⟩ : Path).string.toList = (⟨true, c0 :: rest⟩ : Path).string.data :=
    rfl
  simp only [ht, hsplit, hhead, List.map_cons, hmk]
  have hemp : String.mk [] = "" := rfl
  have hc0 : String.mk c0.data = c0 := rfl
  simp only [hemp, hc0]
  have hparts : ("" :: c0 :: rest).filter (fun t => decide (t ≠ "")) = c0 :: rest := by
    rw [List.filter_cons]
    simp only [ne_eq, not_true_eq_false, decide_False, Bool.false_eq_true, if_false]
    exact hfil
  have hl2 : ("" :: c0 :: rest).getLast? = (c0 :: rest).getLast? := by
    simp [List.getLast?_cons_cons]
  simp only [hparts, hl2]
  simp [hlast]

/-! ## `fs::exists` and names that are too long -/

theorem FileSystem.lookupTooLong_short (disk : FileSystem) (absolute : Bool) :
    ∀ (rest done : List String), (∀ c ∈ rest, stdString_length c ≤ 255) →
      disk.lookupTooLong absolute done rest = false := by
  intro rest
  induction rest with
  | nil => intro done _; rfl
  | cons c cs ih =>
    intro done h
    have hc : ¬ stdString_length c > 255 := by
      have := h c (List.mem_cons_self _ _)
      omega
    simp only [FileSystem.lookupTooLong, hc, if_false]
    split
    · exact ih _ (fun x hx => h x (List.mem_cons_of_mem _ hx))
    · rfl

/-- `fs::exists` does not throw for a path whose elements have at most 255 bytes and whose
text has at most 4095 bytes, whatever the disk holds. -/
theorem FileSystem.nameTooLong_short (disk : FileSystem) (p : Path)
    (hel : ∀ c ∈ p.comps, stdString_length c ≤ 255)
    (hlen : stdString_length p.string ≤ 4095) : disk.nameTooLong p = false := by
  unfold FileSystem.nameTooLong
  have h1 : ¬ stdString_length p.string > 4095 := by omega
  simp [h1, FileSystem.lookupTooLong_short disk p.absolute p.comps [] hel]

/-! ## `std::string::substr` -/

theorem substrChars_append (a : List Char) :
    ∀ (n : Nat) (b : List Char), bytesOf a ≤ n →
      substrChars n (a ++ b) = a ++ substrChars (n - bytesOf a) b := by
  induction a with
  | nil => intro n b _; simp [bytesOf]
  | cons c cs ih =>
    intro n b h
    rw [bytesOf_cons] at h
    have hc : utf8Units c ≤ n := by omega
    rw [List.cons_append, substrChars, if_pos hc, ih (n - utf8Units c) b (by omega),
      bytesOf_cons, List.cons_append, Nat.sub_sub]

/-! ## `getOutputPath` without callbacks -/

/-- The result of `getOutputPath` when no settings file defines a callback, `fs::exists`
does not throw on the two settings files it is called for, and the run id has no `%`: the
default path, with the name cut to 250 characters and the text of the path cut to 4091
bytes. -/
theorem Paths.getOutputPath_no_callback (env : Paths.Env) (fuel : Nat) (root_path : Path)
    (n : Notification) (hfuel : 3 ≤ fuel) (hroot : root_path.comps.getLast? ≠ some "")
    (hno : ∀ dir, Paths.settingsCallback env.disk dir = none)
    (hstat1 : env.disk.nameTooLong
      (({ root_path with
        comps := root_path.comps ++ [Paths.slugify env.nfkd n.app_name] } : Path).slash
          ".settings.json") = false)
    (hstat2 : env.disk.nameTooLong
      (({ root_path with
        comps := root_path.comps ++
          [Paths.slugify env.nfkd n.app_name, Paths.slugify env.nfkd n.summary] } : Path).slash
          ".settings.json") = false)
    (hpct : '%' ∉ n.notification_tray_run_id.toList) (name : String)
    (hname : name =
      if QString_length (n.notification_tray_run_id ++ "-" ++ QString_number n.id) > 255 - 5
      then QString_left (255 - 5) (n.notification_tray_run_id ++ "-" ++ QString_number n.id)
      else n.notification_tray_run_id ++ "-" ++ QString_number n.id)
    (out : Path)
    (hout : out = ({ root_path with
        comps := root_path.comps ++
          [Paths.slugify env.nfkd n.app_name, Paths.slugify env.nfkd n.summary] } : Path).slash
          (name ++ ".json")) :
    Paths.getOutputPath env fuel root_path n =
      some (.returned
        (if stdString_length out.string > 4096 - 5 then
          Path.parse (stdString_substr (4096 - 5) out.string ++ ".json")
        else out)) := by
  have hdef := Paths.default_outdir_eq env.nfkd root_path n.app_name n.summary hroot
  have hcustom := Paths.getCustomOutputDir_default env fuel root_path
    [Paths.slugify env.nfkd n.app_name, Paths.slugify env.nfkd n.summary] n
    (by simp; omega) hno (by
      intro init h1 h2
      have hcases : init = [Paths.slugify env.nfkd n.app_name] ∨
          init = [Paths.slugify env.nfkd n.app_name, Paths.slugify env.nfkd n.summary] := by
        obtain ⟨t, ht⟩ := h2
        match init, h1, ht with
        | [a], _, ht =>
          simp only [List.singleton_append, List.cons.injEq] at ht
          exact Or.inl (by rw [ht.1])
        | [a, b], _, ht =>
          simp only [List.cons_append, List.cons.injEq] at ht
          exact Or.inr (by rw [ht.1, ht.2.1])
        | a :: b :: c :: r, _, ht =>
          simp at ht
      rcases hcases with h | h
      · rw [h]; exact hstat1
      · rw [h]; exact hstat2)
  unfold Paths.getOutputPath
  simp only [QString_arg_name _ _ hpct]
  rw [hdef, hcustom, hout, hname]
  rfl

/-- From a path `m` elements below the stop mark the walk makes at most `m` lookups. -/
theorem ancestorLookups_le {V : Type} (find : Path → Option V) (stop : Path) :
    ∀ (m : Nat) (p : Path) (fuel : Nat), Path.atOrBelow stop p →
      p.comps.length = stop.comps.length + m → m + 1 ≤ fuel →
      ∃ k, ancestorLookups find stop fuel p = some k ∧ k ≤ m := by
  intro m
  induction m with
  | zero =>
    intro p fuel hb hlen hfuel
    have hp : p = stop := Path.eq_of_atOrBelow_of_length hb (by omega)
    obtain ⟨f, rfl⟩ : ∃ f, fuel = f + 1 := ⟨fuel - 1, by omega⟩
    exact ⟨0, by simp [ancestorLookups, hp], le_refl _⟩
  | succ m ih =>
    intro p fuel hb hlen hfuel
    obtain ⟨f, rfl⟩ : ∃ f, fuel = f + 1 := ⟨fuel - 1, by omega⟩
    have hne : p ≠ stop := by
      rintro rfl
      omega
    cases hf : find p with
    | some v => exact ⟨1, by simp [ancestorLookups, hne, hf], by omega⟩
    | none =>
      have hb' : Path.atOrBelow stop p.parent_path := Path.atOrBelow_parent hb (by omega)
      have hlen' : p.parent_path.comps.length = stop.comps.length + m := by
        rw [Path.parent_path_comps_length]; omega
      obtain ⟨k, hk, hle⟩ := ih p.parent_path f hb' hlen' (by omega)
      exact ⟨k + 1, by simp [ancestorLookups, hne, hf, hk], by omega⟩

/-- The walk returns exactly when its counting form does. -/
theorem ancestorWalk_isSome_iff {V : Type} (find : Path → Option V) (dflt : V) (stop : Path) :
    ∀ (fuel : Nat) (p : Path),
      (ancestorWalk find dflt stop fuel p).isSome = (ancestorLookups find stop fuel p).isSome := by
  intro fuel
  induction fuel with
  | zero => intro p; rfl
  | succ f ih =>
    intro p
    by_cases hp : p = stop
    · simp [ancestorWalk, ancestorLookups, hp]
    · cases hf : find p with
      | some v => simp [ancestorWalk, ancestorLookups, hp, hf]
      | none => simp [ancestorWalk, ancestorLookups, hp, hf, ih]

theorem Path.atOrBelow_parent_of_root {root folder : Path} (h : Path.atOrBelow root folder) :
    Path.atOrBelow root.parent_path folder :=
  ⟨h.1, (List.dropLast_prefix root.comps).trans h.2⟩

/-- The distance of a folder at or below the root from the parent of the root is at most its
depth plus one. -/
theorem depth_to_stop {root folder : Path} (h : Path.atOrBelow root folder) :
    folder.comps.length =
        root.parent_path.comps.length + (folder.comps.length - root.parent_path.comps.length) ∧
      folder.comps.length - root.parent_path.comps.length ≤ depthBelow root folder + 1 := by
  have hle : root.comps.length ≤ folder.comps.length := h.2.length_le
  have hpl : root.parent_path.comps.length = root.comps.length - 1 :=
    Path.parent_path_comps_length root
  unfold depthBelow
  omega

/-- Outside the root the backoff walk does not return either: root `/a/b`, folder `/x`,
empty cache. -/
theorem getNotificationBackoffMinutes_outside_root (fuel : Nat) :
    Settings.getNotificationBackoffMinutes fuel ⟨true, ["a", "b"]⟩ ⟨true, ["x"]⟩ [] = none := by
  have hroot : ∀ f, Settings.getNotificationBackoffMinutes f ⟨true, ["a", "b"]⟩ ⟨true, []⟩ [] =
      none := by
    intro f
    induction f with
    | zero => rfl
    | succ f ih =>
      simp only [Settings.getNotificationBackoffMinutes, Path.parent_path, List.dropLast, mapFind]
      simpa [Path.parent_path] using ih
  cases fuel with
  | zero => rfl
  | succ f =>
    simp only [Settings.getNotificationBackoffMinutes, Path.parent_path, List.dropLast, mapFind]
    simpa [Path.parent_path] using hroot f

/-! ## Lemmas on `m_last_notified` -/

theorem Notifier.lastNotifiedAt_recordNotified (m : List (Path × Int)) (n : CachedNotification)
    (f : Path) :
    Notifier.lastNotifiedAt (Notifier.recordNotified m n) f =
      if n.path.parent_path = f then max (Notifier.lastNotifiedAt m f) n.id
      else Notifier.lastNotifiedAt m f := by
  unfold Notifier.recordNotified Notifier.lastNotifiedAt
  rw [mapFind_mapInsert]
  by_cases h : n.path.parent_path = f
  · subst h
    simp
  · have h' : ¬ f = n.path.parent_path := fun e => h e.symm
    simp [h, h']

theorem Notifier.mapFind_recordNotified_other (m : List (Path × Int)) (n : CachedNotification)
    (f : Path) (h : n.path.parent_path ≠ f) :
    mapFind f (Notifier.recordNotified m n) = mapFind f m := by
  unfold Notifier.recordNotified
  rw [mapFind_mapInsert]
  have h' : ¬ f = n.path.parent_path := fun e => h e.symm
  simp [h']

/-- After the loop the value for a folder is the greatest of the value before and the ids of
the displayed notifications stored in the folder. -/
theorem Notifier.lastNotifiedAt_updateLastNotified (f : Path) :
    ∀ (acc : List CachedNotification) (m : List (Path × Int)),
      Notifier.lastNotifiedAt (Notifier.updateLastNotified m acc) f =
        maxIdIn f (Notifier.lastNotifiedAt m f) acc := by
  intro acc
  induction acc with
  | nil => intro m; rfl
  | cons n rest ih =>
    intro m
    have hstep : Notifier.updateLastNotified m (n :: rest) =
        Notifier.updateLastNotified (Notifier.recordNotified m n) rest := rfl
    rw [hstep, ih, Notifier.lastNotifiedAt_recordNotified]
    unfold maxIdIn
    by_cases h : n.path.parent_path = f
    · simp [h, List.filter_cons]
    · simp [h, List.filter_cons]

theorem Notifier.mapFind_updateLastNotified_other (f : Path) :
    ∀ (acc : List CachedNotification) (m : List (Path × Int)),
      (∀ n ∈ acc, n.path.parent_path ≠ f) →
      mapFind f (Notifier.updateLastNotified m acc) = mapFind f m := by
  intro acc
  induction acc with
  | nil => intro m _; rfl
  | cons n rest ih =>
    intro m h
    have hstep : Notifier.updateLastNotified m (n :: rest) =
        Notifier.updateLastNotified (Notifier.recordNotified m n) rest := rfl
    rw [hstep, ih _ (fun x hx => h x (List.mem_cons_of_mem _ hx)),
      Notifier.mapFind_recordNotified_other m n f (h n (List.mem_cons_self _ _))]

theorem foldl_max_ge (l : List CachedNotification) :
    ∀ v : Int, v ≤ l.foldl (fun w n => max w n.id) v := by
  induction l with
  | nil => intro v; exact le_refl v
  | cons n rest ih =>
    intro v
    exact le_trans (le_max_left v n.id) (ih (max v n.id))

theorem foldl_max_ge_mem (l : List CachedNotification) :
    ∀ (v : Int) (n : CachedNotification), n ∈ l → n.id ≤ l.foldl (fun w n => max w n.id) v := by
  induction l with
  | nil => intro v n h; simp at h
  | cons x rest ih =>
    intro v n h
    rcases List.mem_cons.mp h with h | h
    · subst h
      exact le_trans (le_max_right v n.id) (foldl_max_ge rest _)
    · exact ih _ n h

theorem maxIdIn_ge (f : Path) (v : Int) (acc : List CachedNotification) :
    v ≤ maxIdIn f v acc :=
  foldl_max_ge _ v

theorem maxIdIn_ge_mem (v : Int) (acc : List CachedNotification) (n : CachedNotification)
    (h : n ∈ acc) : n.id ≤ maxIdIn n.path.parent_path v acc :=
  foldl_max_ge_mem _ v n (List.mem_filter.mpr ⟨h, by simp⟩)

/-- What `notify` does to the state: nothing when nothing is displayed, otherwise the loop
over the displayed notifications. -/
theorem Notifier.notify_state (self s' : Notifier) (fuel : Nat) (now : Int) (is_batch : Bool)
    (ns : List CachedNotification) (unit : Option CachedNotification)
    (h : Notifier.notify self fuel now is_batch ns = some (s', unit)) :
    ∃ acc, Notifier.toDisplay self fuel now is_batch ns = some acc ∧
      s' = { self with
        m_last_notified := Notifier.updateLastNotified self.m_last_notified acc } := by
  unfold Notifier.notify at h
  cases hd : Notifier.toDisplay self fuel now is_batch ns with
  | none => rw [hd] at h; simp at h
  | some acc =>
    rw [hd] at h
    refine ⟨acc, rfl, ?_⟩
    by_cases he : acc.isEmpty = true
    · simp only [he, if_true, Option.some.injEq, Prod.mk.injEq] at h
      have hnil : acc = [] := List.isEmpty_iff.mp he
      rw [← h.1, hnil]
      rfl
    · simp only [he, if_false, Option.some.injEq, Prod.mk.injEq, Bool.false_eq_true] at h
      exact h.1.symm

/-! ## Lemmas on the batch sweep -/

theorem LastGe.same (m : List (Path × Int)) : LastGe m m :=
  fun _ v h => ⟨v, h, le_refl v⟩

theorem LastGe.step {a b c : List (Path × Int)} (h1 : LastGe a b) (h2 : LastGe b c) :
    LastGe a c := by
  intro f v h
  obtain ⟨v2, hv2, hle⟩ := h1 f v h
  obtain ⟨v3, hv3, hle3⟩ := h2 f v2 hv2
  exact ⟨v3, hv3, le_trans hle hle3⟩

theorem Notifier.mapFind_recordNotified_self (m : List (Path × Int)) (n : CachedNotification) :
    mapFind n.path.parent_path (Notifier.recordNotified m n) =
      some (max (Notifier.lastNotifiedAt m n.path.parent_path) n.id) := by
  unfold Notifier.recordNotified
  rw [mapFind_mapInsert]
  simp

theorem Notifier.LastGe_recordNotified (m : List (Path × Int)) (n : CachedNotification) :
    LastGe m (Notifier.recordNotified m n) := by
  intro f v h
  by_cases hf : n.path.parent_path = f
  · subst hf
    refine ⟨_, Notifier.mapFind_recordNotified_self m n, ?_⟩
    have : Notifier.lastNotifiedAt m n.path.parent_path = v := by
      simp [Notifier.lastNotifiedAt, h]
    rw [this]
    exact le_max_left _ _
  · exact ⟨v, by rw [Notifier.mapFind_recordNotified_other m n f hf]; exact h, le_refl v⟩

theorem Notifier.LastGe_updateLastNotified :
    ∀ (acc : List CachedNotification) (m : List (Path × Int)),
      LastGe m (Notifier.updateLastNotified m acc) := by
  intro acc
  induction acc with
  | nil => intro m; exact LastGe.same m
  | cons n rest ih =>
    intro m
    exact (Notifier.LastGe_recordNotified m n).step (ih _)

theorem Notifier.LastGe_initLastNotified (m : List (Path × Int)) (p : Path) :
    LastGe m (Notifier.initLastNotified m p) := by
  unfold Notifier.initLastNotified
  by_cases h : (mapFind p m).isNone = true
  · rw [if_pos h]
    intro f v hf
    have hne : f ≠ p := by
      rintro rfl
      rw [hf] at h
      simp at h
    exact ⟨v, by rw [mapFind_mapInsert]; simp [hne, hf], le_refl v⟩
  · rw [if_neg h]
    exact LastGe.same m

/-- After the loop every displayed notification has an entry for its parent directory with
a value that is at least its id. -/
theorem Notifier.updateLastNotified_covers :
    ∀ (acc : List CachedNotification) (m : List (Path × Int)) (n : CachedNotification),
      n ∈ acc →
      ∃ v, mapFind n.path.parent_path (Notifier.updateLastNotified m acc) = some v ∧
        n.id ≤ v := by
  intro acc
  induction acc with
  | nil => intro m n h; simp at h
  | cons x rest ih =>
    intro m n h
    have hstep : Notifier.updateLastNotified m (x :: rest) =
        Notifier.updateLastNotified (Notifier.recordNotified m x) rest := rfl
    rw [hstep]
    rcases List.mem_cons.mp h with h | h
    · subst h
      obtain ⟨v2, hv2, hle⟩ := Notifier.LastGe_updateLastNotified rest
        (Notifier.recordNotified m n) _ _ (Notifier.mapFind_recordNotified_self m n)
      exact ⟨v2, hv2, le_trans (le_max_right _ _) hle⟩
    · exact ih _ n h

/-- In batch mode the filter keeps every request that is not trashed. -/
theorem Notifier.toDisplay_batch (self : Notifier) (fuel : Nat) (now : Int) :
    ∀ (ns acc : List CachedNotification),
      Notifier.toDisplay self fuel now true ns = some acc →
      acc = ns.filter fun n => !n.trashed := by
  intro ns
  induction ns with
  | nil =>
    intro acc h
    simp [Notifier.toDisplay] at h
    simp [h]
  | cons n rest ih =>
    intro acc h
    simp only [Notifier.toDisplay] at h
    cases ha : Notifier.admits self fuel now true n with
    | none => rw [ha] at h; simp at h
    | some accepted =>
      rw [ha] at h
      cases hr : Notifier.toDisplay self fuel now true rest with
      | none => rw [hr] at h; simp at h
      | some shown =>
        rw [hr] at h
        simp only [Option.some.injEq] at h
        have hshown := ih shown hr
        have hacc : accepted = !n.trashed := by
          unfold Notifier.admits at ha
          by_cases ht : n.trashed = true
          · simp [ht] at ha
            simp [ht, ← ha]
          · have ht' : n.trashed = false := by simpa using ht
            simp only [ht', Bool.false_eq_true, if_false, Bool.not_true, Bool.and_false,
              Bool.false_and] at ha
            by_cases hu : Notifier.urgency n = 2
            · simp [hu] at ha
              simp [ht', ← ha]
            · simp only [hu, if_false] at ha
              cases hd : Settings.isDoNotDisturbActive fuel self.m_root_path n.path.parent_path
                  self.m_do_not_disturb now with
              | none => rw [hd] at ha; simp at ha
              | some d =>
                rw [hd] at ha
                cases hb : Settings.getNotificationBackoffMinutes fuel self.m_root_path
                    n.path.parent_path self.m_notification_backoff_minutes with
                | none => rw [hb] at ha; simp at ha
                | some b =>
                  rw [hb] at ha
                  simp at ha
                  simp [ht', ← ha]
        rw [← h, hacc, hshown, List.filter_cons]

/-- The pushed notifications are notifications of the list that are not trashed. -/
theorem Notifier.newNotifications_sub (self : Notifier) (fuel : Nat) (now : Int) (p : Path) :
    ∀ (ns batch : List CachedNotification),
      Notifier.newNotifications self fuel now p ns = some batch →
      ∀ n ∈ batch, n ∈ ns ∧ n.trashed = false ∧
        Notifier.sweepAdmits self fuel now p n = some true := by
  intro ns
  induction ns with
  | nil =>
    intro batch h n hn
    simp [Notifier.newNotifications] at h
    rw [h] at hn
    simp at hn
  | cons x rest ih =>
    intro batch h n hn
    simp only [Notifier.newNotifications] at h
    cases ha : Notifier.sweepAdmits self fuel now p x with
    | none => rw [ha] at h; simp at h
    | some pushed =>
      rw [ha] at h
      cases hr : Notifier.newNotifications self fuel now p rest with
      | none => rw [hr] at h; simp at h
      | some others =>
        rw [hr] at h
        simp only [Option.some.injEq] at h
        have hrest := ih others hr
        cases pushed with
        | false =>
          simp at h
          rw [← h] at hn
          obtain ⟨h1, h2, h3⟩ := hrest n hn
          exact ⟨List.mem_cons_of_mem _ h1, h2, h3⟩
        | true =>
          simp at h
          rw [← h] at hn
          rcases List.mem_cons.mp hn with hx | hx
          · subst hx
            refine ⟨List.mem_cons_self _ _, ?_, ha⟩
            by_contra ht
            have ht' : n.trashed = true := by simpa using ht
            simp [Notifier.sweepAdmits, ht'] at ha
          · obtain ⟨h1, h2, h3⟩ := hrest n hx
            exact ⟨List.mem_cons_of_mem _ h1, h2, h3⟩

/-- What `notify` leaves alone, and what it guarantees for a batch. -/
theorem Notifier.notify_inv (self s' : Notifier) (fuel : Nat) (now : Int) (is_batch : Bool)
    (ns : List CachedNotification) (unit : Option CachedNotification)
    (h : Notifier.notify self fuel now is_batch ns = some (s', unit)) :
    Notifier.sameSettings self s' ∧ LastGe self.m_last_notified s'.m_last_notified := by
  obtain ⟨acc, _, hs⟩ := Notifier.notify_state self s' fuel now is_batch ns unit h
  subst hs
  exact ⟨⟨rfl, rfl, rfl, rfl, rfl⟩, Notifier.LastGe_updateLastNotified acc _⟩

theorem Notifier.notify_batch_covers (self s' : Notifier) (fuel : Nat) (now : Int)
    (ns : List CachedNotification) (unit : Option CachedNotification)
    (h : Notifier.notify self fuel now true ns = some (s', unit))
    (n : CachedNotification) (hn : n ∈ ns) (ht : n.trashed = false) :
    ∃ v, mapFind n.path.parent_path s'.m_last_notified = some v ∧ n.id ≤ v := by
  obtain ⟨acc, hacc, hs⟩ := Notifier.notify_state self s' fuel now true ns unit h
  subst hs
  have := Notifier.toDisplay_batch self fuel now ns acc hacc
  exact Notifier.updateLastNotified_covers acc _ n
    (by rw [this]; exact List.mem_filter.mpr ⟨hn, by simp [ht]⟩)

/-- The result of the part of `process` that handles the folder's own notifications. -/
theorem Notifier.processOwn_inv (self : Notifier) (fuel : Nat) (now : Int) (p : Path)
    (ns : List (String × CachedNotification))
    (r : Notifier × Option (List CachedNotification))
    (h : Notifier.processOwn self fuel now p ns = some r) :
    Notifier.sameSettings self r.1 ∧ LastGe self.m_last_notified r.1.m_last_notified ∧
      ∀ batch ∈ r.2.toList, ∃ mid : Notifier,
        Notifier.sameSettings self mid ∧ LastGe self.m_last_notified mid.m_last_notified ∧
        ∀ n ∈ batch, n ∈ ns.map Prod.snd ∧ n.trashed = false ∧
          Notifier.sweepAdmits mid fuel now p n = some true ∧
          ∃ v, mapFind n.path.parent_path r.1.m_last_notified = some v ∧ n.id ≤ v := by
  unfold Notifier.processOwn at h
  simp only at h
  have hinit := Notifier.LastGe_initLastNotified self.m_last_notified p
  cases hnew : Notifier.newNotifications
      { self with m_last_notified := Notifier.initLastNotified self.m_last_notified p }
      fuel now p (ns.map Prod.snd) with
  | none => rw [hnew] at h; simp at h
  | some batch =>
    rw [hnew] at h
    by_cases he : batch.isEmpty = true
    · simp only [he, if_true, Option.some.injEq] at h
      subst h
      exact ⟨⟨rfl, rfl, rfl, rfl, rfl⟩, hinit, by simp⟩
    · simp only [he, if_false, Bool.false_eq_true] at h
      cases hnot : Notifier.notify
          { self with m_last_notified := Notifier.initLastNotified self.m_last_notified p }
          fuel now true batch with
      | none => rw [hnot] at h; simp at h
      | some res =>
        rw [hnot] at h
        simp only [Option.some.injEq] at h
        subst h
        obtain ⟨s2, unit⟩ := res
        obtain ⟨hsame, hge⟩ := Notifier.notify_inv _ s2 fuel now true batch unit hnot
        refine ⟨hsame, hinit.step hge, ?_⟩
        intro b hb
        simp at hb
        subst hb
        refine ⟨{ self with
          m_last_notified := Notifier.initLastNotified self.m_last_notified p },
          ⟨rfl, rfl, rfl, rfl, rfl⟩, hinit, ?_⟩
        intro n hn
        obtain ⟨h1, h2, h3⟩ := Notifier.newNotifications_sub _ fuel now p _ _ hnew n hn
        exact ⟨h1, h2, h3, Notifier.notify_batch_covers _ s2 fuel now _ unit hnot n hn h2⟩

theorem Notifier.sameSettings.follow {a b c : Notifier} (h1 : Notifier.sameSettings a b)
    (h2 : Notifier.sameSettings b c) : Notifier.sameSettings a c := by
  obtain ⟨a1, a2, a3, a4, a5⟩ := h1
  obtain ⟨b1, b2, b3, b4, b5⟩ := h2
  exact ⟨b1.trans a1, b2.trans a2, b3.trans a3, b4.trans a4, b5.trans a5⟩

/-- Two sweeps in a row. -/
theorem SweepInv.append {fuel : Nat} {now : Int} {s : Notifier}
    {nodes1 nodes2 : List NotificationFolder}
    {r1 r2 : Notifier × List (List CachedNotification)}
    (h1 : SweepInv fuel now s nodes1 r1) (h2 : SweepInv fuel now r1.1 nodes2 r2) :
    SweepInv fuel now s (nodes1 ++ nodes2) (r2.1, r1.2 ++ r2.2) := by
  obtain ⟨a1, a2, a3⟩ := h1
  obtain ⟨b1, b2, b3⟩ := h2
  refine ⟨a1.follow b1, a2.step b2, ?_⟩
  intro batch hb
  rcases List.mem_append.mp hb with hb | hb
  · obtain ⟨node, hnode, mid, m1, m2, hall⟩ := a3 batch hb
    refine ⟨node, List.mem_append_left _ hnode, mid, m1, m2, ?_⟩
    intro n hn
    obtain ⟨c1, c2, c3, v, hv, hle⟩ := hall n hn
    obtain ⟨v2, hv2, hle2⟩ := b2 _ v hv
    exact ⟨c1, c2, c3, v2, hv2, le_trans hle hle2⟩
  · obtain ⟨node, hnode, mid, m1, m2, hall⟩ := b3 batch hb
    exact ⟨node, List.mem_append_right _ hnode, mid, a1.follow m1, a2.step m2, hall⟩

mutual
/-- The invariant of the sweep over a folder and the folders below it. -/
theorem Notifier.process_inv (fuel : Nat) (now : Int) :
    ∀ (self : Notifier) (tree : NotificationFolder)
      (r : Notifier × List (List CachedNotification)),
      Notifier.process fuel now self tree = some r →
        SweepInv fuel now self (allFolders tree) r
  | self, .mk fs ns p, r, h => by
    simp only [Notifier.process] at h
    cases hown : Notifier.processOwn self fuel now p ns with
    | none => rw [hown] at h; simp at h
    | some own =>
      rw [hown] at h
      simp only at h
      cases hbelow : Notifier.processAll fuel now own.1 fs with
      | none => rw [hbelow] at h; simp at h
      | some below =>
        rw [hbelow] at h
        simp only [Option.some.injEq] at h
        subst h
        obtain ⟨o1, o2, o4⟩ := Notifier.processOwn_inv self fuel now p ns own hown
        have hfirst : SweepInv fuel now self [NotificationFolder.mk fs ns p]
            (own.1, own.2.toList) :=
          ⟨o1, o2, fun batch hb => ⟨_, List.mem_singleton.mpr rfl, o4 batch hb⟩⟩
        have hrest := Notifier.processAll_inv fuel now own.1 fs below hbelow
        have := SweepInv.append hfirst hrest
        simpa [allFolders] using this
/-- The invariant of the sweep over a map of subfolders. -/
theorem Notifier.processAll_inv (fuel : Nat) (now : Int) :
    ∀ (self : Notifier) (fs : List (String × NotificationFolder))
      (r : Notifier × List (List CachedNotification)),
      Notifier.processAll fuel now self fs = some r →
        SweepInv fuel now self (allFoldersIn fs) r
  | self, [], r, h => by
    simp only [Notifier.processAll, Option.some.injEq] at h
    subst h
    exact ⟨⟨rfl, rfl, rfl, rfl, rfl⟩, LastGe.same _, by simp⟩
  | self, (k, sub) :: rest, r, h => by
    simp only [Notifier.processAll] at h
    cases hfirst : Notifier.process fuel now self sub with
    | none => rw [hfirst] at h; simp at h
    | some first =>
      rw [hfirst] at h
      simp only at h
      cases hothers : Notifier.processAll fuel now first.1 rest with
      | none => rw [hothers] at h; simp at h
      | some others =>
        rw [hothers] at h
        simp only [Option.some.injEq] at h
        subst h
        have h1 := Notifier.process_inv fuel now self sub first hfirst
        have h2 := Notifier.processAll_inv fuel now first.1 rest others hothers
        have := SweepInv.append h1 h2
        simpa [allFoldersIn] using this
end

/-- Any request leaves the settings alone and loses or lowers no entry of
`m_last_notified`. -/
theorem Notifier.applyOp_inv (fuel : Nat) (s s' : Notifier) (op : NotifierOp)
    (h : Notifier.applyOp fuel s op = some s') :
    Notifier.sameSettings s s' ∧ LastGe s.m_last_notified s'.m_last_notified := by
  cases op with
  | notify now is_batch ns =>
    simp only [Notifier.applyOp, Option.map_eq_some'] at h
    obtain ⟨⟨s2, unit⟩, hr, rfl⟩ := h
    exact Notifier.notify_inv s s2 fuel now is_batch ns unit hr
  | batchNotify now tree =>
    simp only [Notifier.applyOp, Option.map_eq_some'] at h
    obtain ⟨r, hr, rfl⟩ := h
    obtain ⟨h1, h2, _⟩ := Notifier.process_inv fuel now s tree r hr
    exact ⟨h1, h2⟩

theorem Notifier.runOps_inv (fuel : Nat) :
    ∀ (ops : List NotifierOp) (s s' : Notifier), Notifier.runOps fuel s ops = some s' →
      Notifier.sameSettings s s' ∧ LastGe s.m_last_notified s'.m_last_notified := by
  intro ops
  induction ops with
  | nil =>
    intro s s' h
    simp only [Notifier.runOps, Option.some.injEq] at h
    subst h
    exact ⟨⟨rfl, rfl, rfl, rfl, rfl⟩, LastGe.same _⟩
  | cons op rest ih =>
    intro s s' h
    simp only [Notifier.runOps] at h
    cases hop : Notifier.applyOp fuel s op with
    | none => rw [hop] at h; simp at h
    | some s1 =>
      rw [hop] at h
      obtain ⟨a1, a2⟩ := Notifier.applyOp_inv fuel s s1 op hop
      obtain ⟨b1, b2⟩ := ih s1 s' h
      exact ⟨a1.follow b1, a2.step b2⟩

/-- A notification whose id does not exceed the stored value of the folder is not eligible
under the catch-up rule. -/
theorem Notifier.catchUp_false (s : Notifier) (dnd : Option QDateTime) (p : Path)
    (n : CachedNotification) (v : Int) (hv : mapFind p s.m_last_notified = some v)
    (hle : n.id ≤ v) : Notifier.catchUp s dnd p n = false := by
  unfold Notifier.catchUp
  cases dnd with
  | none => rfl
  | some e =>
    have : ¬ n.id > Notifier.lastNotifiedAt s.m_last_notified p := by
      simp only [Notifier.lastNotifiedAt, hv, Option.getD_some]
      omega
    simp [this]

/-- A notification that is pushed although the catch-up rule does not hold for it lies in
the backoff window. -/
theorem Notifier.sweepAdmits_window (s : Notifier) (fuel : Nat) (now : Int) (p : Path)
    (n : CachedNotification) (h : Notifier.sweepAdmits s fuel now p n = some true)
    (hc : ∀ dnd, Notifier.catchUp s dnd p n = false) :
    ∃ backoff, Settings.getNotificationBackoffMinutes fuel s.m_root_path p
        s.m_notification_backoff_minutes = some backoff ∧
      backoff > 0 ∧ (n.«at».secsTo now).tdiv 60 ≤ backoff := by
  unfold Notifier.sweepAdmits at h
  by_cases ht : n.trashed = true
  · simp [ht] at h
  · simp only [ht, if_false, Bool.false_eq_true] at h
    cases hb : Settings.getNotificationBackoffMinutes fuel s.m_root_path p
        s.m_notification_backoff_minutes with
    | none => rw [hb] at h; simp at h
    | some b =>
      rw [hb] at h
      simp only at h
      cases hd : Settings.isDoNotDisturbActive fuel s.m_root_path p s.m_do_not_disturb now with
      | none => rw [hd] at h; simp at h
      | some d =>
        rw [hd] at h
        simp only at h
        cases d with
        | true => simp at h
        | false =>
          simp only [Bool.not_false, if_true] at h
          cases hg : Settings.getDoNotDisturb fuel s.m_root_path p s.m_do_not_disturb with
          | none => rw [hg] at h; simp at h
          | some dnd =>
            rw [hg] at h
            simp only [hc dnd, Bool.or_false, Option.some.injEq, Bool.and_eq_true,
              decide_eq_true_eq] at h
            exact ⟨b, rfl, h.1, h.2⟩

/-! ## Lemmas on the condition of the batch sweep -/

theorem tdiv_tdiv_60000 (x : Int) : (x.tdiv 1000).tdiv 60 = x.tdiv 60000 := by
  rcases Int.le_total 0 x with h | h
  · rw [Int.tdiv_eq_ediv h (by norm_num),
      Int.tdiv_eq_ediv (Int.ediv_nonneg h (by norm_num)) (by norm_num),
      Int.tdiv_eq_ediv h (by norm_num)]
    omega
  · obtain ⟨y, rfl⟩ : ∃ y, x = -y := ⟨-x, by simp⟩
    have hy : 0 ≤ y := by omega
    rw [Int.neg_tdiv, Int.neg_tdiv, Int.neg_tdiv]
    rw [Int.tdiv_eq_ediv hy (by norm_num),
      Int.tdiv_eq_ediv (Int.ediv_nonneg hy (by norm_num)) (by norm_num),
      Int.tdiv_eq_ediv hy (by norm_num)]
    omega

theorem secsTo_minutes (d : QDateTime) (now : Int) :
    (d.secsTo now).tdiv 60 = wholeMinutesSince d now := by
  cases d with
  | invalid => rfl
  | valid t => exact tdiv_tdiv_60000 _

theorem isDoNotDisturbActive_of_resolved (fuel : Nat) (root p : Path) (cache : Cache)
    (now : Int) (r : Option QDateTime)
    (hd : Settings.getDateTimeSetting fuel p root cache = some r) :
    Settings.isDoNotDisturbActive fuel root p cache now = some (dndActiveAt r now) := by
  unfold Settings.isDoNotDisturbActive Settings.isDateTimeSettingActive
  rw [hd]
  cases r with
  | none => rfl
  | some d =>
    cases d with
    | invalid => rfl
    | valid t => simp [dndActiveAt, QDateTime.isValid, QDateTime.toMSecs]

/-- The loop body of the sweep computes the condition `sweepEligible`. -/
theorem Notifier.sweepAdmits_eq (self : Notifier) (fuel : Nat) (now : Int) (p : Path)
    (b : Int) (r : Option QDateTime)
    (hb : Settings.getNotificationBackoffMinutes fuel self.m_root_path p
      self.m_notification_backoff_minutes = some b)
    (hd : Settings.getDateTimeSetting fuel p self.m_root_path self.m_do_not_disturb = some r)
    (n : CachedNotification) :
    Notifier.sweepAdmits self fuel now p n =
      some (sweepEligible self.m_started_at now b r
        (Notifier.lastNotifiedAt self.m_last_notified p) n) := by
  unfold Notifier.sweepAdmits sweepEligible
  rw [hb, isDoNotDisturbActive_of_resolved fuel _ p _ now r hd]
  simp only [Settings.getDoNotDisturb, hd, secsTo_minutes, Notifier.catchUp]
  cases n.trashed <;> cases dndActiveAt r now <;> cases r <;> simp

theorem Notifier.newNotifications_eq (self : Notifier) (fuel : Nat) (now : Int) (p : Path)
    (b : Int) (r : Option QDateTime)
    (hb : Settings.getNotificationBackoffMinutes fuel self.m_root_path p
      self.m_notification_backoff_minutes = some b)
    (hd : Settings.getDateTimeSetting fuel p self.m_root_path self.m_do_not_disturb = some r) :
    ∀ ns : List CachedNotification,
      Notifier.newNotifications self fuel now p ns =
        some (ns.filter (sweepEligible self.m_started_at now b r
          (Notifier.lastNotifiedAt self.m_last_notified p))) := by
  intro ns
  induction ns with
  | nil => rfl
  | cons n rest ih =>
    simp only [Notifier.newNotifications, Notifier.sweepAdmits_eq self fuel now p b r hb hd n,
      ih, List.filter_cons]

theorem Notifier.lastNotifiedAt_initLastNotified (m : List (Path × Int)) (p : Path) :
    Notifier.lastNotifiedAt (Notifier.initLastNotified m p) p = (mapFind p m).getD (-1) := by
  unfold Notifier.initLastNotified Notifier.lastNotifiedAt
  cases h : mapFind p m with
  | none => simp [mapFind_mapInsert]
  | some v => simp [h]

/-- In batch mode the filter returns, and keeps what is not trashed, when the settings
walks from the parent directories of the requests return. -/
theorem Notifier.toDisplay_batch_returns (self : Notifier) (fuel : Nat) (now : Int) (p : Path)
    (b : Int) (r : Option QDateTime)
    (hb : Settings.getNotificationBackoffMinutes fuel self.m_root_path p
      self.m_notification_backoff_minutes = some b)
    (hd : Settings.getDateTimeSetting fuel p self.m_root_path self.m_do_not_disturb = some r) :
    ∀ ns : List CachedNotification, (∀ n ∈ ns, n.path.parent_path = p) →
      Notifier.toDisplay self fuel now true ns = some (ns.filter fun n => !n.trashed) := by
  intro ns
  induction ns with
  | nil => intro _; rfl
  | cons n rest ih =>
    intro hp
    have hn : n.path.parent_path = p := hp n (List.mem_cons_self _ _)
    have hadm : Notifier.admits self fuel now true n = some (!n.trashed) := by
      unfold Notifier.admits
      rw [hn, hb, isDoNotDisturbActive_of_resolved fuel _ p _ now r hd]
      cases n.trashed <;> simp
    simp only [Notifier.toDisplay, hadm, ih (fun x hx => hp x (List.mem_cons_of_mem _ hx)),
      List.filter_cons]

/-! ## Lemmas on the storage path under a deep root and for a long application name -/

/-- Cutting the text of an absolute path inside its last element `f` and adding `.json`
gives the path with that element replaced: `d` is the number of bytes of the text of the
directory, `t` what is left of `f`. -/
theorem Path.parse_truncated (ds : List String) (f : String) (t : List Char) (hds : ds ≠ [])
    (hclean : ∀ c ∈ ds, c ≠ "" ∧ '/' ∉ c.data) (d : Nat)
    (hd : stdString_length (⟨true, ds⟩ : Path).string = d) (hfit : d + 1 ≤ 4091)
    (ht : substrChars (4091 - d - 1) f.data = t) (htc : '/' ∉ t) :
    Path.parse (stdString_substr (4096 - 5) (⟨true, ds ++ [f]⟩ : Path).string ++ ".json") =
      ⟨true, ds ++ [String.mk t ++ ".json"]⟩ := by
  have hmapne : ds.map String.data ≠ [] := by
    intro h
    exact hds (List.map_eq_nil_iff.mp h)
  have hD : (⟨true, ds⟩ : Path).string.data = '/' :: joinElements (ds.map String.data) := by
    rw [Path.string_data]
    rfl
  have hbD : bytesOf ('/' :: joinElements (ds.map String.data)) = d := by
    rw [← hD]
    exact hd
  have hfull : (⟨true, ds ++ [f]⟩ : Path).string.toList =
      ('/' :: joinElements (ds.map String.data)) ++ '/' :: f.data := by
    show (⟨true, ds ++ [f]⟩ : Path).string.data = _
    rw [Path.string_data, List.map_append, List.map_cons, List.map_nil,
      joinElements_append_last _ _ hmapne]
    rfl
  have hu : utf8Units '/' = 1 := by decide
  have hsub : substrChars (4096 - 5) (⟨true, ds ++ [f]⟩ : Path).string.toList =
      ('/' :: joinElements (ds.map String.data)) ++ '/' :: t := by
    rw [hfull, substrChars_append _ _ _ (by rw [hbD]; omega), hbD, substrChars, hu,
      if_pos (by omega)]
    have : 4096 - 5 - d - 1 = 4091 - d - 1 := by omega
    rw [this, ht]
  have htext : stdString_substr (4096 - 5) (⟨true, ds ++ [f]⟩ : Path).string ++ ".json" =
      (⟨true, ds ++ [String.mk t ++ ".json"]⟩ : Path).string := by
    apply String.ext
    unfold stdString_substr
    rw [hsub, String.data_append, Path.string_data, List.map_append, List.map_cons,
      List.map_nil, joinElements_append_last _ _ hmapne, String.data_append]
    simp
  rw [htext]
  apply Path.parse_string
  · simp
  · intro c hc
    rcases List.mem_append.mp hc with hc | hc
    · exact hclean c hc
    · rw [List.mem_singleton] at hc
      subst hc
      constructor
      · intro h
        have := congrArg String.data h
        rw [String.data_append] at this
        simp at this
      · rw [String.data_append]
        intro h
        rcases List.mem_append.mp h with h | h
        · exact htc h
        · revert h
          decide

/-! ## The deep root -/

theorem exDeepRoot_clean (m k : Nat) (hk : 0 < k) :
    ∀ c ∈ (exDeepRoot m k).comps, c ≠ "" ∧ '/' ∉ c.data := by
  intro c hc
  simp only [exDeepRoot] at hc
  rcases List.mem_append.mp hc with hc | hc
  · rw [List.eq_of_mem_replicate hc]
    exact ⟨exLetters_ne_empty 254 _, not_mem_exLetters 255 _ _ (by decide)⟩
  · rw [List.mem_singleton] at hc
    subst hc
    obtain ⟨j, rfl⟩ : ∃ j, k = j + 1 := ⟨k - 1, by omega⟩
    exact ⟨exLetters_ne_empty j _, not_mem_exLetters _ _ _ (by decide)⟩

theorem exDeepRoot_short (m k : Nat) (hk : k ≤ 255) :
    ∀ c ∈ (exDeepRoot m k).comps, stdString_length c ≤ 255 := by
  intro c hc
  simp only [exDeepRoot] at hc
  rcases List.mem_append.mp hc with hc | hc
  · rw [List.eq_of_mem_replicate hc, stdString_length_exLetters _ _ (by decide)]
  · rw [List.mem_singleton] at hc
    subst hc
    rw [stdString_length_exLetters _ _ (by decide)]
    exact hk

theorem exDeepRoot_sum (m k : Nat) :
    ((exDeepRoot m k).comps.map stdString_length).sum = m * 255 + k := by
  simp only [exDeepRoot, List.map_append, List.map_replicate, List.sum_append,
    List.sum_replicate, List.map_cons, List.map_nil, List.sum_cons, List.sum_nil,
    stdString_length_exLetters _ _ (by decide : (Char.ofNat 97).toNat < 128), smul_eq_mul]
  omega

theorem exDeepRoot_length (m k : Nat) : (exDeepRoot m k).comps.length = m + 1 := by
  simp [exDeepRoot]

theorem exDeepRoot_last (m k : Nat) (hk : 0 < k) :
    (exDeepRoot m k).comps.getLast? ≠ some "" := by
  intro h
  exact ((exDeepRoot_clean m k hk) "" (List.mem_of_getLast?_eq_some h)).1 rfl

/-- The number of bytes of the text of a path below the deep root. -/
theorem exDeepRoot_bytes (m k : Nat) (extra : List String) :
    stdString_length (⟨true, (exDeepRoot m k).comps ++ extra⟩ : Path).string =
      m * 256 + k + 1 + (extra.map stdString_length).sum + extra.length := by
  rw [Path.string_bytes, List.map_append, List.sum_append, exDeepRoot_sum, List.length_append,
    exDeepRoot_length]
  simp only [if_true]
  omega

/-- Under the deep root, on a disk without settings files, `getOutputPath` returns for a
notification with the slugs `firefox` and `new-tab` whose name has at most 250
characters: the default path, cut to 4091 bytes when its text is longer. -/
theorem exDeepRoot_getOutputPath (m k : Nat) (hk : 0 < k) (hk2 : k ≤ 255)
    (hdeep : m * 256 + k + 32 ≤ 4095) (n : Notification)
    (happ : Paths.slugify Paths.exNfkd n.app_name = "firefox")
    (hsum : Paths.slugify Paths.exNfkd n.summary = "new-tab")
    (hpct : '%' ∉ n.notification_tray_run_id.toList)
    (hname : QString_length (n.notification_tray_run_id ++ "-" ++ QString_number n.id) ≤ 250)
    (hfile : '/' ∉ (n.notification_tray_run_id ++ "-" ++ QString_number n.id ++ ".json").toList)
    (hfne : n.notification_tray_run_id ++ "-" ++ QString_number n.id ++ ".json" ≠ "") :
    (exEnvAt (exDeepRoot m k)).disk.nameTooLong
      ⟨true, (exDeepRoot m k).comps ++ ["firefox", ".settings.json"]⟩ = false ∧
    (exEnvAt (exDeepRoot m k)).disk.nameTooLong
      ⟨true, (exDeepRoot m k).comps ++ ["firefox", "new-tab", ".settings.json"]⟩ = false ∧
    Paths.getOutputPath (exEnvAt (exDeepRoot m k)) 3 (exDeepRoot m k) n =
      some (.returned
        (if stdString_length (⟨true, (exDeepRoot m k).comps ++ ["firefox", "new-tab",
            n.notification_tray_run_id ++ "-" ++ QString_number n.id ++ ".json"]⟩ :
              Path).string > 4096 - 5 then
          Path.parse (stdString_substr (4096 - 5)
            (⟨true, (exDeepRoot m k).comps ++ ["firefox", "new-tab",
              n.notification_tray_run_id ++ "-" ++ QString_number n.id ++ ".json"]⟩ :
                Path).string ++ ".json")
        else ⟨true, (exDeepRoot m k).comps ++ ["firefox", "new-tab",
            n.notification_tray_run_id ++ "-" ++ QString_number n.id ++ ".json"]⟩)) := by
  have hshort := exDeepRoot_short m k hk2
  have hl7 : stdString_length "firefox" = 7 := by decide
  have hl7b : stdString_length "new-tab" = 7 := by decide
  have hl14 : stdString_length ".settings.json" = 14 := by decide
  have hstat1 : (exEnvAt (exDeepRoot m k)).disk.nameTooLong
      ⟨true, (exDeepRoot m k).comps ++ ["firefox", ".settings.json"]⟩ = false := by
    apply FileSystem.nameTooLong_short
    · intro c hc
      rcases List.mem_append.mp hc with hc | hc
      · exact hshort c hc
      · simp only [List.mem_cons, List.mem_singleton, List.not_mem_nil, or_false] at hc
        rcases hc with rfl | rfl
        · rw [hl7]; omega
        · rw [hl14]; omega
    · rw [exDeepRoot_bytes]
      simp only [List.map_cons, List.map_nil, List.sum_cons, List.sum_nil, hl7, hl14,
        List.length_cons, List.length_nil]
      omega
  have hstat2 : (exEnvAt (exDeepRoot m k)).disk.nameTooLong
      ⟨true, (exDeepRoot m k).comps ++ ["firefox", "new-tab", ".settings.json"]⟩ = false := by
    apply FileSystem.nameTooLong_short
    · intro c hc
      rcases List.mem_append.mp hc with hc | hc
      · exact hshort c hc
      · simp only [List.mem_cons, List.mem_singleton, List.not_mem_nil, or_false] at hc
        rcases hc with rfl | rfl | rfl
        · rw [hl7]; omega
        · rw [hl7b]; omega
        · rw [hl14]; omega
    · rw [exDeepRoot_bytes]
      simp only [List.map_cons, List.map_nil, List.sum_cons, List.sum_nil, hl7, hl7b, hl14,
        List.length_cons, List.length_nil]
      omega
  refine ⟨hstat1, hstat2, ?_⟩
  have hnfkd : (exEnvAt (exDeepRoot m k)).nfkd = Paths.exNfkd := rfl
  have hroot := exDeepRoot_last m k hk
  have habs : (exDeepRoot m k).absolute = true := rfl
  have hs1 : (({ exDeepRoot m k with
      comps := (exDeepRoot m k).comps ++ ["firefox"] } : Path).slash ".settings.json") =
      ⟨true, (exDeepRoot m k).comps ++ ["firefox", ".settings.json"]⟩ := by
    rw [Path.slash_single _ _ (by decide) (by decide) (by simp)]
    simp [habs]
  have hs2 : (({ exDeepRoot m k with
      comps := (exDeepRoot m k).comps ++ ["firefox", "new-tab"] } : Path).slash
        ".settings.json") =
      ⟨true, (exDeepRoot m k).comps ++ ["firefox", "new-tab", ".settings.json"]⟩ := by
    rw [Path.slash_single _ _ (by decide) (by decide) (by simp)]
    simp [habs]
  have hname' : ¬ QString_length (n.notification_tray_run_id ++ "-" ++ QString_number n.id) >
      255 - 5 := by omega
  have hout : (({ exDeepRoot m k with
      comps := (exDeepRoot m k).comps ++ ["firefox", "new-tab"] } : Path).slash
        (n.notification_tray_run_id ++ "-" ++ QString_number n.id ++ ".json")) =
      ⟨true, (exDeepRoot m k).comps ++ ["firefox", "new-tab",
        n.notification_tray_run_id ++ "-" ++ QString_number n.id ++ ".json"]⟩ := by
    rw [Path.slash_single _ _ hfile hfne (by simp)]
    simp [habs]
  rw [Paths.getOutputPath_no_callback (exEnvAt (exDeepRoot m k)) 3 (exDeepRoot m k) n
    (by decide) hroot (exEnvAt_no_callback _)
    (by rw [hnfkd, happ, hs1]; exact hstat1)
    (by rw [hnfkd, happ, hsum, hs2]; exact hstat2) hpct
    (n.notification_tray_run_id ++ "-" ++ QString_number n.id) (by rw [if_neg hname'])
    ⟨true, (exDeepRoot m k).comps ++ ["firefox", "new-tab",
      n.notification_tray_run_id ++ "-" ++ QString_number n.id ++ ".json"]⟩
    (by rw [hnfkd, happ, hsum, hout])]

/-! ## An element of more than 255 bytes -/

theorem mapFind_filter_key {K V : Type} [DecidableEq K] (g : K → Bool) (k : K) :
    ∀ l : List (K × V),
      mapFind k (l.filter fun e => g e.1) = if g k then mapFind k l else none := by
  intro l
  induction l with
  | nil => simp [mapFind]
  | cons e rest ih =>
    obtain ⟨k0, v0⟩ := e
    by_cases hk : k0 = k
    · subst hk
      by_cases hg : g k0 = true
      · simp [List.filter_cons, hg, mapFind]
      · simp [List.filter_cons, hg, mapFind, ih]
    · by_cases hg : g k0 = true
      · simp [List.filter_cons, hg, mapFind, hk, ih]
      · simp [List.filter_cons, hg, mapFind, hk, ih]

theorem FileSystem.mapFind_remove (disk : FileSystem) (p f : Path) :
    mapFind f (disk.remove p).entries =
      if (!(decide (f = p) || FileSystem.below p f)) then mapFind f disk.entries else none :=
  mapFind_filter_key (fun q => !(decide (q = p) || FileSystem.below p q)) f disk.entries

theorem FileSystem.WellFormed.remove {disk : FileSystem} (h : disk.WellFormed) (p : Path) :
    (disk.remove p).WellFormed := by
  intro e he e2 he2 hreg
  have he' : e ∈ disk.entries := (List.mem_filter.mp he).1
  have he2' : e2 ∈ disk.entries := (List.mem_filter.mp he2).1
  have hreg' : disk.is_regular_file e.1 = true := by
    unfold FileSystem.is_regular_file at hreg ⊢
    rw [FileSystem.mapFind_remove] at hreg
    by_cases hc : (!(decide (e.1 = p) || FileSystem.below p e.1)) = true
    · rw [if_pos hc] at hreg
      exact hreg
    · rw [if_neg hc] at hreg
      simp at hreg
  exact h e he' e2 he2' hreg'

theorem Path.extension_wav (p : Path) (h : p.filename = ".notification.wav") :
    p.extension ≠ ".json" := by
  unfold Path.extension
  simp only [h]
  decide

theorem mem_of_mapFind_some {K V : Type} [DecidableEq K] (k : K) (v : V) :
    ∀ l : List (K × V), mapFind k l = some v → (k, v) ∈ l := by
  intro l
  induction l with
  | nil => intro h; simp [mapFind] at h
  | cons e rest ih =>
    intro h
    obtain ⟨k0, v0⟩ := e
    by_cases hk : k0 = k
    · subst hk
      simp [mapFind] at h
      simp [h]
    · simp [mapFind, hk] at h
      exact List.mem_cons_of_mem _ (ih h)

/-- On a well-formed disk a path that `trash` hands to the platform trash is no protected
file, no protected file lies below it, and every protected file is left on the disk. -/
theorem NotificationCacher.moves_spares (self : NotificationCacher) (path : Path)
    (hwf : self.disk.WellFormed) (hm : self.moves path) :
    self.disk.isProtectedFile path = false ∧ self.disk.holdsProtected path = false ∧
      ∀ f, self.disk.isProtectedFile f = true →
        mapFind f (self.disk.remove path).entries = mapFind f self.disk.entries := by
  obtain ⟨_, hcase⟩ := hm
  have hself : self.disk.isProtectedFile path = false := by
    rcases hcase with ⟨_, hext, hname⟩ | ⟨hreg, _, _⟩
    · unfold FileSystem.isProtectedFile isProtectedName
      by_cases hw : path.filename = ".notification.wav"
      · exact absurd hext (Path.extension_wav path hw)
      · simp [hname, hw]
    · simp [FileSystem.isProtectedFile, hreg]
  have hbelow : ∀ f, self.disk.isProtectedFile f = true → FileSystem.below path f = false := by
    intro f hf
    simp only [FileSystem.isProtectedFile, Bool.and_eq_true] at hf
    obtain ⟨hfreg, hfname⟩ := hf
    have hfmem : ∃ node, (f, node) ∈ self.disk.entries := by
      unfold FileSystem.is_regular_file at hfreg
      cases hfind : mapFind f self.disk.entries with
      | none => simp [hfind] at hfreg
      | some node => exact ⟨node, mem_of_mapFind_some f node _ hfind⟩
    obtain ⟨node, hnode⟩ := hfmem
    rcases hcase with ⟨hreg, _, _⟩ | ⟨_, hex, hset⟩
    · have hpmem : ∃ pn, (path, pn) ∈ self.disk.entries := by
        unfold FileSystem.is_regular_file at hreg
        cases hfind : mapFind path self.disk.entries with
        | none => simp [hfind] at hreg
        | some pn => exact ⟨pn, mem_of_mapFind_some path pn _ hfind⟩
      obtain ⟨pn, hpn⟩ := hpmem
      exact hwf (path, pn) hpn (f, node) hnode hreg
    · by_contra hb
      have hb' : FileSystem.below path f = true := by simpa using hb
      have : NotificationCacher.has_settings self.disk path = true := by
        unfold NotificationCacher.has_settings FileSystem.recursive_directory_iterator
        rw [List.any_eq_true]
        refine ⟨(f, node), List.mem_filter.mpr ⟨hnode, hb'⟩, ?_⟩
        simpa [isProtectedName] using hfname
      rw [this] at hset
      exact absurd hset (by decide)
  refine ⟨hself, ?_, ?_⟩
  · unfold FileSystem.holdsProtected
    rw [List.any_eq_false]
    intro e _ hcon
    simp only [Bool.and_eq_true] at hcon
    have := hbelow e.1 hcon.2
    rw [this] at hcon
    exact absurd hcon.1 (by decide)
  · intro f hf
    rw [FileSystem.mapFind_remove]
    have hne : f ≠ path := by
      rintro rfl
      rw [hself] at hf
      exact absurd hf (by decide)
    simp [hne, hbelow f hf]

theorem sends_append (a b : List Event) : sends (a ++ b) = sends a ++ sends b := by
  simp [sends, List.filterMap_append]

theorem sends_trashedEvents (run_id : String) (ns : List (String × CachedNotification)) :
    sends (NotificationCacher.trashedEvents run_id ns) = [] := by
  induction ns with
  | nil => rfl
  | cons kv rest ih =>
    unfold NotificationCacher.trashedEvents at ih ⊢
    by_cases h : kv.2.notification_tray_run_id = run_id
    · simp only [List.filterMap_cons, h, if_true]
      simpa [sends] using ih
    · simp only [List.filterMap_cons, h, if_false]
      exact ih

mutual
theorem NotificationCacher.sends_markAsTrashed (run_id : String) :
    ∀ t : NotificationFolder, sends (NotificationCacher.markAsTrashed run_id t).2 = []
  | .mk fs ns p => by
    simp only [NotificationCacher.markAsTrashed, sends_append, sends_trashedEvents,
      NotificationCacher.sends_markAsTrashedAll run_id fs, List.append_nil]
theorem NotificationCacher.sends_markAsTrashedAll (run_id : String) :
    ∀ fs : List (String × NotificationFolder),
      sends (NotificationCacher.markAsTrashedAll run_id fs).2 = []
  | [] => rfl
  | (_, sub) :: rest => by
    simp only [NotificationCacher.markAsTrashedAll, sends_append,
      NotificationCacher.sends_markAsTrashed run_id sub,
      NotificationCacher.sends_markAsTrashedAll run_id rest, List.append_nil]
end

theorem NotificationCacher.sends_markNotification (run_id key : String)
    (t : NotificationFolder) : sends (NotificationCacher.markNotification run_id key t).2 = [] := by
  unfold NotificationCacher.markNotification
  cases mapFind key t.notifications with
  | none => rfl
  | some n =>
    by_cases h : n.notification_tray_run_id = run_id
    · simp [h, sends]
    · simp [h, sends]

theorem NotificationCacher.sends_markFolder (run_id name : String)
    (t : NotificationFolder) : sends (NotificationCacher.markFolder run_id name t).2 = [] := by
  unfold NotificationCacher.markFolder
  cases mapFind name t.folders with
  | none => rfl
  | some folder => exact NotificationCacher.sends_markAsTrashed run_id folder

/-- One `trash` call: either the disk is left as it is and nothing is handed to the platform
trash, or the condition `moves` holds for the path, the path is handed to the platform
trash, and the disk is left as it is or loses the path. -/
theorem NotificationCacher.trash_step (self : NotificationCacher) (path : Path) :
    (self.trash path).1.m_root_path = self.m_root_path ∧
    (((self.trash path).1.disk = self.disk ∧
        sends (self.trash path).1.emitted = sends self.emitted) ∨
      (self.moves path ∧
        ((self.trash path).1.disk = self.disk.remove path ∨
          (self.trash path).1.disk = self.disk) ∧
        sends (self.trash path).1.emitted = sends self.emitted ++ [path])) := by
  unfold NotificationCacher.trash
  by_cases hroot : path = self.m_root_path
  · simp only [hroot, if_true]
    exact ⟨rfl, Or.inl ⟨rfl, by simp [NotificationCacher.emit, sends_append, sends]⟩⟩
  · simp only [hroot, if_false]
    by_cases hreg : self.disk.is_regular_file path = true
    · simp only [hreg, if_true]
      by_cases hjson : path.extension = ".json" ∧ path.filename ≠ ".settings.json"
      · simp only [hjson, and_self, if_true, ne_eq, not_false_eq_true]
        refine ⟨rfl, Or.inr ⟨⟨hroot, Or.inl ⟨hreg, hjson.1, hjson.2⟩⟩, ?_, ?_⟩⟩
        · simp only [NotificationCacher.emit, NotificationCacher.send2trash]
          by_cases ha : self.accepts path = true
          · simp [ha]
          · simp [ha]
        · simp only [NotificationCacher.emit, NotificationCacher.send2trash, sends_append,
            NotificationFolder.updateExisting_snd, NotificationCacher.sends_markNotification]
          simp [sends]
      · simp only [hjson, if_false]
        exact ⟨rfl, Or.inl ⟨rfl, by simp [NotificationCacher.emit, sends_append, sends]⟩⟩
    · simp only [hreg, if_false, Bool.false_eq_true]
      by_cases hex : self.disk.exists path = true
      · simp only [hex, Bool.not_true, if_false, Bool.false_eq_true]
        by_cases hset : NotificationCacher.has_settings self.disk path = true
        · simp only [hset, Bool.not_true, if_false, Bool.false_eq_true]
          exact ⟨rfl, Or.inl ⟨rfl, by simp [NotificationCacher.emit, sends_append, sends]⟩⟩
        · simp only [hset, Bool.not_false, if_true]
          refine ⟨rfl, Or.inr ⟨⟨hroot, Or.inr ⟨by simpa using hreg, hex, by simpa using hset⟩⟩,
            ?_, ?_⟩⟩
          · simp only [NotificationCacher.emit, NotificationCacher.send2trash]
            by_cases ha : self.accepts path = true
            · simp [ha]
            · simp [ha]
          · simp only [NotificationCacher.emit, NotificationCacher.send2trash, sends_append,
              NotificationFolder.updateExisting_snd, NotificationCacher.sends_markFolder]
            simp [sends]
      · simp only [hex, Bool.not_false, if_true]
        refine ⟨rfl, Or.inl ⟨rfl, ?_⟩⟩
        simp only [NotificationCacher.emit, sends_append,
          NotificationFolder.updateExisting_snd, NotificationCacher.sends_markNotification]
        simp [sends]

theorem FileSystem.isProtectedFile_congr (d0 d : FileSystem) (f : Path)
    (h : mapFind f d.entries = mapFind f d0.entries) :
    d.isProtectedFile f = d0.isProtectedFile f := by
  simp [FileSystem.isProtectedFile, FileSystem.is_regular_file, h]

theorem FileSystem.holdsProtected_of_mem (d : FileSystem) (q f : Path) (node : FsNode)
    (hmem : (f, node) ∈ d.entries) (hb : FileSystem.below q f = true)
    (hf : d.isProtectedFile f = true) : d.holdsProtected q = true := by
  unfold FileSystem.holdsProtected
  rw [List.any_eq_true]
  exact ⟨(f, node), hmem, by simp [hb, hf]⟩

theorem FileSystem.mem_of_isProtectedFile (d : FileSystem) (f : Path)
    (hf : d.isProtectedFile f = true) : ∃ node, (f, node) ∈ d.entries := by
  simp only [FileSystem.isProtectedFile, Bool.and_eq_true] at hf
  have hfreg := hf.1
  unfold FileSystem.is_regular_file at hfreg
  cases hfind : mapFind f d.entries with
  | none => simp [hfind] at hfreg
  | some node => exact ⟨node, mem_of_mapFind_some f node _ hfind⟩

/-- One `trash` call keeps the protected files and hands nothing protected to the platform
trash. -/
theorem NotificationCacher.trash_keeps (d0 : FileSystem) (s : NotificationCacher) (path : Path)
    (h : ProtectedKept d0 s) :
    ProtectedKept d0 (s.trash path).1 ∧
      ∃ moved, sends (s.trash path).1.emitted = sends s.emitted ++ moved ∧
        ∀ q ∈ moved, d0.isProtectedFile q = false ∧ d0.holdsProtected q = false := by
  obtain ⟨hwf, hkept⟩ := h
  obtain ⟨_, hstep⟩ := NotificationCacher.trash_step s path
  rcases hstep with ⟨hdisk, hsends⟩ | ⟨hmoves, hdisk, hsends⟩
  · refine ⟨⟨by rw [hdisk]; exact hwf, fun f hf => by rw [hdisk]; exact hkept f hf⟩,
      [], by simpa using hsends, by simp⟩
  · obtain ⟨hp1, hp2, hp3⟩ := NotificationCacher.moves_spares s path hwf hmoves
    have hprot : ∀ f, d0.isProtectedFile f = true → s.disk.isProtectedFile f = true := by
      intro f hf
      rw [FileSystem.isProtectedFile_congr d0 s.disk f (hkept f hf)]
      exact hf
    refine ⟨?_, [path], hsends, ?_⟩
    · rcases hdisk with hd | hd
      · refine ⟨by rw [hd]; exact hwf.remove path, fun f hf => ?_⟩
        rw [hd, hp3 f (hprot f hf)]
        exact hkept f hf
      · exact ⟨by rw [hd]; exact hwf, fun f hf => by rw [hd]; exact hkept f hf⟩
    · intro q hq
      rw [List.mem_singleton] at hq
      subst hq
      constructor
      · by_contra hc
        have hc' : d0.isProtectedFile q = true := by simpa using hc
        rw [hprot q hc'] at hp1
        exact absurd hp1 (by decide)
      · by_contra hc
        have hc' : d0.holdsProtected q = true := by simpa using hc
        unfold FileSystem.holdsProtected at hc'
        rw [List.any_eq_true] at hc'
        obtain ⟨e, _, he⟩ := hc'
        simp only [Bool.and_eq_true] at he
        obtain ⟨node, hnode⟩ := FileSystem.mem_of_isProtectedFile s.disk e.1 (hprot e.1 he.2)
        rw [FileSystem.holdsProtected_of_mem s.disk q e.1 node hnode he.1 (hprot e.1 he.2)] at hp2
        exact absurd hp2 (by decide)

/-- Any number of the pending `trash` calls keeps the protected files and hands nothing
protected to the platform trash. -/
theorem NotificationCacher.runSome_keeps (d0 : FileSystem) :
    ∀ (k : Nat) (s : NotificationCacher) (pending : List Path), ProtectedKept d0 s →
      ProtectedKept d0 (NotificationCacher.runSome k s pending).1 ∧
        ∃ moved, sends (NotificationCacher.runSome k s pending).1.emitted =
            sends s.emitted ++ moved ∧
          ∀ q ∈ moved, d0.isProtectedFile q = false ∧ d0.holdsProtected q = false := by
  intro k
  induction k with
  | zero =>
    intro s pending h
    exact ⟨h, [], by simp [NotificationCacher.runSome], by simp⟩
  | succ k ih =>
    intro s pending h
    cases pending with
    | nil => exact ⟨h, [], by simp [NotificationCacher.runSome], by simp⟩
    | cons p rest =>
      obtain ⟨h1, m1, hs1, hm1⟩ := NotificationCacher.trash_keeps d0 s p h
      obtain ⟨h2, m2, hs2, hm2⟩ := ih (s.trash p).1 (rest ++ (s.trash p).2) h1
      refine ⟨h2, m1 ++ m2, ?_, ?_⟩
      · simp only [NotificationCacher.runSome]
        rw [hs2, hs1, List.append_assoc]
      · intro q hq
        rcases List.mem_append.mp hq with hq | hq
        · exact hm1 q hq
        · exact hm2 q hq

theorem NotificationCacher.runTasks_eq_runSome :
    ∀ (fuel : Nat) (s : NotificationCacher) (pending : List Path) (s' : NotificationCacher),
      NotificationCacher.runTasks fuel s pending = some s' →
        s' = (NotificationCacher.runSome fuel s pending).1 := by
  intro fuel
  induction fuel with
  | zero =>
    intro s pending s' h
    cases pending with
    | nil =>
      simp only [NotificationCacher.runTasks, Option.some.injEq] at h
      exact h.symm
    | cons p rest => simp [NotificationCacher.runTasks] at h
  | succ k ih =>
    intro s pending s' h
    cases pending with
    | nil =>
      simp only [NotificationCacher.runTasks, Option.some.injEq] at h
      exact h.symm
    | cons p rest =>
      simp only [NotificationCacher.runTasks] at h
      exact ih _ _ _ h

/-! ## Lemmas on the settings maps of the scheduler -/

theorem SystemTrayFileBrowser.applySettings_notifier (iso : QDateTime → String)
    (fromIso : String → QDateTime) (self : SystemTrayFileBrowser) (op : SettingsOp) :
    (self.applySettings iso fromIso op).m_notifier = self.m_notifier := by
  cases op <;> rfl

/-- The scheduler after a sequence of requests to the application is the scheduler after
the requests to the scheduler among them: changes of settings do not reach it. -/
theorem SystemTrayFileBrowser.runOps_notifier (iso : QDateTime → String)
    (fromIso : String → QDateTime) (fuel : Nat) :
    ∀ (ops : List AppOp) (app app' : SystemTrayFileBrowser),
      SystemTrayFileBrowser.runOps iso fromIso fuel app ops = some app' →
      Notifier.runOps fuel app.m_notifier (ops.filterMap AppOp.toNotifierOp) =
        some app'.m_notifier := by
  intro ops
  induction ops with
  | nil =>
    intro app app' h
    simp only [SystemTrayFileBrowser.runOps, Option.some.injEq] at h
    subst h
    rfl
  | cons op rest ih =>
    intro app app' h
    simp only [SystemTrayFileBrowser.runOps] at h
    cases op with
    | settings sop =>
      simp only [SystemTrayFileBrowser.applyOp] at h
      have := ih _ app' h
      rw [SystemTrayFileBrowser.applySettings_notifier] at this
      simpa [AppOp.toNotifierOp] using this
    | notifier nop =>
      simp only [SystemTrayFileBrowser.applyOp] at h
      cases hop : Notifier.applyOp fuel app.m_notifier nop with
      | none => rw [hop] at h; simp at h
      | some s =>
        rw [hop] at h
        simp only [Option.map_some'] at h
        have := ih _ app' h
        simp only [List.filterMap_cons, AppOp.toNotifierOp, Notifier.runOps, hop]
        exact this

/-- The admission filter reads the settings only. -/
theorem Notifier.admits_congr (s s' : Notifier) (h : Notifier.sameSettings s s') (fuel : Nat)
    (now : Int) (is_batch : Bool) (n : CachedNotification) :
    Notifier.admits s' fuel now is_batch n = Notifier.admits s fuel now is_batch n := by
  obtain ⟨h1, h2, h3, _, _⟩ := h
  unfold Notifier.admits
  rw [h1, h2, h3]

/-! ## Claims on policy resolution and admission (C1 – C3) -/

theorem admits_of_resolved (self : Notifier) (fuel : Nat) (now : Int) (is_batch : Bool)
    (n : CachedNotification) (dnd : Bool) (backoff : Int)
    (hd : Settings.isDoNotDisturbActive fuel self.m_root_path n.path.parent_path
      self.m_do_not_disturb now = some dnd)
    (hb : Settings.getNotificationBackoffMinutes fuel self.m_root_path n.path.parent_path
      self.m_notification_backoff_minutes = some backoff) :
    Notifier.admits self fuel now is_batch n = some (admissible is_batch dnd backoff n) := by
  unfold Notifier.admits admissible
  rw [hd, hb]
  have hle : ¬ backoff > 0 → backoff ≤ 0 := fun h => not_lt.mp h
  cases ht : n.trashed <;> cases is_batch <;> cases dnd <;>
    by_cases hu : Notifier.urgency n = 2 <;> by_cases hp : backoff > 0 <;>
    simp [hu, hp, hle]

theorem toDisplay_all_trashed (self : Notifier) (fuel : Nat) (now : Int) (is_batch : Bool) :
    ∀ ns : List CachedNotification, (∀ n ∈ ns, n.trashed = true) →
      Notifier.toDisplay self fuel now is_batch ns = some [] := by
  intro ns
  induction ns with
  | nil => intro _; rfl
  | cons n rest ih =>
    intro h
    have hn : n.trashed = true := h n (List.mem_cons_self _ _)
    have hr := ih (fun m hm => h m (List.mem_cons_of_mem _ hm))
    simp [Notifier.toDisplay, Notifier.admits, hn, hr]

theorem toDisplay_eq_filter (self : Notifier) (fuel : Nat) (now : Int) (is_batch : Bool)
    (dnd : CachedNotification → Bool) (backoff : CachedNotification → Int) :
    ∀ ns : List CachedNotification,
      (∀ n ∈ ns, Notifier.admits self fuel now is_batch n =
          some (admissible is_batch (dnd n) (backoff n) n)) →
      Notifier.toDisplay self fuel now is_batch ns =
        some (ns.filter fun n => admissible is_batch (dnd n) (backoff n) n) := by
  intro ns
  induction ns with
  | nil => intro _; rfl
  | cons n rest ih =>
    intro h
    have hn := h n (List.mem_cons_self _ _)
    have hr := ih (fun m hm => h m (List.mem_cons_of_mem _ hm))
    simp only [Notifier.toDisplay, hn, hr, List.filter_cons]

theorem isDateTimeSettingActive_returns (fuel : Nat) (folder root : Path) (cache : Cache)
    (now : Int) (resolved : Option QDateTime)
    (h : Settings.getDateTimeSetting fuel folder root cache = some resolved) :
    ∃ b, Settings.isDateTimeSettingActive fuel folder root cache now = some b ∧
      (b = true ↔ ∃ t, resolved = some (QDateTime.valid t) ∧ now < t) := by
  unfold Settings.isDateTimeSettingActive
  rw [h]
  cases resolved with
  | none => exact ⟨false, rfl, by simp⟩
  | some d =>
    cases d with
    | invalid => exact ⟨false, rfl, by simp [QDateTime.isValid]⟩
    | valid t =>
      refine ⟨decide (t > now), by simp [QDateTime.isValid, QDateTime.toMSecs], ?_⟩
      simp

/-- Claim C1. `Notifier::notify` accepts exactly the notifications that are not trashed and
are critical (`urgency` hint 2), or submitted as a batch, or whose folder has neither an
active do-not-disturb nor a positive resolved backoff: whenever do-not-disturb and backoff
resolve for the folders of the request (to `dnd n` and `backoff n`), `to_display` is the
request list filtered by that condition, in request order, for every notifier state, time
and value of `is_batch`.  They do resolve when the storage paths of the request lie under
the root.  A list of trashed notifications gives an empty `to_display`, so that no widget
is created (nothing is displayed); a non-trashed critical notification is accepted
whatever the do-not-disturb state; a missing `urgency` hint reads as 1 (not critical). -/
theorem notify_accepts_exactly (self : Notifier) (now : Int) (is_batch : Bool)
    (ns : List CachedNotification) (fuel : Nat) :
    (∀ (dnd : CachedNotification → Bool) (backoff : CachedNotification → Int),
      (∀ n ∈ ns,
        Settings.isDoNotDisturbActive fuel self.m_root_path n.path.parent_path
          self.m_do_not_disturb now = some (dnd n) ∧
        Settings.getNotificationBackoffMinutes fuel self.m_root_path n.path.parent_path
          self.m_notification_backoff_minutes = some (backoff n)) →
      Notifier.toDisplay self fuel now is_batch ns =
        some (ns.filter fun n =>
          !n.trashed && (decide (Notifier.urgency n = 2) || is_batch ||
            (!dnd n && decide (backoff n ≤ 0))))) ∧
    ((∀ n ∈ ns, Path.atOrBelow self.m_root_path n.path.parent_path) →
      (∀ n ∈ ns, n.path.parent_path.comps.length + 1 ≤ fuel) →
      ∃ (dnd : CachedNotification → Bool) (backoff : CachedNotification → Int),
        ∀ n ∈ ns,
          Settings.isDoNotDisturbActive fuel self.m_root_path n.path.parent_path
            self.m_do_not_disturb now = some (dnd n) ∧
          Settings.getNotificationBackoffMinutes fuel self.m_root_path n.path.parent_path
            self.m_notification_backoff_minutes = some (backoff n)) ∧
    (∀ (ts : List CachedNotification) (f : Nat), (∀ n ∈ ts, n.trashed = true) →
      Notifier.toDisplay self f now is_batch ts = some [] ∧
      (Notifier.toDisplay self f now is_batch ts).map Notifier.displayBase = some none) ∧
    (∀ (n : CachedNotification) (f : Nat), n.trashed = false → Notifier.urgency n = 2 →
      Notifier.admits self f now is_batch n = some true) ∧
    (∀ n : CachedNotification, mapFind "urgency" n.hints = none → Notifier.urgency n = 1) := by
  refine ⟨?_, ?_, fun ts f h => ⟨toDisplay_all_trashed self f now is_batch ts h, by
    rw [toDisplay_all_trashed self f now is_batch ts h]; rfl⟩, ?_, ?_⟩
  · intro dnd backoff hres
    have := toDisplay_eq_filter self fuel now is_batch dnd backoff ns
      (fun n hn => admits_of_resolved self fuel now is_batch n (dnd n) (backoff n)
        (hres n hn).1 (hres n hn).2)
    simpa [admissible] using this
  · intro hroot hfuel
    have hres : ∀ n ∈ ns, ∃ d b,
        Settings.isDoNotDisturbActive fuel self.m_root_path n.path.parent_path
          self.m_do_not_disturb now = some d ∧
        Settings.getNotificationBackoffMinutes fuel self.m_root_path n.path.parent_path
          self.m_notification_backoff_minutes = some b := by
      intro n hn
      obtain ⟨r, hr⟩ := ancestorWalk_returns (fun q => mapFind q self.m_do_not_disturb) none
        self.m_root_path n.path.parent_path (hroot n hn) fuel (hfuel n hn)
      rw [← getDateTimeSetting_eq_walk] at hr
      obtain ⟨d, hd, _⟩ := isDateTimeSettingActive_returns fuel _ _ _ now r hr
      obtain ⟨b, hb⟩ := ancestorWalk_returns
        (fun q => mapFind q self.m_notification_backoff_minutes) 0
        self.m_root_path n.path.parent_path (hroot n hn) fuel (hfuel n hn)
      rw [← getNotificationBackoffMinutes_eq_walk] at hb
      exact ⟨d, b, hd, hb⟩
    refine ⟨fun n => (Settings.isDoNotDisturbActive fuel self.m_root_path n.path.parent_path
        self.m_do_not_disturb now).getD false,
      fun n => (Settings.getNotificationBackoffMinutes fuel self.m_root_path n.path.parent_path
        self.m_notification_backoff_minutes).getD 0, ?_⟩
    intro n hn
    obtain ⟨d, b, hd, hb⟩ := hres n hn
    simp [hd, hb]
  · intro n f ht hu
    simp [Notifier.admits, ht, hu]
  · intro n h
    simp [Notifier.urgency, NotificationHints.value, h, QVariant.toInt]

/-- Instance of C1 at the requests `exRequests` (a critical, a normal and a trashed critical
notification under `/r/app`) while do-not-disturb is active at the root and no backoff is
set: the settings resolve, and only the critical request is accepted. -/
theorem notify_accepts_exactly_witness :
    (∀ n ∈ exRequests,
      Settings.isDoNotDisturbActive 3 exNotifier.m_root_path n.path.parent_path
        exNotifier.m_do_not_disturb 50 = some true ∧
      Settings.getNotificationBackoffMinutes 3 exNotifier.m_root_path n.path.parent_path
        exNotifier.m_notification_backoff_minutes = some 0) ∧
    Notifier.toDisplay exNotifier 3 50 false exRequests =
      some (exRequests.filter fun n =>
        !n.trashed && (decide (Notifier.urgency n = 2) || false ||
          (!true && decide ((0 : Int) ≤ 0)))) ∧
    Notifier.toDisplay exNotifier 3 50 false exRequests =
      some [exNotification "run-1.json" 1 [("urgency", .int 2)] false] ∧
    (∀ n ∈ exRequests, Path.atOrBelow exNotifier.m_root_path n.path.parent_path) ∧
    (∀ n ∈ exRequests, n.path.parent_path.comps.length + 1 ≤ 3) ∧
    (∃ (dnd : CachedNotification → Bool) (backoff : CachedNotification → Int),
      ∀ n ∈ exRequests,
        Settings.isDoNotDisturbActive 3 exNotifier.m_root_path n.path.parent_path
          exNotifier.m_do_not_disturb 50 = some (dnd n) ∧
        Settings.getNotificationBackoffMinutes 3 exNotifier.m_root_path n.path.parent_path
          exNotifier.m_notification_backoff_minutes = some (backoff n)) :=
  ⟨by decide,
   (notify_accepts_exactly exNotifier 50 false exRequests 3).1 (fun _ => true) (fun _ => 0)
     (by decide),
   by decide, by decide, by decide,
   (notify_accepts_exactly exNotifier 50 false exRequests 3).2.1 (by decide) (by decide)⟩

/-- Claim C3. `isDoNotDisturbActive` and `isHideFromTrayActive` return `true` if and only if
the resolved setting is present, is a valid timestamp and is strictly greater than the
current time: for every root, folder, cache and current time, whatever the setting
resolves to, both functions return, and the result is `true` exactly in that case.  An
absent entry, an empty value, an invalid timestamp, a past timestamp and a timestamp equal
to the current time all give `false`; no resolved value makes the functions fail.  The
setting does resolve for every folder equal to or below the root. -/
theorem isDoNotDisturbActive_iff (root folder : Path) (cache : Cache) (now : Int) (fuel : Nat) :
    (∀ resolved : Option QDateTime,
      Settings.getDoNotDisturb fuel root folder cache = some resolved →
      ∃ b : Bool,
        Settings.isDoNotDisturbActive fuel root folder cache now = some b ∧
        Settings.isHideFromTrayActive fuel root folder cache now = some b ∧
        (b = true ↔ ∃ t, resolved = some (QDateTime.valid t) ∧ now < t) ∧
        ((resolved = none ∨ resolved = some QDateTime.invalid ∨
            ∃ t, resolved = some (QDateTime.valid t) ∧ t ≤ now) → b = false)) ∧
    (Path.atOrBelow root folder → folder.comps.length + 1 ≤ fuel →
      ∃ resolved : Option QDateTime,
        Settings.getDoNotDisturb fuel root folder cache = some resolved) := by
  constructor
  · intro r hr
    obtain ⟨b, hb, hiff⟩ := isDateTimeSettingActive_returns fuel folder root cache now r hr
    refine ⟨b, hb, hb, hiff, ?_⟩
    intro h
    cases hbt : b with
    | false => rfl
    | true =>
      obtain ⟨t, ht, hlt⟩ := hiff.mp hbt
      rcases h with h | h | ⟨t', h, hle⟩
      · rw [h] at ht; cases ht
      · rw [h] at ht; cases ht
      · rw [h] at ht
        cases ht
        omega
  · intro hbelow hfuel
    obtain ⟨r, hr⟩ := ancestorWalk_returns (fun q => mapFind q cache) none root folder hbelow
      fuel hfuel
    rw [← getDateTimeSetting_eq_walk] at hr
    exact ⟨r, hr⟩

/-- Instance of C3 at root `/r`, folder `/r/app`, with do-not-disturb stored at the root
until instant 100: the setting resolves to that instant, it is active at time 50 and
inactive at time 100. -/
theorem isDoNotDisturbActive_iff_witness :
    Settings.getDoNotDisturb 3 exRoot ⟨true, ["r", "app"]⟩ [(exRoot, some (.valid 100))] =
      some (some (.valid 100)) ∧
    (∃ b : Bool,
      Settings.isDoNotDisturbActive 3 exRoot ⟨true, ["r", "app"]⟩
        [(exRoot, some (.valid 100))] 50 = some b ∧
      Settings.isHideFromTrayActive 3 exRoot ⟨true, ["r", "app"]⟩
        [(exRoot, some (.valid 100))] 50 = some b ∧
      (b = true ↔ ∃ t, some (QDateTime.valid 100) = some (QDateTime.valid t) ∧ 50 < t) ∧
      ((some (QDateTime.valid 100) = none ∨ some (QDateTime.valid 100) = some QDateTime.invalid ∨
          ∃ t, some (QDateTime.valid 100) = some (QDateTime.valid t) ∧ t ≤ 50) → b = false)) ∧
    Path.atOrBelow exRoot ⟨true, ["r", "app"]⟩ ∧
    (∃ resolved : Option QDateTime,
      Settings.getDoNotDisturb 3 exRoot ⟨true, ["r", "app"]⟩ [(exRoot, some (.valid 100))] =
        some resolved) ∧
    Settings.isDoNotDisturbActive 3 exRoot ⟨true, ["r", "app"]⟩
      [(exRoot, some (.valid 100))] 50 = some true ∧
    Settings.isDoNotDisturbActive 3 exRoot ⟨true, ["r", "app"]⟩
      [(exRoot, some (.valid 100))] 100 = some false :=
  ⟨by decide,
   (isDoNotDisturbActive_iff exRoot ⟨true, ["r", "app"]⟩ [(exRoot, some (.valid 100))] 50 3).1
     (some (.valid 100)) (by decide),
   by decide,
   (isDoNotDisturbActive_iff exRoot ⟨true, ["r", "app"]⟩ [(exRoot, some (.valid 100))] 50 3).2
     (by decide) (by decide),
   by decide, by decide⟩

/-! ## Claims on `cache` (C4, C5) -/

/-- Claim C4 fails on the code for a storage path directly under the root. For the root `/r`
and the transient notification stored at `/r/run-1.json` (parent directory = root), `cache`
does not put the notification into the root folder: `fs::relative(root, root)` is `.`, so
the root folder gets a child folder named `.` with path `/r/.`, and that folder holds the
notification under `run-1.json`; the root folder's own notification map stays empty. -/
theorem cache_root_level_notification :
    (exCacher.cache 0 (exTransient ["r", "run-1.json"] 1)).map
        (fun s =>
          (NotificationFolder.entryAt [] "run-1.json" s.notification_cache,
           NotificationFolder.entryAt ["."] "run-1.json" s.notification_cache,
           (NotificationFolder.folderAt ["."] s.notification_cache).map
             NotificationFolder.path,
           s.notification_cache.notifications)) =
      some (none, some (exTransient ["r", "run-1.json"] 1), some ⟨true, ["r", "."]⟩, []) := by
  decide

/-- Claim C6. For every tree entry `e` stored at path `p` (the folder reached from the root
folder along `relative(parent(p), root)` holds `e` under `filename(p)`; `p` is not the
storage root), where `p` is a notification file on disk (a regular `.json` file other than
`.settings.json`) or does not exist on disk: `trash(p)` starts no child call, hands `p` to
`send2trash` exactly when it is a file on disk, emits `notificationTrashed(e.id)` exactly
once when `e` belongs to the current run and not at all otherwise, ends with
`notificationsCached`, sets `trashed = true` on `e` and leaves every other lookup of the
tree unchanged. -/
theorem trash_marks_entry (self : NotificationCacher) (p : Path) (e : CachedNotification)
    (hp : p ≠ self.m_root_path)
    (hentry : NotificationFolder.entryAt (p.parent_path.relative self.m_root_path) p.filename
      self.notification_cache = some e)
    (hdisk : (self.disk.is_regular_file p = true ∧ p.extension = ".json" ∧
        p.filename ≠ ".settings.json") ∨ self.disk.exists p = false) :
    (self.trash p).2 = [] ∧
    (self.trash p).1.emitted =
      self.emitted ++ (if self.disk.is_regular_file p then [Event.send2trash p] else []) ++
        (if e.notification_tray_run_id = self.m_run_id then [Event.notificationTrashed e.id]
          else []) ++
        [Event.notificationsCached] ∧
    NotificationFolder.entryAt (p.parent_path.relative self.m_root_path) p.filename
      (self.trash p).1.notification_cache = some { e with trashed := true } ∧
    ∀ (parts : List String) (key : String),
      ¬ (parts = p.parent_path.relative self.m_root_path ∧ key = p.filename) →
      NotificationFolder.entryAt parts key (self.trash p).1.notification_cache =
        NotificationFolder.entryAt parts key self.notification_cache := by
  obtain ⟨hspawn, htree, hlog⟩ := NotificationCacher.trash_notification_path self p hp hdisk
  obtain ⟨hev, hlook⟩ := NotificationCacher.markNotification_walk self.m_run_id p.filename
    (p.parent_path.relative self.m_root_path) self.notification_cache e hentry
  refine ⟨hspawn, ?_, ?_, ?_⟩
  · rw [hlog, hev]
  · rw [htree, hlook]
    simp
  · intro parts key hne
    rw [htree, hlook]
    simp [hne]

/-- Instance of C6: the transient notification `/r/app/run-1.json` of the state
`exCachedTransient` is trashed; the path is not on disk, the entry belongs to the run. -/
theorem trash_marks_entry_witness :
    (exCachedTransient.trash ⟨true, ["r", "app", "run-1.json"]⟩).2 = [] ∧
    (exCachedTransient.trash ⟨true, ["r", "app", "run-1.json"]⟩).1.emitted =
      exCachedTransient.emitted ++
        (if exCachedTransient.disk.is_regular_file ⟨true, ["r", "app", "run-1.json"]⟩ then
          [Event.send2trash ⟨true, ["r", "app", "run-1.json"]⟩] else []) ++
        (if (exTransient ["r", "app", "run-1.json"] 1).notification_tray_run_id =
            exCachedTransient.m_run_id
          then [Event.notificationTrashed (exTransient ["r", "app", "run-1.json"] 1).id]
          else []) ++
        [Event.notificationsCached] ∧
    NotificationFolder.entryAt
      ((⟨true, ["r", "app", "run-1.json"]⟩ : Path).parent_path.relative
        exCachedTransient.m_root_path)
      (⟨true, ["r", "app", "run-1.json"]⟩ : Path).filename
      (exCachedTransient.trash ⟨true, ["r", "app", "run-1.json"]⟩).1.notification_cache =
        some { exTransient ["r", "app", "run-1.json"] 1 with trashed := true } ∧
    ∀ (parts : List String) (key : String),
      ¬ (parts = (⟨true, ["r", "app", "run-1.json"]⟩ : Path).parent_path.relative
            exCachedTransient.m_root_path ∧
          key = (⟨true, ["r", "app", "run-1.json"]⟩ : Path).filename) →
      NotificationFolder.entryAt parts key
          (exCachedTransient.trash ⟨true, ["r", "app", "run-1.json"]⟩).1.notification_cache =
        NotificationFolder.entryAt parts key exCachedTransient.notification_cache :=
  trash_marks_entry exCachedTransient ⟨true, ["r", "app", "run-1.json"]⟩
    (exTransient ["r", "app", "run-1.json"] 1) (by decide) (by decide) (Or.inr (by decide))

/-- The file branch of `trash` on the persistent notification of `exCachedStored`: the
path is a regular `.json` file; it is handed to `send2trash` and leaves the disk, the entry
is marked, and `notificationTrashed(1)` is emitted once. -/
theorem trash_file_on_disk :
    exCachedStored.disk.is_regular_file ⟨true, ["r", "app", "run-1.json"]⟩ = true ∧
    (⟨true, ["r", "app", "run-1.json"]⟩ : Path).extension = ".json" ∧
    (⟨true, ["r", "app", ".settings.json"]⟩ : Path).extension = ".json" ∧
    (⟨true, ["r", "app", ".notification.wav"]⟩ : Path).extension = ".wav" ∧
    (⟨true, ["r", "app", ".json"]⟩ : Path).extension = "" ∧
    (exCachedStored.trash ⟨true, ["r", "app", "run-1.json"]⟩).1.emitted =
      [Event.send2trash ⟨true, ["r", "app", "run-1.json"]⟩, Event.notificationTrashed 1,
       Event.notificationsCached] ∧
    (exCachedStored.trash ⟨true, ["r", "app", "run-1.json"]⟩).1.disk.exists
      ⟨true, ["r", "app", "run-1.json"]⟩ = false ∧
    (NotificationFolder.entryAt ["app"] "run-1.json"
      (exCachedStored.trash ⟨true, ["r", "app", "run-1.json"]⟩).1.notification_cache).map
        (fun e => e.trashed) = some true := by
  decide

/-- The tree built by `cache` from the empty tree is `exTree`. -/
theorem exCachedTransient_is_cached :
    (exCacher.cache 0 (exTransient ["r", "app", "run-1.json"] 1)).map
        (fun s => (NotificationFolder.entryAt ["app"] "run-1.json" s.notification_cache,
          (NotificationFolder.folderAt ["app"] s.notification_cache).map
            NotificationFolder.path,
          s.disk.entries.map Prod.fst, s.emitted)) =
      some (NotificationFolder.entryAt ["app"] "run-1.json" exTree,
        (NotificationFolder.folderAt ["app"] exTree).map NotificationFolder.path,
        exCachedTransient.disk.entries.map Prod.fst, [Event.notificationsCached]) := by
  decide

/-- Claim C8 fails on the code for a folder without a directory on disk. In the state
`exCachedTransient` the folder `app` of the tree has no directory on disk (its only
notification is transient).  `trash(root)` emits `notificationsCached` once and starts the
child call `trash(/r/app)`.  That call finds no path `/r/app` on disk, takes the branch for
transient notifications, looks for a notification named `app` in the root folder, finds
none and marks nothing: after every child call has run, the notification
`/r/app/run-1.json` is still in the tree with `trashed = false`. -/
theorem trash_root_leaves_untrashed :
    exCachedTransient.disk.exists ⟨true, ["r", "app"]⟩ = false ∧
    (exCachedTransient.trash exRoot).2 = [⟨true, ["r", "app"]⟩] ∧
    (exCachedTransient.trash exRoot).1.emitted = [Event.notificationsCached] ∧
    (NotificationCacher.runTasks 8 (exCachedTransient.trash exRoot).1
        (exCachedTransient.trash exRoot).2).map
        (fun s => (NotificationFolder.entryAt ["app"] "run-1.json" s.notification_cache,
          s.emitted)) =
      some (some (exTransient ["r", "app", "run-1.json"] 1),
        [Event.notificationsCached, Event.notificationsCached]) ∧
    (exTransient ["r", "app", "run-1.json"] 1).trashed = false := by
  decide

/-- Claim C9 fails on the code when a folder on the way is missing. In the state
`exCachedTransient` the path `/r/app/sub/run-1.json` does not exist on disk and no
notification of the tree is stored at it (the tree's only notification is stored at
`/r/app/run-1.json`, and there is no folder `sub`).  `trash(/r/app/sub/run-1.json)` walks
`app`, skips the missing folder `sub`, stays in `app`, finds the key `run-1.json` there and
marks that other notification as trashed, emitting `notificationTrashed(1)`. -/
theorem trash_missing_path_marks_other :
    exCachedTransient.disk.exists ⟨true, ["r", "app", "sub", "run-1.json"]⟩ = false ∧
    NotificationFolder.entryAt ["app", "sub"] "run-1.json" exCachedTransient.notification_cache
      = none ∧
    NotificationFolder.entryAt ["app"] "run-1.json" exCachedTransient.notification_cache =
      some (exTransient ["r", "app", "run-1.json"] 1) ∧
    (exTransient ["r", "app", "run-1.json"] 1).path ≠ ⟨true, ["r", "app", "sub", "run-1.json"]⟩ ∧
    (exTransient ["r", "app", "run-1.json"] 1).trashed = false ∧
    NotificationFolder.entryAt ["app"] "run-1.json"
      (exCachedTransient.trash ⟨true, ["r", "app", "sub", "run-1.json"]⟩).1.notification_cache =
      some { exTransient ["r", "app", "run-1.json"] 1 with trashed := true } ∧
    (exCachedTransient.trash ⟨true, ["r", "app", "sub", "run-1.json"]⟩).1.emitted =
      [Event.notificationTrashed 1, Event.notificationsCached] := by
  decide

/-- Claim C10, as amended. For every entry `e` stored at path `p` (as in C6) that already
has `trashed = true`, `trash(p)` leaves the tree exactly as it was and starts no child
call; it hands `p` to `send2trash` again when the file is still on disk, and it emits
`notificationTrashed(e.id)` again when `e` belongs to the current run (and not when it does
not), followed by `notificationsCached`. -/
theorem trash_again_keeps_tree (self : NotificationCacher) (p : Path) (e : CachedNotification)
    (hp : p ≠ self.m_root_path)
    (hentry : NotificationFolder.entryAt (p.parent_path.relative self.m_root_path) p.filename
      self.notification_cache = some e)
    (htrashed : e.trashed = true)
    (hdisk : (self.disk.is_regular_file p = true ∧ p.extension = ".json" ∧
        p.filename ≠ ".settings.json") ∨ self.disk.exists p = false) :
    (self.trash p).1.notification_cache = self.notification_cache ∧
    (self.trash p).2 = [] ∧
    (self.trash p).1.emitted =
      self.emitted ++ (if self.disk.is_regular_file p then [Event.send2trash p] else []) ++
        (if e.notification_tray_run_id = self.m_run_id then [Event.notificationTrashed e.id]
          else []) ++
        [Event.notificationsCached] := by
  obtain ⟨hspawn, htree, hlog⟩ := NotificationCacher.trash_notification_path self p hp hdisk
  obtain ⟨hev, -⟩ := NotificationCacher.markNotification_walk self.m_run_id p.filename
    (p.parent_path.relative self.m_root_path) self.notification_cache e hentry
  refine ⟨?_, hspawn, ?_⟩
  · rw [htree]
    exact NotificationCacher.markNotification_walk_trashed self.m_run_id p.filename _ _ e
      hentry htrashed
  · rw [hlog, hev]

/-- Instance of C10: the state reached from `exCachedTransient` by a first
`trash(/r/app/run-1.json)`, in which the entry is trashed; the second call keeps the tree
and emits `notificationTrashed(1)` once more. -/
theorem trash_again_keeps_tree_witness :
    ((exCachedTransient.trash ⟨true, ["r", "app", "run-1.json"]⟩).1.trash
        ⟨true, ["r", "app", "run-1.json"]⟩).1.notification_cache =
      (exCachedTransient.trash ⟨true, ["r", "app", "run-1.json"]⟩).1.notification_cache ∧
    ((exCachedTransient.trash ⟨true, ["r", "app", "run-1.json"]⟩).1.trash
        ⟨true, ["r", "app", "run-1.json"]⟩).2 = [] ∧
    ((exCachedTransient.trash ⟨true, ["r", "app", "run-1.json"]⟩).1.trash
        ⟨true, ["r", "app", "run-1.json"]⟩).1.emitted =
      (exCachedTransient.trash ⟨true, ["r", "app", "run-1.json"]⟩).1.emitted ++
        (if (exCachedTransient.trash ⟨true, ["r", "app", "run-1.json"]⟩).1.disk.is_regular_file
            ⟨true, ["r", "app", "run-1.json"]⟩
          then [Event.send2trash ⟨true, ["r", "app", "run-1.json"]⟩] else []) ++
        (if ({ exTransient ["r", "app", "run-1.json"] 1 with trashed := true } :
              CachedNotification).notification_tray_run_id =
            (exCachedTransient.trash ⟨true, ["r", "app", "run-1.json"]⟩).1.m_run_id
          then [Event.notificationTrashed
            ({ exTransient ["r", "app", "run-1.json"] 1 with trashed := true } :
              CachedNotification).id]
          else []) ++
        [Event.notificationsCached] :=
  trash_again_keeps_tree (exCachedTransient.trash ⟨true, ["r", "app", "run-1.json"]⟩).1
    ⟨true, ["r", "app", "run-1.json"]⟩
    { exTransient ["r", "app", "run-1.json"] 1 with trashed := true }
    (by decide) (by decide) (by decide) (Or.inr (by decide))

/-- Claim C10 as stated fails: the trashed-id event is emitted again. From the state
`exCachedTransient`, the first `trash(/r/app/run-1.json)` marks the entry and emits
`notificationTrashed(1)`; the entry then has `trashed = true`.  The second call on the same
path appends a second `notificationTrashed(1)` to the log. -/
theorem trash_again_emits_counterexample :
    NotificationFolder.entryAt ["app"] "run-1.json"
      (exCachedTransient.trash ⟨true, ["r", "app", "run-1.json"]⟩).1.notification_cache =
      some { exTransient ["r", "app", "run-1.json"] 1 with trashed := true } ∧
    (exCachedTransient.trash ⟨true, ["r", "app", "run-1.json"]⟩).1.emitted =
      [Event.notificationTrashed 1, Event.notificationsCached] ∧
    ((exCachedTransient.trash ⟨true, ["r", "app", "run-1.json"]⟩).1.trash
        ⟨true, ["r", "app", "run-1.json"]⟩).1.emitted =
      [Event.notificationTrashed 1, Event.notificationsCached,
       Event.notificationTrashed 1, Event.notificationsCached] := by
  decide

/-! ## Claim on the trashed flag (C7) -/

/-- Claim C7, as amended. `trashed = true` is kept by every `trash` operation and by every
`cache` / `cacheExistingNotifications` operation that does not store a notification under
the same folder and file-name key: for every sequence of operations none of which stores
there, an entry that has `trashed = true` before the sequence is still in the tree with
`trashed = true` after it.  A sequence of `trash` operations always runs to its end. -/
theorem trashed_kept_unless_rewritten (parts : List String) (key : String) :
    (∀ (ops : List Op) (self s' : NotificationCacher) (e : CachedNotification),
      NotificationFolder.entryAt parts key self.notification_cache = some e →
      e.trashed = true →
      NotificationCacher.neverRewrites parts key self ops →
      self.run ops = some s' →
      ∃ e', NotificationFolder.entryAt parts key s'.notification_cache = some e' ∧
        e'.trashed = true) ∧
    (∀ (paths : List Path) (self : NotificationCacher) (e : CachedNotification),
      NotificationFolder.entryAt parts key self.notification_cache = some e →
      e.trashed = true →
      ∃ s' e', self.run (paths.map Op.trash) = some s' ∧
        NotificationFolder.entryAt parts key s'.notification_cache = some e' ∧
        e'.trashed = true) := by
  have main : ∀ (ops : List Op) (self s' : NotificationCacher) (e : CachedNotification),
      NotificationFolder.entryAt parts key self.notification_cache = some e →
      e.trashed = true →
      NotificationCacher.neverRewrites parts key self ops →
      self.run ops = some s' →
      ∃ e', NotificationFolder.entryAt parts key s'.notification_cache = some e' ∧
        e'.trashed = true := by
    intro ops
    induction ops with
    | nil =>
      intro self s' e he htr _ hrun
      simp only [NotificationCacher.run, Option.some.injEq] at hrun
      subst hrun
      exact ⟨e, he, htr⟩
    | cons op rest ih =>
      intro self s' e he htr hno hrun
      simp only [NotificationCacher.run] at hrun
      simp only [NotificationCacher.neverRewrites] at hno
      cases hs : self.apply op with
      | none => simp [hs] at hrun
      | some s1 =>
        simp only [hs] at hrun hno
        obtain ⟨e1, he1, htr1⟩ := NotificationCacher.apply_keeps_trashed self s1 op parts key e
          he htr hno.1 hs
        exact ih s1 s' e1 he1 htr1 hno.2 hrun
  have hnever : ∀ (paths : List Path) (self : NotificationCacher),
      NotificationCacher.neverRewrites parts key self (paths.map Op.trash) := by
    intro paths
    induction paths with
    | nil => intro self; trivial
    | cons p rest ih =>
      intro self
      exact ⟨fun h => h, ih (self.trash p).1⟩
  refine ⟨main, ?_⟩
  intro paths self e he htr
  obtain ⟨s', hs'⟩ := NotificationCacher.run_trash_returns paths self
  obtain ⟨e', he', htr'⟩ := main (paths.map Op.trash) self s' e he htr (hnever paths self) hs'
  exact ⟨s', e', hs', he', htr'⟩

/-- Instance of C7: from the state in which `/r/app/run-1.json` has been trashed, a second
`trash` of it, a `trash` of the root and the `cache` of another notification
`/r/app/run-2.json` leave the entry trashed; so do two `trash` operations alone. -/
theorem trashed_kept_unless_rewritten_witness :
    NotificationFolder.entryAt ["app"] "run-1.json"
      (exCachedTransient.trash ⟨true, ["r", "app", "run-1.json"]⟩).1.notification_cache =
      some { exTransient ["r", "app", "run-1.json"] 1 with trashed := true } ∧
    (∃ s', (exCachedTransient.trash ⟨true, ["r", "app", "run-1.json"]⟩).1.run
        [Op.trash ⟨true, ["r", "app", "run-1.json"]⟩, Op.trash exRoot,
         Op.cache 5 (exTransient ["r", "app", "run-2.json"] 2)] = some s' ∧
      ∃ e', NotificationFolder.entryAt ["app"] "run-1.json" s'.notification_cache = some e' ∧
        e'.trashed = true) ∧
    (∃ s' e', (exCachedTransient.trash ⟨true, ["r", "app", "run-1.json"]⟩).1.run
        ([⟨true, ["r", "app", "run-1.json"]⟩, exRoot].map Op.trash) = some s' ∧
      NotificationFolder.entryAt ["app"] "run-1.json" s'.notification_cache = some e' ∧
      e'.trashed = true) :=
  ⟨by decide,
   ⟨_, rfl,
    (trashed_kept_unless_rewritten ["app"] "run-1.json").1
      [Op.trash ⟨true, ["r", "app", "run-1.json"]⟩, Op.trash exRoot,
       Op.cache 5 (exTransient ["r", "app", "run-2.json"] 2)]
      (exCachedTransient.trash ⟨true, ["r", "app", "run-1.json"]⟩).1 _
      { exTransient ["r", "app", "run-1.json"] 1 with trashed := true }
      (by decide) rfl
      (by
        refine ⟨fun h => h, ⟨fun h => h, ⟨?_, trivial⟩⟩⟩
        rintro ⟨-, h⟩
        exact absurd h (by decide))
      rfl⟩,
   (trashed_kept_unless_rewritten ["app"] "run-1.json").2
     [⟨true, ["r", "app", "run-1.json"]⟩, exRoot]
     (exCachedTransient.trash ⟨true, ["r", "app", "run-1.json"]⟩).1
     { exTransient ["r", "app", "run-1.json"] 1 with trashed := true }
     (by decide) rfl⟩

/-- Claim C7 as stated fails: a later `cache` of the same storage path clears the flag. From
the state in which the entry `/r/app/run-1.json` has been trashed (`trashed = true`), a
`cache` of a notification with the same storage path overwrites the entry, and the entry at
the same folder and key has `trashed = false` afterwards. -/
theorem trashed_cleared_by_cache_counterexample :
    (NotificationFolder.entryAt ["app"] "run-1.json"
      (exCachedTransient.trash ⟨true, ["r", "app", "run-1.json"]⟩).1.notification_cache).map
        (fun e => e.trashed) = some true ∧
    ((exCachedTransient.trash ⟨true, ["r", "app", "run-1.json"]⟩).1.run
        [Op.cache 5 (exTransient ["r", "app", "run-1.json"] 1)]).map
        (fun s => (NotificationFolder.entryAt ["app"] "run-1.json" s.notification_cache).map
          (fun e => e.trashed)) = some (some false) := by
  decide

/-! ## Claims on the display unit (C11 – C13) -/

/-- Claim C11. For every `notify` call in which `k ≥ 2` candidates are accepted
(`to_display` has `k` elements), one display unit is built and its summary is
`<k> new notifications from <app_name>`, where `app_name` is that of the last accepted
candidate; `k` is the number of accepted notifications, whatever the number requested.
Three acceptable notifications of the application `Mail` give
`3 new notifications from Mail`. -/
theorem notify_summary_coalesced (self : Notifier) (fuel : Nat) (now : Int) (is_batch : Bool)
    (ns acc : List CachedNotification)
    (hacc : Notifier.toDisplay self fuel now is_batch ns = some acc)
    (hk : 2 ≤ acc.length) :
    (∃ unit last, Notifier.notifyDisplay self fuel now is_batch ns = some (some unit) ∧
      acc.getLast? = some last ∧
      unit.summary = toString acc.length ++ " new notifications from " ++ last.app_name) ∧
    (Notifier.notifyDisplay exQuietNotifier 3 0 false exMail).map
        (fun u => u.map (fun d => d.summary)) =
      some (some "3 new notifications from Mail") := by
  refine ⟨?_, by decide⟩
  obtain ⟨last, hlast⟩ := List.exists_getLast_of_length_pos acc (by omega)
  refine ⟨{ last with
      summary := Notifier.displaySummary acc last
      body := Notifier.displayBody acc last }, last, ?_, hlast, ?_⟩
  · simp only [Notifier.notifyDisplay, hacc, Option.map_some',
      Notifier.displayUnit_of_getLast acc last hlast]
  · exact Notifier.displaySummary_coalesced acc last (by omega)

/-- Instance of C11: the request `exRequests` plus two more critical notifications, of which
the normal and the trashed one are rejected while do-not-disturb is active: three are
accepted out of five requested, and the summary counts three. -/
theorem notify_summary_coalesced_witness :
    Notifier.toDisplay exNotifier 3 50 false
        (exRequests ++ [exNotification "run-4.json" 4 [("urgency", .int 2)] false,
          exNotification "run-5.json" 5 [("urgency", .int 2)] false]) =
      some [exNotification "run-1.json" 1 [("urgency", .int 2)] false,
        exNotification "run-4.json" 4 [("urgency", .int 2)] false,
        exNotification "run-5.json" 5 [("urgency", .int 2)] false] ∧
    (∃ unit last,
      Notifier.notifyDisplay exNotifier 3 50 false
          (exRequests ++ [exNotification "run-4.json" 4 [("urgency", .int 2)] false,
            exNotification "run-5.json" 5 [("urgency", .int 2)] false]) = some (some unit) ∧
      [exNotification "run-1.json" 1 [("urgency", .int 2)] false,
        exNotification "run-4.json" 4 [("urgency", .int 2)] false,
        exNotification "run-5.json" 5 [("urgency", .int 2)] false].getLast? = some last ∧
      unit.summary =
        toString [exNotification "run-1.json" 1 [("urgency", .int 2)] false,
          exNotification "run-4.json" 4 [("urgency", .int 2)] false,
          exNotification "run-5.json" 5 [("urgency", .int 2)] false].length ++
          " new notifications from " ++ last.app_name) :=
  ⟨by decide,
   (notify_summary_coalesced exNotifier 3 50 false
      (exRequests ++ [exNotification "run-4.json" 4 [("urgency", .int 2)] false,
        exNotification "run-5.json" 5 [("urgency", .int 2)] false])
      [exNotification "run-1.json" 1 [("urgency", .int 2)] false,
        exNotification "run-4.json" 4 [("urgency", .int 2)] false,
        exNotification "run-5.json" 5 [("urgency", .int 2)] false]
      (by decide) (by decide)).1⟩


/-- Claim C12 as stated fails on the code.  Two accepted notifications with summaries `a` and
`b` and empty bodies give the display body `a`, separator, `b`: the block of a candidate with
an empty body is its summary alone, without the newline of `summary, newline, body`.  And
the combined body of `exThousand`, which has exactly 1000 characters, is not left unmodified:
the display body is its first 997 characters followed by `...`, a different text. -/
theorem notify_body_blocks_counterexample :
    (Notifier.toDisplay exQuietNotifier 3 0 false exNoBody = some exNoBody ∧
      (Notifier.notifyDisplay exQuietNotifier 3 0 false exNoBody).map
          (fun u => u.map (fun d => d.body)) = some (some "a\n---\nb") ∧
      specCombinedBody exNoBody = "a\n\n---\nb\n") ∧
    (Notifier.toDisplay exQuietNotifier 3 0 false exThousand = some exThousand ∧
      specCombinedBody exThousand = Notifier.combinedBody exThousand ∧
      QString_length (Notifier.combinedBody exThousand) = 1000 ∧
      (Notifier.notifyDisplay exQuietNotifier 3 0 false exThousand).map
          (fun u => u.map (fun d => d.body)) =
        some (some (QString_left 997 (Notifier.combinedBody exThousand) ++ "...")) ∧
      QString_left 997 (Notifier.combinedBody exThousand) ++ "..." ≠
        Notifier.combinedBody exThousand) := by
  refine ⟨by decide, exThousand_accepted, ?_, exThousand_length, ?_, ?_⟩
  · rw [exThousand_body]
    rfl
  · rw [Notifier.notifyDisplay_body _ _ _ _ _ _ _ exThousand_accepted rfl]
    have hne : ¬ exThousand.length = 1 := by decide
    simp only [Option.map_some', Notifier.displayBody, hne, if_false]
    rw [Notifier.truncateBody_long _ (le_of_eq exThousand_length.symm)]
  · apply ne_of_getLast_ne
    rw [getLast_append_dots, exThousand_body, ← String.append_assoc,
      getLast_append_exLetters _ 494]
    decide

/-- Claim C12, as amended.  For every `notify` call in which two or more candidates are
accepted, one display unit is built; the combined body is the candidates' blocks in request
order joined by the record separator (newline, `---`, newline), where the block of a
candidate is its summary and its body, each only when not empty, joined by a newline.  The
display body is the combined body unmodified when that has fewer than 1000 characters
(UTF-16 code units), and its first 997 characters followed by `...` when it has more than
1000. -/
theorem notify_body_coalesced (self : Notifier) (fuel : Nat) (now : Int) (is_batch : Bool)
    (ns acc : List CachedNotification)
    (hacc : Notifier.toDisplay self fuel now is_batch ns = some acc)
    (hk : 2 ≤ acc.length) :
    ∃ unit, Notifier.notifyDisplay self fuel now is_batch ns = some (some unit) ∧
      Notifier.combinedBody acc = "\n---\n".intercalate (acc.map Notifier.contentBlock) ∧
      (∀ n ∈ acc, Notifier.contentBlock n =
        if n.summary.isEmpty then n.body
        else if n.body.isEmpty then n.summary
        else n.summary ++ "\n" ++ n.body) ∧
      (QString_length (Notifier.combinedBody acc) < 1000 →
        unit.body = Notifier.combinedBody acc) ∧
      (1000 < QString_length (Notifier.combinedBody acc) →
        unit.body = QString_left 997 (Notifier.combinedBody acc) ++ "...") := by
  obtain ⟨last, hlast⟩ := List.exists_getLast_of_length_pos acc (by omega)
  have hne : ¬ acc.length = 1 := by omega
  refine ⟨_, Notifier.notifyDisplay_body self fuel now is_batch ns acc last hacc hlast, rfl,
    fun n _ => Notifier.contentBlock_eq n, ?_, ?_⟩
  · intro h
    simp only [Notifier.displayBody, hne, if_false]
    exact Notifier.truncateBody_short _ h
  · intro h
    simp only [Notifier.displayBody, hne, if_false]
    exact Notifier.truncateBody_long _ (le_of_lt h)

/-- Instance of C12 (amended): the two notifications of `exLong` are accepted, their combined
body has 2007 characters, and the display body is its first 997 characters followed by
`...`. -/
theorem notify_body_coalesced_witness :
    1000 < QString_length (Notifier.combinedBody exLong) ∧
    ∃ unit, Notifier.notifyDisplay exQuietNotifier 3 0 false exLong = some (some unit) ∧
      Notifier.combinedBody exLong = "\n---\n".intercalate (exLong.map Notifier.contentBlock) ∧
      (∀ n ∈ exLong, Notifier.contentBlock n =
        if n.summary.isEmpty then n.body
        else if n.body.isEmpty then n.summary
        else n.summary ++ "\n" ++ n.body) ∧
      (QString_length (Notifier.combinedBody exLong) < 1000 →
        unit.body = Notifier.combinedBody exLong) ∧
      (1000 < QString_length (Notifier.combinedBody exLong) →
        unit.body = QString_left 997 (Notifier.combinedBody exLong) ++ "...") :=
  ⟨by rw [exLong_length]; decide,
   notify_body_coalesced exQuietNotifier 3 0 false exLong exLong exLong_accepted (by decide)⟩

/-- Claim C13 as stated fails on the code.  The single accepted notification `exLongSingle`
has a body of 2000 characters; the display body is not that body but its first 997
characters followed by `...` (the statement `if (body.length() >= 1000)` of
notifier.cpp:93 comes after both branches). -/
theorem notify_single_body_counterexample :
    Notifier.toDisplay exQuietNotifier 3 0 false [exLongSingle] = some [exLongSingle] ∧
    QString_length exLongSingle.body = 2000 ∧
    (Notifier.notifyDisplay exQuietNotifier 3 0 false [exLongSingle]).map
        (fun u => u.map (fun d => d.body)) =
      some (some (QString_left 997 exLongSingle.body ++ "...")) ∧
    QString_left 997 exLongSingle.body ++ "..." ≠ exLongSingle.body := by
  have hlen : QString_length exLongSingle.body = 2000 :=
    QString_length_exLetters 2000 _ (by decide)
  refine ⟨exLongSingle_accepted, hlen, ?_, ?_⟩
  · rw [Notifier.notifyDisplay_body _ _ _ _ _ _ exLongSingle exLongSingle_accepted rfl]
    have hone : [exLongSingle].length = 1 := rfl
    simp only [Option.map_some', Notifier.displayBody, hone, if_true]
    rw [Notifier.truncateBody_long _ (by rw [hlen]; decide)]
  · apply ne_of_getLast_ne
    rw [getLast_append_dots]
    show some (Char.ofNat 46) ≠ (exLetters (1999 + 1) (Char.ofNat 97)).toList.getLast?
    rw [getLast_exLetters]
    decide

/-- Claim C13, as amended.  For every `notify` call in which exactly one candidate is
accepted, one display unit is built; its summary is that candidate's own summary, unmodified
whatever its length; its body is that candidate's own body unmodified when the body has fewer
than 1000 characters (UTF-16 code units), and the first 997 characters of it followed by
`...` when it has more than 1000. -/
theorem notify_single_unit (self : Notifier) (fuel : Nat) (now : Int) (is_batch : Bool)
    (ns : List CachedNotification) (n : CachedNotification)
    (hacc : Notifier.toDisplay self fuel now is_batch ns = some [n]) :
    ∃ unit, Notifier.notifyDisplay self fuel now is_batch ns = some (some unit) ∧
      unit.summary = n.summary ∧
      (QString_length n.body < 1000 → unit.body = n.body) ∧
      (1000 < QString_length n.body → unit.body = QString_left 997 n.body ++ "...") := by
  have hone : [n].length = 1 := rfl
  refine ⟨_, Notifier.notifyDisplay_body self fuel now is_batch ns [n] n hacc rfl, ?_, ?_, ?_⟩
  · simp only [Notifier.displaySummary, hone, if_true]
  · intro h
    simp only [Notifier.displayBody, hone, if_true]
    exact Notifier.truncateBody_short _ h
  · intro h
    simp only [Notifier.displayBody, hone, if_true]
    exact Notifier.truncateBody_long _ (le_of_lt h)

/-- Instance of C13 (amended): of the three requests of `exRequests` only the critical one is
accepted while do-not-disturb is active; its body `b` has one character and the display unit
carries its summary and body. -/
theorem notify_single_unit_witness :
    QString_length (exNotification "run-1.json" 1 [("urgency", .int 2)] false).body < 1000 ∧
    ∃ unit, Notifier.notifyDisplay exNotifier 3 50 false exRequests = some (some unit) ∧
      unit.summary = (exNotification "run-1.json" 1 [("urgency", .int 2)] false).summary ∧
      (QString_length (exNotification "run-1.json" 1 [("urgency", .int 2)] false).body < 1000 →
        unit.body = (exNotification "run-1.json" 1 [("urgency", .int 2)] false).body) ∧
      (1000 < QString_length (exNotification "run-1.json" 1 [("urgency", .int 2)] false).body →
        unit.body =
          QString_left 997 (exNotification "run-1.json" 1 [("urgency", .int 2)] false).body ++
            "...") :=
  ⟨by decide,
   notify_single_unit exNotifier 3 50 false exRequests
     (exNotification "run-1.json" 1 [("urgency", .int 2)] false) (by decide)⟩

/-! ## Claim on closing a display (C14) -/

/-- Claim C14. In every well-formed scheduler state (each registry entry stands under the key
of its widget, which `showOrQueueNotification` establishes and every call keeps), with "active
display" meaning an entry of the registry `m_notification_widgets`:
`closeNotification` on an id without entry under `(m_run_id, id)`, or on a widget handle
whose key has no entry, returns the state unchanged (so nothing is emitted);
`closeNotification` on a registered id or handle returns a state in which the key has no
entry, and whose closure events are those before followed by exactly one
`notificationClosed(id, reason, path, in-current-run)`, or by none when the reason is
closed-by-call; a second `closeNotification` on the same id or handle, with any reason,
returns that state unchanged. -/
theorem closeNotification_once (s : NotifierState) (hwf : s.WellFormed)
    (reason : NotificationCloseReason) (is_batch : Bool) :
    (∀ id, mapFind ⟨s.m_run_id, id⟩ s.m_notification_widgets = none →
      s.closeNotification id reason is_batch = some s) ∧
    (∀ h w, mapFind h s.heap = some w → mapFind w.key s.m_notification_widgets = none →
      s.closeNotificationWidget h reason is_batch = some s) ∧
    (∀ id h, mapFind ⟨s.m_run_id, id⟩ s.m_notification_widgets = some h →
      ∃ w s', mapFind h s.heap = some w ∧
        s.closeNotification id reason is_batch = some s' ∧
        mapFind ⟨s.m_run_id, id⟩ s'.m_notification_widgets = none ∧
        s'.closures = s.closures ++
          (if reason = .CLOSED_BY_CALL_TO_CLOSENOTIFICATION then []
           else [.notificationClosed id reason.toInt w.data.path.string true]) ∧
        ∀ reason2 is_batch2, s'.closeNotification id reason2 is_batch2 = some s') ∧
    (∀ h w h0, mapFind h s.heap = some w →
      mapFind w.key s.m_notification_widgets = some h0 →
      ∃ s', s.closeNotificationWidget h reason is_batch = some s' ∧
        mapFind w.key s'.m_notification_widgets = none ∧
        s'.closures = s.closures ++
          (if reason = .CLOSED_BY_CALL_TO_CLOSENOTIFICATION then []
           else [.notificationClosed w.data.id reason.toInt w.data.path.string
              (decide (w.data.notification_tray_run_id = s.m_run_id))]) ∧
        ∀ reason2 is_batch2, s'.closeNotificationWidget h reason2 is_batch2 = some s') ∧
    (∀ id s', s.closeNotification id reason is_batch = some s' →
      ∀ reason2 is_batch2, s'.closeNotification id reason2 is_batch2 = some s') := by
  have hid : ∀ id h, mapFind ⟨s.m_run_id, id⟩ s.m_notification_widgets = some h →
      ∃ w s', mapFind h s.heap = some w ∧
        s.closeNotification id reason is_batch = some s' ∧
        mapFind ⟨s.m_run_id, id⟩ s'.m_notification_widgets = none ∧
        s'.closures = s.closures ++
          (if reason = .CLOSED_BY_CALL_TO_CLOSENOTIFICATION then []
           else [.notificationClosed id reason.toInt w.data.path.string true]) ∧
        ∀ reason2 is_batch2, s'.closeNotification id reason2 is_batch2 = some s' := by
    intro id h hreg
    have hk := hwf _ (mem_of_mapFind _ _ _ hreg)
    obtain ⟨w, hw, hwk⟩ := Option.map_eq_some'.mp hk
    simp only at hw hwk
    have hreg' : mapFind w.key s.m_notification_widgets = some h := by rw [hwk]; exact hreg
    obtain ⟨s', hs', k1, k2, _, k4, _⟩ :=
      s.closeNotificationWidget_registered hwf h w h hw hreg' reason is_batch
    have hrun : w.data.notification_tray_run_id = s.m_run_id := congrArg WidgetKey.run_id hwk
    have hwid : w.data.id = id := congrArg WidgetKey.id hwk
    refine ⟨w, s', hw, ?_, ?_, ?_, ?_⟩
    · simp only [NotifierState.closeNotification, hreg]
      exact hs'
    · rw [← hwk]
      exact k1
    · rw [k2, hwid]
      simp [hrun]
    · intro r2 b2
      apply NotifierState.closeNotification_unregistered
      rw [k4, ← hwk]
      exact k1
  refine ⟨fun id h => s.closeNotification_unregistered id h reason is_batch,
    fun h w hw hreg => s.closeNotificationWidget_unregistered h w hw hreg reason is_batch,
    hid, ?_, ?_⟩
  · intro h w h0 hw hreg
    obtain ⟨s', hs', k1, k2, _, _, k5⟩ :=
      s.closeNotificationWidget_registered hwf h w h0 hw hreg reason is_batch
    refine ⟨s', hs', k1, k2, ?_⟩
    intro r2 b2
    have hd := k5 h
    rw [hw] at hd
    obtain ⟨w', hw', hdata⟩ := Option.map_eq_some'.mp hd
    have hkey : w'.key = w.key := by
      simp only at hdata
      simp [NotificationWidget.key, hdata]
    exact s'.closeNotificationWidget_unregistered h w' hw' (by rw [hkey]; exact k1) r2 b2
  · intro id s' hs' r2 b2
    cases hreg : mapFind ⟨s.m_run_id, id⟩ s.m_notification_widgets with
    | none =>
      rw [s.closeNotification_unregistered id hreg reason is_batch] at hs'
      cases hs'
      exact s.closeNotification_unregistered id hreg r2 b2
    | some h =>
      obtain ⟨w, s'', _, hs'', _, _, htwice⟩ := hid id h hreg
      rw [hs''] at hs'
      cases hs'
      exact htwice r2 b2

/-- Instance of C14: in `exShown` the widget of notification 1 is shown and that of
notification 2 is queued.  Closing id 1 because it expired leaves no entry for it and emits
the one event `notificationClosed(1, 1, /r/app/run-1.json, true)`; closing id 1 again
changes nothing. -/
theorem closeNotification_once_witness :
    exShown.WellFormed ∧
    mapFind ⟨exShown.m_run_id, 1⟩ exShown.m_notification_widgets = some 7 ∧
    ∃ w s', mapFind 7 exShown.heap = some w ∧
      exShown.closeNotification 1 .EXPIRED false = some s' ∧
      mapFind ⟨exShown.m_run_id, 1⟩ s'.m_notification_widgets = none ∧
      s'.closures = exShown.closures ++
        (if NotificationCloseReason.EXPIRED = .CLOSED_BY_CALL_TO_CLOSENOTIFICATION then []
         else [.notificationClosed 1 NotificationCloseReason.EXPIRED.toInt
            w.data.path.string true]) ∧
      ∀ reason2 is_batch2, s'.closeNotification 1 reason2 is_batch2 = some s' :=
  ⟨by decide, by decide,
   (closeNotification_once exShown (by decide) .EXPIRED false).2.2.1 1 7 (by decide)⟩

/-! ## Claim on the persisted record (C15) -/

/-- Claim C15. For every notification whose `id`, `replaces_id` and `expire_timeout` are of
type `int` (32 bits), whose hints are strings, 32-bit integers or booleans, and whose
`actions` and `hints` are key-ordered maps: the record that `cache` writes (for a
non-transient notification, the directories being created and the file opened, the file at
the storage path holds exactly `notificationRecord n`), parsed the way
`cacheExistingNotifications` parses a file, gives an entry with the same `app_name`,
`summary`, `body`, `app_icon`, `id`, `replaces_id`, `expire_timeout`, run id, and the same
`actions` and `hints` maps (same keys, values and value types). -/
theorem cache_record_round_trip (n : CachedNotification) (p : Path) (modified : Int)
    (hid : isInt32 n.id) (hrep : isInt32 n.replaces_id) (hexp : isInt32 n.expire_timeout)
    (hact : keyOrdered n.actions) (hhints : keyOrdered n.hints)
    (hv : ∀ kv ∈ n.hints, (∃ s, kv.2 = .string s) ∨
      (∃ i, kv.2 = .int i ∧ isInt32 i) ∨ (∃ b, kv.2 = .bool b)) :
    (∀ (self : NotificationCacher) (now : Int) (d : FileSystem), isTransient n = false →
      self.disk.create_directories n.path.parent_path = some d →
      d.canOpenForWriting n.path = true →
      ∃ s', self.cache now n = some s' ∧
        mapFind n.path s'.disk.entries =
          some (FsNode.file (.json (notificationRecord n)) now)) ∧
    ∃ r, parseNotification (.json (notificationRecord n)) p modified = some r ∧
      r.app_name = n.app_name ∧ r.summary = n.summary ∧ r.body = n.body ∧
      r.app_icon = n.app_icon ∧ r.id = n.id ∧ r.replaces_id = n.replaces_id ∧
      r.expire_timeout = n.expire_timeout ∧
      r.notification_tray_run_id = n.notification_tray_run_id ∧
      r.actions = n.actions ∧ r.hints = n.hints := by
  constructor
  · intro self now d ht hd ho
    have hc : self.cache now n = some
        { self with
          disk := d.writeFile n.path (.json (notificationRecord n)) now
          notification_cache :=
            NotificationFolder.updateCreating
              (NotificationFolder.putNotification n.path.filename n)
              (n.path.parent_path.relative self.notification_cache.path)
              self.notification_cache
          emitted := self.emitted ++ [Event.notificationsCached] } := by
      simp [NotificationCacher.cache, ht, hd, ho]
    exact ⟨_, hc, FileSystem.mapFind_writeFile d n.path _ now⟩
  · obtain ⟨obj, hobj, h1, h2, h3, h4, h5, h6, h7, h8, h9, h10⟩ := notificationRecord_members n
    rw [hobj]
    refine ⟨_, rfl, ?_, ?_, ?_, ?_, ?_, ?_, ?_, ?_, ?_, ?_⟩
    · simp [jsonString, h1]
    · simp [jsonString, h2]
    · simp [jsonString, h3]
    · simp [jsonString, h4]
    · simp [jsonInt, h5, hid.1, hid.2]
    · simp [jsonInt, h6, hrep.1, hrep.2]
    · simp [jsonInt, h7, hexp.1, hexp.2]
    · simp [jsonString, h8]
    · exact parseActions_record obj n.actions h9 hact
    · exact parseHints_record obj n.hints h10 hhints hv

/-- Instance of C15: `exRich` has two actions and a string, a boolean and an integer hint; the
record written for it parses back to the same fields, actions and hints. -/
theorem cache_record_round_trip_witness :
    (isInt32 exRich.id ∧ keyOrdered exRich.actions ∧ keyOrdered exRich.hints) ∧
    ∃ r, parseNotification (.json (notificationRecord exRich)) exRich.path 5 = some r ∧
      r.app_name = exRich.app_name ∧ r.summary = exRich.summary ∧ r.body = exRich.body ∧
      r.app_icon = exRich.app_icon ∧ r.id = exRich.id ∧
      r.replaces_id = exRich.replaces_id ∧ r.expire_timeout = exRich.expire_timeout ∧
      r.notification_tray_run_id = exRich.notification_tray_run_id ∧
      r.actions = exRich.actions ∧ r.hints = exRich.hints :=
  ⟨⟨by decide, by simp [keyOrdered, exRich]; decide, by simp [keyOrdered, exRich]; decide⟩,
   (cache_record_round_trip exRich exRich.path 5 (by decide) (by decide) (by decide)
      (by simp [keyOrdered, exRich]; decide) (by simp [keyOrdered, exRich]; decide)
      (by simp [exRich, isInt32])).2⟩

/-! ## Claim on the scan of existing notifications (C16) -/

/-- Claim C16 fails on the code for a notification file lying directly in the root. On the
disk `exScanDisk`, `cacheExistingNotifications(/r)` started on the empty tree returns and
emits `notificationsCached` once; the file `/r/app/run-2.json` gives one entry in the folder
`app`, the settings file and the file that is not JSON give none; but the file
`/r/error.json` is not placed in the root folder, the folder that matches its directory:
`fs::relative(root, root)` is `.`, so its entry stands in a child folder named `.` with path
`/r/.`, and the root folder's own notification map stays empty. -/
theorem scan_root_level_file :
    (exScanCacher.cacheExistingNotifications exRoot).map
        (fun s =>
          (s.emitted,
           (NotificationFolder.entryAt ["app"] "run-2.json" s.notification_cache).map
             (fun n => (n.summary, n.path)))) =
      some ([Event.notificationsCached],
        some ("Hello", ⟨true, ["r", "app", "run-2.json"]⟩)) ∧
    (exScanCacher.cacheExistingNotifications exRoot).map
        (fun s =>
          (NotificationFolder.entryAt ["app"] ".settings.json" s.notification_cache,
           NotificationFolder.entryAt ["app"] "bad.json" s.notification_cache)) =
      some (none, none) ∧
    (exScanCacher.cacheExistingNotifications exRoot).map
        (fun s =>
          (NotificationFolder.entryAt [] "error.json" s.notification_cache,
           s.notification_cache.notifications)) =
      some (none, []) ∧
    (exScanCacher.cacheExistingNotifications exRoot).map
        (fun s =>
          ((NotificationFolder.entryAt ["."] "error.json" s.notification_cache).map
             (fun n => (n.summary, n.path)),
           (NotificationFolder.folderAt ["."] s.notification_cache).map
             NotificationFolder.path)) =
      some (some ("Error", ⟨true, ["r", "error.json"]⟩), some ⟨true, ["r", "."]⟩) := by
  decide!

/-! ## Claim on `slugify` (C19) -/

/-- Claim C19. For every input text (and every decomposition table), `slugify` returns a
non-empty text made only of the characters `a`-`z`, `0`-`9`, `_` and `-`, which neither
starts nor ends with `-` or `_`, and has no two `-` in a row; so it contains neither `/` nor
`.`.  For every input text it returns the slug in the words of the specification,
`specSlugify`: the upper-case letters `A`-`Z` in lower case, the lower-case letters, the
digits and the underscores are kept, every run of hyphens and whitespace (space, tab, line
feed, vertical tab, form feed, carriage return) separates two words, every other character
is removed, the words are written with one `-` between two of them, the hyphens and
underscores at the two ends are removed, and the result is `unnamed` when nothing remains.
For every text without a letter, a digit or an underscore the result is `unnamed`.  On the
inputs of the tests: letters are lower-cased, runs of whitespace and hyphens become one `-`,
accents and other characters are removed, and the result is `unnamed` for the empty text,
for whitespace only and for special characters only. -/
theorem slugify_shape (nfkd : Char → List Char) (text : String) :
    (Paths.slugify nfkd text ≠ "" ∧
      (∀ c ∈ (Paths.slugify nfkd text).toList, isSlugChar c = true) ∧
      (∀ c, (Paths.slugify nfkd text).toList.head? = some c → c ≠ '-' ∧ c ≠ '_') ∧
      (∀ c, (Paths.slugify nfkd text).toList.getLast? = some c → c ≠ '-' ∧ c ≠ '_') ∧
      ¬ (['-', '-'] <:+: (Paths.slugify nfkd text).toList) ∧
      '/' ∉ (Paths.slugify nfkd text).toList ∧ '.' ∉ (Paths.slugify nfkd text).toList) ∧
    (Paths.slugify Paths.exNfkd "Hello World" = "hello-world" ∧
      Paths.slugify Paths.exNfkd "UPPERCASE TEXT" = "uppercase-text" ∧
      Paths.slugify Paths.exNfkd "Hello! @#$% World?" = "hello-world" ∧
      Paths.slugify Paths.exNfkd "Hello    World" = "hello-world" ∧
      Paths.slugify Paths.exNfkd "Hello---World" = "hello-world" ∧
      Paths.slugify Paths.exNfkd "---Hello World---" = "hello-world" ∧
      Paths.slugify Paths.exNfkd "___Hello World___" = "hello-world" ∧
      Paths.slugify Paths.exNfkd "Test 123 Numbers" = "test-123-numbers" ∧
      Paths.slugify Paths.exNfkd "hello_world_test" = "hello_world_test" ∧
      Paths.slugify Paths.exNfkd "Hello\tWorld\nTest" = "hello-world-test" ∧
      Paths.slugify Paths.exNfkd "Héllo Wörld" = "hello-world" ∧
      Paths.slugify Paths.exNfkd "" = "unnamed" ∧
      Paths.slugify Paths.exNfkd "!@#$%^&*()" = "unnamed" ∧
      Paths.slugify Paths.exNfkd "   " = "unnamed" ∧
      Paths.slugify Paths.exNfkd "New Email: Meeting Tomorrow" =
        "new-email-meeting-tomorrow") ∧
    Paths.slugify nfkd text = specSlugify nfkd text ∧
    ((∀ c ∈ text.toList.flatMap nfkd, specLetter c = none) →
      Paths.slugify nfkd text = "unnamed") ∧
    (specWhitespace.map Char.toNat = [32, 9, 10, 11, 12, 13] ∧
      ("AZaz09_".toList.map specLetter = "azaz09_".toList.map some) ∧
      ("@[/:. -!".toList.map specLetter = List.replicate 8 none) ∧
      specLetter (Char.ofNat 233) = none ∧
      Paths.slugify Paths.exNfkd
          (String.mk ['A', Char.ofNat 11, 'b', Char.ofNat 12, Char.ofNat 13, '-', 'C']) =
        "a-b-c" ∧
      Paths.slugify Paths.exNfkd "_ -_" = "unnamed") := by
  exact ⟨Paths.slugify_facts nfkd text, by decide, Paths.slugify_eq_specSlugify nfkd text,
    Paths.slugify_unnamed nfkd text, by decide⟩

/-- Instance of C19 for a text without a letter, a digit or an underscore: `!@#$%^&*()`. -/
theorem slugify_shape_witness :
    (∀ c ∈ "!@#$%^&*()".toList.flatMap Paths.exNfkd, specLetter c = none) ∧
    Paths.slugify Paths.exNfkd "!@#$%^&*()" = specSlugify Paths.exNfkd "!@#$%^&*()" ∧
    Paths.slugify Paths.exNfkd "!@#$%^&*()" = "unnamed" :=
  ⟨by decide, (slugify_shape Paths.exNfkd "!@#$%^&*()").2.2.1,
    (slugify_shape Paths.exNfkd "!@#$%^&*()").2.2.2.1 (by decide)⟩

/-! ## Claim on the storage path (C17) -/

/-- Claim C18 as stated fails on the code.  On a disk that holds only the root `/r`,
`writeDateTimeSetting` for the folder `/r/app` updates the cache and the setting resolves to
the timestamp, but no settings file is written: the function creates no directory, and
`QFile::open(WriteOnly)` fails in a directory that does not exist.  And for the root `/`,
whose parent path is `/` itself, the setting written for the folder `/` does not resolve:
the walk ends before the first lookup. -/
theorem writeDateTimeSetting_no_file_counterexample :
    ((Settings.writeDateTimeSetting exIso exCacher.disk 9 ⟨true, ["r", "app"]⟩
        "do_not_disturb" (.valid 100) []).1 =
        [(⟨true, ["r", "app"]⟩, some (.valid 100))] ∧
      Settings.getDateTimeSetting 2 ⟨true, ["r", "app"]⟩ exRoot
          (Settings.writeDateTimeSetting exIso exCacher.disk 9 ⟨true, ["r", "app"]⟩
            "do_not_disturb" (.valid 100) []).1 = some (some (.valid 100)) ∧
      (Settings.writeDateTimeSetting exIso exCacher.disk 9 ⟨true, ["r", "app"]⟩
        "do_not_disturb" (.valid 100) []).2.«exists»
          ⟨true, ["r", "app", ".settings.json"]⟩ = false) ∧
    (∀ fuel, Settings.getDateTimeSetting (fuel + 1) ⟨true, []⟩ ⟨true, []⟩
        (Settings.writeDateTimeSetting exIso exCacher.disk 9 ⟨true, []⟩
          "do_not_disturb" (.valid 100) []).1 = some none) := by
  refine ⟨by decide, ?_⟩
  intro fuel
  rfl

/-- Claim C18, as amended.  For every folder, setting name, timestamp and cache: after
`writeDateTimeSetting(folder, name, until, cache)`, resolving the setting at the folder on
the same cache returns `until`, for every root whose walk starts at the folder (the folder
is not the parent path of the root; one turn of the loop suffices), and the cache entries of
other folders are unchanged.  When the settings file of the folder is one that
`QFile::open(WriteOnly)` opens, the file then holds an object in which `name` is the ISO
text of `until` and every other key is as in the object the file held before (no key when it
held none); otherwise the disk is left as it was. -/
theorem writeDateTimeSetting_visible (iso : QDateTime → String) (disk : FileSystem)
    (now : Int) (folder_path root_path : Path) (setting_name : String) (t : QDateTime)
    (cache : Cache) (fuel : Nat) (hwalk : folder_path ≠ root_path.parent_path) :
    ∃ cache' disk',
      Settings.writeDateTimeSetting iso disk now folder_path setting_name t cache =
        (cache', disk') ∧
      Settings.getDateTimeSetting (fuel + 1) folder_path root_path cache' = some (some t) ∧
      (∀ other, other ≠ folder_path → mapFind other cache' = mapFind other cache) ∧
      (disk.canOpenForWriting (folder_path.join ".settings.json") = true →
        ∃ members,
          mapFind (folder_path.join ".settings.json") disk'.entries =
            some (.file (.json (.object members)) now) ∧
          mapFind setting_name members = some (.string (iso t)) ∧
          ∀ key, key ≠ setting_name →
            mapFind key members =
              mapFind key
                (Settings.existingSettings disk (folder_path.join ".settings.json"))) ∧
      (disk.canOpenForWriting (folder_path.join ".settings.json") = false →
        disk' = disk) := by
  have hget : Settings.getDateTimeSetting (fuel + 1) folder_path root_path
      (mapInsert folder_path (some t) cache) = some (some t) := by
    simp [Settings.getDateTimeSetting, hwalk, mapFind_mapInsert]
  have hother : ∀ other, other ≠ folder_path →
      mapFind other (mapInsert folder_path (some t) cache) = mapFind other cache := by
    intro other ho
    simp [mapFind_mapInsert, ho]
  by_cases hopen : disk.canOpenForWriting (folder_path.join ".settings.json") = true
  · have hw : Settings.writeDateTimeSetting iso disk now folder_path setting_name t cache =
        (mapInsert folder_path (some t) cache,
          disk.writeFile (folder_path.join ".settings.json")
            (.json (.object (mapInsert setting_name (JsonValue.string (iso t))
              (Settings.existingSettings disk (folder_path.join ".settings.json"))))) now) := by
      simp only [Settings.writeDateTimeSetting, hopen, if_true]
    refine ⟨_, _, hw, hget, hother, fun _ => ⟨_, FileSystem.mapFind_writeFile disk _ _ now,
      ?_, ?_⟩, fun h => ?_⟩
    · simp [mapFind_mapInsert]
    · intro key hk
      simp [mapFind_mapInsert, hk]
    · rw [hopen] at h
      cases h
  · have hw : Settings.writeDateTimeSetting iso disk now folder_path setting_name t cache =
        (mapInsert folder_path (some t) cache, disk) := by
      simp only [Settings.writeDateTimeSetting, hopen, if_false, Bool.false_eq_true]
    exact ⟨_, _, hw, hget, hother, fun h => absurd h hopen, fun _ => rfl⟩

/-- Instance of C18 (amended): on the disk `exSettingsDisk`, writing `do_not_disturb` for the
root folder `/r` with the timestamp 100 into a cache that holds an entry for `/r/app`: the
setting resolves to that timestamp at `/r`, the entry of `/r/app` stays, and the file holds
both `do_not_disturb` and the member `hide_from_tray` it held before. -/
theorem writeDateTimeSetting_visible_witness :
    (exRoot ≠ exRoot.parent_path ∧
      exSettingsDisk.canOpenForWriting (exRoot.join ".settings.json") = true) ∧
    ((Settings.writeDateTimeSetting exIso exSettingsDisk 9 exRoot "do_not_disturb" (.valid 100)
        [(⟨true, ["r", "app"]⟩, some (.valid 50))]).1 =
      [(exRoot, some (.valid 100)), (⟨true, ["r", "app"]⟩, some (.valid 50))] ∧
     (Settings.existingSettings
        (Settings.writeDateTimeSetting exIso exSettingsDisk 9 exRoot "do_not_disturb"
          (.valid 100) [(⟨true, ["r", "app"]⟩, some (.valid 50))]).2
        ⟨true, ["r", ".settings.json"]⟩).map
          (fun kv => (kv.1, jsonString [kv] kv.1)) =
       [("do_not_disturb", "100"), ("hide_from_tray", "2030-01-01T00:00:00Z")]) ∧
    ∃ cache' disk',
      Settings.writeDateTimeSetting exIso exSettingsDisk 9 exRoot "do_not_disturb" (.valid 100)
          [(⟨true, ["r", "app"]⟩, some (.valid 50))] = (cache', disk') ∧
      Settings.getDateTimeSetting (0 + 1) exRoot exRoot cache' = some (some (.valid 100)) ∧
      (∀ other, other ≠ exRoot →
        mapFind other cache' = mapFind other [(⟨true, ["r", "app"]⟩, some (.valid 50))]) ∧
      (exSettingsDisk.canOpenForWriting (exRoot.join ".settings.json") = true →
        ∃ members,
          mapFind (exRoot.join ".settings.json") disk'.entries =
            some (.file (.json (.object members)) 9) ∧
          mapFind "do_not_disturb" members = some (.string (exIso (.valid 100))) ∧
          ∀ key, key ≠ "do_not_disturb" →
            mapFind key members =
              mapFind key (Settings.existingSettings exSettingsDisk
                (exRoot.join ".settings.json"))) ∧
      (exSettingsDisk.canOpenForWriting (exRoot.join ".settings.json") = false →
        disk' = exSettingsDisk) :=
  ⟨⟨by decide, by decide⟩, by decide!,
   writeDateTimeSetting_visible exIso exSettingsDisk 9 exRoot exRoot "do_not_disturb"
     (.valid 100) [(⟨true, ["r", "app"]⟩, some (.valid 50))] 0 (by decide)⟩

/-! ## Claim on the ids of `Notify` (C20) -/

/-- Claim C20 fails on the code.  Successive new notifications from the empty service get the
ids 1, 2, 3.  But the id of a new notification is the number of stored notifications plus
one, and a stored id need not be a small number: from the empty service, `Notify` with
`replaces_id = 2` returns 2 and stores a notification under the id 2; the next `Notify` with
`replaces_id = 0` returns 2 again, the id of the notification already stored, and takes its
place: the service then holds one notification, the second one. -/
theorem notify_new_id_collides :
    ((exNotify exService 0 "a").bind fun r1 =>
      (exNotify r1.2 0 "b").bind fun r2 =>
        (exNotify r2.2 0 "c").map fun r3 =>
          ([r1.1, r2.1, r3.1], r3.2.notifications.map fun e => (e.1, e.2.summary))) =
      some ([1, 2, 3], [(1, "a"), (2, "b"), (3, "c")]) ∧
    ((exNotify exService 2 "first").map fun r1 =>
        (r1.1, r1.2.notifications.map fun e => (e.1, e.2.summary))) =
      some (2, [(2, "first")]) ∧
    ((exNotify exService 2 "first").bind fun r1 =>
      (exNotify r1.2 0 "second").map fun r2 =>
        (r2.1, r2.2.notifications.map fun e => (e.1, e.2.summary))) =
      some (2, [(2, "second")]) := by
  decide

/-! ## Claim on the termination of the ancestor walk (C30) -/

/-- Claim C30. For every root path and every folder path equal to the root or below it (and
every cache), the walk of `getNotificationBackoffMinutes` and of `getDateTimeSetting`
returns: `depth + 2` evaluations of the loop condition suffice, where `depth` is the depth
of the folder below the root, and it makes at most `depth + 1` cache lookups before it
returns.  The precondition is needed: the loop ends only at `root.parent_path()`, and for
the root `/a/b` and the folder `/x`, which is not below it, neither walk returns, whatever
the number of turns. -/
theorem ancestor_walk_terminates (root folder : Path) (h : Path.atOrBelow root folder)
    (backoff : List (Path × Int)) (cache : Cache) (fuel : Nat)
    (hfuel : depthBelow root folder + 2 ≤ fuel) :
    (∃ v, Settings.getNotificationBackoffMinutes fuel root folder backoff = some v) ∧
    (∃ v, Settings.getDateTimeSetting fuel folder root cache = some v) ∧
    (∃ k, ancestorLookups (fun p => mapFind p backoff) root.parent_path fuel folder = some k ∧
      k ≤ depthBelow root folder + 1) ∧
    (∃ k, ancestorLookups (fun p => mapFind p cache) root.parent_path fuel folder = some k ∧
      k ≤ depthBelow root folder + 1) ∧
    (∀ turns, Settings.getNotificationBackoffMinutes turns ⟨true, ["a", "b"]⟩ ⟨true, ["x"]⟩ [] =
      none) ∧
    (∀ turns, Settings.getDateTimeSetting turns ⟨true, ["x"]⟩ ⟨true, ["a", "b"]⟩ [] = none) := by
  have hb := Path.atOrBelow_parent_of_root h
  obtain ⟨hlen, hm⟩ := depth_to_stop h
  obtain ⟨k1, hk1, hle1⟩ := ancestorLookups_le (fun p => mapFind p backoff) root.parent_path
    _ folder fuel hb hlen (by omega)
  obtain ⟨k2, hk2, hle2⟩ := ancestorLookups_le (fun p => mapFind p cache) root.parent_path
    _ folder fuel hb hlen (by omega)
  refine ⟨?_, ?_, ⟨k1, hk1, by omega⟩, ⟨k2, hk2, by omega⟩,
    getNotificationBackoffMinutes_outside_root,
    fun turns => getDateTimeSetting_outside_root [] turns rfl rfl⟩
  · rw [getNotificationBackoffMinutes_eq_walk]
    apply Option.isSome_iff_exists.mp
    rw [ancestorWalk_isSome_iff, hk1]
    rfl
  · rw [getDateTimeSetting_eq_walk]
    apply Option.isSome_iff_exists.mp
    rw [ancestorWalk_isSome_iff, hk2]
    rfl

/-- Instance of C30: the folder `/r/app/summary` lies two levels below the root `/r`; with
settings stored at the root only, both walks return within four turns, after three
lookups. -/
theorem ancestor_walk_terminates_witness :
    Path.atOrBelow exRoot ⟨true, ["r", "app", "summary"]⟩ ∧
    depthBelow exRoot ⟨true, ["r", "app", "summary"]⟩ = 2 ∧
    ancestorLookups (fun p => mapFind p [(exRoot, (15 : Int))]) exRoot.parent_path 4
      ⟨true, ["r", "app", "summary"]⟩ = some 3 ∧
    Settings.getNotificationBackoffMinutes 4 exRoot ⟨true, ["r", "app", "summary"]⟩
      [(exRoot, 15)] = some 15 ∧
    ((∃ v, Settings.getNotificationBackoffMinutes 4 exRoot ⟨true, ["r", "app", "summary"]⟩
        [(exRoot, 15)] = some v) ∧
     (∃ v, Settings.getDateTimeSetting 4 ⟨true, ["r", "app", "summary"]⟩ exRoot
        [(exRoot, some (.valid 100))] = some v) ∧
     (∃ k, ancestorLookups (fun p => mapFind p [(exRoot, (15 : Int))]) exRoot.parent_path 4
        ⟨true, ["r", "app", "summary"]⟩ = some k ∧
      k ≤ depthBelow exRoot ⟨true, ["r", "app", "summary"]⟩ + 1) ∧
     (∃ k, ancestorLookups (fun p => mapFind p [(exRoot, some (QDateTime.valid 100))])
        exRoot.parent_path 4 ⟨true, ["r", "app", "summary"]⟩ = some k ∧
      k ≤ depthBelow exRoot ⟨true, ["r", "app", "summary"]⟩ + 1) ∧
     (∀ turns, Settings.getNotificationBackoffMinutes turns ⟨true, ["a", "b"]⟩
        ⟨true, ["x"]⟩ [] = none) ∧
     (∀ turns, Settings.getDateTimeSetting turns ⟨true, ["x"]⟩ ⟨true, ["a", "b"]⟩ [] =
        none)) :=
  ⟨by decide, by decide, by decide, by decide,
   ancestor_walk_terminates exRoot ⟨true, ["r", "app", "summary"]⟩ (by decide)
     [(exRoot, 15)] [(exRoot, some (.valid 100))] 4 (by decide)⟩

/-! ## Claim on `CloseActiveNotifications` (C21) -/

/-- Claim C21 fails on the code.  After three new notifications (the calls of the test
`CloseActiveNotifications_ClosesAll`), with the callback `hasActiveWidget` not set,
`CloseActiveNotifications` closes nothing: no stored notification has a closing time.  With
a callback that reports an active widget for the ids 1 and 3 only, the notification 2 is
left without closing time.  The second half of the claim holds on these inputs: a
notification closed at the instant 20 keeps that closing time when the others are closed at
the instant 50. -/
theorem closeActive_leaves_unclosed :
    exThree.map (fun s => closedTimes (s.CloseActiveNotifications 50)) =
      some [(1, none), (2, none), (3, none)] ∧
    exThree.map (fun s =>
        closedTimes
          ({ s with hasActiveWidget := some fun id => id != 2 }.CloseActiveNotifications 50)) =
      some [(1, some (.valid 50)), (2, none), (3, some (.valid 50))] ∧
    exThree.map (fun s =>
        closedTimes
          (({ s with hasActiveWidget := some fun _ => true }.CloseNotification 20
            1).CloseActiveNotifications 50)) =
      some [(1, some (.valid 20)), (2, some (.valid 50)), (3, some (.valid 50))] := by
  decide

/-! ## Claim on the bookkeeping of `notify` (C24) -/

/-- Claim C24. For every `notify` call that returns and every folder `f`, afterwards
`lastNotified[f]` is the greatest of its previous value (read as by `operator[]`, 0 when
the key is not stored; for a stored key the stored value) and the ids of the notifications
of `f` that were accepted in this call; a folder without accepted notification keeps its
entry, or stays without one, so requests that were not accepted change nothing; the value
does not decrease in the call, and no stored value decreases in any later sequence of
`notify` and `batchNotify` calls. -/
theorem notify_records_max (self s' : Notifier) (fuel : Nat) (now : Int) (is_batch : Bool)
    (ns : List CachedNotification) (unit : Option CachedNotification)
    (h : Notifier.notify self fuel now is_batch ns = some (s', unit)) :
    ∃ acc, Notifier.toDisplay self fuel now is_batch ns = some acc ∧
      (∀ f, Notifier.lastNotifiedAt s'.m_last_notified f =
        maxIdIn f (Notifier.lastNotifiedAt self.m_last_notified f) acc) ∧
      (∀ f v, mapFind f self.m_last_notified = some v →
        mapFind f s'.m_last_notified = some (maxIdIn f v acc)) ∧
      (∀ f, (∀ n ∈ acc, n.path.parent_path ≠ f) →
        mapFind f s'.m_last_notified = mapFind f self.m_last_notified) ∧
      (∀ f, Notifier.lastNotifiedAt self.m_last_notified f ≤
        Notifier.lastNotifiedAt s'.m_last_notified f) ∧
      (∀ ops s2, Notifier.runOps fuel s' ops = some s2 →
        ∀ f v, mapFind f s'.m_last_notified = some v →
          ∃ v2, mapFind f s2.m_last_notified = some v2 ∧ v ≤ v2) := by
  obtain ⟨acc, hacc, hs⟩ := Notifier.notify_state self s' fuel now is_batch ns unit h
  subst hs
  have hval : ∀ f, Notifier.lastNotifiedAt
      (Notifier.updateLastNotified self.m_last_notified acc) f =
        maxIdIn f (Notifier.lastNotifiedAt self.m_last_notified f) acc :=
    fun f => Notifier.lastNotifiedAt_updateLastNotified f acc _
  refine ⟨acc, hacc, hval, ?_, ?_, ?_, ?_⟩
  · intro f v hv
    obtain ⟨v2, hv2, _⟩ := Notifier.LastGe_updateLastNotified acc self.m_last_notified f v hv
    have h1 := hval f
    simp only [Notifier.lastNotifiedAt, hv, hv2, Option.getD_some] at h1
    rw [hv2, h1]
  · intro f hf
    exact Notifier.mapFind_updateLastNotified_other f acc _ hf
  · intro f
    rw [hval f]
    exact maxIdIn_ge f _ acc
  · intro ops s2 hrun
    exact (Notifier.runOps_inv fuel ops _ s2 hrun).2

/-- Instance of C24: the three requests with ids 1, 2, 3 for the folder `/r/app` are
accepted by a scheduler without settings; afterwards the value for `/r/app` is 3, and the
folder `/r/other` has no entry. -/
theorem notify_records_max_witness :
    Notifier.notify exQuietNotifier 3 0 false exMail =
      some ({ exQuietNotifier with m_last_notified := [(⟨true, ["r", "app"]⟩, 3)] },
        Notifier.displayUnit exMail) ∧
    maxIdIn ⟨true, ["r", "app"]⟩ 0 exMail = 3 ∧
    ∃ acc, Notifier.toDisplay exQuietNotifier 3 0 false exMail = some acc ∧
      (∀ f, Notifier.lastNotifiedAt [((⟨true, ["r", "app"]⟩ : Path), (3 : Int))] f =
        maxIdIn f (Notifier.lastNotifiedAt exQuietNotifier.m_last_notified f) acc) ∧
      (∀ f v, mapFind f exQuietNotifier.m_last_notified = some v →
        mapFind f [((⟨true, ["r", "app"]⟩ : Path), (3 : Int))] = some (maxIdIn f v acc)) ∧
      (∀ f, (∀ n ∈ acc, n.path.parent_path ≠ f) →
        mapFind f [((⟨true, ["r", "app"]⟩ : Path), (3 : Int))] =
          mapFind f exQuietNotifier.m_last_notified) ∧
      (∀ f, Notifier.lastNotifiedAt exQuietNotifier.m_last_notified f ≤
        Notifier.lastNotifiedAt [((⟨true, ["r", "app"]⟩ : Path), (3 : Int))] f) ∧
      (∀ ops s2, Notifier.runOps 3
          { exQuietNotifier with m_last_notified := [(⟨true, ["r", "app"]⟩, 3)] } ops =
            some s2 →
        ∀ f v, mapFind f [((⟨true, ["r", "app"]⟩ : Path), (3 : Int))] = some v →
          ∃ v2, mapFind f s2.m_last_notified = some v2 ∧ v ≤ v2) :=
  ⟨by decide!, by decide,
   notify_records_max exQuietNotifier
     { exQuietNotifier with m_last_notified := [(⟨true, ["r", "app"]⟩, 3)] } 3 0 false exMail
     (Notifier.displayUnit exMail) (by decide!)⟩

/-! ## Claim on the post-DnD catch-up (C23) -/

/-- Claim C23. For every tree in which each notification's parent directory equals its
folder's path: if a batch sweep submits the notification `n` (on account of the catch-up
rule or of the backoff window), then `n` is stored in a folder of the tree for which
`lastNotified[folder] >= n.id` holds after the sweep; this still holds after every later
sequence of `notify` and `batchNotify` calls, the catch-up condition is false for `n` in
every such state, and a later sweep over any such tree submits `n` again only when it lies
in the backoff window of the folder. -/
theorem catch_up_not_repeated (fuel : Nat) (now : Int) (self : Notifier)
    (tree : NotificationFolder) (hp : ParentsMatch tree) (s1 : Notifier)
    (batches : List (List CachedNotification))
    (h : Notifier.batchNotify self fuel now tree = some (s1, batches))
    (batch : List CachedNotification) (hb : batch ∈ batches)
    (n : CachedNotification) (hn : n ∈ batch) :
    ∃ node ∈ allFolders tree, n ∈ node.notifications.map Prod.snd ∧
      n.id ≤ Notifier.lastNotifiedAt s1.m_last_notified node.path ∧
      ∀ fuel2 ops s2, Notifier.runOps fuel2 s1 ops = some s2 →
        n.id ≤ Notifier.lastNotifiedAt s2.m_last_notified node.path ∧
        (∀ dnd, Notifier.catchUp s2 dnd node.path n = false) ∧
        ∀ fuel3 now3 tree3 s3 batches3, ParentsMatch tree3 →
          Notifier.batchNotify s2 fuel3 now3 tree3 = some (s3, batches3) →
          ∀ batch3 ∈ batches3, n ∈ batch3 →
            ∃ backoff, Settings.getNotificationBackoffMinutes fuel3 self.m_root_path node.path
                self.m_notification_backoff_minutes = some backoff ∧
              backoff > 0 ∧ (n.«at».secsTo now3).tdiv 60 ≤ backoff := by
  obtain ⟨hs1, _, h3⟩ := Notifier.process_inv fuel now self tree (s1, batches) h
  obtain ⟨node, hnode, mid, _, _, hall⟩ := h3 batch hb
  obtain ⟨c1, _, _, v, hv, hle⟩ := hall n hn
  obtain ⟨e, he, hen⟩ := List.mem_map.mp c1
  have hpath : n.path.parent_path = node.path := by
    rw [← hen]
    exact hp node hnode e he
  rw [hpath] at hv
  refine ⟨node, hnode, c1, ?_, ?_⟩
  · simp only [Notifier.lastNotifiedAt, hv, Option.getD_some]
    exact hle
  · intro fuel2 ops s2 hrun
    obtain ⟨hs2, hge2⟩ := Notifier.runOps_inv fuel2 ops s1 s2 hrun
    obtain ⟨v2, hv2, hle2⟩ := hge2 _ v hv
    refine ⟨?_, fun dnd => Notifier.catchUp_false s2 dnd node.path n v2 hv2 (le_trans hle hle2),
      ?_⟩
    · simp only [Notifier.lastNotifiedAt, hv2, Option.getD_some]
      exact le_trans hle hle2
    · intro fuel3 now3 tree3 s3 batches3 hp3 hsweep batch3 hb3 hn3
      obtain ⟨_, _, k3⟩ := Notifier.process_inv fuel3 now3 s2 tree3 (s3, batches3) hsweep
      obtain ⟨node3, hnode3, mid3, hm3, hge3, hall3⟩ := k3 batch3 hb3
      obtain ⟨d1, _, d3, _⟩ := hall3 n hn3
      obtain ⟨e3, he3, hen3⟩ := List.mem_map.mp d1
      have hpath3 : node3.path = node.path := by
        rw [← hpath, ← hen3]
        exact (hp3 node3 hnode3 e3 he3).symm
      rw [hpath3] at d3
      obtain ⟨v3, hv3, hle3⟩ := hge3 _ v2 hv2
      obtain ⟨b, hb1, hb2, hb3w⟩ := Notifier.sweepAdmits_window mid3 fuel3 now3 node.path n d3
        (fun dnd => Notifier.catchUp_false mid3 dnd node.path n v3 hv3
          (le_trans hle (le_trans hle2 hle3)))
      obtain ⟨r1, _, r3, _, _⟩ := (hs1.follow hs2).follow hm3
      rw [r1, r3] at hb1
      exact ⟨b, hb1, hb2, hb3w⟩

/-- Instance of C23: the folder `/r/app` was under do-not-disturb until instant 50000 and
`exArrived` (id 1) arrived at 60000; the sweep at instant 100000000 submits it under the
catch-up rule (there is no backoff) and records 1 for `/r/app`; a second sweep submits
nothing. -/
theorem catch_up_not_repeated_witness :
    ParentsMatch exSweepTree ∧
    Notifier.batchNotify exAfterDnd 4 100000000 exSweepTree =
      some ({ exAfterDnd with
          m_last_notified := [(exRoot, -1), (⟨true, ["r", "app"]⟩, 1)] }, [[exArrived]]) ∧
    (Notifier.batchNotify { exAfterDnd with
        m_last_notified := [(exRoot, -1), (⟨true, ["r", "app"]⟩, 1)] } 4 100000001
        exSweepTree).map Prod.snd = some [] ∧
    ∃ node ∈ allFolders exSweepTree, exArrived ∈ node.notifications.map Prod.snd ∧
      exArrived.id ≤ Notifier.lastNotifiedAt
        [(exRoot, (-1 : Int)), (⟨true, ["r", "app"]⟩, 1)] node.path ∧
      ∀ fuel2 ops s2, Notifier.runOps fuel2 { exAfterDnd with
          m_last_notified := [(exRoot, -1), (⟨true, ["r", "app"]⟩, 1)] } ops = some s2 →
        exArrived.id ≤ Notifier.lastNotifiedAt s2.m_last_notified node.path ∧
        (∀ dnd, Notifier.catchUp s2 dnd node.path exArrived = false) ∧
        ∀ fuel3 now3 tree3 s3 batches3, ParentsMatch tree3 →
          Notifier.batchNotify s2 fuel3 now3 tree3 = some (s3, batches3) →
          ∀ batch3 ∈ batches3, exArrived ∈ batch3 →
            ∃ backoff, Settings.getNotificationBackoffMinutes fuel3 exAfterDnd.m_root_path
                node.path exAfterDnd.m_notification_backoff_minutes = some backoff ∧
              backoff > 0 ∧ (exArrived.«at».secsTo now3).tdiv 60 ≤ backoff :=
  ⟨by unfold ParentsMatch; decide, by decide!, by decide!,
   catch_up_not_repeated 4 100000000 exAfterDnd exSweepTree (by unfold ParentsMatch; decide)
     { exAfterDnd with m_last_notified := [(exRoot, -1), (⟨true, ["r", "app"]⟩, 1)] }
     [[exArrived]] (by decide!) [exArrived] (by simp) exArrived (by simp)⟩

/-! ## Claim on the batch sweep (C22) -/

/-- Claim C22 as stated fails on the code: the folder `/r/app` has backoff 30, and the
notification `exArrived` of that folder is not trashed and was created 5 whole minutes
before the sweep, so condition (a) of the claim holds; do-not-disturb is active at the
folder, and the sweep submits nothing. -/
theorem sweep_backoff_under_dnd_counterexample :
    Settings.getNotificationBackoffMinutes 4 exBackoffUnderDnd.m_root_path ⟨true, ["r", "app"]⟩
      exBackoffUnderDnd.m_notification_backoff_minutes = some 30 ∧
    exArrived.trashed = false ∧
    (exArrived.«at».secsTo 360000).tdiv 60 = 5 ∧
    exSweepTree.folders.map (fun e => e.2.notifications.map Prod.snd) = [[exArrived]] ∧
    Settings.isDoNotDisturbActive 4 exBackoffUnderDnd.m_root_path ⟨true, ["r", "app"]⟩
      exBackoffUnderDnd.m_do_not_disturb 360000 = some true ∧
    (Notifier.batchNotify exBackoffUnderDnd 4 360000 exSweepTree).map Prod.snd = some [] := by
  decide!

/-- Claim C22, as amended. For every scheduler state, current time and folder of the tree
whose notifications have the folder as parent directory and whose settings walks return:
the sweep submits for the folder, as one batch with `is_batch = true` and only when the
batch is not empty, exactly the notifications `n` of the folder, in the folder's order,
that are not trashed and for which do-not-disturb is not active at the folder and (a) the
folder's resolved backoff is > 0 and the whole minutes since the creation of `n` are <= that
backoff, or (b) a do-not-disturb end time is configured with `startedAt <= dnd_end`, `n` was
created at or after `dnd_end`, and `n.id > lastNotified[folder]` (-1 when the folder has no
value yet); `notify` displays the batch as one unit, and the sweep goes on with the
subfolders.  So a notification created 5 minutes ago in a folder with backoff 30 and without
do-not-disturb is displayed by the sweep. -/
theorem sweep_submits_eligible (self : Notifier) (fuel : Nat) (now : Int)
    (fs : List (String × NotificationFolder)) (ns : List (String × CachedNotification))
    (p : Path) (b : Int) (r : Option QDateTime)
    (hb : Settings.getNotificationBackoffMinutes fuel self.m_root_path p
      self.m_notification_backoff_minutes = some b)
    (hd : Settings.getDateTimeSetting fuel p self.m_root_path self.m_do_not_disturb = some r)
    (hpar : ∀ e ∈ ns, e.2.path.parent_path = p) :
    ∃ batch s',
      batch = (ns.map Prod.snd).filter (sweepEligible self.m_started_at now b r
        ((mapFind p self.m_last_notified).getD (-1))) ∧
      (∀ n, n ∈ batch ↔ n ∈ ns.map Prod.snd ∧ n.trashed = false ∧ dndActiveAt r now = false ∧
        ((0 < b ∧ wholeMinutesSince n.«at» now ≤ b) ∨
          ∃ dnd_end, r = some dnd_end ∧ dnd_end.ge self.m_started_at = true ∧
            n.«at».ge dnd_end = true ∧ (mapFind p self.m_last_notified).getD (-1) < n.id)) ∧
      Notifier.processOwn self fuel now p ns =
        some (s', if batch.isEmpty then none else some batch) ∧
      (batch ≠ [] →
        Notifier.notify
          { self with m_last_notified := Notifier.initLastNotified self.m_last_notified p }
          fuel now true batch = some (s', Notifier.displayUnit batch) ∧
        (Notifier.displayUnit batch).isSome = true) ∧
      Notifier.process fuel now self (.mk fs ns p) =
        (Notifier.processAll fuel now s' fs).map (fun below =>
          (below.1, (if batch.isEmpty then [] else [batch]) ++ below.2)) ∧
      Notifier.batchNotify exBackoffNotifier 4 360000 exSweepTree =
        some ({ exBackoffNotifier with
            m_last_notified := [(exRoot, -1), (⟨true, ["r", "app"]⟩, 1)] }, [[exArrived]]) ∧
      (Notifier.notify { exBackoffNotifier with
          m_last_notified := [(exRoot, -1), (⟨true, ["r", "app"]⟩, -1)] } 4 360000 true
          [exArrived]).map Prod.snd = some (some exArrived) := by
  have hlast := Notifier.lastNotifiedAt_initLastNotified self.m_last_notified p
  have hnew := Notifier.newNotifications_eq
    { self with m_last_notified := Notifier.initLastNotified self.m_last_notified p }
    fuel now p b r hb hd (ns.map Prod.snd)
  simp only [hlast] at hnew
  generalize hbatch : (ns.map Prod.snd).filter (sweepEligible self.m_started_at now b r
    ((mapFind p self.m_last_notified).getD (-1))) = batch at hnew
  have hsub : ∀ n ∈ batch, n ∈ ns.map Prod.snd ∧
      sweepEligible self.m_started_at now b r ((mapFind p self.m_last_notified).getD (-1)) n =
        true := by
    intro n hn
    rw [← hbatch] at hn
    exact List.mem_filter.mp hn
  have hpb : ∀ n ∈ batch, n.path.parent_path = p := by
    intro n hn
    obtain ⟨e, he, hen⟩ := List.mem_map.mp (hsub n hn).1
    rw [← hen]
    exact hpar e he
  have hnt : ∀ n ∈ batch, n.trashed = false := by
    intro n hn
    have := (hsub n hn).2
    unfold sweepEligible at this
    cases ht : n.trashed with
    | false => rfl
    | true => simp [ht] at this
  have hdisp := Notifier.toDisplay_batch_returns
    { self with m_last_notified := Notifier.initLastNotified self.m_last_notified p }
    fuel now p b r hb hd batch hpb
  have hfil : (batch.filter fun n => !n.trashed) = batch :=
    List.filter_eq_self.mpr (fun n hn => by simp [hnt n hn])
  rw [hfil] at hdisp
  have hown : Notifier.processOwn self fuel now p ns =
      some ({ self with
          m_last_notified :=
            Notifier.updateLastNotified (Notifier.initLastNotified self.m_last_notified p)
              batch },
        if batch.isEmpty then none else some batch) := by
    unfold Notifier.processOwn
    simp only [hnew]
    by_cases he : batch.isEmpty = true
    · have hnil : batch = [] := List.isEmpty_iff.mp he
      simp [hnil, Notifier.updateLastNotified]
    · simp [he, Notifier.notify, hdisp]
  refine ⟨batch, _, rfl, ?_, hown, ?_, ?_, by decide!, by decide!⟩
  · intro n
    rw [← hbatch, List.mem_filter]
    unfold sweepEligible
    cases r with
    | none =>
      simp only [Bool.and_eq_true, Bool.not_eq_true', Bool.or_false, decide_eq_true_eq,
        gt_iff_lt, reduceCtorEq, false_and, exists_false, or_false, and_assoc]
    | some e =>
      simp only [Bool.and_eq_true, Bool.not_eq_true', Bool.or_eq_true, decide_eq_true_eq,
        gt_iff_lt, Option.some.injEq, exists_eq_left', and_assoc]
  · intro hne
    have he : batch.isEmpty = false := by
      cases batch with
      | nil => exact absurd rfl hne
      | cons x rest => rfl
    refine ⟨by simp [Notifier.notify, hdisp, he], ?_⟩
    unfold Notifier.displayUnit
    cases hl : batch.getLast? with
    | none => exact absurd (List.getLast?_eq_none_iff.mp hl) hne
    | some last => rfl
  · simp only [Notifier.process, hown]
    cases Notifier.processAll fuel now _ fs with
    | none => rfl
    | some below =>
      by_cases he : batch.isEmpty = true
      · simp [he]
      · simp [he]

/-- Instance of C22: the folder `/r/app` of `exAfterDnd` has no backoff and a do-not-disturb
end time 50000 that has passed at instant 100000000; `exArrived` is the only notification
of the folder. -/
theorem sweep_submits_eligible_witness :
    Settings.getNotificationBackoffMinutes 4 exAfterDnd.m_root_path ⟨true, ["r", "app"]⟩
      exAfterDnd.m_notification_backoff_minutes = some 0 ∧
    Settings.getDateTimeSetting 4 ⟨true, ["r", "app"]⟩ exAfterDnd.m_root_path
      exAfterDnd.m_do_not_disturb = some (some (.valid 50000)) ∧
    (∀ e ∈ [("run-1.json", exArrived)], e.2.path.parent_path = ⟨true, ["r", "app"]⟩) ∧
    sweepEligible exAfterDnd.m_started_at 100000000 0 (some (.valid 50000)) (-1) exArrived =
      true ∧
    ∃ batch s',
      batch = ([("run-1.json", exArrived)].map Prod.snd).filter
        (sweepEligible exAfterDnd.m_started_at 100000000 0 (some (.valid 50000))
          ((mapFind ⟨true, ["r", "app"]⟩ exAfterDnd.m_last_notified).getD (-1))) ∧
      (∀ n, n ∈ batch ↔ n ∈ [("run-1.json", exArrived)].map Prod.snd ∧ n.trashed = false ∧
        dndActiveAt (some (.valid 50000)) 100000000 = false ∧
        ((0 < (0 : Int) ∧ wholeMinutesSince n.«at» 100000000 ≤ 0) ∨
          ∃ dnd_end, some (QDateTime.valid 50000) = some dnd_end ∧
            dnd_end.ge exAfterDnd.m_started_at = true ∧ n.«at».ge dnd_end = true ∧
            (mapFind ⟨true, ["r", "app"]⟩ exAfterDnd.m_last_notified).getD (-1) < n.id)) ∧
      Notifier.processOwn exAfterDnd 4 100000000 ⟨true, ["r", "app"]⟩
          [("run-1.json", exArrived)] =
        some (s', if batch.isEmpty then none else some batch) ∧
      (batch ≠ [] →
        Notifier.notify
          { exAfterDnd with
            m_last_notified :=
              Notifier.initLastNotified exAfterDnd.m_last_notified ⟨true, ["r", "app"]⟩ }
          4 100000000 true batch = some (s', Notifier.displayUnit batch) ∧
        (Notifier.displayUnit batch).isSome = true) ∧
      Notifier.process 4 100000000 exAfterDnd
          (.mk [] [("run-1.json", exArrived)] ⟨true, ["r", "app"]⟩) =
        (Notifier.processAll 4 100000000 s' []).map (fun below =>
          (below.1, (if batch.isEmpty then [] else [batch]) ++ below.2)) ∧
      Notifier.batchNotify exBackoffNotifier 4 360000 exSweepTree =
        some ({ exBackoffNotifier with
            m_last_notified := [(exRoot, -1), (⟨true, ["r", "app"]⟩, 1)] }, [[exArrived]]) ∧
      (Notifier.notify { exBackoffNotifier with
          m_last_notified := [(exRoot, -1), (⟨true, ["r", "app"]⟩, -1)] } 4 360000 true
          [exArrived]).map Prod.snd = some (some exArrived) :=
  ⟨by decide, by decide, by decide, by decide,
   sweep_submits_eligible exAfterDnd 4 100000000 [] [("run-1.json", exArrived)]
     ⟨true, ["r", "app"]⟩ 0 (some (.valid 50000)) (by decide) (by decide) (by decide)⟩

/-! ## Claim on the error notification (C26) -/

/-- Claim C26 fails on the code. The error notification built in the `catch` block
(summary "Error", id -1, expire_timeout -1, path `/r/error.json` directly under the root
`/r`, no urgency hint, so urgency 1) is handed to `notify` as a single request that is no
batch, and the admission filter treats it like any other request: with do-not-disturb
active at the root (until instant 100, at instant 50) it is rejected and nothing is
displayed, and the same holds with a backoff of 30 minutes at the root; the state of the
scheduler does not change.  Without do-not-disturb and backoff it is displayed. -/
theorem error_notification_dropped (what : String) :
    (Notifier.errorNotification exNotifier 50 what).summary = "Error" ∧
    (Notifier.errorNotification exNotifier 50 what).id = -1 ∧
    (Notifier.errorNotification exNotifier 50 what).expire_timeout = -1 ∧
    (Notifier.errorNotification exNotifier 50 what).path = ⟨true, ["r", "error.json"]⟩ ∧
    (Notifier.errorNotification exNotifier 50 what).path.parent_path = exNotifier.m_root_path ∧
    Notifier.urgency (Notifier.errorNotification exNotifier 50 what) = 1 ∧
    Settings.isDoNotDisturbActive 3 exNotifier.m_root_path exNotifier.m_root_path
      exNotifier.m_do_not_disturb 50 = some true ∧
    Notifier.admits exNotifier 3 50 false (Notifier.errorNotification exNotifier 50 what) =
      some false ∧
    Notifier.notifyError exNotifier 3 50 what = some (exNotifier, none) ∧
    Settings.getNotificationBackoffMinutes 3 exRootBackoff.m_root_path exRootBackoff.m_root_path
      exRootBackoff.m_notification_backoff_minutes = some 30 ∧
    Notifier.admits exRootBackoff 3 50 false (Notifier.errorNotification exRootBackoff 50 what) =
      some false ∧
    Notifier.notifyError exRootBackoff 3 50 what = some (exRootBackoff, none) ∧
    (Notifier.notifyError exQuietNotifier 3 50 what).map
      (fun r => r.2.map fun unit => (unit.summary, unit.id)) = some (some ("Error", -1)) := by
  exact ⟨rfl, rfl, rfl, rfl, rfl, rfl, by decide, rfl, rfl, by decide, rfl, rfl, rfl⟩

/-! ## Claim on the length limits of the storage path (C27) -/

/-- Claim C27 fails on the code.  The root `exDeepRoot 14 235` has fifteen elements, none
longer than 255 bytes, and a text of 3820 bytes; it is a directory and no settings file
exists.  The notification `exLongRun` (application `Firefox`, summary `New Tab`, a run id
of 248 letters `b`, id 1) has a name of 250 characters, which is not cut, and the file name
`<run_id>-1.json` of 255 characters.  Neither call of `fs::exists` throws, the text of the
default path has 4092 bytes, more than `MAX_FILEPATH_LENGTH - 5 = 4091`, and
`getOutputPath` returns the first 4091 bytes of that text followed by `.json`: the
directories are those of the default path and the file name is `<run_id>-1.jso.json`.  The
text of the result has 4096 bytes and ends with `.json`, but its file name has 259
characters, more than `MAX_FILENAME_LENGTH = 255`. -/
theorem getOutputPath_cut_lengthens_file_name :
    (∀ dir, Paths.settingsCallback (exEnvAt (exDeepRoot 14 235)).disk dir = none) ∧
    (exDeepRoot 14 235).comps.length = 15 ∧
    (∀ c ∈ (exDeepRoot 14 235).comps, stdString_length c ≤ 255) ∧
    stdString_length (exDeepRoot 14 235).string = 3820 ∧
    QString_length
        (exLongRun.notification_tray_run_id ++ "-" ++ QString_number exLongRun.id) = 250 ∧
    exLongRun.notification_tray_run_id ++ "-" ++ QString_number exLongRun.id ++ ".json" =
      exLetters 248 (Char.ofNat 98) ++ "-1.json" ∧
    QString_length (exLetters 248 (Char.ofNat 98) ++ "-1.json") = 255 ∧
    stdString_length (⟨true, (exDeepRoot 14 235).comps ++
        ["firefox", "new-tab", exLetters 248 (Char.ofNat 98) ++ "-1.json"]⟩ :
          Path).string = 4092 ∧
    (exEnvAt (exDeepRoot 14 235)).disk.nameTooLong
      ⟨true, (exDeepRoot 14 235).comps ++ ["firefox", ".settings.json"]⟩ = false ∧
    (exEnvAt (exDeepRoot 14 235)).disk.nameTooLong
      ⟨true, (exDeepRoot 14 235).comps ++ ["firefox", "new-tab", ".settings.json"]⟩ = false ∧
    Paths.getOutputPath (exEnvAt (exDeepRoot 14 235)) 3 (exDeepRoot 14 235) exLongRun =
      some (.returned ⟨true, (exDeepRoot 14 235).comps ++
        ["firefox", "new-tab", exLetters 248 (Char.ofNat 98) ++ "-1.jso.json"]⟩) ∧
    (⟨true, (exDeepRoot 14 235).comps ++
        ["firefox", "new-tab", exLetters 248 (Char.ofNat 98) ++ "-1.jso.json"]⟩ :
          Path).filename = exLetters 248 (Char.ofNat 98) ++ "-1.jso" ++ ".json" ∧
    QString_length (exLetters 248 (Char.ofNat 98) ++ "-1.jso.json") = 259 ∧
    (exLetters 248 (Char.ofNat 98) ++ "-1.jso.json").length = 259 ∧
    stdString_length (⟨true, (exDeepRoot 14 235).comps ++
        ["firefox", "new-tab", exLetters 248 (Char.ofNat 98) ++ "-1.jso.json"]⟩ :
          Path).string = 4096 := by
  have hb : (Char.ofNat 98).toNat < 128 := by decide
  have hb16 : (Char.ofNat 98).toNat < 65536 := by decide
  have hR : exLongRun.notification_tray_run_id = exLetters 248 (Char.ofNat 98) := rfl
  have hnum : QString_number exLongRun.id = "1" := by decide
  have hfileeq : exLongRun.notification_tray_run_id ++ "-" ++ QString_number exLongRun.id ++
      ".json" = exLetters 248 (Char.ofNat 98) ++ "-1.json" := by
    rw [hR, hnum, String.append_assoc, String.append_assoc]
    rfl
  have hA : Paths.slugify Paths.exNfkd exLongRun.app_name = "firefox" := by decide
  have hS : Paths.slugify Paths.exNfkd exLongRun.summary = "new-tab" := by decide
  have hl7 : stdString_length "firefox" = 7 := by decide
  have hl7b : stdString_length "new-tab" = 7 := by decide
  have hl255 : stdString_length (exLetters 248 (Char.ofNat 98) ++ "-1.json") = 255 := by
    rw [stdString_length_append, stdString_length_exLetters _ _ hb]
    rfl
  have hl259 : stdString_length (exLetters 248 (Char.ofNat 98) ++ "-1.jso.json") = 259 := by
    rw [stdString_length_append, stdString_length_exLetters _ _ hb]
    rfl
  have hname : QString_length
      (exLongRun.notification_tray_run_id ++ "-" ++ QString_number exLongRun.id) = 250 := by
    rw [hR, hnum, QString_length_append, QString_length_append,
      QString_length_exLetters _ _ hb16]
    rfl
  have hbytes : stdString_length (⟨true, (exDeepRoot 14 235).comps ++
      ["firefox", "new-tab", exLetters 248 (Char.ofNat 98) ++ "-1.json"]⟩ :
        Path).string = 4092 := by
    rw [exDeepRoot_bytes]
    simp only [List.map_cons, List.map_nil, List.sum_cons, List.sum_nil, hl7, hl7b, hl255,
      List.length_cons, List.length_nil]
    norm_num
  have hget := exDeepRoot_getOutputPath 14 235 (by decide) (by decide) (by decide) exLongRun
    hA hS
    (by rw [hR]; exact not_mem_exLetters _ _ _ (by decide))
    (by rw [hname])
    (by
      rw [hfileeq]
      intro h
      have h2 : '/' ∈ (exLetters 248 (Char.ofNat 98)).data := by
        simpa [String.toList] using h
      exact absurd (List.eq_of_mem_replicate h2) (by decide))
    (by rw [hfileeq]; exact exLetters_append_ne_empty 247 _ _)
  obtain ⟨hstat1, hstat2, hres⟩ := hget
  rw [hfileeq, if_pos (by rw [hbytes]; decide)] at hres
  have happend : (exDeepRoot 14 235).comps ++
      ["firefox", "new-tab", exLetters 248 (Char.ofNat 98) ++ "-1.json"] =
      ((exDeepRoot 14 235).comps ++ ["firefox", "new-tab"]) ++
        [exLetters 248 (Char.ofNat 98) ++ "-1.json"] := by simp
  have hcut : substrChars 254 (exLetters 248 (Char.ofNat 98) ++ "-1.json").data =
      (exLetters 248 (Char.ofNat 98)).data ++ "-1.jso".data := by
    rw [String.data_append, substrChars_append _ _ _ (by rw [bytesOf_exLetters _ _ hb]; decide),
      bytesOf_exLetters _ _ hb]
    rfl
  have hparse := Path.parse_truncated ((exDeepRoot 14 235).comps ++ ["firefox", "new-tab"])
    (exLetters 248 (Char.ofNat 98) ++ "-1.json")
    ((exLetters 248 (Char.ofNat 98)).data ++ "-1.jso".data) (by simp [exDeepRoot])
    (by
      intro c hc
      rcases List.mem_append.mp hc with hc | hc
      · exact exDeepRoot_clean 14 235 (by decide) c hc
      · simp only [List.mem_cons, List.mem_singleton, List.not_mem_nil, or_false] at hc
        rcases hc with rfl | rfl
        · decide
        · decide)
    3836
    (by
      rw [exDeepRoot_bytes]
      simp only [List.map_cons, List.map_nil, List.sum_cons, List.sum_nil, hl7, hl7b,
        List.length_cons, List.length_nil]
      norm_num)
    (by decide) hcut
    (by
      intro h
      rcases List.mem_append.mp h with h | h
      · exact absurd (List.eq_of_mem_replicate h) (by decide)
      · revert h; decide)
  have hmk : String.mk ((exLetters 248 (Char.ofNat 98)).data ++ "-1.jso".data) ++ ".json" =
      exLetters 248 (Char.ofNat 98) ++ "-1.jso.json" := by
    apply String.ext
    simp only [String.data_append, List.append_assoc]
    rfl
  rw [happend, hparse, hmk] at hres
  refine ⟨exEnvAt_no_callback _, exDeepRoot_length 14 235, exDeepRoot_short 14 235 (by decide),
    ?_, hname, hfileeq, ?_, hbytes, hstat1, hstat2, ?_, ?_, ?_, ?_, ?_⟩
  · have h := exDeepRoot_bytes 14 235 []
    simpa using h
  · rw [QString_length_append, QString_length_exLetters _ _ hb16]
    rfl
  · rw [hres]
    simp
  · rw [String.append_assoc]
    simp [Path.filename]
  · rw [QString_length_append, QString_length_exLetters _ _ hb16]
    rfl
  · have hl : ∀ n : Nat, (exLetters n (Char.ofNat 98)).length = n := fun n => by
      simp [exLetters, String.length]
    rw [String.length_append, hl]
    rfl
  · rw [exDeepRoot_bytes]
    simp only [List.map_cons, List.map_nil, List.sum_cons, List.sum_nil, hl7, hl7b, hl259,
      List.length_cons, List.length_nil]
    norm_num

/-! ## Claim on the protected files of `trash` (C25) -/

/-- Claim C25. For every path and every state with a well-formed disk (nothing lies below a
regular file), after `trash(path)` and any number `k` of the child `trash` calls it starts:
no path handed to the platform trash is a `.settings.json` file or a `.notification.wav`
file of the disk or recursively contains one, and every such file is still on the disk,
unchanged.  A directory other than the root that recursively contains a protected file is
not bulk-deleted: the call leaves disk and tree as they are, hands nothing to the platform
trash, and starts one `trash` call for each child folder and each notification of the
folder.  (`runTasks` runs the child calls to the end; its result is the state after `fuel`
of them.) -/
theorem trash_spares_protected (self : NotificationCacher) (path : Path)
    (hwf : self.disk.WellFormed) (k : Nat) :
    (∃ moved,
      sends (NotificationCacher.runSome k (self.trash path).1 (self.trash path).2).1.emitted =
        sends self.emitted ++ moved ∧
      ∀ q ∈ moved, self.disk.isProtectedFile q = false ∧ self.disk.holdsProtected q = false) ∧
    (∀ f, self.disk.isProtectedFile f = true →
      mapFind f
          (NotificationCacher.runSome k (self.trash path).1 (self.trash path).2).1.disk.entries =
        mapFind f self.disk.entries) ∧
    (path ≠ self.m_root_path → self.disk.is_directory path = true →
      self.disk.holdsProtected path = true →
      (self.trash path).1.disk = self.disk ∧
      sends (self.trash path).1.emitted = sends self.emitted ∧
      (self.trash path).1.notification_cache = self.notification_cache ∧
      (self.trash path).2 =
        (NotificationCacher.spawnChildren path.filename
          (NotificationFolder.reach (path.parent_path.relative self.m_root_path)
            self.notification_cache)).2) ∧
    (∀ fuel s', NotificationCacher.runTasks fuel (self.trash path).1 (self.trash path).2 =
        some s' →
      s' = (NotificationCacher.runSome fuel (self.trash path).1 (self.trash path).2).1) := by
  have h0 : ProtectedKept self.disk self := ⟨hwf, fun _ _ => rfl⟩
  obtain ⟨h1, m1, hs1, hm1⟩ := NotificationCacher.trash_keeps self.disk self path h0
  obtain ⟨h2, m2, hs2, hm2⟩ := NotificationCacher.runSome_keeps self.disk k
    (self.trash path).1 (self.trash path).2 h1
  refine ⟨⟨m1 ++ m2, by rw [hs2, hs1, List.append_assoc], ?_⟩, h2.2, ?_,
    fun fuel s' h => NotificationCacher.runTasks_eq_runSome fuel _ _ s' h⟩
  · intro q hq
    rcases List.mem_append.mp hq with hq | hq
    · exact hm1 q hq
    · exact hm2 q hq
  · intro hroot hdir hholds
    have hreg : self.disk.is_regular_file path = false := by
      unfold FileSystem.is_directory at hdir
      unfold FileSystem.is_regular_file
      cases hfind : mapFind path self.disk.entries with
      | none => rfl
      | some node =>
        cases node with
        | directory => rfl
        | file c m => simp [hfind] at hdir
    have hex : self.disk.exists path = true := by
      unfold FileSystem.is_directory at hdir
      unfold FileSystem.exists
      cases hfind : mapFind path self.disk.entries with
      | none => simp [hfind] at hdir
      | some node => rfl
    have hset : NotificationCacher.has_settings self.disk path = true := by
      unfold FileSystem.holdsProtected at hholds
      rw [List.any_eq_true] at hholds
      obtain ⟨e, he, hcond⟩ := hholds
      simp only [Bool.and_eq_true, FileSystem.isProtectedFile] at hcond
      unfold NotificationCacher.has_settings FileSystem.recursive_directory_iterator
      rw [List.any_eq_true]
      exact ⟨e, List.mem_filter.mpr ⟨he, hcond.1⟩, by simpa [isProtectedName] using hcond.2.2⟩
    have hfix : (NotificationFolder.updateExisting
        (NotificationCacher.spawnChildren path.filename)
        (path.parent_path.relative self.m_root_path) self.notification_cache).1 =
          self.notification_cache := by
      apply NotificationFolder.updateExisting_fst_of_fixed
      unfold NotificationCacher.spawnChildren
      cases mapFind path.filename (NotificationFolder.reach
        (path.parent_path.relative self.m_root_path) self.notification_cache).folders <;> rfl
    unfold NotificationCacher.trash
    simp only [hroot, if_false, hreg, Bool.false_eq_true, hex, Bool.not_true, hset,
      NotificationCacher.emit, hfix, NotificationFolder.updateExisting_snd]
    refine ⟨trivial, ?_, trivial, trivial⟩
    simp [sends_append, sends]

/-- Instance of C25: on the disk of `exProtectedCacher` the directory `/r/app` holds a
settings file, a notification file and the subdirectory `sub`; `trash(/r/app)` leaves the
disk as it is and starts the calls for `/r/app/sub` and `/r/app/run-2.json`; after them the
subdirectory and the notification file are in the platform trash and the settings file is
still there. -/
theorem trash_spares_protected_witness :
    exProtectedCacher.disk.WellFormed ∧
    exProtectedCacher.disk.isProtectedFile ⟨true, ["r", "app", ".settings.json"]⟩ = true ∧
    (exProtectedCacher.trash ⟨true, ["r", "app"]⟩).2 =
      [⟨true, ["r", "app", "sub"]⟩, ⟨true, ["r", "app", "run-2.json"]⟩] ∧
    sends (NotificationCacher.runSome 5 (exProtectedCacher.trash ⟨true, ["r", "app"]⟩).1
      (exProtectedCacher.trash ⟨true, ["r", "app"]⟩).2).1.emitted =
      [⟨true, ["r", "app", "sub"]⟩, ⟨true, ["r", "app", "run-2.json"]⟩] ∧
    (NotificationCacher.runSome 5 (exProtectedCacher.trash ⟨true, ["r", "app"]⟩).1
      (exProtectedCacher.trash ⟨true, ["r", "app"]⟩).2).1.disk.entries.map Prod.fst =
      [exRoot, ⟨true, ["r", "error.json"]⟩, ⟨true, ["r", "app"]⟩,
        ⟨true, ["r", "app", ".settings.json"]⟩, ⟨true, ["r", "app", "bad.json"]⟩] ∧
    ((∃ moved,
      sends (NotificationCacher.runSome 5 (exProtectedCacher.trash ⟨true, ["r", "app"]⟩).1
          (exProtectedCacher.trash ⟨true, ["r", "app"]⟩).2).1.emitted =
        sends exProtectedCacher.emitted ++ moved ∧
      ∀ q ∈ moved, exProtectedCacher.disk.isProtectedFile q = false ∧
        exProtectedCacher.disk.holdsProtected q = false) ∧
    (∀ f, exProtectedCacher.disk.isProtectedFile f = true →
      mapFind f
          (NotificationCacher.runSome 5 (exProtectedCacher.trash ⟨true, ["r", "app"]⟩).1
            (exProtectedCacher.trash ⟨true, ["r", "app"]⟩).2).1.disk.entries =
        mapFind f exProtectedCacher.disk.entries) ∧
    ((⟨true, ["r", "app"]⟩ : Path) ≠ exProtectedCacher.m_root_path →
      exProtectedCacher.disk.is_directory ⟨true, ["r", "app"]⟩ = true →
      exProtectedCacher.disk.holdsProtected ⟨true, ["r", "app"]⟩ = true →
      (exProtectedCacher.trash ⟨true, ["r", "app"]⟩).1.disk = exProtectedCacher.disk ∧
      sends (exProtectedCacher.trash ⟨true, ["r", "app"]⟩).1.emitted =
        sends exProtectedCacher.emitted ∧
      (exProtectedCacher.trash ⟨true, ["r", "app"]⟩).1.notification_cache =
        exProtectedCacher.notification_cache ∧
      (exProtectedCacher.trash ⟨true, ["r", "app"]⟩).2 =
        (NotificationCacher.spawnChildren (⟨true, ["r", "app"]⟩ : Path).filename
          (NotificationFolder.reach
            ((⟨true, ["r", "app"]⟩ : Path).parent_path.relative exProtectedCacher.m_root_path)
            exProtectedCacher.notification_cache)).2) ∧
    (∀ fuel s', NotificationCacher.runTasks fuel
        (exProtectedCacher.trash ⟨true, ["r", "app"]⟩).1
        (exProtectedCacher.trash ⟨true, ["r", "app"]⟩).2 = some s' →
      s' = (NotificationCacher.runSome fuel (exProtectedCacher.trash ⟨true, ["r", "app"]⟩).1
        (exProtectedCacher.trash ⟨true, ["r", "app"]⟩).2).1)) :=
  ⟨by unfold FileSystem.WellFormed; decide, by decide, by decide, by decide, by decide,
   trash_spares_protected exProtectedCacher ⟨true, ["r", "app"]⟩
     (by unfold FileSystem.WellFormed; decide) 5⟩

/-! ## Claim on the serialisation of tree mutations (C28) -/

/-- Claim C28 fails on the code. In the state `exProtectedCacher` the call `trash(/r/app)`
returns without having changed the tree, and it has started two further `trash` calls, for
`/r/app/sub` and for `/r/app/run-2.json`, each in a detached thread of its own
(notification_cacher.cpp:294-299); `trash(/r)` does the same for the children of the root
(notification_cacher.cpp:234-239).  Each of the started calls writes the shared tree: the
first sets the flag of `/r/app/sub/run-3.json`, the second the flag of
`/r/app/run-2.json`.  Nothing orders these writers with respect to each other or to the
caller. -/
theorem trash_starts_unordered_writers :
    (exProtectedCacher.trash ⟨true, ["r", "app"]⟩).2 =
      [⟨true, ["r", "app", "sub"]⟩, ⟨true, ["r", "app", "run-2.json"]⟩] ∧
    (exProtectedCacher.trash exRoot).2 = [⟨true, ["r", "app"]⟩] ∧
    ((exProtectedCacher.trash ⟨true, ["r", "app"]⟩).1.notification_cache.entryAt
        ["app", "sub"] "run-3.json").map (fun n => n.trashed) = some false ∧
    ((exProtectedCacher.trash ⟨true, ["r", "app"]⟩).1.notification_cache.entryAt
        ["app"] "run-2.json").map (fun n => n.trashed) = some false ∧
    (((exProtectedCacher.trash ⟨true, ["r", "app"]⟩).1.trash
        ⟨true, ["r", "app", "sub"]⟩).1.notification_cache.entryAt
        ["app", "sub"] "run-3.json").map (fun n => n.trashed) = some true ∧
    (((exProtectedCacher.trash ⟨true, ["r", "app"]⟩).1.trash
        ⟨true, ["r", "app", "run-2.json"]⟩).1.notification_cache.entryAt
        ["app"] "run-2.json").map (fun n => n.trashed) = some true := by
  decide

/-! ## Claim on the settings maps of the scheduler (C29) -/

/-- Claim C29. The constructor of the application hands the maps it has read to the
constructor of `Notifier`, which copies them; no request changes the copies afterwards.
For every sequence of requests to the application (menu actions of the tray that write
do-not-disturb, hide-from-tray or backoff, the periodic `refreshSettings`, `notify` and
`batchNotify` calls) that runs to its end: the scheduler is in the state in which the
`notify` and `batchNotify` calls alone would have left it, its do-not-disturb and backoff
maps are those it was constructed with, every admission decision is the one the scheduler
would have made at the start, and a further change of settings leaves the scheduler, and so
the result of every later `notify` and `batchNotify` call, as it is.  In the example the
tray sets do-not-disturb for `/r/app`, the tray's map and the reloaded map of the
application show it as active, and the scheduler admits a request for `/r/app` as
before. -/
theorem notifier_settings_frozen (iso : QDateTime → String) (fromIso : String → QDateTime)
    (fuel : Nat) (app app' : SystemTrayFileBrowser) (ops : List AppOp)
    (h : SystemTrayFileBrowser.runOps iso fromIso fuel app ops = some app') :
    (∀ disk root_path run_id now,
      (SystemTrayFileBrowser.create fromIso disk root_path run_id now).m_notifier.m_do_not_disturb =
        (SystemTrayFileBrowser.create fromIso disk root_path run_id now).m_do_not_disturb ∧
      (SystemTrayFileBrowser.create fromIso disk root_path run_id
          now).m_notifier.m_notification_backoff_minutes =
        (SystemTrayFileBrowser.create fromIso disk root_path run_id
          now).m_notification_backoff_minutes) ∧
    Notifier.runOps fuel app.m_notifier (ops.filterMap AppOp.toNotifierOp) =
      some app'.m_notifier ∧
    app'.m_notifier.m_do_not_disturb = app.m_notifier.m_do_not_disturb ∧
    app'.m_notifier.m_notification_backoff_minutes =
      app.m_notifier.m_notification_backoff_minutes ∧
    (∀ fuel2 now is_batch n,
      Notifier.admits app'.m_notifier fuel2 now is_batch n =
        Notifier.admits app.m_notifier fuel2 now is_batch n) ∧
    (∀ op : SettingsOp,
      (app'.applySettings iso fromIso op).m_notifier = app'.m_notifier ∧
      (∀ fuel2 now is_batch ns,
        Notifier.notify (app'.applySettings iso fromIso op).m_notifier fuel2 now is_batch ns =
          Notifier.notify app'.m_notifier fuel2 now is_batch ns) ∧
      (∀ fuel2 now tree,
        Notifier.batchNotify (app'.applySettings iso fromIso op).m_notifier fuel2 now tree =
          Notifier.batchNotify app'.m_notifier fuel2 now tree)) ∧
    Settings.isDoNotDisturbActive 3 exRoot ⟨true, ["r", "app"]⟩
      exAppAfter.m_tray.m_do_not_disturb 20 = some true ∧
    Settings.isDoNotDisturbActive 3 exRoot ⟨true, ["r", "app"]⟩
      exAppAfter.m_do_not_disturb 20 = some true ∧
    Settings.isDoNotDisturbActive 3 exRoot ⟨true, ["r", "app"]⟩
      exAppAfter.m_notifier.m_do_not_disturb 20 = some false ∧
    Notifier.admits exAppAfter.m_notifier 3 20 false (exNotification "run-2.json" 2 [] false) =
      some true := by
  have hrun := SystemTrayFileBrowser.runOps_notifier iso fromIso fuel ops app app' h
  obtain ⟨hsame, _⟩ := Notifier.runOps_inv fuel _ _ _ hrun
  refine ⟨fun _ _ _ _ => ⟨rfl, rfl⟩, hrun, hsame.2.1, hsame.2.2.1,
    fun fuel2 now is_batch n => Notifier.admits_congr _ _ hsame fuel2 now is_batch n,
    ?_, by decide!, by decide!, by decide!, by decide!⟩
  intro op
  have hop := SystemTrayFileBrowser.applySettings_notifier iso fromIso app' op
  exact ⟨hop, fun _ _ _ _ => by rw [hop], fun _ _ _ => by rw [hop]⟩

/-- Instance of C29: the requests `exAppOps` run to their end from `exApp`; the scheduler is
left as by the one `notify` call among them. -/
theorem notifier_settings_frozen_witness :
    SystemTrayFileBrowser.runOps exIso exFromIso 3 exApp exAppOps = some exAppAfter ∧
    exAppOps.filterMap AppOp.toNotifierOp =
      [.notify 20 false [exNotification "run-1.json" 1 [] false]] ∧
    exAppAfter.m_notifier.m_do_not_disturb = [] ∧
    exAppAfter.m_notifier.m_last_notified = [(⟨true, ["r", "app"]⟩, 1)] ∧
    ((∀ disk root_path run_id now,
      (SystemTrayFileBrowser.create exFromIso disk root_path run_id
          now).m_notifier.m_do_not_disturb =
        (SystemTrayFileBrowser.create exFromIso disk root_path run_id now).m_do_not_disturb ∧
      (SystemTrayFileBrowser.create exFromIso disk root_path run_id
          now).m_notifier.m_notification_backoff_minutes =
        (SystemTrayFileBrowser.create exFromIso disk root_path run_id
          now).m_notification_backoff_minutes) ∧
    Notifier.runOps 3 exApp.m_notifier (exAppOps.filterMap AppOp.toNotifierOp) =
      some exAppAfter.m_notifier ∧
    exAppAfter.m_notifier.m_do_not_disturb = exApp.m_notifier.m_do_not_disturb ∧
    exAppAfter.m_notifier.m_notification_backoff_minutes =
      exApp.m_notifier.m_notification_backoff_minutes ∧
    (∀ fuel2 now is_batch n,
      Notifier.admits exAppAfter.m_notifier fuel2 now is_batch n =
        Notifier.admits exApp.m_notifier fuel2 now is_batch n) ∧
    (∀ op : SettingsOp,
      (exAppAfter.applySettings exIso exFromIso op).m_notifier = exAppAfter.m_notifier ∧
      (∀ fuel2 now is_batch ns,
        Notifier.notify (exAppAfter.applySettings exIso exFromIso op).m_notifier fuel2 now
            is_batch ns =
          Notifier.notify exAppAfter.m_notifier fuel2 now is_batch ns) ∧
      (∀ fuel2 now tree,
        Notifier.batchNotify (exAppAfter.applySettings exIso exFromIso op).m_notifier fuel2
            now tree =
          Notifier.batchNotify exAppAfter.m_notifier fuel2 now tree)) ∧
    Settings.isDoNotDisturbActive 3 exRoot ⟨true, ["r", "app"]⟩
      exAppAfter.m_tray.m_do_not_disturb 20 = some true ∧
    Settings.isDoNotDisturbActive 3 exRoot ⟨true, ["r", "app"]⟩
      exAppAfter.m_do_not_disturb 20 = some true ∧
    Settings.isDoNotDisturbActive 3 exRoot ⟨true, ["r", "app"]⟩
      exAppAfter.m_notifier.m_do_not_disturb 20 = some false ∧
    Notifier.admits exAppAfter.m_notifier 3 20 false (exNotification "run-2.json" 2 [] false) =
      some true) :=
  ⟨rfl, rfl, by decide!, by decide!,
   notifier_settings_frozen exIso exFromIso 3 exApp exAppAfter exAppOps rfl⟩

end NotificationTray
